import Mathlib

/-!
SLEIGH p-code lifter (`lib/BC/SleighLifter.cpp`).

The class `SleighLifter::PcodeToLLVMEmitIntoBlock` walks the p-code ops of one
machine instruction and appends LLVM IR to one basic block.  The block it
builds is straight-line code, so every builder call is interpreted here as the
instruction it appends being executed at once on the state the block runs on:
`CreateLoad` reads a cell, `CreateStore` writes one, arithmetic builder calls
compute on typed bit patterns.  The lifter's own fields (running status,
scratch maps, claim context) are threaded through in the same state.

Conventions.
* An LLVM integer value is a type together with a bit pattern below `2 ^ width`.
* A pointer designates a cell holding a little-endian bit string; a load of an
  `N`-bit type reads the low `N` bits and a store replaces them.
* Builder calls that LLVM rejects (operands of different types, a widening
  `trunc`, a narrowing `zext`), `assert` failures, `LOG(FATAL)`, null
  dereferences and instructions without a defined result stop the run with an
  `Abort`.
* Varnode sizes and offsets are natural numbers.  Sizes are byte counts of
  machine operands, so the products `size * 8` are taken without wrap-around;
  the one subtraction of the source (`lhs.size - rhs.offset` in `SUBPIECE`) is
  taken modulo `2 ^ 64` as in the source.
* Floating point arithmetic is left to the environment as functions on 32-bit
  patterns; only the types of floating point values matter to the lifter.
-/

namespace remill

/-! ## p-code data (Ghidra `VarnodeData`, `OpCode`) -/

/-- Address spaces by name, as tested in `LiftParamPtr`. -/
inductive AddrSpace
  | ram
  | register
  | const
  | unique
  | other (name : String)
  deriving DecidableEq, Repr

/-- Ghidra `VarnodeData`: address space, offset (`uintb`) and size in bytes (`uint4`). -/
structure VarnodeData where
  space : AddrSpace
  offset : Nat
  size : Nat
  deriving DecidableEq, Repr

/-- The p-code opcodes of Ghidra's `OpCode` enumeration. -/
inductive OpCode
  | CPUI_COPY | CPUI_LOAD | CPUI_STORE
  | CPUI_BRANCH | CPUI_CBRANCH | CPUI_BRANCHIND
  | CPUI_CALL | CPUI_CALLIND | CPUI_CALLOTHER | CPUI_RETURN
  | CPUI_INT_EQUAL | CPUI_INT_NOTEQUAL | CPUI_INT_SLESS | CPUI_INT_SLESSEQUAL
  | CPUI_INT_LESS | CPUI_INT_LESSEQUAL
  | CPUI_INT_ZEXT | CPUI_INT_SEXT
  | CPUI_INT_ADD | CPUI_INT_SUB
  | CPUI_INT_CARRY | CPUI_INT_SCARRY | CPUI_INT_SBORROW
  | CPUI_INT_2COMP | CPUI_INT_NEGATE
  | CPUI_INT_XOR | CPUI_INT_AND | CPUI_INT_OR
  | CPUI_INT_LEFT | CPUI_INT_RIGHT | CPUI_INT_SRIGHT
  | CPUI_INT_MULT | CPUI_INT_DIV | CPUI_INT_SDIV | CPUI_INT_REM | CPUI_INT_SREM
  | CPUI_BOOL_NEGATE | CPUI_BOOL_XOR | CPUI_BOOL_AND | CPUI_BOOL_OR
  | CPUI_FLOAT_EQUAL | CPUI_FLOAT_NOTEQUAL | CPUI_FLOAT_LESS | CPUI_FLOAT_LESSEQUAL
  | CPUI_FLOAT_NAN
  | CPUI_FLOAT_ADD | CPUI_FLOAT_DIV | CPUI_FLOAT_MULT | CPUI_FLOAT_SUB
  | CPUI_FLOAT_NEG | CPUI_FLOAT_ABS | CPUI_FLOAT_SQRT
  | CPUI_FLOAT_INT2FLOAT | CPUI_FLOAT_FLOAT2FLOAT | CPUI_FLOAT_TRUNC
  | CPUI_FLOAT_CEIL | CPUI_FLOAT_FLOOR | CPUI_FLOAT_ROUND
  | CPUI_MULTIEQUAL | CPUI_INDIRECT | CPUI_PIECE | CPUI_SUBPIECE
  | CPUI_CAST | CPUI_PTRADD | CPUI_PTRSUB | CPUI_SEGMENTOP
  | CPUI_CPOOLREF | CPUI_NEW | CPUI_INSERT | CPUI_EXTRACT | CPUI_POPCOUNT
  deriving DecidableEq, Repr

/-- One call of `dump`: opcode, optional output varnode, input varnodes
(`isize` is the length of `vars`). -/
structure PcodeOp where
  opc : OpCode
  outvar : Option VarnodeData
  vars : List VarnodeData
  deriving Repr

/-- Lift status `remill::LiftStatus`. -/
inductive LiftStatus
  | kLiftedInvalidInstruction
  | kLiftedUnsupportedInstruction
  | kLiftedInstruction
  deriving DecidableEq, Repr

/-- Rank of a status under the order `Success > Unsupported > Invalid`. -/
def LiftStatus.rank : LiftStatus → Nat
  | .kLiftedInvalidInstruction => 0
  | .kLiftedUnsupportedInstruction => 1
  | .kLiftedInstruction => 2

instance : LE LiftStatus := ⟨fun a b => a.rank ≤ b.rank⟩

instance (a b : LiftStatus) : Decidable (a ≤ b) :=
  inferInstanceAs (Decidable (a.rank ≤ b.rank))

/-- Instruction categories `remill::Instruction::Category` (the lifter only
tests for `kCategoryConditionalBranch`). -/
inductive Category
  | kCategoryInvalid | kCategoryNormal | kCategoryNoOp | kCategoryError
  | kCategoryDirectJump | kCategoryIndirectJump | kCategoryConditionalIndirectJump
  | kCategoryDirectFunctionCall | kCategoryConditionalDirectFunctionCall
  | kCategoryIndirectFunctionCall | kCategoryConditionalIndirectFunctionCall
  | kCategoryFunctionReturn | kCategoryConditionalFunctionReturn
  | kCategoryConditionalBranch
  | kCategoryAsyncHyperCall | kCategoryConditionalAsyncHyperCall
  deriving DecidableEq, Repr

/-! ## LLVM types, values and cells -/

/-- The LLVM types the lifter asks for: `IntegerType::get(ctx, bits)`,
`Type::getFloatTy(ctx)` and the memory pointer type. -/
inductive Ty
  | int (bits : Nat)
  | float
  | ptr
  deriving DecidableEq, Repr

/-- Width in bits of a value of the type in a cell. -/
def Ty.bits : Ty → Nat
  | .int n => n
  | .float => 32
  | .ptr => 64

/-- An `llvm::Value *` of first-class type: its type and its bit pattern. -/
structure Value where
  ty : Ty
  bits : Nat
  deriving DecidableEq, Repr

/-- Pointers the lifter holds: a named slot of the lifted function (a register
of the state record, `MEMORY`, `BRANCH_TAKEN`, `NEXT_PC`) or a stack cell made
by `CreateAlloca`. -/
inductive Ptr
  | named (name : String)
  | alloca (id : Nat)
  deriving DecidableEq, Repr

/-- Memory-affecting instructions appended to the block, in order. -/
inductive Event
  | load (ty : Ty) (p : Ptr)
  | store (v : Value) (p : Ptr)
  | alloca (ty : Ty) (p : Ptr)
  | read_memory (ty : Ty) (mem : Value) (index : Value)
  | write_memory (v : Value) (mem : Value) (index : Value)
  deriving DecidableEq, Repr

/-- The block under construction, read as the state its instructions run on. -/
structure Block where
  cells : Ptr → Nat
  next_alloca : Nat
  emitted : List Event

/-- Ways a lift stops without returning. -/
inductive Abort
  | ambiguousSubstitution (offset : Nat)
  | replacementFailure (offset : Nat)
  | unhandledSpace
  | assertFailed
  | nullDeref
  | outOfBounds
  | invalidIR
  | undefinedValue
  deriving DecidableEq, Repr

/-! ## Builder calls on values -/

/-- Signed reading of a `w`-bit pattern. -/
def toSigned (w : Nat) (a : Nat) : Int :=
  if 2 * a < 2 ^ w then (a : Int) else (a : Int) - (2 ^ w : Nat)

/-- The `w`-bit pattern of an integer. -/
def ofSigned (w : Nat) (i : Int) : Nat :=
  (i % ((2 ^ w : Nat) : Int)).toNat

/-- The constant `llvm::ConstantInt::get(ty, v)`: `v` truncated to the type. -/
def ConstantInt_get (ty : Ty) (v : Nat) : Value :=
  ⟨ty, v % 2 ^ ty.bits⟩

/-- The builder call `CreateZExt`: the operand itself at equal types, otherwise a
strict widening of an integer. -/
def CreateZExt (v : Value) (dest : Ty) : Except Abort Value :=
  if v.ty = dest then .ok v
  else match v.ty, dest with
    | .int a, .int b => if a < b then .ok ⟨.int b, v.bits⟩ else .error .invalidIR
    | _, _ => .error .invalidIR

/-- The builder call `CreateSExt`. -/
def CreateSExt (v : Value) (dest : Ty) : Except Abort Value :=
  if v.ty = dest then .ok v
  else match v.ty, dest with
    | .int a, .int b =>
      if a < b then .ok ⟨.int b, ofSigned b (toSigned a v.bits)⟩ else .error .invalidIR
    | _, _ => .error .invalidIR

/-- The builder call `CreateTrunc`: the operand itself at equal types, otherwise a
strict narrowing of an integer. -/
def CreateTrunc (v : Value) (dest : Ty) : Except Abort Value :=
  if v.ty = dest then .ok v
  else match v.ty, dest with
    | .int a, .int b => if b < a then .ok ⟨.int b, v.bits % 2 ^ b⟩ else .error .invalidIR
    | _, _ => .error .invalidIR

/-- The builder call `CreateZExtOrTrunc`. -/
def CreateZExtOrTrunc (v : Value) (dest : Ty) : Except Abort Value :=
  match v.ty, dest with
  | .int a, .int b =>
    if a < b then CreateZExt v dest
    else if b < a then CreateTrunc v dest
    else .ok v
  | _, _ => .error .invalidIR

/-- A two-operand integer instruction: both operands of one integer type. -/
def intBinary (f : Nat → Nat → Nat → Except Abort Nat) (l r : Value) : Except Abort Value :=
  match l.ty with
  | .int w =>
    if r.ty = .int w then
      match f w l.bits r.bits with
      | .ok b => .ok ⟨.int w, b⟩
      | .error e => .error e
    else .error .invalidIR
  | _ => .error .invalidIR

/-- An integer comparison: both operands of one integer type, result `i1`. -/
def intCompare (f : Nat → Nat → Nat → Bool) (l r : Value) : Except Abort Value :=
  match l.ty with
  | .int w =>
    if r.ty = .int w then .ok ⟨.int 1, if f w l.bits r.bits then 1 else 0⟩
    else .error .invalidIR
  | _ => .error .invalidIR

def CreateAnd : Value → Value → Except Abort Value :=
  intBinary (fun _ a b => .ok (a &&& b))

def CreateOr : Value → Value → Except Abort Value :=
  intBinary (fun _ a b => .ok (a ||| b))

def CreateXor : Value → Value → Except Abort Value :=
  intBinary (fun _ a b => .ok (a ^^^ b))

/-- The instruction `shl`: no defined result for an amount of the width or more. -/
def CreateShl : Value → Value → Except Abort Value :=
  intBinary (fun w a b => if b < w then .ok ((a * 2 ^ b) % 2 ^ w) else .error .undefinedValue)

def CreateLShr : Value → Value → Except Abort Value :=
  intBinary (fun w a b => if b < w then .ok (a / 2 ^ b) else .error .undefinedValue)

def CreateAShr : Value → Value → Except Abort Value :=
  intBinary (fun w a b =>
    if b < w then .ok (ofSigned w (toSigned w a / ((2 ^ b : Nat) : Int)))
    else .error .undefinedValue)

def CreateAdd : Value → Value → Except Abort Value :=
  intBinary (fun w a b => .ok ((a + b) % 2 ^ w))

def CreateSub : Value → Value → Except Abort Value :=
  intBinary (fun w a b => .ok ((a + (2 ^ w - b % 2 ^ w)) % 2 ^ w))

def CreateMul : Value → Value → Except Abort Value :=
  intBinary (fun w a b => .ok ((a * b) % 2 ^ w))

def CreateUDiv : Value → Value → Except Abort Value :=
  intBinary (fun _ a b => if b = 0 then .error .undefinedValue else .ok (a / b))

def CreateURem : Value → Value → Except Abort Value :=
  intBinary (fun _ a b => if b = 0 then .error .undefinedValue else .ok (a % b))

/-- The instruction `sdiv`: truncating signed division, undefined on a zero divisor
and on overflow. -/
def CreateSDiv : Value → Value → Except Abort Value :=
  intBinary (fun w a b =>
    if b = 0 then .error .undefinedValue
    else if toSigned w a = -((2 ^ (w - 1) : Nat) : Int) ∧ toSigned w b = -1 then
      .error .undefinedValue
    else .ok (ofSigned w (Int.tdiv (toSigned w a) (toSigned w b))))

def CreateSRem : Value → Value → Except Abort Value :=
  intBinary (fun w a b =>
    if b = 0 then .error .undefinedValue
    else if toSigned w a = -((2 ^ (w - 1) : Nat) : Int) ∧ toSigned w b = -1 then
      .error .undefinedValue
    else .ok (ofSigned w (Int.tmod (toSigned w a) (toSigned w b))))

def CreateICmpEQ : Value → Value → Except Abort Value :=
  intCompare (fun _ a b => decide (a = b))

def CreateICmpNE : Value → Value → Except Abort Value :=
  intCompare (fun _ a b => decide (a ≠ b))

def CreateICmpULT : Value → Value → Except Abort Value :=
  intCompare (fun _ a b => decide (a < b))

def CreateICmpULE : Value → Value → Except Abort Value :=
  intCompare (fun _ a b => decide (a ≤ b))

def CreateICmpSLT : Value → Value → Except Abort Value :=
  intCompare (fun w a b => decide (toSigned w a < toSigned w b))

def CreateICmpSLE : Value → Value → Except Abort Value :=
  intCompare (fun w a b => decide (toSigned w a ≤ toSigned w b))

/-- Overflow bit (`extractvalue ..., 1`) of `llvm.uadd.with.overflow`. -/
def uadd_with_overflow_bit : Value → Value → Except Abort Value :=
  intCompare (fun w a b => decide (2 ^ w ≤ a + b))

/-- Overflow bit of `llvm.sadd.with.overflow`. -/
def sadd_with_overflow_bit : Value → Value → Except Abort Value :=
  intCompare (fun w a b =>
    decide (toSigned w (ofSigned w (toSigned w a + toSigned w b)) ≠ toSigned w a + toSigned w b))

/-- Overflow bit of `llvm.ssub.with.overflow`. -/
def ssub_with_overflow_bit : Value → Value → Except Abort Value :=
  intCompare (fun w a b =>
    decide (toSigned w (ofSigned w (toSigned w a - toSigned w b)) ≠ toSigned w a - toSigned w b))

/-- The builder call `CreateNot` (`xor v, -1`). -/
def CreateNot (v : Value) : Except Abort Value :=
  match v.ty with
  | .int w => .ok ⟨.int w, 2 ^ w - 1 - v.bits % 2 ^ w⟩
  | _ => .error .invalidIR

/-- The builder call `CreateNeg` (`sub 0, v`). -/
def CreateNeg (v : Value) : Except Abort Value :=
  match v.ty with
  | .int w => .ok ⟨.int w, (2 ^ w - v.bits % 2 ^ w) % 2 ^ w⟩
  | _ => .error .invalidIR

/-- Number of set bits. -/
def popCount (a : Nat) : Nat :=
  ((Nat.bits a).filter id).length

/-- A call of `llvm.ctpop` at the operand type. -/
def ctpop (v : Value) : Except Abort Value :=
  match v.ty with
  | .int w => .ok ⟨.int w, popCount v.bits % 2 ^ w⟩
  | _ => .error .invalidIR

/-- The builder call `CreateSelect`: an `i1` condition and two values of one type. -/
def CreateSelect (c t f : Value) : Except Abort Value :=
  if c.ty = .int 1 ∧ t.ty = f.ty then
    .ok (if c.bits % 2 = 1 then t else f)
  else .error .invalidIR


/-! ## The lifter's surroundings -/

/-- What `PcodeToLLVMEmitIntoBlock` asks of its parent `SleighLifter`, of the
SLEIGH engine, of the intrinsic table and of the instruction being lifted.  None of
these live in `SleighLifter.cpp`; they are inputs of the lift. -/
structure Env where
  /-- Width of `GetWordType()`. -/
  word_bits : Nat
  /-- The parent's `ArchHasRegByName`. -/
  ArchHasRegByName : String → Bool
  /-- The parent's `LoadRegAddress(block, state_pointer, name).first`. -/
  LoadRegAddress : String → Ptr
  /-- The engine's `getRegisterName(space, offset, size)`. -/
  getRegisterName : AddrSpace → Nat → Nat → String
  /-- Result of the memory read intrinsic chosen by `remill::LoadFromMemory` for a
  type, a memory handle and an address; `none` when it returns null. -/
  read_memory : Ty → Nat → Value → Option Nat
  /-- Handle returned by the memory write intrinsic chosen by
  `remill::StoreToMemory`; `none` when it returns null. -/
  write_memory : Value → Nat → Value → Option Nat
  /-- The field `insn.category`. -/
  category : Category
  /-- The user-op name table handed to the constructor. -/
  user_op_names : List String
  /-- Pointer returned by `LoadBranchTakenRef`. -/
  branch_taken_ref : Ptr
  fneg : Nat → Nat
  fabs : Nat → Nat
  sqrt : Nat → Nat
  ceil : Nat → Nat
  floor : Nat → Nat
  round : Nat → Nat
  fadd : Nat → Nat → Nat
  fsub : Nat → Nat → Nat
  fmul : Nat → Nat → Nat
  fdiv : Nat → Nat → Nat
  fcmp_oeq : Nat → Nat → Bool
  fcmp_one : Nat → Nat → Bool
  fcmp_olt : Nat → Nat → Bool
  fcmp_ole : Nat → Nat → Bool
  sitofp : Nat → Nat → Nat
  fptosi : Nat → Nat → Nat
  /-- Value of a `phi` node given the bit patterns of its incoming values. -/
  phi : List Nat → Nat

/-- The name `kMemoryVariableName`. -/
def kMemoryVariableName : String := "MEMORY"

/-- The name `kNextPCVariableName`. -/
def kNextPCVariableName : String := "NEXT_PC"

/-! ## The lifter object -/

/-- The class `Parameter` with its three subclasses. -/
inductive Parameter
  | RegisterValue (register_pointer : Ptr)
  | Memory (memory_ref_ptr : Ptr) (index : Value)
  | ConstantValue (cst : Value)
  deriving DecidableEq, Repr

/-- The class `UniqueRegSpace`: `cached_unique_ptrs` maps an offset to a cell. -/
structure UniqueRegSpace where
  cached_unique_ptrs : List (Nat × Ptr)
  deriving DecidableEq, Repr

/-- The class `ConstantReplacementContext`. -/
structure ConstantReplacementContext where
  current_replacements : List (Nat × Parameter)
  used_values : List Nat
  deriving DecidableEq, Repr

/-- The mutable fields of `PcodeToLLVMEmitIntoBlock`.  The field `reported` is a
record of the statuses handed to `UpdateStatus`, oldest first; the code does not
keep it. -/
structure PcodeToLLVMEmitIntoBlock where
  target_block : Block
  status : LiftStatus
  uniques : UniqueRegSpace
  unknown_regs : UniqueRegSpace
  replacement_cont : ConstantReplacementContext
  reported : List LiftStatus

/-- A member function body: runs on the lifter object and returns or aborts. -/
def M (α : Type) : Type := PcodeToLLVMEmitIntoBlock → Except Abort (α × PcodeToLLVMEmitIntoBlock)

instance : Monad M where
  pure a := fun s => .ok (a, s)
  bind x f := fun s =>
    match x s with
    | .ok (a, t) => f a t
    | .error e => .error e

/-- A builder call on values, inside a member function. -/
def liftE {α : Type} (x : Except Abort α) : M α := fun s =>
  match x with
  | .ok a => .ok (a, s)
  | .error e => .error e

/-- Stop the run. -/
def abort {α : Type} (e : Abort) : M α := fun _ => .error e

/-- The builder call `CreateLoad(ty, p)`. -/
def CreateLoad (ty : Ty) (p : Ptr) : M Value := fun s =>
  .ok (⟨ty, s.target_block.cells p % 2 ^ ty.bits⟩,
    { s with target_block :=
      { s.target_block with emitted := s.target_block.emitted ++ [.load ty p] } })

/-- Cell contents after a store of `v`: the low `v.ty.bits` bits are replaced. -/
def writeCell (old : Nat) (v : Value) : Nat :=
  old / 2 ^ v.ty.bits * 2 ^ v.ty.bits + v.bits % 2 ^ v.ty.bits

/-- The builder call `CreateStore(v, p)`. -/
def CreateStore (v : Value) (p : Ptr) : M Unit := fun s =>
  .ok ((),
    { s with target_block :=
      { s.target_block with
        cells := fun q => if q = p then writeCell (s.target_block.cells p) v
          else s.target_block.cells q
        emitted := s.target_block.emitted ++ [.store v p] } })

/-- The builder call `CreateAlloca(ty, 0, nullptr)` on a block: a fresh stack cell. -/
def Block.CreateAlloca (b : Block) (ty : Ty) : Ptr × Block :=
  (.alloca b.next_alloca,
    { b with next_alloca := b.next_alloca + 1
             emitted := b.emitted ++ [.alloca ty (.alloca b.next_alloca)] })

/-- The call `remill::LoadFromMemory(intrinsics, block, ty, mem, index)`. -/
def LoadFromMemory (E : Env) (ty : Ty) (mem index : Value) : M (Option Value) := fun s =>
  match E.read_memory ty mem.bits index with
  | some b =>
    .ok (some ⟨ty, b % 2 ^ ty.bits⟩,
      { s with target_block :=
        { s.target_block with
          emitted := s.target_block.emitted ++ [.read_memory ty mem index] } })
  | none => .ok (none, s)

/-- The call `remill::StoreToMemory(intrinsics, block, val, mem, index)`. -/
def StoreToMemory (E : Env) (val mem index : Value) : M (Option Value) := fun s =>
  match E.write_memory val mem.bits index with
  | some h =>
    .ok (some ⟨.ptr, h % 2 ^ Ty.ptr.bits⟩,
      { s with target_block :=
        { s.target_block with
          emitted := s.target_block.emitted ++ [.write_memory val mem index] } })
  | none => .ok (none, s)

/-- The virtual `Parameter::LiftAsInParam(bldr, ty)`. -/
def Parameter.LiftAsInParam (E : Env) (self : Parameter) (ty : Ty) : M (Option Value) :=
  match self with
  | .RegisterValue register_pointer => do
    let v ← CreateLoad ty register_pointer
    pure (some v)
  | .Memory memory_ref_ptr index => do
    let mem ← CreateLoad .ptr memory_ref_ptr
    let res ← LoadFromMemory E ty mem index
    match res with
    | some r => pure (some r)
    | none => pure none
  | .ConstantValue cst =>
    if ty ≠ cst.ty then pure none else pure (some cst)

/-- The virtual `Parameter::StoreIntoParam(bldr, inner_lifted)`. -/
def Parameter.StoreIntoParam (E : Env) (self : Parameter) (inner_lifted : Value) :
    M LiftStatus :=
  match self with
  | .RegisterValue register_pointer => do
    CreateStore inner_lifted register_pointer
    pure .kLiftedInstruction
  | .Memory memory_ref_ptr index => do
    let mem ← CreateLoad .ptr memory_ref_ptr
    let new_mem ← StoreToMemory E inner_lifted mem index
    match new_mem with
    | some h => do
      CreateStore h memory_ref_ptr
      pure .kLiftedInstruction
    | none => pure .kLiftedInvalidInstruction
  | .ConstantValue _ => pure .kLiftedUnsupportedInstruction

/-- The method `UniqueRegSpace::GetUniquePtr(offset, size, bldr)`. -/
def UniqueRegSpace.GetUniquePtr (self : UniqueRegSpace) (offset size : Nat) (bldr : Block) :
    Ptr × UniqueRegSpace × Block :=
  match self.cached_unique_ptrs.lookup offset with
  | some p => (p, self, bldr)
  | none =>
    let r := bldr.CreateAlloca (.int (8 * size))
    (r.1, ⟨(offset, r.1) :: self.cached_unique_ptrs⟩, r.2)

/-- The method `ConstantReplacementContext::ApplyNonEqualityClaim`. -/
def ConstantReplacementContext.ApplyNonEqualityClaim (_self : ConstantReplacementContext) :
    ConstantReplacementContext :=
  ⟨[], []⟩

/-- The method `ConstantReplacementContext::LiftOffsetOrReplace(bldr, target, target_type)`. -/
def LiftOffsetOrReplace (E : Env) (target : VarnodeData) (target_type : Ty) : M Value := fun s =>
  match s.replacement_cont.current_replacements.lookup target.offset with
  | some p =>
    if target.offset ∈ s.replacement_cont.used_values then
      .error (.ambiguousSubstitution target.offset)
    else
      match p.LiftAsInParam E target_type s with
      | .ok (some replacement, t) =>
        .ok (replacement,
          { t with replacement_cont :=
            { t.replacement_cont with
              used_values := target.offset :: t.replacement_cont.used_values } })
      | .ok (none, _) => .error (.replacementFailure target.offset)
      | .error e => .error e
  | none => .ok (ConstantInt_get target_type target.offset, s)

/-- The loop `for (auto &c : reg_name) c = toupper(c)`. -/
def toupper (reg_name : String) : String :=
  String.mk (reg_name.data.map Char.toUpper)

/-- The method `CreateMemoryAddress(offset)`. -/
def CreateMemoryAddress (E : Env) (offset : Value) : Parameter :=
  .Memory (E.LoadRegAddress kMemoryVariableName) offset

/-- The method `LiftNormalRegister(bldr, reg_name)`. -/
def LiftNormalRegister (E : Env) (reg_name : String) : Option Parameter :=
  if E.ArchHasRegByName (toupper reg_name) then
    some (.RegisterValue (E.LoadRegAddress (toupper reg_name)))
  else none

/-- The method `LiftParamPtr(bldr, vnode)`. -/
def LiftParamPtr (E : Env) (vnode : VarnodeData) : M Parameter :=
  match vnode.space with
  | .ram => do
    let constant_offset ← LiftOffsetOrReplace E vnode (.int E.word_bits)
    pure (CreateMemoryAddress E constant_offset)
  | .register =>
    match LiftNormalRegister E (E.getRegisterName vnode.space vnode.offset vnode.size) with
    | some res => pure res
    | none => fun s =>
      let r := s.unknown_regs.GetUniquePtr vnode.offset vnode.size s.target_block
      .ok (.RegisterValue r.1, { s with unknown_regs := r.2.1, target_block := r.2.2 })
  | .const => do
    let cst_v ← LiftOffsetOrReplace E vnode (.int (vnode.size * 8))
    pure (.ConstantValue cst_v)
  | .unique => fun s =>
    let r := s.uniques.GetUniquePtr vnode.offset vnode.size s.target_block
    .ok (.RegisterValue r.1, { s with uniques := r.2.1, target_block := r.2.2 })
  | .other _ => abort .unhandledSpace

/-- The method `FixResultForOutVarnode(bldr, orig, outvnode)`. -/
def FixResultForOutVarnode (orig : Value) (outvnode : VarnodeData) : Except Abort Value :=
  match orig.ty with
  | .int w =>
    if outvnode.size * 8 = w then .ok orig
    else CreateZExtOrTrunc orig (.int (outvnode.size * 8))
  | _ => .error .assertFailed

/-- The method `LiftInParam(bldr, vnode, ty)`. -/
def LiftInParam (E : Env) (vnode : VarnodeData) (ty : Ty) : M (Option Value) := do
  let ptr ← LiftParamPtr E vnode
  ptr.LiftAsInParam E ty

/-- The method `LiftIntegerInParam(bldr, vnode)`. -/
def LiftIntegerInParam (E : Env) (vnode : VarnodeData) : M (Option Value) :=
  LiftInParam E vnode (.int (vnode.size * 8))

/-- The method `LiftRequireOutParam(inner_lift, outvar)`. -/
def LiftRequireOutParam (inner_lift : VarnodeData → M LiftStatus) (outvar : Option VarnodeData) :
    M LiftStatus :=
  match outvar with
  | some o => inner_lift o
  | none => pure .kLiftedUnsupportedInstruction

/-- The method `LiftStoreIntoOutParam(bldr, inner_lifted, outvar)`. -/
def LiftStoreIntoOutParam (E : Env) (inner_lifted : Value) (outvar : Option VarnodeData) :
    M LiftStatus :=
  LiftRequireOutParam
    (fun out_param_data => do
      let ptr ← LiftParamPtr E out_param_data
      ptr.StoreIntoParam E inner_lifted)
    outvar


/-! ## Floating point builder calls -/

/-- A one-operand floating point instruction or intrinsic call. -/
def floatUnary (f : Nat → Nat) (v : Value) : Except Abort Value :=
  if v.ty = .float then .ok ⟨.float, f v.bits % 2 ^ 32⟩ else .error .invalidIR

/-- A two-operand floating point instruction. -/
def floatBinary (f : Nat → Nat → Nat) (l r : Value) : Except Abort Value :=
  if l.ty = .float ∧ r.ty = .float then .ok ⟨.float, f l.bits r.bits % 2 ^ 32⟩
  else .error .invalidIR

/-- An ordered floating point comparison, result `i1`. -/
def floatCompare (f : Nat → Nat → Bool) (l r : Value) : Except Abort Value :=
  if l.ty = .float ∧ r.ty = .float then .ok ⟨.int 1, if f l.bits r.bits then 1 else 0⟩
  else .error .invalidIR

/-- The builder call `CreateSIToFP(v, float)`. -/
def CreateSIToFP (E : Env) (v : Value) : Except Abort Value :=
  match v.ty with
  | .int w => .ok ⟨.float, E.sitofp w v.bits % 2 ^ 32⟩
  | _ => .error .invalidIR

/-- The builder call `CreateFPToSI(v, dest)`. -/
def CreateFPToSI (E : Env) (v : Value) (dest : Ty) : Except Abort Value :=
  match v.ty, dest with
  | .float, .int w => .ok ⟨.int w, E.fptosi w v.bits % 2 ^ w⟩
  | _, _ => .error .invalidIR

/-- The builder call `CreateFPTrunc(v, float)`: the operand itself at equal types. -/
def CreateFPTrunc (v : Value) (dest : Ty) : Except Abort Value :=
  if v.ty = dest then .ok v else .error .invalidIR

/-! ## Opcode handlers -/

/-- The method `LiftUnOpWithFloatIntrinsic(bldr, intrinsic_id, outvar, input_var)`. -/
def LiftUnOpWithFloatIntrinsic (E : Env) (intrinsic : Nat → Nat)
    (outvar : Option VarnodeData) (input_var : VarnodeData) : M LiftStatus := do
  let inval ← LiftInParam E input_var .float
  match inval with
  | some v => do
    let call ← liftE (floatUnary intrinsic v)
    LiftStoreIntoOutParam E call outvar
  | none => pure .kLiftedUnsupportedInstruction

/-- The method `LiftUnOp(bldr, opc, outvar, input_var)`. -/
def LiftUnOp (E : Env) (opc : OpCode) (outvar : Option VarnodeData) (input_var : VarnodeData) :
    M LiftStatus :=
  match opc with
  | .CPUI_BOOL_NEGATE => do
    let bneg_inval ← LiftInParam E input_var (.int 1)
    match bneg_inval with
    | some v => do
      let n ← liftE (CreateNot v)
      let z ← liftE (CreateZExt n (.int 8))
      LiftStoreIntoOutParam E z outvar
    | none => pure .kLiftedUnsupportedInstruction
  | .CPUI_COPY | .CPUI_CAST => do
    let copy_inval ← LiftInParam E input_var (.int (input_var.size * 8))
    match copy_inval with
    | some v => LiftStoreIntoOutParam E v outvar
    | none => pure .kLiftedUnsupportedInstruction
  | .CPUI_BRANCH | .CPUI_CALL => do
    let input_val ← LiftOffsetOrReplace E input_var (.int (input_var.size * 8))
    match LiftNormalRegister E "PC" with
    | some pc_reg => pc_reg.StoreIntoParam E input_val
    | none => abort .assertFailed
  | .CPUI_RETURN | .CPUI_BRANCHIND | .CPUI_CALLIND => do
    let copy_inval ← LiftInParam E input_var (.int (input_var.size * 8))
    match copy_inval with
    | some v =>
      match LiftNormalRegister E "PC" with
      | some pc_reg => pc_reg.StoreIntoParam E v
      | none => abort .assertFailed
    | none => pure .kLiftedUnsupportedInstruction
  | .CPUI_INT_ZEXT | .CPUI_INT_SEXT => do
    let zext_inval ← LiftIntegerInParam E input_var
    match zext_inval with
    | some v =>
      match outvar with
      | none => abort .nullDeref
      | some o => do
        let zext_type := Ty.int (o.size * 8)
        let zext_op ← liftE
          (if opc = .CPUI_INT_ZEXT then CreateZExt v zext_type else CreateSExt v zext_type)
        LiftStoreIntoOutParam E zext_op outvar
    | none => pure .kLiftedUnsupportedInstruction
  | .CPUI_INT_2COMP => do
    let two_comp_inval ← LiftIntegerInParam E input_var
    match two_comp_inval with
    | some v => do
      let n ← liftE (CreateNeg v)
      LiftStoreIntoOutParam E n outvar
    | none => pure .kLiftedUnsupportedInstruction
  | .CPUI_INT_NEGATE => do
    let negate_inval ← LiftIntegerInParam E input_var
    match negate_inval with
    | some v => do
      let n ← liftE (CreateNot v)
      LiftStoreIntoOutParam E n outvar
    | none => pure .kLiftedUnsupportedInstruction
  | .CPUI_FLOAT_NEG => do
    let negate_inval ← LiftInParam E input_var .float
    match negate_inval with
    | some v => do
      let n ← liftE (floatUnary E.fneg v)
      LiftStoreIntoOutParam E n outvar
    | none => pure .kLiftedUnsupportedInstruction
  | .CPUI_FLOAT_ABS => LiftUnOpWithFloatIntrinsic E E.fabs outvar input_var
  | .CPUI_FLOAT_SQRT => LiftUnOpWithFloatIntrinsic E E.sqrt outvar input_var
  | .CPUI_FLOAT_CEIL => LiftUnOpWithFloatIntrinsic E E.ceil outvar input_var
  | .CPUI_FLOAT_FLOOR => LiftUnOpWithFloatIntrinsic E E.floor outvar input_var
  | .CPUI_FLOAT_ROUND => LiftUnOpWithFloatIntrinsic E E.round outvar input_var
  | .CPUI_FLOAT_NAN => do
    let nan_inval ← LiftInParam E input_var .float
    match nan_inval with
    | some v =>
      match outvar with
      | none => abort .nullDeref
      | some o => do
        let c ← liftE (floatCompare E.fcmp_oeq v v)
        let n ← liftE (CreateNot c)
        let isnan_check ← liftE (CreateZExt n (.int (o.size * 8)))
        LiftStoreIntoOutParam E isnan_check outvar
    | none => pure .kLiftedUnsupportedInstruction
  | .CPUI_FLOAT_INT2FLOAT => do
    let int2float_inval ← LiftIntegerInParam E input_var
    match int2float_inval with
    | some v => do
      let converted ← liftE (CreateSIToFP E v)
      LiftStoreIntoOutParam E converted outvar
    | none => pure .kLiftedUnsupportedInstruction
  | .CPUI_FLOAT_FLOAT2FLOAT => do
    let float2float_inval ← LiftInParam E input_var .float
    match float2float_inval with
    | some v => do
      let t ← liftE (CreateFPTrunc v .float)
      LiftStoreIntoOutParam E t outvar
    | none => pure .kLiftedUnsupportedInstruction
  | .CPUI_FLOAT_TRUNC => do
    let trunc_inval ← LiftInParam E input_var .float
    match trunc_inval with
    | some v =>
      match outvar with
      | none => abort .nullDeref
      | some o => do
        let converted ← liftE (CreateFPToSI E v (.int (o.size * 8)))
        LiftStoreIntoOutParam E converted outvar
    | none => pure .kLiftedUnsupportedInstruction
  | .CPUI_POPCOUNT => do
    let ctpop_inval ← LiftIntegerInParam E input_var
    match ctpop_inval with
    | some v =>
      match outvar with
      | none => abort .nullDeref
      | some o => do
        let call ← liftE (ctpop v)
        let ctpop_val ← liftE (FixResultForOutVarnode call o)
        LiftStoreIntoOutParam E ctpop_val outvar
    | none => pure .kLiftedUnsupportedInstruction
  | _ => pure .kLiftedUnsupportedInstruction


/-- The table `INTEGER_COMP_OPS`. -/
def INTEGER_COMP_OPS : OpCode → Bool
  | .CPUI_INT_EQUAL | .CPUI_INT_NOTEQUAL | .CPUI_INT_LESS
  | .CPUI_INT_SLESS | .CPUI_INT_LESSEQUAL | .CPUI_INT_SLESSEQUAL
  | .CPUI_INT_SBORROW | .CPUI_INT_SCARRY | .CPUI_INT_CARRY => true
  | _ => false

/-- A comparison entry of the table: `CreateZExt(cmp(lhs, rhs), i8)`. -/
def zextCompare (cmp : Value → Value → Except Abort Value) (lhs rhs : Value) :
    Except Abort Value :=
  match cmp lhs rhs with
  | .ok c => CreateZExt c (.int 8)
  | .error e => .error e

/-- The shift entries `INT_LEFT` and `INT_RIGHT`: the amount is brought to the type
of the shifted operand when the types differ. -/
def coercedShift (shift : Value → Value → Except Abort Value) (lhs rhs : Value) :
    Except Abort Value :=
  if lhs.ty ≠ rhs.ty then
    match CreateZExtOrTrunc rhs lhs.ty with
    | .ok new_rhs => shift lhs new_rhs
    | .error e => .error e
  else shift lhs rhs

/-- The table `INTEGER_BINARY_OPS`. -/
def INTEGER_BINARY_OPS : OpCode → Option (Value → Value → Except Abort Value)
  | .CPUI_INT_AND => some CreateAnd
  | .CPUI_INT_OR => some CreateOr
  | .CPUI_INT_XOR => some CreateXor
  | .CPUI_INT_LEFT => some (coercedShift CreateShl)
  | .CPUI_INT_RIGHT => some (coercedShift CreateLShr)
  | .CPUI_INT_SRIGHT => some CreateAShr
  | .CPUI_INT_ADD => some CreateAdd
  | .CPUI_INT_SUB => some CreateSub
  | .CPUI_INT_MULT => some CreateMul
  | .CPUI_INT_DIV => some CreateUDiv
  | .CPUI_INT_SDIV => some CreateSDiv
  | .CPUI_INT_REM => some CreateURem
  | .CPUI_INT_SREM => some CreateSRem
  | .CPUI_INT_EQUAL => some (zextCompare CreateICmpEQ)
  | .CPUI_INT_NOTEQUAL => some (zextCompare CreateICmpNE)
  | .CPUI_INT_LESS => some (zextCompare CreateICmpULT)
  | .CPUI_INT_SLESS => some (zextCompare CreateICmpSLT)
  | .CPUI_INT_LESSEQUAL => some (zextCompare CreateICmpSLE)
  | .CPUI_INT_SLESSEQUAL => some (zextCompare CreateICmpULE)
  | .CPUI_INT_CARRY => some uadd_with_overflow_bit
  | .CPUI_INT_SCARRY => some sadd_with_overflow_bit
  | .CPUI_INT_SBORROW => some ssub_with_overflow_bit
  | _ => none

/-- The second half of `LiftIntegerBinOp`, from the lookup in `INTEGER_BINARY_OPS` on. -/
def LiftIntegerBinOp.viaTable (E : Env) (opc : OpCode) (outvar : Option VarnodeData)
    (lhs rhs : VarnodeData) : M LiftStatus :=
  match INTEGER_BINARY_OPS opc with
  | some op_func => do
    let lifted_lhs ← LiftIntegerInParam E lhs
    let lifted_rhs ← LiftIntegerInParam E rhs
    match lifted_lhs, lifted_rhs with
    | some l, some r => do
      let orig_res ← liftE (op_func l r)
      let orig_res ← liftE
        (if INTEGER_COMP_OPS opc then
          match orig_res.ty with
          | .int w => if w ≠ 8 then CreateZExt orig_res (.int 8) else .ok orig_res
          | _ => .error .assertFailed
        else .ok orig_res)
      LiftStoreIntoOutParam E orig_res outvar
    | _, _ => pure .kLiftedUnsupportedInstruction
  | none => pure .kLiftedUnsupportedInstruction

/-- The method `LiftIntegerBinOp(bldr, opc, outvar, lhs, rhs)`: the `CBRANCH` block,
which returns from inside when the condition and the old PC are read, then the
table lookup. -/
def LiftIntegerBinOp (E : Env) (opc : OpCode) (outvar : Option VarnodeData)
    (lhs rhs : VarnodeData) : M LiftStatus :=
  if opc = .CPUI_CBRANCH then do
    let should_branch ← LiftInParam E rhs (.int (rhs.size * 8))
    let jump_addr ← LiftOffsetOrReplace E lhs (.int (lhs.size * 8))
    match should_branch with
    | some sb => do
      let trunc_should_branch ← liftE (CreateTrunc sb (.int (rhs.size * 1)))
      match LiftNormalRegister E "PC" with
      | none => abort .assertFailed
      | some pc_reg_ptr => do
        let orig_pc_value ← pc_reg_ptr.LiftAsInParam E (.int E.word_bits)
        if E.category = .kCategoryConditionalBranch then
          CreateStore sb E.branch_taken_ref
        match orig_pc_value with
        | some pc => do
          let next_pc_value ← liftE (CreateSelect trunc_should_branch jump_addr pc)
          pc_reg_ptr.StoreIntoParam E next_pc_value
        | none => LiftIntegerBinOp.viaTable E opc outvar lhs rhs
    | none => LiftIntegerBinOp.viaTable E opc outvar lhs rhs
  else LiftIntegerBinOp.viaTable E opc outvar lhs rhs

/-- The `switch` of `LiftBoolBinOp` choosing `op_func`. -/
def boolOpFunc : OpCode → Option (Value → Value → Except Abort Value)
  | .CPUI_BOOL_AND => some CreateAnd
  | .CPUI_BOOL_OR => some CreateOr
  | .CPUI_BOOL_XOR => some CreateXor
  | _ => none

/-- The method `LiftBoolBinOp(bldr, opc, outvar, lhs, rhs)`. -/
def LiftBoolBinOp (E : Env) (opc : OpCode) (outvar : Option VarnodeData)
    (lhs rhs : VarnodeData) : M LiftStatus :=
  match boolOpFunc opc with
  | some op_func => do
    let lifted_lhs ← LiftInParam E lhs (.int 8)
    let lifted_rhs ← LiftInParam E rhs (.int 8)
    match lifted_lhs, lifted_rhs with
    | some l, some r => do
      let res ← liftE (op_func l r)
      LiftStoreIntoOutParam E res outvar
    | _, _ => pure .kLiftedUnsupportedInstruction
  | none => pure .kLiftedUnsupportedInstruction

/-- The `switch` of `LiftFloatBinOp` choosing `op_func`. -/
def floatOpFunc (E : Env) : OpCode → Option (Value → Value → Except Abort Value)
  | .CPUI_FLOAT_EQUAL => some (zextCompare (floatCompare E.fcmp_oeq))
  | .CPUI_FLOAT_NOTEQUAL => some (zextCompare (floatCompare E.fcmp_one))
  | .CPUI_FLOAT_LESS => some (zextCompare (floatCompare E.fcmp_olt))
  | .CPUI_FLOAT_LESSEQUAL => some (zextCompare (floatCompare E.fcmp_ole))
  | .CPUI_FLOAT_ADD => some (floatBinary E.fadd)
  | .CPUI_FLOAT_SUB => some (floatBinary E.fsub)
  | .CPUI_FLOAT_MULT => some (floatBinary E.fmul)
  | .CPUI_FLOAT_DIV => some (floatBinary E.fdiv)
  | _ => none

/-- The method `LiftFloatBinOp(bldr, opc, outvar, lhs, rhs)`; both reads name `lhs`,
as in the source. -/
def LiftFloatBinOp (E : Env) (opc : OpCode) (outvar : Option VarnodeData)
    (lhs _rhs : VarnodeData) : M LiftStatus :=
  match floatOpFunc E opc with
  | some op_func => do
    let lifted_lhs ← LiftInParam E lhs .float
    let lifted_rhs ← LiftInParam E lhs .float
    match lifted_lhs, lifted_rhs with
    | some l, some r => do
      let res ← liftE (op_func l r)
      LiftStoreIntoOutParam E res outvar
    | _, _ => pure .kLiftedUnsupportedInstruction
  | none => pure .kLiftedUnsupportedInstruction

/-- The tail of `LiftBinOp` after the three families declined: the blocks guarded by
`opc == LOAD && outvar`, `PIECE`, `SUBPIECE`, `INDIRECT`, `NEW`, and the final
`return`. -/
def LiftBinOp.composite (E : Env) (opc : OpCode) (outvar : Option VarnodeData)
    (lhs rhs : VarnodeData) : M LiftStatus :=
  match opc, outvar with
  | .CPUI_LOAD, some out_op => do
    let lifted_addr_offset ← LiftInParam E rhs (.int E.word_bits)
    match lifted_addr_offset with
    | some a => do
      let out_type := Ty.int (out_op.size * 8)
      let lifted_addr := CreateMemoryAddress E a
      let loaded_value ← lifted_addr.LiftAsInParam E out_type
      match loaded_value with
      | some v => do
        let lifted_out ← LiftParamPtr E out_op
        lifted_out.StoreIntoParam E v
      | none => pure .kLiftedUnsupportedInstruction
    | none => pure .kLiftedUnsupportedInstruction
  | .CPUI_PIECE, some o =>
    if rhs.size + lhs.size = o.size then do
      let lifted_lhs ← LiftInParam E lhs (.int (lhs.size * 8))
      let lifted_rhs ← LiftInParam E rhs (.int (rhs.size * 8))
      match lifted_lhs, lifted_rhs with
      | some l, some r => do
        let ms_operand ← liftE (CreateZExt l (.int o.size))
        let shifted_ms_operand ← liftE (CreateShl ms_operand (ConstantInt_get (.int 8) rhs.size))
        let concat ← liftE (CreateOr shifted_ms_operand r)
        LiftStoreIntoOutParam E concat outvar
      | _, _ => pure .kLiftedUnsupportedInstruction
    else abort .assertFailed
  | .CPUI_SUBPIECE, some o => do
    let lifted_lhs ← LiftInParam E lhs (.int (lhs.size * 8))
    match lifted_lhs with
    | some l => do
      let new_size := (lhs.size + (2 ^ 64 - rhs.offset % 2 ^ 64)) % 2 ^ 64
      let subpiece_lhs ← liftE (CreateTrunc l (.int (new_size * 8)))
      let subpiece_lhs ← liftE
        (if new_size < o.size then CreateZExt subpiece_lhs (.int (8 * o.size))
        else if new_size > o.size then CreateTrunc subpiece_lhs (.int (8 * o.size))
        else .ok subpiece_lhs)
      LiftStoreIntoOutParam E subpiece_lhs outvar
    | none => pure .kLiftedUnsupportedInstruction
  | _, _ => pure .kLiftedUnsupportedInstruction

/-- The method `LiftBinOp(bldr, opc, outvar, lhs, rhs)`. -/
def LiftBinOp (E : Env) (opc : OpCode) (outvar : Option VarnodeData)
    (lhs rhs : VarnodeData) : M LiftStatus := do
  let res ← LiftIntegerBinOp E opc outvar lhs rhs
  if res = .kLiftedInstruction then pure res
  else do
    let sres ← LiftBoolBinOp E opc outvar lhs rhs
    if sres = .kLiftedInstruction then pure sres
    else do
      let sres ← LiftFloatBinOp E opc outvar lhs rhs
      if sres = .kLiftedInstruction then pure sres
      else LiftBinOp.composite E opc outvar lhs rhs

/-- The method `LiftTernOp(bldr, opc, outvar, param0, param1, param2)`. -/
def LiftTernOp (E : Env) (opc : OpCode) (outvar : Option VarnodeData)
    (param0 param1 param2 : VarnodeData) : M LiftStatus :=
  match opc with
  | .CPUI_STORE => do
    let lifted_addr_offset ← LiftInParam E param1 (.int E.word_bits)
    match lifted_addr_offset with
    | some a => do
      let store_param ← LiftInParam E param2 (.int (param2.size * 8))
      match store_param with
      | some v => (CreateMemoryAddress E a).StoreIntoParam E v
      | none => pure .kLiftedUnsupportedInstruction
    | none => pure .kLiftedUnsupportedInstruction
  | .CPUI_PTRADD => do
    let lifted_addr ← LiftInParam E param0 (.int E.word_bits)
    let lifted_index ← LiftIntegerInParam E param1
    let elem_size := ConstantInt_get (.int (param2.size * 8)) param2.offset
    match lifted_addr, lifted_index with
    | some a, some i => do
      let offset ← liftE (CreateMul i elem_size)
      let ptr_add ← liftE (CreateAdd a offset)
      LiftStoreIntoOutParam E ptr_add outvar
    | _, _ => pure .kLiftedUnsupportedInstruction
  | .CPUI_PTRSUB => do
    let lifted_addr ← LiftInParam E param0 (.int E.word_bits)
    let lifted_offset ← LiftIntegerInParam E param1
    match lifted_addr, lifted_offset with
    | some a, some o => do
      let sum ← liftE (CreateAdd a o)
      LiftStoreIntoOutParam E sum outvar
    | _, _ => pure .kLiftedUnsupportedInstruction
  | _ => pure .kLiftedUnsupportedInstruction

/-- The loop of the `MULTIEQUAL` case: reads each operand and adds it to the phi
node; `none` when a read fails (the handler then returns Unsupported). -/
def phiIncoming (E : Env) (phi_type : Ty) : List VarnodeData → M (Option (List Nat))
  | [] => pure (some [])
  | var :: rest => do
    let inval ← LiftInParam E var (.int (var.size * 8))
    match inval with
    | none => pure none
    | some v =>
      if v.ty = phi_type then do
        let more ← phiIncoming E phi_type rest
        match more with
        | some bs => pure (some (v.bits :: bs))
        | none => pure none
      else abort .invalidIR

/-- The method `LiftVariadicOp(bldr, opc, outvar, vars, isize)`. -/
def LiftVariadicOp (E : Env) (opc : OpCode) (outvar : Option VarnodeData)
    (vars : List VarnodeData) : M LiftStatus :=
  match opc with
  | .CPUI_MULTIEQUAL =>
    match vars with
    | [] => abort .outOfBounds
    | v0 :: _ => do
      let phi_type := Ty.int (v0.size * 8)
      let incoming ← phiIncoming E phi_type vars
      match incoming with
      | some bs => LiftStoreIntoOutParam E ⟨phi_type, E.phi bs % 2 ^ phi_type.bits⟩ outvar
      | none => pure .kLiftedUnsupportedInstruction
  | .CPUI_CPOOLREF => pure .kLiftedUnsupportedInstruction
  | _ => pure .kLiftedUnsupportedInstruction

/-! ## The dispatcher -/

/-- The method `UpdateStatus(new_status, opc)`. -/
def UpdateStatus (new_status : LiftStatus) (_opc : OpCode) : M Unit := fun s =>
  if new_status ≠ .kLiftedInstruction then
    .ok ((), { s with status := new_status, reported := s.reported ++ [new_status] })
  else
    .ok ((), { s with reported := s.reported ++ [new_status] })

/-- The method `ConstantReplacementContext::ApplyEqualityClaim(bldr, lifter,
lhs_constant, rhs_unfolded_value)`; `insert` keeps an entry already present. -/
def ApplyEqualityClaim (E : Env) (lhs_constant rhs_unfolded_value : VarnodeData) : M Unit :=
  if lhs_constant.space = .const then do
    let p ← LiftParamPtr E rhs_unfolded_value
    fun s =>
      match s.replacement_cont.current_replacements.lookup lhs_constant.offset with
      | some _ => .ok ((), s)
      | none =>
        .ok ((), { s with replacement_cont :=
          { s.replacement_cont with
            current_replacements :=
              (lhs_constant.offset, p) :: s.replacement_cont.current_replacements } })
  else abort .assertFailed

/-- The access `this->user_op_names[i]`: `operator[]` of `std::vector` checks no
bound, and an index at or beyond the size reads outside the vector. -/
def user_op_names_at (E : Env) (i : Nat) : M String :=
  match E.user_op_names.get? i with
  | some name => pure name
  | none => abort .outOfBounds

/-- The method `dump(addr, opc, outvar, vars, isize)`. -/
def dump (E : Env) (op : PcodeOp) : M Unit :=
  if op.opc = .CPUI_MULTIEQUAL ∨ op.opc = .CPUI_CPOOLREF then do
    let st ← LiftVariadicOp E op.opc op.outvar op.vars
    UpdateStatus st op.opc
  else if op.opc = .CPUI_CALLOTHER then
    match op.vars with
    | [v0, v1, v2] =>
      if v0.offset < E.user_op_names.length then do
        let name ← user_op_names_at E v0.offset
        if name = "claim_eq" then ApplyEqualityClaim E v1 v2
        else UpdateStatus .kLiftedUnsupportedInstruction op.opc
      else UpdateStatus .kLiftedUnsupportedInstruction op.opc
    | _ => UpdateStatus .kLiftedUnsupportedInstruction op.opc
  else
    match op.vars with
    | [v0] => do
      let st ← LiftUnOp E op.opc op.outvar v0
      UpdateStatus st op.opc
    | [v0, v1] => do
      let st ← LiftBinOp E op.opc op.outvar v0 v1
      UpdateStatus st op.opc
    | [v0, v1, v2] => do
      let st ← LiftTernOp E op.opc op.outvar v0 v1 v2
      UpdateStatus st op.opc
    | _ => UpdateStatus .kLiftedUnsupportedInstruction op.opc

/-- The method `GetStatus()`. -/
def GetStatus (self : PcodeToLLVMEmitIntoBlock) : LiftStatus :=
  self.status

/-- The constructor `PcodeToLLVMEmitIntoBlock(target_block, ...)`. -/
def PcodeToLLVMEmitIntoBlock.new (target_block : Block) : PcodeToLLVMEmitIntoBlock :=
  { target_block := target_block
    status := .kLiftedInstruction
    uniques := ⟨[]⟩
    unknown_regs := ⟨[]⟩
    replacement_cont := ⟨[], []⟩
    reported := [] }

/-- The call `sleigh_context->oneInstruction(pc, lifter, bytes)`: the generator hands
each p-code op of the instruction to `dump`, in order. -/
def oneInstruction (E : Env) : List PcodeOp → M Unit
  | [] => pure ()
  | op :: rest => do
    dump E op
    oneInstruction E rest


/-! ## Reasoning about member functions -/

/-- Every returning run of `x` relates its start and end state by `R`. -/
def Respects {α : Type} (R : PcodeToLLVMEmitIntoBlock → PcodeToLLVMEmitIntoBlock → Prop)
    (x : M α) : Prop :=
  ∀ s a t, x s = .ok (a, t) → R s t

/-- A relation kept by everything a read does: appending an instruction other than a
store to the block, allocating scratch cells, marking a claim used. -/
structure ReadFrame (R : PcodeToLLVMEmitIntoBlock → PcodeToLLVMEmitIntoBlock → Prop) : Prop where
  refl : ∀ s, R s s
  trans : ∀ s t u, R s t → R t u → R s u
  emit : ∀ s ev, (∀ v p, ev ≠ .store v p) → R s { s with target_block :=
    { s.target_block with emitted := s.target_block.emitted ++ [ev] } }
  uniq : ∀ s off size, R s { s with
    uniques := (s.uniques.GetUniquePtr off size s.target_block).2.1,
    target_block := (s.uniques.GetUniquePtr off size s.target_block).2.2 }
  unk : ∀ s off size, R s { s with
    unknown_regs := (s.unknown_regs.GetUniquePtr off size s.target_block).2.1,
    target_block := (s.unknown_regs.GetUniquePtr off size s.target_block).2.2 }
  used : ∀ s c, R s { s with replacement_cont :=
    { s.replacement_cont with used_values := c :: s.replacement_cont.used_values } }

/-- A relation also kept by stores into cells. -/
structure WriteFrame (R : PcodeToLLVMEmitIntoBlock → PcodeToLLVMEmitIntoBlock → Prop)
    extends ReadFrame R : Prop where
  store : ∀ v p, Respects R (CreateStore v p)

/-- A relation also kept by recording a claim for an offset that has none. -/
structure ClaimFrame (R : PcodeToLLVMEmitIntoBlock → PcodeToLLVMEmitIntoBlock → Prop)
    extends WriteFrame R : Prop where
  claim : ∀ s c p, s.replacement_cont.current_replacements.lookup c = none →
    R s { s with replacement_cont :=
      { s.replacement_cont with
        current_replacements := (c, p) :: s.replacement_cont.current_replacements } }

/-- The relation: running status and the record of reported statuses are untouched. -/
def SameStatus (s t : PcodeToLLVMEmitIntoBlock) : Prop :=
  t.status = s.status ∧ t.reported = s.reported

/-- What `UpdateStatus` does to the running status. -/
def degrade (cur new_status : LiftStatus) : LiftStatus :=
  if new_status ≠ .kLiftedInstruction then new_status else cur

/-- Effect of a dispatcher step on the running status: either a handler result went
through `UpdateStatus`, or (a recorded claim) nothing changed. -/
def StatusStep (x : M Unit) : Prop :=
  ∀ s t, x s = .ok ((), t) →
    (∃ st, t.status = degrade s.status st ∧ t.reported = s.reported ++ [st]) ∨ SameStatus s t

/-! ## Sample surroundings used in worked examples -/

/-- A 64-bit environment with registers `PC`, `EAX`, `ECX`, `EBX` at register-space
offsets 0, 4 and 12 (`PC` has no offset), one user op `claim_eq`, and memory
intrinsics that accept every access. -/
def sampleEnv : Env where
  word_bits := 64
  ArchHasRegByName := fun n => n = "PC" || n = "EAX" || n = "EBX" || n = "ECX"
  LoadRegAddress := fun n => .named n
  getRegisterName := fun _ off _ =>
    if off = 0 then "eax" else if off = 4 then "ecx" else if off = 12 then "ebx" else ""
  read_memory := fun _ _ _ => some 0
  write_memory := fun _ h _ => some (h + 1)
  category := .kCategoryConditionalBranch
  user_op_names := ["claim_eq"]
  branch_taken_ref := .named "BRANCH_TAKEN"
  fneg := id
  fabs := id
  sqrt := id
  ceil := id
  floor := id
  round := id
  fadd := fun a _ => a
  fsub := fun a _ => a
  fmul := fun a _ => a
  fdiv := fun a _ => a
  fcmp_oeq := fun _ _ => false
  fcmp_one := fun _ _ => false
  fcmp_olt := fun _ _ => false
  fcmp_ole := fun _ _ => false
  sitofp := fun _ a => a
  fptosi := fun _ a => a
  phi := fun _ => 0

/-- The sample environment with a store intrinsic that refuses every store. -/
def refusingEnv : Env :=
  { sampleEnv with write_memory := fun _ _ _ => none }

/-- A block on a zero-initialised state. -/
def zeroBlock : Block := ⟨fun _ => 0, 0, []⟩

/-- End state of a run (`d` when the run aborts). -/
def stateOf {α : Type} (r : Except Abort (α × PcodeToLLVMEmitIntoBlock))
    (d : PcodeToLLVMEmitIntoBlock) : PcodeToLLVMEmitIntoBlock :=
  match r with
  | .ok (_, t) => t
  | .error _ => d

/-- The abort of a run, if it aborts. -/
def abortOf {α : Type} (r : Except Abort (α × PcodeToLLVMEmitIntoBlock)) : Option Abort :=
  match r with
  | .ok _ => none
  | .error e => some e

/-- The value returned by a run, if it returns. -/
def valueOf {α : Type} (r : Except Abort (α × PcodeToLLVMEmitIntoBlock)) : Option α :=
  match r with
  | .ok (a, _) => some a
  | .error _ => none

/-- The op `COPY out=ram[0x1000]:4 in=const(7, size 4)`. -/
def copyToRam : PcodeOp :=
  ⟨.CPUI_COPY, some ⟨.ram, 0x1000, 4⟩, [⟨.const, 7, 4⟩]⟩

/-- A `CALLOTHER` without operands. -/
def callotherNoOperands : PcodeOp :=
  ⟨.CPUI_CALLOTHER, none, []⟩

/-- The op `COPY out=EAX in=const(7, size 4)`. -/
def copy7ToEAX : PcodeOp :=
  ⟨.CPUI_COPY, some ⟨.register, 0, 4⟩, [⟨.const, 7, 4⟩]⟩

/-- No claim is recorded for offset `o`. -/
def NoClaim (o : Nat) (s : PcodeToLLVMEmitIntoBlock) : Prop :=
  s.replacement_cont.current_replacements.lookup o = none

/-- The relation: the recorded claims are the same. -/
def SameClaims (s t : PcodeToLLVMEmitIntoBlock) : Prop :=
  t.replacement_cont.current_replacements = s.replacement_cont.current_replacements

/-- Every returning run of `x` from a state without a claim on `o` returns
Unsupported. -/
def EndsUnsupported (o : Nat) (x : M LiftStatus) : Prop :=
  ∀ s a t, NoClaim o s → x s = .ok (a, t) → a = .kLiftedUnsupportedInstruction

/-- Opcodes that have no output varnode as far as the lifter goes: the branches,
which write `PC`, `STORE`, which writes memory, and `CALLOTHER`, which `dump` settles
itself; the outvar handed to `dump` with them is never looked at. -/
def ignoresOutvar : OpCode → Bool
  | .CPUI_BRANCH | .CPUI_CALL | .CPUI_RETURN | .CPUI_BRANCHIND | .CPUI_CALLIND
  | .CPUI_CBRANCH | .CPUI_STORE | .CPUI_CALLOTHER => true
  | _ => false

/-- Every returning run of the dispatcher step `y` from a state without a claim on
`o` reports Unsupported and makes it the running status. -/
def ReportsUnsupported (o : Nat) (y : M Unit) : Prop :=
  ∀ s t, NoClaim o s → y s = .ok ((), t) →
    GetStatus t = .kLiftedUnsupportedInstruction ∧
      t.reported = s.reported ++ [.kLiftedUnsupportedInstruction]

/-- The op `INT_ADD out=const(0, size 4) in0=EAX in1=ECX`. -/
def addIntoConst : PcodeOp :=
  ⟨.CPUI_INT_ADD, some ⟨.const, 0, 4⟩, [⟨.register, 0, 4⟩, ⟨.register, 4, 4⟩]⟩

/-- The relation: reads change neither the cells nor the recorded claims, status
and reports. -/
def ReadOnly (s t : PcodeToLLVMEmitIntoBlock) : Prop :=
  t.target_block.cells = s.target_block.cells ∧
  t.replacement_cont.current_replacements = s.replacement_cont.current_replacements ∧
  t.status = s.status ∧ t.reported = s.reported

/-- The op `COPY out=unique[0x100]:4 in=EAX`. -/
def copyEAXToUnique : PcodeOp :=
  ⟨.CPUI_COPY, some ⟨.unique, 0x100, 4⟩, [⟨.register, 0, 4⟩]⟩

/-- A block on a state that is zero except `EAX = 0xDEADBEEF`, `EBX = 0x12345678`
and `PC = 0x20`. -/
def sampleBlock : Block :=
  ⟨fun p => if p = .named "EAX" then 0xDEADBEEF else if p = .named "EBX" then 0x12345678
    else if p = .named "PC" then 0x20 else 0, 0, []⟩

/-- The two ops of the claim scenario: a `CALLOTHER` whose operand 0 is `v0`, operand
1 the constant `c` (of size `sz`) and operand 2 the varnode `r`; then
`COPY out=o in=const(c, size s)`. -/
def claimThenCopy (v0 r o : VarnodeData) (c sz s : Nat) : List PcodeOp :=
  [⟨.CPUI_CALLOTHER, none, [v0, ⟨.const, c, sz⟩, r]⟩, ⟨.CPUI_COPY, some o, [⟨.const, c, s⟩]⟩]

/-- The claim scenario on the sample registers: `CALLOTHER claim_eq, const(42), EBX`
then `COPY out=EAX in=const(42, size 4)`. -/
def claimEBXThenCopyToEAX : List PcodeOp :=
  claimThenCopy ⟨.const, 0, 4⟩ ⟨.register, 12, 4⟩ ⟨.register, 0, 4⟩ 42 4 4

/-- A relation also kept by `UpdateStatus`. -/
structure DumpFrame (R : PcodeToLLVMEmitIntoBlock → PcodeToLLVMEmitIntoBlock → Prop)
    extends ClaimFrame R : Prop where
  status : ∀ st opc, Respects R (UpdateStatus st opc)

/-- The relation: every recorded claim stays recorded for the same Parameter as long
as its offset had one, and every offset marked used stays marked. -/
def ClaimsGrow (s t : PcodeToLLVMEmitIntoBlock) : Prop :=
  (∀ c p, s.replacement_cont.current_replacements.lookup c = some p →
    t.replacement_cont.current_replacements.lookup c = some p) ∧
  (∀ c, c ∈ s.replacement_cont.used_values → c ∈ t.replacement_cont.used_values)

/-- The ops `CALLOTHER claim_eq, const(42, size 4), const(5, size 4)` then
`COPY out=unique[0x100]:8 in=const(42, size 8)`. -/
def claimConstThenWideCopy : List PcodeOp :=
  claimThenCopy ⟨.const, 0, 4⟩ ⟨.const, 5, 4⟩ ⟨.unique, 0x100, 8⟩ 42 4 8

/-- The claim scenario followed by a second `COPY out=ECX in=const(42, size 4)`. -/
def claimThenTwoCopies : List PcodeOp :=
  claimEBXThenCopyToEAX ++ [⟨.CPUI_COPY, some ⟨.register, 4, 4⟩, [⟨.const, 42, 4⟩]⟩]

/-- The varnode lifts to a register or scratch cell. -/
def IsCell (o : VarnodeData) : Prop :=
  o.space = .register ∨ o.space = .unique

/-- The block ends with the instructions by which `StoreIntoParam` stores `v` into the
Parameter of the outvar `o`: for a register or scratch outvar the store of `v` into a
cell, for a `ram` outvar the memory write of `v` followed by the store of the new
memory handle. -/
def StoredInto (o : VarnodeData) (v : Value) (b : Block) : Prop :=
  (IsCell o ∧ ∃ p, b.emitted.getLast? = some (.store v p)) ∨
  (o.space = .ram ∧ ∃ pre mem index h ref,
    b.emitted = pre ++ [.write_memory v mem index, .store h ref])

/-- Every run of `x` that returns Success ends with the store into the outvar `o` of a
value of type `W`. -/
def StoresTy (o : VarnodeData) (W : Ty) (x : M LiftStatus) : Prop :=
  ∀ s a t, x s = .ok (a, t) → a = .kLiftedInstruction →
    ∃ v, v.ty = W ∧ StoredInto o v t.target_block

/-- The sample environment for an instruction that is not categorised as a
conditional branch. -/
def normalEnv : Env :=
  { sampleEnv with category := .kCategoryNormal }

/-- A block on a state with `PC = 0x20` and the branch-taken slot holding 5. -/
def takenBlock : Block :=
  ⟨fun p => if p = .named "PC" then 0x20 else if p = .named "BRANCH_TAKEN" then 5 else 0, 0, []⟩

/-! ### `PIECE` and `SUBPIECE` samples -/

/-- The op `PIECE out=EAX(size 4) in0=const(0xAA, size 2) in1=const(0xBB, size 2)`. -/
def pieceAABB : PcodeOp :=
  ⟨.CPUI_PIECE, some ⟨.register, 0, 4⟩, [⟨.const, 0xAA, 2⟩, ⟨.const, 0xBB, 2⟩]⟩

/-- The op `SUBPIECE out=ECX(size 2) in0=EAX(size 4) in1=const(0, size 4)`. -/
def subpieceLow : PcodeOp :=
  ⟨.CPUI_SUBPIECE, some ⟨.register, 4, 2⟩, [⟨.register, 0, 4⟩, ⟨.const, 0, 4⟩]⟩

/-- The round trip `PIECE EAX <- (const 0xAA, const 0xBB)`, `SUBPIECE ECX <- (EAX, 0)`. -/
def pieceThenSubpiece : List PcodeOp :=
  [pieceAABB, subpieceLow]

/-- A block on a state with `EAX = 0x00AA00BB`, zero elsewhere. -/
def piecedBlock : Block :=
  ⟨fun p => if p = .named "EAX" then 0x00AA00BB else 0, 0, []⟩

/-! ### Shift samples -/

/-- The op `INT_SRIGHT out=EAX(size 4) in0=EAX(size 4) in1=const(1, size 1)`. -/
def sarEAXByByte : PcodeOp :=
  ⟨.CPUI_INT_SRIGHT, some ⟨.register, 0, 4⟩, [⟨.register, 0, 4⟩, ⟨.const, 1, 1⟩]⟩

/-- The op `INT_RIGHT out=EAX(size 4) in0=EAX(size 4) in1=const(1, size 1)`. -/
def shrEAXByByte : PcodeOp :=
  ⟨.CPUI_INT_RIGHT, some ⟨.register, 0, 4⟩, [⟨.register, 0, 4⟩, ⟨.const, 1, 1⟩]⟩

/-- The op `INT_LEFT out=EAX(size 4) in0=EAX(size 4) in1=const(2^32 + 4, size 8)`. -/
def shlEAXByWide : PcodeOp :=
  ⟨.CPUI_INT_LEFT, some ⟨.register, 0, 4⟩, [⟨.register, 0, 4⟩, ⟨.const, 2 ^ 32 + 4, 8⟩]⟩

/-! ### Signed overflow samples -/

/-- A block on a state with `EAX = a` and `EBX = b`, zero elsewhere. -/
def signedBlock (a b : Nat) : Block :=
  ⟨fun p => if p = .named "EAX" then a else if p = .named "EBX" then b else 0, 0, []⟩

/-! ### Float samples -/

/-- The sample environment with an `fadd` that returns its right argument, so that
the value stored by `FLOAT_ADD` shows which value was passed on the right. -/
def rightArgEnv : Env :=
  { sampleEnv with fadd := fun _ b => b }

/-- The op `FLOAT_ADD out=unique[0x100]:4 in0=EAX(size 4) in1=EBX(size 4)`. -/
def faddEAXEBX : PcodeOp :=
  ⟨.CPUI_FLOAT_ADD, some ⟨.unique, 0x100, 4⟩, [⟨.register, 0, 4⟩, ⟨.register, 12, 4⟩]⟩

/-! ### Ops that no handler models -/

/-- Opcodes with a case in the `switch` of `LiftUnOp`. -/
def unaryHandled : OpCode → Bool
  | .CPUI_BOOL_NEGATE | .CPUI_COPY | .CPUI_CAST | .CPUI_BRANCH | .CPUI_CALL
  | .CPUI_RETURN | .CPUI_BRANCHIND | .CPUI_CALLIND | .CPUI_INT_ZEXT | .CPUI_INT_SEXT
  | .CPUI_INT_2COMP | .CPUI_INT_NEGATE | .CPUI_FLOAT_NEG | .CPUI_FLOAT_ABS
  | .CPUI_FLOAT_SQRT | .CPUI_FLOAT_CEIL | .CPUI_FLOAT_FLOOR | .CPUI_FLOAT_ROUND
  | .CPUI_FLOAT_NAN | .CPUI_FLOAT_INT2FLOAT | .CPUI_FLOAT_FLOAT2FLOAT
  | .CPUI_FLOAT_TRUNC | .CPUI_POPCOUNT => true
  | _ => false

/-- Opcodes that one of the blocks reached from `LiftBinOp` emits code for: `CBRANCH`,
the keys of `INTEGER_BINARY_OPS`, the boolean and the float binary opcodes, `LOAD`,
`PIECE` and `SUBPIECE`. -/
def binaryHandled (E : Env) (opc : OpCode) : Bool :=
  opc = .CPUI_CBRANCH || (INTEGER_BINARY_OPS opc).isSome || (boolOpFunc opc).isSome ||
    (floatOpFunc E opc).isSome || opc = .CPUI_LOAD || opc = .CPUI_PIECE ||
    opc = .CPUI_SUBPIECE

/-- Opcodes with a case in the `switch` of `LiftTernOp`. -/
def ternaryHandled : OpCode → Bool
  | .CPUI_STORE | .CPUI_PTRADD | .CPUI_PTRSUB => true
  | _ => false

/-- The p-code ops that no handler models: `CPOOLREF` with any operands, and for an
opcode other than `MULTIEQUAL` and `CALLOTHER` an operand count outside `{1, 2, 3}` or
an opcode outside the handler set of its operand count (`INDIRECT` and `NEW` are
outside all three). -/
def unmodelled (E : Env) (op : PcodeOp) : Bool :=
  if op.opc = .CPUI_CPOOLREF then true
  else if op.opc = .CPUI_MULTIEQUAL ∨ op.opc = .CPUI_CALLOTHER then false
  else
    match op.vars with
    | [_] => !unaryHandled op.opc
    | [_, _] => !binaryHandled E op.opc
    | [_, _, _] => !ternaryHandled op.opc
    | _ => true

/-- The lifter after `UpdateStatus(kLiftedUnsupportedInstruction, opc)`. -/
def markedUnsupported (s : PcodeToLLVMEmitIntoBlock) : PcodeToLLVMEmitIntoBlock :=
  { s with
    status := .kLiftedUnsupportedInstruction
    reported := s.reported ++ [.kLiftedUnsupportedInstruction] }

/-! ### User-defined ops -/

/-- The sample environment with the user ops `segment` (index 0) and `claim_eq`
(index 1). -/
def twoUserOpsEnv : Env :=
  { sampleEnv with user_op_names := ["segment", "claim_eq"] }

/-! ### Memory samples -/

/-- The sample environment with a load intrinsic that returns the address plus one. -/
def loadingEnv : Env :=
  { sampleEnv with read_memory := fun _ _ a => some (a.bits + 1) }

/-! ## The instruction function -/

/-- The method `SleighLifter::LiftIntoInternalBlock(inst, target_mod, is_delayed)`.
`target_block` is the entry block of the function `DefineLiftedFunction` returns,
`inst_bytes_size` is `inst.bytes.size()` and `ops` is the p-code the engine hands to
the lifter for `inst.bytes`.  The builder `ir` and the lifter append to the same
block, and the lifter's other fields start as its constructor sets them.  The result
is `lifter.GetStatus()` with the block of the function; `CreateRet` and the linkage
and attribute changes touch no cell. -/
def LiftIntoInternalBlock (E : Env) (inst_bytes_size : Nat) (ops : List PcodeOp)
    (target_block : Block) : Except Abort (LiftStatus × Block) :=
  let next_pc_ref := E.LoadRegAddress kNextPCVariableName
  let pc_ref := E.LoadRegAddress "PC"
  let body : M LiftStatus := do
    let next_pc ← CreateLoad (.int E.word_bits) next_pc_ref
    let curr_eip ← liftE (CreateAdd next_pc (ConstantInt_get (.int E.word_bits) inst_bytes_size))
    CreateStore curr_eip next_pc_ref
    CreateStore curr_eip pc_ref
    oneInstruction E ops
    let pc ← CreateLoad (.int E.word_bits) pc_ref
    CreateStore pc next_pc_ref
    fun lifter => .ok (GetStatus lifter, lifter)
  match body (.new target_block) with
  | .ok (status, lifter) => .ok (status, lifter.target_block)
  | .error e => .error e

/-- Cells after the stores of an instruction list have run, oldest first. -/
def replay : List Event → (Ptr → Nat) → Ptr → Nat
  | [], c => c
  | .store v p :: evs, c => replay evs (fun q => if q = p then writeCell (c p) v else c q)
  | .load _ _ :: evs, c => replay evs c
  | .alloca _ _ :: evs, c => replay evs c
  | .read_memory _ _ _ :: evs, c => replay evs c
  | .write_memory _ _ _ :: evs, c => replay evs c

/-- The value an instruction stores to `p`, if it is a store to `p`. -/
def storedTo (p : Ptr) : Event → Option Value
  | .store v q => if q = p then some v else none
  | _ => none

/-- The value of the last store to `p` in an instruction list, if there is one. -/
def lastStoreTo (p : Ptr) : List Event → Option Value
  | [] => none
  | ev :: evs => lastStoreTo p evs <|> storedTo p ev

/-- The relation: the block grew by some instructions, and its cells are what the
stores among them make of the old cells. -/
def Traced (s t : PcodeToLLVMEmitIntoBlock) : Prop :=
  ∃ evs, t.target_block.emitted = s.target_block.emitted ++ evs ∧
    t.target_block.cells = replay evs s.target_block.cells

/-- The value `curr_eip` of `LiftIntoInternalBlock`: `NEXT_PC` at entry plus the
instruction's length, at word width. -/
def currEip (E : Env) (inst_bytes_size : Nat) (b : Block) : Value :=
  ⟨.int E.word_bits,
    (b.cells (E.LoadRegAddress kNextPCVariableName) % 2 ^ E.word_bits +
      inst_bytes_size % 2 ^ E.word_bits) % 2 ^ E.word_bits⟩

/-- The three instructions `LiftIntoInternalBlock` appends before it constructs the
lifter. -/
def prologue (E : Env) (inst_bytes_size : Nat) (b : Block) : List Event :=
  [.load (.int E.word_bits) (E.LoadRegAddress kNextPCVariableName),
    .store (currEip E inst_bytes_size b) (E.LoadRegAddress kNextPCVariableName),
    .store (currEip E inst_bytes_size b) (E.LoadRegAddress "PC")]

/-- The lifter as `LiftIntoInternalBlock` constructs it: fresh, on the block after the
prologue. -/
def afterPrologue (E : Env) (inst_bytes_size : Nat) (b : Block) : PcodeToLLVMEmitIntoBlock :=
  .new { b with
    cells := replay (prologue E inst_bytes_size b) b.cells
    emitted := b.emitted ++ prologue E inst_bytes_size b }

/-- The two instructions `LiftIntoInternalBlock` appends after the ops, on the block
`b` the lifter left. -/
def epilogue (E : Env) (b : Block) : List Event :=
  [.load (.int E.word_bits) (E.LoadRegAddress "PC"),
    .store ⟨.int E.word_bits, b.cells (E.LoadRegAddress "PC") % 2 ^ E.word_bits⟩
      (E.LoadRegAddress kNextPCVariableName)]

/-- An entry block with `NEXT_PC = 0x1000` and every other cell 0. -/
def entryBlock : Block :=
  ⟨fun p => if p = .named "NEXT_PC" then 0x1000 else 0, 0, []⟩

/-- The op `COPY out=EAX in=const(7, size 4)`, which leaves `PC` alone. -/
def copySevenToEAX : PcodeOp :=
  ⟨.CPUI_COPY, some ⟨.register, 0, 4⟩, [⟨.const, 7, 4⟩]⟩

/-- The op `BRANCH in0=const(0x80, size 8)`, which writes `PC`. -/
def branchTo0x80 : PcodeOp :=
  ⟨.CPUI_BRANCH, none, [⟨.const, 0x80, 8⟩]⟩

/-- An entry block with `NEXT_PC = 0x100000000` and every other cell 0. -/
def highEntryBlock : Block :=
  ⟨fun p => if p = .named "NEXT_PC" then 0x100000000 else 0, 0, []⟩

/-- The op `BRANCH in0=const(0x80, size 4)`, which writes 32 bits of `PC`. -/
def branchNarrowTo0x80 : PcodeOp :=
  ⟨.CPUI_BRANCH, none, [⟨.const, 0x80, 4⟩]⟩
/-! ### Conditional branch on a wide condition -/

/-- The op `CBRANCH in0=const(0x80, size 8) in1=const(1, size 4)`. -/
def cbranchWideCond : PcodeOp :=
  ⟨.CPUI_CBRANCH, none, [⟨.const, 0x80, 8⟩, ⟨.const, 1, 4⟩]⟩

/-- The state `s` with the claim `c ↦ p` put in front of its recorded claims. -/
def recordClaim (c : Nat) (p : Parameter) (s : PcodeToLLVMEmitIntoBlock) :
    PcodeToLLVMEmitIntoBlock :=
  { s with replacement_cont :=
      { s.replacement_cont with
        current_replacements := (c, p) :: s.replacement_cont.current_replacements } }

/-- The state `s` with offset `c` marked used. -/
def markUsed (c : Nat) (s : PcodeToLLVMEmitIntoBlock) : PcodeToLLVMEmitIntoBlock :=
  { s with replacement_cont :=
      { s.replacement_cont with used_values := c :: s.replacement_cont.used_values } }

/-- Number of recorded claims for offset `c`. -/
def claimCount (c : Nat) (s : PcodeToLLVMEmitIntoBlock) : Nat :=
  (s.replacement_cont.current_replacements.filter (fun e => e.1 = c)).length

/-! # The AArch64 decoder front end (`remill/Arch/AArch64/Arch.cpp`)

The instruction record, its operands and the extracted encoding (`InstData`) are
declared in headers outside this file; they are modelled by the fields `Arch.cpp`
reads and writes. -/

/-- Ways the decoder stops without returning. -/
inductive ArchAbort
  /-- A failed `CHECK_LE`. -/
  | checkFailed
  /-- A `LOG(FATAL)`. -/
  | logFatal
  /-- A read outside an array. -/
  | outOfBounds
  /-- A value-returning function that falls off its end. -/
  | noReturn
  deriving DecidableEq, Repr

/-- The enumeration `ArchName`, by the enumerator `Arch.cpp` names. -/
inductive ArchName
  | kArchAArch64LittleEndian
  | other (tag : Nat)
  deriving DecidableEq, Repr

/-- The enumeration `aarch64::InstName`, by the enumerators `InstCategory` names. -/
inductive InstName
  | INVALID | B | BR | CBZ | CBNZ | TBZ | TBNZ | BL | BLR | RET | HLT
  | HVC | SMC | SVC | SYS | SYSL | NOP | BRK
  | other (tag : Nat)
  deriving DecidableEq, Repr

/-- The enumeration `aarch64::InstForm`, by the enumerator `InstCategory` names. -/
inductive InstForm
  | B_ONLY_CONDBRANCH
  | other (tag : Nat)
  deriving DecidableEq, Repr

/-- The member `imm19` of `InstData`. -/
structure InstData.Imm19 where
  simm19 : Int
  deriving DecidableEq, Repr

/-- The fields of `aarch64::InstData` read by the functions below.  The register
fields, `option`, `S` and `size` are unsigned bit fields of the encoding; `simm19` is
the sign-extended immediate. -/
structure InstData where
  iclass : InstName
  iform : InstForm
  Rn : Nat
  Rt : Nat
  Rm : Nat
  imm19 : InstData.Imm19
  option : Nat
  S : Nat
  size : Nat
  deriving DecidableEq, Repr

/-- The enumeration `Operand::Type`. -/
inductive Operand.Type_
  | kTypeInvalid | kTypeRegister | kTypeShiftRegister | kTypeImmediate | kTypeAddress
  deriving DecidableEq, Repr

/-- The enumeration `Operand::Action`. -/
inductive Operand.Action
  | kActionInvalid | kActionRead | kActionWrite
  deriving DecidableEq, Repr

/-- The class `Operand::Register`. -/
structure Operand.Register where
  name : String
  size : Nat
  deriving DecidableEq, Repr

/-- The enumeration `Operand::ShiftRegister::Shift`. -/
inductive Operand.ShiftRegister.Shift
  | kShiftInvalid | kShiftLeftWithZeroes | kShiftLeftWithOnes
  | kShiftUnsignedRight | kShiftSignedRight | kShiftLeftAround | kShiftRightAround
  deriving DecidableEq, Repr

/-- The enumeration `Operand::ShiftRegister::Extend`. -/
inductive Operand.ShiftRegister.Extend
  | kExtendInvalid | kExtendUnsigned | kExtendSigned
  deriving DecidableEq, Repr

/-- The class `Operand::ShiftRegister`. -/
structure Operand.ShiftRegister where
  reg : Operand.Register
  shift_size : Nat
  extract_size : Nat
  shift_op : Operand.ShiftRegister.Shift
  extend_op : Operand.ShiftRegister.Extend
  deriving DecidableEq, Repr

/-- The enumeration `Operand::Address::Kind`. -/
inductive Operand.Address.Kind
  | kInvalid | kMemoryWrite | kMemoryRead | kAddressCalculation | kControlFlowTarget
  deriving DecidableEq, Repr

/-- The class `Operand::Address`, by the fields `Arch.cpp` writes; `displacement` is
kept as the 64-bit two's-complement pattern of the field. -/
structure Operand.Address where
  base_reg : Operand.Register
  displacement : Nat
  address_size : Nat
  kind : Operand.Address.Kind
  deriving DecidableEq, Repr

/-- The class `Operand`. -/
structure Operand where
  type : Operand.Type_
  action : Operand.Action
  size : Nat
  reg : Operand.Register
  shift_reg : Operand.ShiftRegister
  addr : Operand.Address
  deriving DecidableEq, Repr

/-- The class `Instruction`, by the fields `Arch.cpp` writes. -/
structure Instruction where
  arch_name : ArchName
  pc : Nat
  next_pc : Nat
  function : String
  category : Category
  operands : List Operand
  deriving DecidableEq, Repr

/-- What `Arch.cpp` takes from outside the file. -/
structure ArchEnv where
  /-- The member `arch_name` of the `Arch` object. -/
  arch_name : ArchName
  /-- A default-constructed `Operand` (the declaration `Operand op;`). -/
  Operand_new : Operand
  /-- The call `aarch64::TryExtract(bytes, dinst)`: the extracted encoding, or `none`
  when it returns false. -/
  TryExtract : List Nat → Option InstData
  /-- The call `aarch64::InstFormToString(iform)`. -/
  InstFormToString : InstForm → String
  /-- The call `aarch64::TryDecode(dinst, inst)`: its result and the instruction it
  leaves. -/
  TryDecode : InstData → Instruction → Except ArchAbort (Bool × Instruction)

/-- The function `InstCategory(inst)`. -/
def InstCategory ( inst : InstData) : Category :=
  match inst.iclass with
  | .INVALID => .kCategoryInvalid
  | .B =>
    if InstForm.B_ONLY_CONDBRANCH = inst.iform then .kCategoryConditionalBranch
    else .kCategoryDirectJump
  | .BR => .kCategoryIndirectJump
  | .CBZ | .CBNZ | .TBZ | .TBNZ => .kCategoryConditionalBranch
  | .BL => .kCategoryDirectFunctionCall
  | .BLR => .kCategoryIndirectFunctionCall
  | .RET => .kCategoryFunctionReturn
  | .HLT => .kCategoryError
  | .HVC | .SMC | .SVC | .SYS | .SYSL => .kCategoryAsyncHyperCall
  | .NOP => .kCategoryNoOp
  | .BRK => .kCategoryNormal
  | .other _ => .kCategoryNormal

/-- The enumeration `RegClass`. -/
inductive RegClass
  | kRegX | kRegW
  deriving DecidableEq, Repr

/-- The bytes of the array `kPrefixX`: the three pieces of the literal and the
terminating NUL. -/
def kPrefixX : List Char :=
  ("X\x00X\x00X\x00X\x00X\x00X\x00X\x00X\x00X\x00X\x00X\x00X\x00X\x00X" ++
    "\x00X\x00X\x00X\x00X\x00X\x00X\x00X\x00X\x00X\x00X\x00X\x00X\x00X" ++
    "\x00X\x00X\x00X\x00\x00\x00\x00\x00").data ++ [Char.ofNat 0]

/-- The C string that starts at `mem[i]`: the bytes up to the next NUL.  A start
outside the array is an out-of-bounds read. -/
def cstringAt (mem : List Char) (i : Nat) : Except ArchAbort String :=
  if i < mem.length then .ok (String.mk ((mem.drop i).takeWhile (fun c => c ≠ Char.ofNat 0)))
  else .error .outOfBounds

/-- The function `RegPrefix(size, number)`, read as the string the returned pointer
designates. -/
def RegPrefix (size : RegClass) (number : Nat) : Except ArchAbort String :=
  if RegClass.kRegX = size then cstringAt kPrefixX (number * 2) else .ok "W"

/-- The array `kNumberName`. -/
def kNumberName : List String :=
  ["0", "1", "2", "3", "4", "5", "6", "7", "8", "9",
   "10", "11", "12", "13", "14", "15", "16", "17", "18", "19",
   "20", "21", "22", "23", "24", "25", "26", "27", "28", "29",
   "LP", "SP"]

/-- The function `RegNumberName(number)`. -/
def RegNumberName (number : Nat) : Except ArchAbort String :=
  if number ≤ 31 then
    match kNumberName.get? number with
    | some s => .ok s
    | none => .error .outOfBounds
  else .error .checkFailed

/-- The function `RegName(rclass, number)`; `number` is a `uint8_t`. -/
def RegName (rclass : RegClass) (number : Nat) : Except ArchAbort String := do
  let p ← RegPrefix rclass number
  let n ← RegNumberName number
  pure (p ++ n)

/-- The function `ReadRegSize(rclass)`. -/
def ReadRegSize : RegClass → Nat
  | .kRegX => 64
  | .kRegW => 32

/-- The function `WriteRegSize(rclass)`. -/
def WriteRegSize : RegClass → Nat
  | .kRegX => 64
  | .kRegW => 64

/-- The enumeration `Action` of `Arch.cpp`. -/
inductive Action
  | kActionRead | kActionWrite | kActionReadWrite
  deriving DecidableEq, Repr

/-- The function `Reg(action, rclass, reg_num)`. -/
def Reg (action : Action) (rclass : RegClass) (reg_num : Nat) :
    Except ArchAbort Operand.Register :=
  if Action.kActionWrite = action then do
    let name ← RegName rclass reg_num
    pure ⟨name, WriteRegSize rclass⟩
  else if Action.kActionRead = action then do
    let name ← RegName rclass reg_num
    pure ⟨name, ReadRegSize rclass⟩
  else .error .logFatal

/-- The call `inst.operands.push_back(op)`. -/
def Instruction.push_back ( inst : Instruction) (op : Operand) : Instruction :=
  { inst with operands := inst.operands ++ [op] }

/-- The function `AddRegOperand(inst, action, rclass, reg_num)`. -/
def AddRegOperand (A : ArchEnv) ( inst : Instruction) (action : Action) (rclass : RegClass)
    (reg_num : Nat) : Except ArchAbort Instruction := do
  let op : Operand := { A.Operand_new with type := .kTypeRegister }
  let (op, inst) ←
    if Action.kActionWrite = action ∨ Action.kActionReadWrite = action then do
      let r ← Reg .kActionWrite rclass reg_num
      let op : Operand := { op with reg := r, size := r.size, action := .kActionWrite }
      pure (op, inst.push_back op)
    else pure (op, inst)
  if Action.kActionRead = action ∨ Action.kActionReadWrite = action then do
    let r ← Reg .kActionRead rclass reg_num
    let op : Operand := { op with reg := r, size := r.size, action := .kActionRead }
    pure (inst.push_back op)
  else pure inst

/-- The function `AddBasePlusOffsetMemOp(inst, action, access_size, base_reg, disp)`. -/
def AddBasePlusOffsetMemOp (A : ArchEnv) ( inst : Instruction) (action : Action)
    (access_size : Nat) (base_reg : Nat) (disp : Nat) : Except ArchAbort Instruction := do
  let r ← Reg .kActionRead .kRegX base_reg
  let op : Operand :=
    { A.Operand_new with
      type := .kTypeAddress
      size := access_size
      addr := { A.Operand_new.addr with
        address_size := 64, base_reg := r, displacement := disp } }
  let (op, inst) :=
    if Action.kActionWrite = action ∨ Action.kActionReadWrite = action then
      let op : Operand :=
        { op with action := .kActionWrite, addr := { op.addr with kind := .kMemoryWrite } }
      (op, inst.push_back op)
    else (op, inst)
  if Action.kActionRead = action ∨ Action.kActionReadWrite = action then
    let op : Operand :=
      { op with action := .kActionRead, addr := { op.addr with kind := .kMemoryRead } }
    pure (inst.push_back op)
  else pure inst

/-- The function `AddPreIndexMemOp(inst, action, access_size, base_reg, disp)`;
`addr_op` is a copy of the last operand. -/
def AddPreIndexMemOp (A : ArchEnv) ( inst : Instruction) (action : Action)
    (access_size : Nat) (base_reg : Nat) (disp : Nat) : Except ArchAbort Instruction := do
  let inst ← AddBasePlusOffsetMemOp A inst action access_size base_reg disp
  match inst.operands.getLast? with
  | none => .error .outOfBounds
  | some addr_op => do
    let r ← Reg .kActionWrite .kRegX base_reg
    let reg_op : Operand :=
      { A.Operand_new with
        type := .kTypeRegister, action := .kActionWrite, reg := r, size := r.size }
    let inst := inst.push_back reg_op
    let b ← Reg .kActionRead .kRegX base_reg
    let addr_op : Operand :=
      { addr_op with addr := { addr_op.addr with
          kind := .kAddressCalculation
          address_size := 64
          base_reg := b
          displacement := addr_op.addr.displacement * 2 % 2 ^ 64 } }
    pure (inst.push_back addr_op)

/-- The constant `kInstructionSize`. -/
def kInstructionSize : Nat := 4

/-- The method `AArch64Arch::DecodeInstruction(address, inst_bytes, inst)`: the
result and the instruction record it leaves.  `address` is a `uint64_t`. -/
def DecodeInstruction (A : ArchEnv) (address : Nat) (inst_bytes : List Nat)
    ( inst : Instruction) : Except ArchAbort (Bool × Instruction) :=
  let inst := { inst with
    arch_name := A.arch_name
    pc := address
    next_pc := (address + kInstructionSize) % 2 ^ 64 }
  if kInstructionSize ≠ inst_bytes.length then
    .ok (false, { inst with function := "INVALID_SIZE" })
  else if 0 ≠ address % kInstructionSize then
    .ok (false, { inst with function := "INVALID_UNALIGNED" })
  else
    match A.TryExtract inst_bytes with
    | none => .ok (false, { inst with function := "INVALID_ENCODING" })
    | some dinst =>
      let inst := { inst with
        category := InstCategory dinst
        function := A.InstFormToString dinst.iform }
      match A.TryDecode dinst inst with
      | .error e => .error e
      | .ok (false, inst) => .ok (false, { inst with category := .kCategoryInvalid })
      | .ok (true, inst) => .ok (true, inst)

/-- The function `AddPCRegMemOp(inst, action, disp)`. -/
def AddPCRegMemOp (A : ArchEnv) ( inst : Instruction) (action : Action) (disp : Nat) :
    Except ArchAbort Instruction :=
  let op : Operand :=
    { A.Operand_new with
      type := .kTypeAddress
      size := 64
      addr := { A.Operand_new.addr with
        address_size := 64, base_reg := ⟨"PC", 64⟩, displacement := disp } }
  if Action.kActionRead = action then
    .ok (inst.push_back
      { op with action := .kActionRead, addr := { op.addr with kind := .kMemoryRead } })
  else if Action.kActionWrite = action then
    .ok (inst.push_back
      { op with action := .kActionWrite, addr := { op.addr with kind := .kMemoryWrite } })
  else .error .logFatal

/-- The expression `static_cast<uint64_t>(simm) << k`. -/
def shlSigned (simm : Int) (k : Nat) : Nat :=
  ofSigned 64 simm * 2 ^ k % 2 ^ 64

/-- The function `TryDecodeLDR_32_LOADLIT(data, inst)`; a register field is handed
over as a `uint8_t`. -/
def TryDecodeLDR_32_LOADLIT (A : ArchEnv) (data : InstData) ( inst : Instruction) :
    Except ArchAbort (Bool × Instruction) := do
  let inst ← AddRegOperand A inst .kActionWrite .kRegW (data.Rt % 256)
  let inst ← AddPCRegMemOp A inst .kActionRead (shlSigned data.imm19.simm19 2)
  pure (false, inst)

/-- The function `TryDecodeLDR_64_LOADLIT(data, inst)`. -/
def TryDecodeLDR_64_LOADLIT (A : ArchEnv) (data : InstData) ( inst : Instruction) :
    Except ArchAbort (Bool × Instruction) := do
  let inst ← AddRegOperand A inst .kActionWrite .kRegX (data.Rt % 256)
  let inst ← AddPCRegMemOp A inst .kActionRead (shlSigned data.imm19.simm19 2)
  pure (true, inst)

/-- The enumeration `Extend` of `Arch.cpp`, in the order of its values 0 to 7. -/
inductive Extend
  | kExtendUXTB | kExtendUXTH | kExtendUXTW | kExtendUXTX
  | kExtendSXTB | kExtendSXTH | kExtendSXTW | kExtendSXTX
  deriving DecidableEq, Repr

/-- The cast `static_cast<Extend>(v)`; a value that is no enumerator reaches no
`case` of the switches below. -/
def Extend.cast : Nat → Option Extend
  | 0 => some .kExtendUXTB
  | 1 => some .kExtendUXTH
  | 2 => some .kExtendUXTW
  | 3 => some .kExtendUXTX
  | 4 => some .kExtendSXTB
  | 5 => some .kExtendSXTH
  | 6 => some .kExtendSXTW
  | 7 => some .kExtendSXTX
  | _ => none

/-- The function `BaseSizeInBits(extend)`. -/
def BaseSizeInBits : Extend → Nat
  | .kExtendUXTB => 8
  | .kExtendUXTH => 16
  | .kExtendUXTW => 32
  | .kExtendUXTX => 64
  | .kExtendSXTB => 8
  | .kExtendSXTH => 16
  | .kExtendSXTW => 32
  | .kExtendSXTX => 64

/-- The function `ShiftRegExtendType(extend)`. -/
def ShiftRegExtendType : Extend → Operand.ShiftRegister.Extend
  | .kExtendUXTB | .kExtendUXTH | .kExtendUXTW | .kExtendUXTX => .kExtendUnsigned
  | .kExtendSXTB | .kExtendSXTH | .kExtendSXTW | .kExtendSXTX => .kExtendUnsigned

/-- The function `TryDecodeLDR_n_LDST_REGOFF(data, inst, val_class)`. -/
def TryDecodeLDR_n_LDST_REGOFF (A : ArchEnv) (data : InstData) ( inst : Instruction)
    (val_class : RegClass) : Except ArchAbort (Bool × Instruction) :=
  if data.option &&& 2 = 0 then .ok (false, inst)
  else do
    let extend_type := Extend.cast data.option
    let amount := if data.S ≠ 0 then data.size else 0
    let index_class := if data.option &&& 1 ≠ 0 then RegClass.kRegX else RegClass.kRegW
    let r ← Reg .kActionRead index_class (data.Rm % 256)
    let op : Operand :=
      { A.Operand_new with
        type := .kTypeShiftRegister
        size := 64
        action := .kActionRead
        shift_reg := { A.Operand_new.shift_reg with
          reg := r, shift_op := .kShiftLeftWithZeroes, shift_size := amount } }
    let op ←
      if some Extend.kExtendUXTX ≠ extend_type then
        match extend_type with
        | some e =>
          pure { op with shift_reg := { op.shift_reg with
            extract_size := BaseSizeInBits e, extend_op := ShiftRegExtendType e } }
        | none => .error .noReturn
      else pure op
    let inst ← AddRegOperand A inst .kActionWrite val_class (data.Rt % 256)
    let inst ← AddBasePlusOffsetMemOp A inst .kActionRead (8 * 2 ^ data.size % 2 ^ 32)
      (data.Rn % 256) 0
    pure (true, inst.push_back op)

/-- The function `TryDecodeLDR_32_LDST_REGOFF(data, inst)`. -/
def TryDecodeLDR_32_LDST_REGOFF (A : ArchEnv) (data : InstData) ( inst : Instruction) :
    Except ArchAbort (Bool × Instruction) :=
  TryDecodeLDR_n_LDST_REGOFF A data inst .kRegW

/-- The function `TryDecodeLDR_64_LDST_REGOFF(data, inst)`. -/
def TryDecodeLDR_64_LDST_REGOFF (A : ArchEnv) (data : InstData) ( inst : Instruction) :
    Except ArchAbort (Bool × Instruction) :=
  TryDecodeLDR_n_LDST_REGOFF A data inst .kRegX

/-- The function `TryDecodeSTR_n_LDST_REGOFF(data, inst, val_class)`. -/
def TryDecodeSTR_n_LDST_REGOFF (A : ArchEnv) (data : InstData) ( inst : Instruction)
    (val_class : RegClass) : Except ArchAbort (Bool × Instruction) :=
  if data.option &&& 2 = 0 then .ok (false, inst)
  else do
    let extend_type := Extend.cast data.option
    let amount := if data.S ≠ 0 then data.size else 0
    let index_class := if data.option &&& 1 ≠ 0 then RegClass.kRegX else RegClass.kRegW
    let r ← Reg .kActionRead index_class (data.Rm % 256)
    let op : Operand :=
      { A.Operand_new with
        type := .kTypeShiftRegister
        size := 64
        action := .kActionRead
        shift_reg := { A.Operand_new.shift_reg with
          reg := r, shift_op := .kShiftLeftWithZeroes, shift_size := amount } }
    let op ←
      if some Extend.kExtendUXTX ≠ extend_type then
        match extend_type with
        | some e =>
          pure { op with shift_reg := { op.shift_reg with
            extract_size := BaseSizeInBits e, extend_op := ShiftRegExtendType e } }
        | none => .error .noReturn
      else pure op
    let inst ← AddRegOperand A inst .kActionRead val_class (data.Rt % 256)
    let inst ← AddBasePlusOffsetMemOp A inst .kActionWrite (8 * 2 ^ data.size % 2 ^ 32)
      (data.Rn % 256) 0
    pure (true, inst.push_back op)

/-! ## Sample decoder surroundings -/

/-- An operand with every field at its invalid or zero value. -/
def blankOperand : Operand :=
  ⟨.kTypeInvalid, .kActionInvalid, 0, ⟨"", 0⟩,
    ⟨⟨"", 0⟩, 0, 0, .kShiftInvalid, .kExtendInvalid⟩, ⟨⟨"", 0⟩, 0, 0, .kInvalid⟩⟩

/-- An instruction record with no operands. -/
def blankInstruction : Instruction :=
  ⟨.other 0, 0, 0, "", .kCategoryInvalid, []⟩

/-- Surroundings whose extractor accepts nothing. -/
def sampleArch : ArchEnv :=
  ⟨.kArchAArch64LittleEndian, blankOperand, fun _ => none, fun _ => "",
    fun _ i => .ok (true, i)⟩

/-- An extracted encoding with `Rt = 5`, `Rn = 1`, `Rm = 2`, `simm19 = -3`, the
extend option `SXTW` (0b110), `S = 0` and `size = 3`. -/
def sampleData : InstData :=
  ⟨.other 0, .other 0, 1, 5, 2, ⟨-3⟩, 6, 0, 3⟩

/-- Surroundings whose extractor accepts every four bytes as `sampleData` and whose
decoder is `TryDecodeLDR_64_LOADLIT`. -/
def loadlitArch : ArchEnv :=
  ⟨.kArchAArch64LittleEndian, blankOperand, fun _ => some sampleData,
    fun _ => "LDR_64_LOADLIT", fun d i => TryDecodeLDR_64_LOADLIT sampleArch d i⟩

/-- The name the architecture gives register `number` of class `rclass`: `X0`..`X29`,
`LP`, `SP`, and `W` followed by the same number names. -/
def architecturalName (rclass : RegClass) (number : Nat) : String :=
  match rclass with
  | .kRegX =>
    if number ≤ 29 then "X" ++ toString number else if number = 30 then "LP" else "SP"
  | .kRegW =>
    if number ≤ 29 then "W" ++ toString number else if number = 30 then "WLP" else "WSP"


/-! ## Frame lemmas -/

theorem bind_eq {α β : Type} (x : M α) (f : α → M β) (s : PcodeToLLVMEmitIntoBlock) :
    (x >>= f) s = match x s with
      | .ok (a, t) => f a t
      | .error e => .error e := rfl

theorem pure_eq {α : Type} (a : α) (s : PcodeToLLVMEmitIntoBlock) :
    (pure a : M α) s = .ok (a, s) := rfl

theorem liftE_ok {α : Type} (a : α) (s : PcodeToLLVMEmitIntoBlock) :
    liftE (.ok a) s = .ok (a, s) := rfl

theorem liftE_error {α : Type} (e : Abort) (s : PcodeToLLVMEmitIntoBlock) :
    (liftE (.error e) : M α) s = .error e := rfl

theorem writeCell_mod (c : Nat) (v : Value) :
    writeCell c v % 2 ^ v.ty.bits = v.bits % 2 ^ v.ty.bits := by
  unfold writeCell
  rw [Nat.add_comm, Nat.add_mul_mod_self_right, Nat.mod_mod]

/-- The table access at an index that holds a name returns that name. -/
theorem user_op_names_at_eq (E : Env) (i : Nat) (name : String)
    (h : E.user_op_names.get? i = some name) (s : PcodeToLLVMEmitIntoBlock) :
    user_op_names_at E i s = .ok (name, s) := by
  unfold user_op_names_at
  rw [h]
  rfl

theorem user_op_names_at_bind {α : Type} (E : Env) (i : Nat) (name : String)
    (h : E.user_op_names.get? i = some name) (f : String → M α) :
    (user_op_names_at E i >>= f) = f name := by
  funext s
  rw [bind_eq, user_op_names_at_eq E i name h]

/-- The guarded table access of `dump`: the bound test comes first, so the access is
made only at an index inside the table and returns the name found there. -/
theorem user_op_names_guard {α : Type} (E : Env) (i : Nat) (x y : M α) :
    (if i < E.user_op_names.length then
      (user_op_names_at E i >>= fun name => if name = "claim_eq" then x else y)
    else y) =
    if i < E.user_op_names.length ∧ E.user_op_names.get? i = some "claim_eq" then x else y := by
  by_cases h : i < E.user_op_names.length
  · have hg : E.user_op_names.get? i = some (E.user_op_names.get ⟨i, h⟩) := List.get?_eq_get h
    funext s
    by_cases hn : E.user_op_names.get ⟨i, h⟩ = "claim_eq"
    · simp [h, user_op_names_at, hg, hn, bind_eq, pure_eq]
    · simp [h, user_op_names_at, hg, hn, bind_eq, pure_eq]
  · simp [h]

section respects

variable {R : PcodeToLLVMEmitIntoBlock → PcodeToLLVMEmitIntoBlock → Prop}

theorem Respects_pure {α : Type} (h : ReadFrame R) (a : α) : Respects R (pure a : M α) := by
  intro s b t e
  cases e
  exact h.refl s

theorem Respects_bind {α β : Type} (h : ReadFrame R) {x : M α} {f : α → M β}
    (hx : Respects R x) (hf : ∀ a, Respects R (f a)) : Respects R (x >>= f) := by
  intro s b u e
  rw [bind_eq] at e
  cases hxs : x s with
  | error err => rw [hxs] at e; cases e
  | ok r =>
    obtain ⟨a, t⟩ := r
    rw [hxs] at e
    exact h.trans s t u (hx s a t hxs) (hf a t b u e)

theorem Respects_liftE {α : Type} (h : ReadFrame R) (x : Except Abort α) :
    Respects R (liftE x) := by
  intro s b t e
  cases x with
  | error err => cases e
  | ok a => cases e; exact h.refl s

theorem Respects_abort {α : Type} (e : Abort) : Respects R (abort e : M α) := by
  intro s b t h
  cases h

theorem Respects_CreateLoad (h : ReadFrame R) (ty : Ty) (p : Ptr) :
    Respects R (CreateLoad ty p) := by
  intro s b t e
  cases e
  exact h.emit s _ (by intro _ _ hh; cases hh)

theorem Respects_LoadFromMemory (h : ReadFrame R) (E : Env) (ty : Ty) (mem index : Value) :
    Respects R (LoadFromMemory E ty mem index) := by
  intro s b t e
  unfold remill.LoadFromMemory at e
  split at e
  · cases e; exact h.emit s _ (by intro _ _ hh; cases hh)
  · cases e; exact h.refl s

theorem Respects_LiftAsInParam (h : ReadFrame R) (E : Env) (p : Parameter) (ty : Ty) :
    Respects R (p.LiftAsInParam E ty) := by
  cases p with
  | RegisterValue q =>
    exact Respects_bind h (Respects_CreateLoad h _ _) (fun _ => Respects_pure h _)
  | Memory q i =>
    refine Respects_bind h (Respects_CreateLoad h _ _) (fun mem => ?_)
    refine Respects_bind h (Respects_LoadFromMemory h _ _ _ _) (fun r => ?_)
    cases r <;> exact Respects_pure h _
  | ConstantValue c =>
    show Respects R (if ty ≠ c.ty then Pure.pure none else Pure.pure (some c))
    split <;> exact Respects_pure h _

theorem Respects_LiftOffsetOrReplace (h : ReadFrame R) (E : Env) (v : VarnodeData) (ty : Ty) :
    Respects R (LiftOffsetOrReplace E v ty) := by
  intro s b t e
  unfold remill.LiftOffsetOrReplace at e
  cases hl : s.replacement_cont.current_replacements.lookup v.offset with
  | none => simp only [hl] at e; cases e; exact h.refl s
  | some p =>
    simp only [hl] at e
    split at e
    · cases e
    · cases hr : p.LiftAsInParam E ty s with
      | error err => simp only [hr] at e; cases e
      | ok r =>
        obtain ⟨o, u⟩ := r
        cases o with
        | none => simp only [hr] at e; cases e
        | some val =>
          simp only [hr] at e
          cases e
          exact h.trans _ _ _ (Respects_LiftAsInParam h E p ty s _ _ hr) (h.used u _)

theorem Respects_LiftParamPtr (h : ReadFrame R) (E : Env) (v : VarnodeData) :
    Respects R (LiftParamPtr E v) := by
  unfold remill.LiftParamPtr
  split
  · exact Respects_bind h (Respects_LiftOffsetOrReplace h _ _ _) (fun _ => Respects_pure h _)
  · split
    · exact Respects_pure h _
    · intro s b t e; cases e; exact h.unk s _ _
  · exact Respects_bind h (Respects_LiftOffsetOrReplace h _ _ _) (fun _ => Respects_pure h _)
  · intro s b t e; cases e; exact h.uniq s _ _
  · exact Respects_abort _

theorem Respects_LiftInParam (h : ReadFrame R) (E : Env) (v : VarnodeData) (ty : Ty) :
    Respects R (LiftInParam E v ty) :=
  Respects_bind h (Respects_LiftParamPtr h E v) (fun p => Respects_LiftAsInParam h E p ty)

theorem Respects_StoreToMemory (h : ReadFrame R) (E : Env) (val mem index : Value) :
    Respects R (StoreToMemory E val mem index) := by
  intro s b t e
  unfold remill.StoreToMemory at e
  split at e
  · cases e; exact h.emit s _ (by intro _ _ hh; cases hh)
  · cases e; exact h.refl s

theorem Respects_StoreIntoParam (h : WriteFrame R) (E : Env) (p : Parameter) (v : Value) :
    Respects R (p.StoreIntoParam E v) := by
  cases p with
  | RegisterValue q =>
    exact Respects_bind h.1 (h.store _ _) (fun _ => Respects_pure h.1 _)
  | Memory q i =>
    refine Respects_bind h.1 (Respects_CreateLoad h.1 _ _) (fun mem => ?_)
    refine Respects_bind h.1 (Respects_StoreToMemory h.1 _ _ _ _) (fun r => ?_)
    cases r with
    | none => exact Respects_pure h.1 _
    | some nm => exact Respects_bind h.1 (h.store _ _) (fun _ => Respects_pure h.1 _)
  | ConstantValue c => exact Respects_pure h.1 _

theorem Respects_LiftStoreIntoOutParam (h : WriteFrame R) (E : Env) (v : Value)
    (outvar : Option VarnodeData) : Respects R (LiftStoreIntoOutParam E v outvar) := by
  cases outvar with
  | none => exact Respects_pure h.1 _
  | some o =>
    exact Respects_bind h.1 (Respects_LiftParamPtr h.1 E o)
      (fun p => Respects_StoreIntoParam h E p v)

theorem Respects_LiftUnOpWithFloatIntrinsic (h : WriteFrame R) (E : Env) (f : Nat → Nat)
    (outvar : Option VarnodeData) (i : VarnodeData) :
    Respects R (LiftUnOpWithFloatIntrinsic E f outvar i) := by
  refine Respects_bind h.1 (Respects_LiftInParam h.1 _ _ _) (fun r => ?_)
  cases r with
  | none => exact Respects_pure h.1 _
  | some v =>
    exact Respects_bind h.1 (Respects_liftE h.1 _)
      (fun _ => Respects_LiftStoreIntoOutParam h _ _ _)

theorem Respects_LiftIntegerInParam (h : ReadFrame R) (E : Env) (v : VarnodeData) :
    Respects R (LiftIntegerInParam E v) :=
  Respects_LiftInParam h E v _

theorem Respects_LiftUnOp (h : WriteFrame R) (E : Env) (opc : OpCode)
    (outvar : Option VarnodeData) (i : VarnodeData) :
    Respects R (LiftUnOp E opc outvar i) := by
  unfold remill.LiftUnOp
  split <;> repeat' with_reducible (first
    | exact Respects_pure h.1 _
    | exact Respects_abort _
    | exact Respects_liftE h.1 _
    | exact Respects_LiftInParam h.1 _ _ _
    | exact Respects_LiftIntegerInParam h.1 _ _
    | exact Respects_LiftOffsetOrReplace h.1 _ _ _
    | exact Respects_StoreIntoParam h _ _ _
    | exact Respects_LiftStoreIntoOutParam h _ _ _
    | exact Respects_LiftUnOpWithFloatIntrinsic h _ _ _ _
    | apply Respects_bind h.1
    | intro _
    | split)

theorem Respects_viaTable (h : WriteFrame R) (E : Env) (opc : OpCode)
    (outvar : Option VarnodeData) (lhs rhs : VarnodeData) :
    Respects R (LiftIntegerBinOp.viaTable E opc outvar lhs rhs) := by
  unfold remill.LiftIntegerBinOp.viaTable
  repeat' with_reducible (first
    | exact Respects_pure h.1 _
    | exact Respects_abort _
    | exact Respects_liftE h.1 _
    | exact h.store _ _
    | exact Respects_LiftInParam h.1 _ _ _
    | exact Respects_LiftIntegerInParam h.1 _ _
    | exact Respects_LiftOffsetOrReplace h.1 _ _ _
    | exact Respects_LiftParamPtr h.1 _ _
    | exact Respects_LiftAsInParam h.1 _ _ _
    | exact Respects_StoreIntoParam h _ _ _
    | exact Respects_LiftStoreIntoOutParam h _ _ _
    | apply Respects_bind h.1
    | intro _
    | split)

theorem Respects_LiftIntegerBinOp (h : WriteFrame R) (E : Env) (opc : OpCode)
    (outvar : Option VarnodeData) (lhs rhs : VarnodeData) :
    Respects R (LiftIntegerBinOp E opc outvar lhs rhs) := by
  unfold remill.LiftIntegerBinOp
  repeat' with_reducible (first
    | exact Respects_viaTable h _ _ _ _ _
    | exact Respects_pure h.1 _
    | exact Respects_abort _
    | exact Respects_liftE h.1 _
    | exact h.store _ _
    | exact Respects_LiftInParam h.1 _ _ _
    | exact Respects_LiftOffsetOrReplace h.1 _ _ _
    | exact Respects_LiftAsInParam h.1 _ _ _
    | exact Respects_StoreIntoParam h _ _ _
    | apply Respects_bind h.1
    | intro _
    | split)

theorem Respects_LiftBoolBinOp (h : WriteFrame R) (E : Env) (opc : OpCode)
    (outvar : Option VarnodeData) (lhs rhs : VarnodeData) :
    Respects R (LiftBoolBinOp E opc outvar lhs rhs) := by
  unfold remill.LiftBoolBinOp
  repeat' with_reducible (first
    | exact Respects_pure h.1 _
    | exact Respects_abort _
    | exact Respects_liftE h.1 _
    | exact h.store _ _
    | exact Respects_LiftInParam h.1 _ _ _
    | exact Respects_LiftIntegerInParam h.1 _ _
    | exact Respects_LiftOffsetOrReplace h.1 _ _ _
    | exact Respects_LiftParamPtr h.1 _ _
    | exact Respects_LiftAsInParam h.1 _ _ _
    | exact Respects_StoreIntoParam h _ _ _
    | exact Respects_LiftStoreIntoOutParam h _ _ _
    | apply Respects_bind h.1
    | intro _
    | split)

theorem Respects_LiftFloatBinOp (h : WriteFrame R) (E : Env) (opc : OpCode)
    (outvar : Option VarnodeData) (lhs rhs : VarnodeData) :
    Respects R (LiftFloatBinOp E opc outvar lhs rhs) := by
  unfold remill.LiftFloatBinOp
  repeat' with_reducible (first
    | exact Respects_pure h.1 _
    | exact Respects_abort _
    | exact Respects_liftE h.1 _
    | exact h.store _ _
    | exact Respects_LiftInParam h.1 _ _ _
    | exact Respects_LiftIntegerInParam h.1 _ _
    | exact Respects_LiftOffsetOrReplace h.1 _ _ _
    | exact Respects_LiftParamPtr h.1 _ _
    | exact Respects_LiftAsInParam h.1 _ _ _
    | exact Respects_StoreIntoParam h _ _ _
    | exact Respects_LiftStoreIntoOutParam h _ _ _
    | apply Respects_bind h.1
    | intro _
    | split)

theorem Respects_composite (h : WriteFrame R) (E : Env) (opc : OpCode)
    (outvar : Option VarnodeData) (lhs rhs : VarnodeData) :
    Respects R (LiftBinOp.composite E opc outvar lhs rhs) := by
  unfold remill.LiftBinOp.composite
  repeat' with_reducible (first
    | exact Respects_pure h.1 _
    | exact Respects_abort _
    | exact Respects_liftE h.1 _
    | exact h.store _ _
    | exact Respects_LiftInParam h.1 _ _ _
    | exact Respects_LiftIntegerInParam h.1 _ _
    | exact Respects_LiftOffsetOrReplace h.1 _ _ _
    | exact Respects_LiftParamPtr h.1 _ _
    | exact Respects_LiftAsInParam h.1 _ _ _
    | exact Respects_StoreIntoParam h _ _ _
    | exact Respects_LiftStoreIntoOutParam h _ _ _
    | apply Respects_bind h.1
    | intro _
    | split)

theorem Respects_LiftBinOp (h : WriteFrame R) (E : Env) (opc : OpCode)
    (outvar : Option VarnodeData) (lhs rhs : VarnodeData) :
    Respects R (LiftBinOp E opc outvar lhs rhs) := by
  unfold remill.LiftBinOp
  repeat' with_reducible (first
    | exact Respects_LiftIntegerBinOp h _ _ _ _ _
    | exact Respects_LiftBoolBinOp h _ _ _ _ _
    | exact Respects_LiftFloatBinOp h _ _ _ _ _
    | exact Respects_composite h _ _ _ _ _
    | exact Respects_pure h.1 _
    | apply Respects_bind h.1
    | intro _
    | split)

theorem Respects_LiftTernOp (h : WriteFrame R) (E : Env) (opc : OpCode)
    (outvar : Option VarnodeData) (p0 p1 p2 : VarnodeData) :
    Respects R (LiftTernOp E opc outvar p0 p1 p2) := by
  unfold remill.LiftTernOp
  repeat' with_reducible (first
    | exact Respects_pure h.1 _
    | exact Respects_abort _
    | exact Respects_liftE h.1 _
    | exact h.store _ _
    | exact Respects_LiftInParam h.1 _ _ _
    | exact Respects_LiftIntegerInParam h.1 _ _
    | exact Respects_LiftOffsetOrReplace h.1 _ _ _
    | exact Respects_LiftParamPtr h.1 _ _
    | exact Respects_LiftAsInParam h.1 _ _ _
    | exact Respects_StoreIntoParam h _ _ _
    | exact Respects_LiftStoreIntoOutParam h _ _ _
    | apply Respects_bind h.1
    | intro _
    | split)

theorem Respects_phiIncoming (h : ReadFrame R) (E : Env) (ty : Ty) (vars : List VarnodeData) :
    Respects R (phiIncoming E ty vars) := by
  induction vars with
  | nil => exact Respects_pure h _
  | cons v rest ih =>
    unfold remill.phiIncoming
    repeat' with_reducible (first
      | exact ih
      | exact Respects_pure h _
      | exact Respects_abort _
      | exact Respects_LiftInParam h _ _ _
      | apply Respects_bind h
      | intro _
      | split)

theorem Respects_LiftVariadicOp (h : WriteFrame R) (E : Env) (opc : OpCode)
    (outvar : Option VarnodeData) (vars : List VarnodeData) :
    Respects R (LiftVariadicOp E opc outvar vars) := by
  unfold remill.LiftVariadicOp
  repeat' with_reducible (first
    | exact Respects_phiIncoming h.1 _ _ _
    | exact Respects_pure h.1 _
    | exact Respects_abort _
    | exact Respects_LiftStoreIntoOutParam h _ _ _
    | apply Respects_bind h.1
    | intro _
    | split)

theorem Respects_ApplyEqualityClaim (h : ClaimFrame R) (E : Env) (l r : VarnodeData) :
    Respects R (ApplyEqualityClaim E l r) := by
  unfold remill.ApplyEqualityClaim
  split
  · refine Respects_bind h.1.1 (Respects_LiftParamPtr h.1.1 _ _) (fun p => ?_)
    intro s b t e
    dsimp only at e
    split at e
    · cases e; exact h.refl s
    · rename_i hnone
      cases e
      exact h.claim s _ _ hnone
  · exact Respects_abort _

theorem SameStatus_frame : ClaimFrame SameStatus where
  refl := fun _ => ⟨rfl, rfl⟩
  trans := fun _ _ _ h1 h2 => ⟨h2.1.trans h1.1, h2.2.trans h1.2⟩
  emit := fun _ _ _ => ⟨rfl, rfl⟩
  uniq := fun _ _ _ => ⟨rfl, rfl⟩
  unk := fun _ _ _ => ⟨rfl, rfl⟩
  used := fun _ _ => ⟨rfl, rfl⟩
  store := fun _ _ s a t e => by cases e; exact ⟨rfl, rfl⟩
  claim := fun _ _ _ _ => ⟨rfl, rfl⟩

theorem UpdateStatus_eq (st : LiftStatus) (opc : OpCode) (s t : PcodeToLLVMEmitIntoBlock)
    (e : UpdateStatus st opc s = .ok ((), t)) :
    t.status = degrade s.status st ∧ t.reported = s.reported ++ [st] := by
  unfold UpdateStatus at e
  unfold degrade
  split at e <;> cases e <;> simp_all

theorem StatusStep_update (st : LiftStatus) (opc : OpCode) : StatusStep (UpdateStatus st opc) :=
  fun s t e => Or.inl ⟨st, UpdateStatus_eq st opc s t e⟩

theorem StatusStep_handler (x : M LiftStatus) (opc : OpCode) (hx : Respects SameStatus x) :
    StatusStep (x >>= fun st => UpdateStatus st opc) := by
  intro s t e
  rw [bind_eq] at e
  cases hxs : x s with
  | error err => rw [hxs] at e; cases e
  | ok r =>
    obtain ⟨st, u⟩ := r
    rw [hxs] at e
    have h1 := hx s st u hxs
    have h2 := UpdateStatus_eq st opc u t e
    exact Or.inl ⟨st, by rw [h2.1, h1.1], by rw [h2.2, h1.2]⟩

theorem StatusStep_claim (E : Env) (l r : VarnodeData) :
    StatusStep (ApplyEqualityClaim E l r) :=
  fun s t e => Or.inr (Respects_ApplyEqualityClaim SameStatus_frame E l r s _ t e)

theorem dump_status (E : Env) (op : PcodeOp) : StatusStep (dump E op) := by
  have hW : WriteFrame SameStatus := SameStatus_frame.toWriteFrame
  unfold dump
  simp only [user_op_names_guard]
  repeat' with_reducible (first
    | exact StatusStep_update _ _
    | exact StatusStep_handler _ _ (Respects_LiftVariadicOp hW _ _ _ _)
    | exact StatusStep_handler _ _ (Respects_LiftUnOp hW _ _ _ _)
    | exact StatusStep_handler _ _ (Respects_LiftBinOp hW _ _ _ _ _)
    | exact StatusStep_handler _ _ (Respects_LiftTernOp hW _ _ _ _ _ _)
    | exact StatusStep_claim _ _ _
    | split)

end respects

/-! ## Running status (`UpdateStatus`, `dump`, `GetStatus`) -/

theorem oneInstruction_status (E : Env) (ops : List PcodeOp) :
    ∀ s t, oneInstruction E ops s = .ok ((), t) →
      ∃ l, t.reported = s.reported ++ l ∧ t.status = l.foldl degrade s.status := by
  induction ops with
  | nil =>
    intro s t e
    cases e
    exact ⟨[], by simp, rfl⟩
  | cons op rest ih =>
    intro s t e
    unfold oneInstruction at e
    rw [bind_eq] at e
    cases hd : dump E op s with
    | error err => rw [hd] at e; cases e
    | ok r =>
      obtain ⟨⟨⟩, u⟩ := r
      rw [hd] at e
      obtain ⟨l, hl1, hl2⟩ := ih u t e
      rcases dump_status E op s u hd with ⟨st, h1, h2⟩ | ⟨h1, h2⟩
      · exact ⟨st :: l, by rw [hl1, h2]; simp, by rw [hl2, h1]; rfl⟩
      · exact ⟨l, by rw [hl1, h2], by rw [hl2, h1]⟩

theorem foldl_degrade_success (l : List LiftStatus) (cur : LiftStatus)
    (h : ∀ st ∈ l, st = .kLiftedInstruction) : l.foldl degrade cur = cur := by
  induction l generalizing cur with
  | nil => rfl
  | cons a l ih =>
    have ha : a = .kLiftedInstruction := h a (List.mem_cons_self _ _)
    subst ha
    exact ih _ (fun st hst => h st (List.mem_cons_of_mem _ hst))

theorem foldl_degrade_last (pre post : List LiftStatus) (st cur : LiftStatus)
    (hst : st ≠ .kLiftedInstruction) (h : ∀ x ∈ post, x = .kLiftedInstruction) :
    (pre ++ st :: post).foldl degrade cur = st := by
  rw [List.foldl_append, List.foldl_cons]
  have : degrade (pre.foldl degrade cur) st = st := by simp [degrade, hst]
  rw [this]
  exact foldl_degrade_success post st h

theorem foldl_degrade_ne (l : List LiftStatus) (cur : LiftStatus)
    (h : cur ≠ .kLiftedInstruction) : l.foldl degrade cur ≠ .kLiftedInstruction := by
  induction l generalizing cur with
  | nil => exact h
  | cons a l ih =>
    apply ih
    unfold degrade
    split <;> assumption

theorem foldl_degrade_eq_success (l : List LiftStatus) :
    l.foldl degrade .kLiftedInstruction = .kLiftedInstruction ↔
      ∀ st ∈ l, st = .kLiftedInstruction := by
  constructor
  · induction l with
    | nil => intro _ st hst; cases hst
    | cons a l ih =>
      intro h st hst
      by_cases ha : a = .kLiftedInstruction
      · subst ha
        rcases List.mem_cons.mp hst with rfl | hm
        · rfl
        · exact ih h st hm
      · exfalso
        have : degrade .kLiftedInstruction a = a := by simp [degrade, ha]
        rw [List.foldl_cons, this] at h
        exact foldl_degrade_ne l a ha h
  · exact foldl_degrade_success l _

theorem foldl_degrade_floor (l : List LiftStatus)
    (h : ¬ ∃ pre mid post, l =
      pre ++ .kLiftedInvalidInstruction :: (mid ++ .kLiftedUnsupportedInstruction :: post)) :
    ∀ st ∈ l, l.foldl degrade .kLiftedInstruction ≤ st := by
  induction l using List.reverseRecOn with
  | nil => intro st hst; cases hst
  | append_singleton l x ih =>
    have hl : ¬ ∃ pre mid post, l =
        pre ++ .kLiftedInvalidInstruction :: (mid ++ .kLiftedUnsupportedInstruction :: post) := by
      rintro ⟨pre, mid, post, rfl⟩
      exact h ⟨pre, mid, post ++ [x], by simp⟩
    intro st hst
    rw [List.foldl_append, List.foldl_cons, List.foldl_nil]
    cases x with
    | kLiftedInstruction =>
      rcases List.mem_append.mp hst with hm | hm
      · exact ih hl st hm
      · simp at hm
        subst hm
        show LiftStatus.rank _ ≤ 2
        generalize degrade (List.foldl degrade .kLiftedInstruction l) .kLiftedInstruction = r
        cases r <;> decide
    | kLiftedInvalidInstruction =>
      show LiftStatus.rank .kLiftedInvalidInstruction ≤ st.rank
      exact Nat.zero_le _
    | kLiftedUnsupportedInstruction =>
      show LiftStatus.rank .kLiftedUnsupportedInstruction ≤ st.rank
      rcases List.mem_append.mp hst with hm | hm
      · cases st with
        | kLiftedInvalidInstruction =>
          exfalso
          obtain ⟨pre, mid, rfl⟩ := List.append_of_mem hm
          exact h ⟨pre, mid, [], by simp⟩
        | kLiftedUnsupportedInstruction => decide
        | kLiftedInstruction => decide
      · simp at hm
        subst hm
        decide

/-- C1, counterexample: with a store intrinsic that refuses, `COPY` into `ram`
reports Invalid and a following `CALLOTHER` without operands reports Unsupported;
`GetStatus()` then returns Unsupported, which is above the per-op status Invalid. -/
theorem C1_final_status_above_an_op_status :
    (stateOf (oneInstruction refusingEnv [copyToRam, callotherNoOperands]
        (.new zeroBlock)) (.new zeroBlock)).reported =
      [.kLiftedInvalidInstruction, .kLiftedUnsupportedInstruction] ∧
    abortOf (oneInstruction refusingEnv [copyToRam, callotherNoOperands]
        (.new zeroBlock)) = none ∧
    GetStatus (stateOf (oneInstruction refusingEnv [copyToRam, callotherNoOperands]
        (.new zeroBlock)) (.new zeroBlock)) = .kLiftedUnsupportedInstruction ∧
    ¬ (GetStatus (stateOf (oneInstruction refusingEnv [copyToRam, callotherNoOperands]
        (.new zeroBlock)) (.new zeroBlock)) ≤ LiftStatus.kLiftedInvalidInstruction) := by
  decide

/-- C1, amended: for every sequence of ops dispatched through `dump` within one
instruction, the status returned by `GetStatus()` is Success when every per-op
status is Success and otherwise is the status of the last op that did not report
Success; it is below or equal to every per-op status whenever no op reporting
Unsupported comes after an op reporting Invalid. -/
theorem C1_final_status_is_last_failure (E : Env) (ops : List PcodeOp) (b : Block)
    (t : PcodeToLLVMEmitIntoBlock)
    (h : oneInstruction E ops (.new b) = .ok ((), t)) :
    ((∀ st ∈ t.reported, st = .kLiftedInstruction) → GetStatus t = .kLiftedInstruction) ∧
    (∀ pre st post, t.reported = pre ++ st :: post → st ≠ .kLiftedInstruction →
      (∀ x ∈ post, x = .kLiftedInstruction) → GetStatus t = st) ∧
    ((¬ ∃ pre mid post, t.reported =
        pre ++ .kLiftedInvalidInstruction :: (mid ++ .kLiftedUnsupportedInstruction :: post)) →
      ∀ st ∈ t.reported, GetStatus t ≤ st) := by
  obtain ⟨l, hl1, hl2⟩ := oneInstruction_status E ops _ t h
  have hr : t.reported = l := by simpa [PcodeToLLVMEmitIntoBlock.new] using hl1
  have hs : GetStatus t = l.foldl degrade .kLiftedInstruction := hl2
  rw [hr, hs]
  refine ⟨fun hall => foldl_degrade_success l _ hall, ?_, fun hno => foldl_degrade_floor l hno⟩
  intro pre st post e hst hpost
  rw [e]
  exact foldl_degrade_last pre post st _ hst hpost

/-- C1, amended, at a concrete run: `COPY out=EAX in=const(7, size 4)` followed by a
`CALLOTHER` without operands ends with status Unsupported, the status of the last
failing op, which here is the floor of the per-op statuses. -/
theorem C1_final_status_is_last_failure_witness :
    GetStatus (stateOf (oneInstruction sampleEnv [copy7ToEAX, callotherNoOperands]
        (.new zeroBlock)) (.new zeroBlock)) = .kLiftedUnsupportedInstruction ∧
    ∀ st ∈ (stateOf (oneInstruction sampleEnv [copy7ToEAX, callotherNoOperands]
        (.new zeroBlock)) (.new zeroBlock)).reported,
      GetStatus (stateOf (oneInstruction sampleEnv [copy7ToEAX, callotherNoOperands]
        (.new zeroBlock)) (.new zeroBlock)) ≤ st :=
  have h := C1_final_status_is_last_failure sampleEnv [copy7ToEAX, callotherNoOperands]
    zeroBlock (stateOf (oneInstruction sampleEnv [copy7ToEAX, callotherNoOperands]
        (.new zeroBlock)) (.new zeroBlock)) rfl
  ⟨h.2.1 [.kLiftedInstruction] .kLiftedUnsupportedInstruction [] rfl (by decide)
      (by intro x hx; cases hx),
    h.2.2 (by
      rintro ⟨pre, mid, post, e⟩
      have e2 : [LiftStatus.kLiftedInstruction, LiftStatus.kLiftedUnsupportedInstruction] =
          pre ++ .kLiftedInvalidInstruction ::
            (mid ++ .kLiftedUnsupportedInstruction :: post) := e
      have hm : LiftStatus.kLiftedInvalidInstruction ∈
          [LiftStatus.kLiftedInstruction, LiftStatus.kLiftedUnsupportedInstruction] := by
        rw [e2]; simp
      revert hm
      decide)⟩

theorem degrade_ne (cur st : LiftStatus) (h : cur ≠ .kLiftedInstruction) :
    degrade cur st ≠ .kLiftedInstruction := by
  unfold degrade
  split <;> assumption

/-- C2: the running status starts as Success; a `dump` call entered with a
non-Success status never leaves with Success, whatever the op, and the same holds
for any sequence of later calls; so after all ops of an instruction the status is
Success exactly when every dispatched op reported Success. -/
theorem C2_status_never_returns_to_success (E : Env) :
    (∀ b, GetStatus (PcodeToLLVMEmitIntoBlock.new b) = .kLiftedInstruction) ∧
    (∀ op s t, dump E op s = .ok ((), t) →
      GetStatus s ≠ .kLiftedInstruction → GetStatus t ≠ .kLiftedInstruction) ∧
    (∀ ops s t, oneInstruction E ops s = .ok ((), t) →
      GetStatus s ≠ .kLiftedInstruction → GetStatus t ≠ .kLiftedInstruction) ∧
    (∀ ops b t, oneInstruction E ops (.new b) = .ok ((), t) →
      (GetStatus t = .kLiftedInstruction ↔ ∀ st ∈ t.reported, st = .kLiftedInstruction)) := by
  refine ⟨fun _ => rfl, ?_, ?_, ?_⟩
  · intro op s t e hs
    rcases dump_status E op s t e with ⟨st, h1, _⟩ | ⟨h1, _⟩
    · show t.status ≠ _
      rw [h1]
      exact degrade_ne _ _ hs
    · show t.status ≠ _
      rw [h1]
      exact hs
  · intro ops s t e hs
    obtain ⟨l, _, hl2⟩ := oneInstruction_status E ops s t e
    show t.status ≠ _
    rw [hl2]
    exact foldl_degrade_ne l _ hs
  · intro ops b t e
    obtain ⟨l, hl1, hl2⟩ := oneInstruction_status E ops _ t e
    have hr : t.reported = l := by simpa [PcodeToLLVMEmitIntoBlock.new] using hl1
    have hs : GetStatus t = l.foldl degrade .kLiftedInstruction := hl2
    rw [hr, hs]
    exact foldl_degrade_eq_success l

/-- C2 at a concrete run: after a `CALLOTHER` without operands made the status
Unsupported, the successful `COPY out=EAX in=const(7, size 4)` leaves it
non-Success, and the final status is not Success because one op did not report
Success. -/
theorem C2_status_never_returns_to_success_witness :
    GetStatus (stateOf (dump sampleEnv copy7ToEAX
        (stateOf (dump sampleEnv callotherNoOperands (.new zeroBlock)) (.new zeroBlock)))
        (.new zeroBlock)) ≠ .kLiftedInstruction ∧
    (stateOf (oneInstruction sampleEnv [callotherNoOperands, copy7ToEAX]
        (.new zeroBlock)) (.new zeroBlock)).reported =
      [.kLiftedUnsupportedInstruction, .kLiftedInstruction] ∧
    (GetStatus (stateOf (oneInstruction sampleEnv [callotherNoOperands, copy7ToEAX]
        (.new zeroBlock)) (.new zeroBlock)) = .kLiftedInstruction ↔
      ∀ st ∈ (stateOf (oneInstruction sampleEnv [callotherNoOperands, copy7ToEAX]
        (.new zeroBlock)) (.new zeroBlock)).reported, st = .kLiftedInstruction) :=
  ⟨(C2_status_never_returns_to_success sampleEnv).2.1 copy7ToEAX
      (stateOf (dump sampleEnv callotherNoOperands (.new zeroBlock)) (.new zeroBlock))
      (stateOf (dump sampleEnv copy7ToEAX
        (stateOf (dump sampleEnv callotherNoOperands (.new zeroBlock)) (.new zeroBlock)))
        (.new zeroBlock))
      rfl (by decide),
    by decide,
    (C2_status_never_returns_to_success sampleEnv).2.2.2 [callotherNoOperands, copy7ToEAX]
      zeroBlock (stateOf (oneInstruction sampleEnv [callotherNoOperands, copy7ToEAX]
        (.new zeroBlock)) (.new zeroBlock)) rfl⟩

/-! ## Scratch cells (`UniqueRegSpace::GetUniquePtr`) -/

theorem LiftOffsetOrReplace_literal (E : Env) (v : VarnodeData) (ty : Ty)
    (s : PcodeToLLVMEmitIntoBlock)
    (h : s.replacement_cont.current_replacements.lookup v.offset = none) :
    LiftOffsetOrReplace E v ty s = .ok (ConstantInt_get ty v.offset, s) := by
  simp [LiftOffsetOrReplace, h]

theorem LiftParamPtr_const (E : Env) (v : VarnodeData) (s : PcodeToLLVMEmitIntoBlock)
    (hc : v.space = .const)
    (h : s.replacement_cont.current_replacements.lookup v.offset = none) :
    LiftParamPtr E v s =
      .ok (.ConstantValue (ConstantInt_get (.int (v.size * 8)) v.offset), s) := by
  simp [LiftParamPtr, hc, bind_eq, pure_eq, LiftOffsetOrReplace_literal E v _ s h]

theorem LiftStoreIntoOutParam_const (E : Env) (x : Value) (v : VarnodeData)
    (s : PcodeToLLVMEmitIntoBlock) (hc : v.space = .const)
    (h : s.replacement_cont.current_replacements.lookup v.offset = none) :
    LiftStoreIntoOutParam E x (some v) s = .ok (.kLiftedUnsupportedInstruction, s) := by
  simp [LiftStoreIntoOutParam, LiftRequireOutParam, bind_eq, LiftParamPtr_const E v s hc h,
    Parameter.StoreIntoParam, pure_eq]

theorem LiftInParam_const (E : Env) (v : VarnodeData) (ty : Ty)
    (s : PcodeToLLVMEmitIntoBlock) (hc : v.space = .const)
    (h : s.replacement_cont.current_replacements.lookup v.offset = none) :
    LiftInParam E v ty s =
      .ok (if ty = .int (v.size * 8) then some (ConstantInt_get (.int (v.size * 8)) v.offset)
        else none, s) := by
  simp only [LiftInParam, bind_eq, LiftParamPtr_const E v s hc h, Parameter.LiftAsInParam,
    ConstantInt_get]
  by_cases ht : ty = .int (v.size * 8)
  · simp [ht, pure_eq]
  · simp [ht, pure_eq]

theorem SameClaims_frame : WriteFrame SameClaims where
  refl := fun _ => rfl
  trans := fun _ _ _ h1 h2 => Eq.trans h2 h1
  emit := fun _ _ _ => rfl
  uniq := fun _ _ _ => rfl
  unk := fun _ _ _ => rfl
  used := fun _ _ => rfl
  store := fun _ _ s a t e => by cases e; rfl

theorem EndsUnsupported_pure (o : Nat) :
    EndsUnsupported o (Pure.pure LiftStatus.kLiftedUnsupportedInstruction) := by
  intro s a t _ e
  cases e
  rfl

theorem EndsUnsupported_abort (o : Nat) (e : Abort) : EndsUnsupported o (abort e) := by
  intro s a t _ h
  cases h

theorem EndsUnsupported_bind {α : Type} (o : Nat) {x : M α} {f : α → M LiftStatus}
    (hx : Respects SameClaims x) (hf : ∀ a, EndsUnsupported o (f a)) :
    EndsUnsupported o (x >>= f) := by
  intro s b u hs e
  rw [bind_eq] at e
  cases hxs : x s with
  | error err => rw [hxs] at e; cases e
  | ok r =>
    obtain ⟨a, t⟩ := r
    rw [hxs] at e
    have ht : NoClaim o t := by
      unfold NoClaim
      rw [hx s a t hxs]
      exact hs
    exact hf a t b u ht e

theorem EndsUnsupported_chain (o : Nat) {x : M LiftStatus} {f : LiftStatus → M LiftStatus}
    (hx : Respects SameClaims x) (hx2 : EndsUnsupported o x)
    (hf : EndsUnsupported o (f .kLiftedUnsupportedInstruction)) :
    EndsUnsupported o (x >>= f) := by
  intro s b u hs e
  rw [bind_eq] at e
  cases hxs : x s with
  | error err => rw [hxs] at e; cases e
  | ok r =>
    obtain ⟨a, t⟩ := r
    rw [hxs] at e
    have ht : NoClaim o t := by
      unfold NoClaim
      rw [hx s a t hxs]
      exact hs
    have ha := hx2 s a t hs hxs
    subst ha
    exact hf t b u ht e

theorem EndsUnsupported_store (E : Env) (x : Value) (v : VarnodeData) (hc : v.space = .const) :
    EndsUnsupported v.offset (LiftStoreIntoOutParam E x (some v)) := by
  intro s a t hs e
  rw [LiftStoreIntoOutParam_const E x v s hc hs] at e
  cases e
  rfl

theorem EndsUnsupported_floatIntrinsic (E : Env) (f : Nat → Nat) (v i : VarnodeData)
    (hc : v.space = .const) :
    EndsUnsupported v.offset (LiftUnOpWithFloatIntrinsic E f (some v) i) := by
  have hR := SameClaims_frame
  unfold LiftUnOpWithFloatIntrinsic
  repeat' with_reducible (first
    | exact EndsUnsupported_pure _
    | exact EndsUnsupported_store E _ v hc
    | exact Respects_liftE hR.1 _
    | exact Respects_LiftInParam hR.1 _ _ _
    | apply EndsUnsupported_bind
    | intro _
    | split)

theorem EndsUnsupported_LiftUnOp (E : Env) (opc : OpCode) (v i : VarnodeData)
    (hc : v.space = .const) (hopc : ignoresOutvar opc = false) :
    EndsUnsupported v.offset (LiftUnOp E opc (some v) i) := by
  have hR := SameClaims_frame
  unfold remill.LiftUnOp
  split <;> repeat' with_reducible (first
    | exact EndsUnsupported_pure _
    | exact EndsUnsupported_abort _ _
    | exact EndsUnsupported_store E _ v hc
    | exact EndsUnsupported_floatIntrinsic E _ v _ hc
    | exact Respects_liftE hR.1 _
    | exact Respects_LiftInParam hR.1 _ _ _
    | exact Respects_LiftIntegerInParam hR.1 _ _
    | exact absurd hopc (by decide)
    | apply EndsUnsupported_bind
    | intro _
    | split)

theorem EndsUnsupported_viaTable (E : Env) (opc : OpCode) (v lhs rhs : VarnodeData)
    (hc : v.space = .const) :
    EndsUnsupported v.offset (LiftIntegerBinOp.viaTable E opc (some v) lhs rhs) := by
  have hR := SameClaims_frame
  unfold remill.LiftIntegerBinOp.viaTable
  repeat' with_reducible (first
    | exact EndsUnsupported_pure _
    | exact EndsUnsupported_store E _ v hc
    | exact Respects_liftE hR.1 _
    | exact Respects_LiftIntegerInParam hR.1 _ _
    | apply EndsUnsupported_bind
    | intro _
    | split)

theorem EndsUnsupported_LiftIntegerBinOp (E : Env) (opc : OpCode) (v lhs rhs : VarnodeData)
    (hc : v.space = .const) (hopc : ignoresOutvar opc = false) :
    EndsUnsupported v.offset (LiftIntegerBinOp E opc (some v) lhs rhs) := by
  unfold remill.LiftIntegerBinOp
  split
  · rename_i h
    subst h
    exact absurd hopc (by decide)
  · exact EndsUnsupported_viaTable E opc v lhs rhs hc

theorem EndsUnsupported_LiftBoolBinOp (E : Env) (opc : OpCode) (v lhs rhs : VarnodeData)
    (hc : v.space = .const) :
    EndsUnsupported v.offset (LiftBoolBinOp E opc (some v) lhs rhs) := by
  have hR := SameClaims_frame
  unfold remill.LiftBoolBinOp
  repeat' with_reducible (first
    | exact EndsUnsupported_pure _
    | exact EndsUnsupported_store E _ v hc
    | exact Respects_liftE hR.1 _
    | exact Respects_LiftInParam hR.1 _ _ _
    | apply EndsUnsupported_bind
    | intro _
    | split)

theorem EndsUnsupported_LiftFloatBinOp (E : Env) (opc : OpCode) (v lhs rhs : VarnodeData)
    (hc : v.space = .const) :
    EndsUnsupported v.offset (LiftFloatBinOp E opc (some v) lhs rhs) := by
  have hR := SameClaims_frame
  unfold remill.LiftFloatBinOp
  repeat' with_reducible (first
    | exact EndsUnsupported_pure _
    | exact EndsUnsupported_store E _ v hc
    | exact Respects_liftE hR.1 _
    | exact Respects_LiftInParam hR.1 _ _ _
    | apply EndsUnsupported_bind
    | intro _
    | split)

theorem EndsUnsupported_storeIntoConst (E : Env) (x : Value) (v : VarnodeData)
    (hc : v.space = .const) :
    EndsUnsupported v.offset (LiftParamPtr E v >>= fun p => p.StoreIntoParam E x) :=
  EndsUnsupported_store E x v hc

theorem EndsUnsupported_composite (E : Env) (opc : OpCode) (v lhs rhs : VarnodeData)
    (hc : v.space = .const) :
    EndsUnsupported v.offset (LiftBinOp.composite E opc (some v) lhs rhs) := by
  have hR := SameClaims_frame
  unfold remill.LiftBinOp.composite
  split
  · rename_i o ho
    cases ho
    repeat' with_reducible (first
      | exact EndsUnsupported_pure _
      | exact EndsUnsupported_storeIntoConst E _ v hc
      | exact Respects_LiftInParam hR.1 _ _ _
      | exact Respects_LiftAsInParam hR.1 _ _ _
      | apply EndsUnsupported_bind
      | intro _
      | split)
  · repeat' with_reducible (first
      | exact EndsUnsupported_pure _
      | exact EndsUnsupported_abort _ _
      | exact EndsUnsupported_store E _ v hc
      | exact Respects_liftE hR.1 _
      | exact Respects_LiftInParam hR.1 _ _ _
      | apply EndsUnsupported_bind
      | intro _
      | split)
  · repeat' with_reducible (first
      | exact EndsUnsupported_pure _
      | exact EndsUnsupported_store E _ v hc
      | exact Respects_liftE hR.1 _
      | exact Respects_LiftInParam hR.1 _ _ _
      | apply EndsUnsupported_bind
      | intro _
      | split)
  · exact EndsUnsupported_pure _

theorem EndsUnsupported_LiftBinOp (E : Env) (opc : OpCode) (v lhs rhs : VarnodeData)
    (hc : v.space = .const) (hopc : ignoresOutvar opc = false) :
    EndsUnsupported v.offset (LiftBinOp E opc (some v) lhs rhs) := by
  have hR := SameClaims_frame
  unfold remill.LiftBinOp
  refine EndsUnsupported_chain _ (Respects_LiftIntegerBinOp hR _ _ _ _ _)
    (EndsUnsupported_LiftIntegerBinOp E opc v lhs rhs hc hopc) ?_
  split
  · exact EndsUnsupported_pure _
  refine EndsUnsupported_chain _ (Respects_LiftBoolBinOp hR _ _ _ _ _)
    (EndsUnsupported_LiftBoolBinOp E opc v lhs rhs hc) ?_
  split
  · exact EndsUnsupported_pure _
  refine EndsUnsupported_chain _ (Respects_LiftFloatBinOp hR _ _ _ _ _)
    (EndsUnsupported_LiftFloatBinOp E opc v lhs rhs hc) ?_
  split
  · exact EndsUnsupported_pure _
  exact EndsUnsupported_composite E opc v lhs rhs hc

theorem EndsUnsupported_LiftTernOp (E : Env) (opc : OpCode) (v p0 p1 p2 : VarnodeData)
    (hc : v.space = .const) (hopc : ignoresOutvar opc = false) :
    EndsUnsupported v.offset (LiftTernOp E opc (some v) p0 p1 p2) := by
  have hR := SameClaims_frame
  unfold remill.LiftTernOp
  split <;> repeat' with_reducible (first
    | exact EndsUnsupported_pure _
    | exact EndsUnsupported_store E _ v hc
    | exact Respects_liftE hR.1 _
    | exact Respects_LiftInParam hR.1 _ _ _
    | exact Respects_LiftIntegerInParam hR.1 _ _
    | exact absurd hopc (by decide)
    | apply EndsUnsupported_bind
    | intro _
    | split)

theorem EndsUnsupported_LiftVariadicOp (E : Env) (opc : OpCode) (v : VarnodeData)
    (vars : List VarnodeData) (hc : v.space = .const) :
    EndsUnsupported v.offset (LiftVariadicOp E opc (some v) vars) := by
  have hR := SameClaims_frame
  unfold remill.LiftVariadicOp
  repeat' with_reducible (first
    | exact EndsUnsupported_pure _
    | exact EndsUnsupported_abort _ _
    | exact EndsUnsupported_store E _ v hc
    | exact Respects_phiIncoming hR.1 _ _ _
    | apply EndsUnsupported_bind
    | intro _
    | split)

theorem ReportsUnsupported_update (o : Nat) (opc : OpCode) :
    ReportsUnsupported o (UpdateStatus .kLiftedUnsupportedInstruction opc) := by
  intro s t _ e
  have h := UpdateStatus_eq _ _ s t e
  exact ⟨by rw [GetStatus, h.1]; rfl, h.2⟩

theorem ReportsUnsupported_handler (o : Nat) (opc : OpCode) (x : M LiftStatus)
    (hx : EndsUnsupported o x) (hR : Respects SameStatus x) :
    ReportsUnsupported o (x >>= fun st => UpdateStatus st opc) := by
  intro s t hs e
  rw [bind_eq] at e
  cases hxs : x s with
  | error err => rw [hxs] at e; cases e
  | ok r =>
    obtain ⟨st, u⟩ := r
    rw [hxs] at e
    have ha := hx s st u hs hxs
    subst ha
    have h1 := hR s _ u hxs
    have h2 := UpdateStatus_eq _ opc u t e
    exact ⟨by rw [GetStatus, h2.1]; rfl, by rw [h2.2, h1.2]⟩

theorem ReportsUnsupported_dump (E : Env) (opc : OpCode) (v : VarnodeData)
    (vars : List VarnodeData) (hc : v.space = .const) (hopc : ignoresOutvar opc = false) :
    ReportsUnsupported v.offset (dump E ⟨opc, some v, vars⟩) := by
  have hW : WriteFrame SameStatus := SameStatus_frame.toWriteFrame
  have hco : opc ≠ .CPUI_CALLOTHER := by
    rintro rfl
    exact absurd hopc (by decide)
  unfold remill.dump
  simp only [user_op_names_guard]
  repeat' with_reducible (first
    | exact ReportsUnsupported_update _ _
    | exact ReportsUnsupported_handler _ _ _
        (EndsUnsupported_LiftVariadicOp E _ v _ hc) (Respects_LiftVariadicOp hW _ _ _ _)
    | exact ReportsUnsupported_handler _ _ _
        (EndsUnsupported_LiftUnOp E _ v _ hc hopc) (Respects_LiftUnOp hW _ _ _ _)
    | exact ReportsUnsupported_handler _ _ _
        (EndsUnsupported_LiftBinOp E _ v _ _ hc hopc) (Respects_LiftBinOp hW _ _ _ _ _)
    | exact ReportsUnsupported_handler _ _ _
        (EndsUnsupported_LiftTernOp E _ v _ _ _ hc hopc) (Respects_LiftTernOp hW _ _ _ _ _ _)
    | contradiction
    | split)

theorem dump_ignores_outvar (E : Env) (opc : OpCode) (outvar : Option VarnodeData)
    (vars : List VarnodeData) (h : ignoresOutvar opc = true) :
    dump E ⟨opc, outvar, vars⟩ = dump E ⟨opc, none, vars⟩ := by
  cases opc <;> simp only [ignoresOutvar, reduceCtorEq] at h <;>
    (match vars with
      | [] | [_] | [_, _] | [_, _, _] | _ :: _ :: _ :: _ :: _ =>
        simp [dump, LiftUnOp, LiftBinOp, LiftIntegerBinOp, LiftIntegerBinOp.viaTable,
          INTEGER_BINARY_OPS, LiftBoolBinOp, boolOpFunc, LiftFloatBinOp, floatOpFunc,
          LiftBinOp.composite, LiftTernOp])

/-- C7: for a const-space varnode `(o, s)` with no active claim on `o`: a read at a
requested type `T` returns a value exactly when `T` is the integer type of `8·s`
bits, the value then being the constant `o` of that type; a read at any other type
returns none; a write returns Unsupported and leaves the lifter and the block as
they were (no store is emitted); and every op that has this varnode as outvar
reports Unsupported: every run of `dump` that returns does so, and a `COPY` or `CAST`
of a readable input returns, with Unsupported as status and the block as the read
left it.  The opcodes that have no outvar (the branches, `STORE`, `CALLOTHER`) are
dispatched identically whatever outvar is handed in with them. -/
theorem C7_const_cell_read_write (E : Env) (v : VarnodeData) (s : PcodeToLLVMEmitIntoBlock)
    (hc : v.space = .const) (h : NoClaim v.offset s) :
    (∀ T x, LiftInParam E v T s = .ok (some x, s) ↔
      T = .int (8 * v.size) ∧ x = ⟨.int (8 * v.size), v.offset % 2 ^ (8 * v.size)⟩) ∧
    (∀ T, T ≠ .int (8 * v.size) → LiftInParam E v T s = .ok (none, s)) ∧
    (∀ x, LiftStoreIntoOutParam E x (some v) s = .ok (.kLiftedUnsupportedInstruction, s)) ∧
    (∀ opc vars t, ignoresOutvar opc = false →
      dump E ⟨opc, some v, vars⟩ s = .ok ((), t) →
      GetStatus t = .kLiftedUnsupportedInstruction ∧
        t.reported = s.reported ++ [.kLiftedUnsupportedInstruction]) ∧
    (∀ opc i x s1, opc = .CPUI_COPY ∨ opc = .CPUI_CAST →
      LiftInParam E i (.int (i.size * 8)) s = .ok (some x, s1) → NoClaim v.offset s1 →
      dump E ⟨opc, some v, [i]⟩ s =
        .ok ((), { s1 with
          status := .kLiftedUnsupportedInstruction
          reported := s1.reported ++ [.kLiftedUnsupportedInstruction] })) ∧
    (∀ opc vars, ignoresOutvar opc = true →
      dump E ⟨opc, some v, vars⟩ = dump E ⟨opc, none, vars⟩) := by
  have hm : v.size * 8 = 8 * v.size := Nat.mul_comm _ _
  refine ⟨?_, ?_, ?_, ?_, ?_, ?_⟩
  · intro T x
    rw [LiftInParam_const E v T s hc h, hm]
    by_cases hT : T = .int (8 * v.size)
    · subst hT
      simp [ConstantInt_get, Ty.bits, eq_comm]
    · simp [hT]
  · intro T hT
    rw [LiftInParam_const E v T s hc h, hm]
    simp [hT]
  · intro x
    exact LiftStoreIntoOutParam_const E x v s hc h
  · intro opc vars t hopc e
    exact ReportsUnsupported_dump E opc v vars hc hopc s t h e
  · intro opc i x s1 hopc hread h1
    rcases hopc with rfl | rfl <;>
      simp [dump, LiftUnOp, bind_eq, hread, LiftStoreIntoOutParam_const E x v s1 hc h1,
        UpdateStatus]
  · intro opc vars hopc
    exact dump_ignores_outvar E opc (some v) vars hopc

/-- C7 at concrete inputs: `const(7, size 4)` read at `i32` gives the constant 7;
a store into it and `INT_ADD out=const(0, size 4) in0=EAX in1=ECX` both end
Unsupported. -/
theorem C7_const_cell_read_write_witness :
    LiftInParam sampleEnv ⟨.const, 7, 4⟩ (.int 32) (.new zeroBlock) =
      .ok (some ⟨.int 32, 7⟩, .new zeroBlock) ∧
    LiftInParam sampleEnv ⟨.const, 7, 4⟩ (.int 64) (.new zeroBlock) =
      .ok (none, .new zeroBlock) ∧
    LiftStoreIntoOutParam sampleEnv ⟨.int 32, 1⟩ (some ⟨.const, 7, 4⟩) (.new zeroBlock) =
      .ok (.kLiftedUnsupportedInstruction, .new zeroBlock) ∧
    GetStatus (stateOf (dump sampleEnv addIntoConst (.new zeroBlock)) (.new zeroBlock)) =
      .kLiftedUnsupportedInstruction :=
  have h7 := C7_const_cell_read_write sampleEnv ⟨.const, 7, 4⟩ (.new zeroBlock) rfl rfl
  have h0 := C7_const_cell_read_write sampleEnv ⟨.const, 0, 4⟩ (.new zeroBlock) rfl rfl
  ⟨(h7.1 (.int 32) ⟨.int 32, 7⟩).2 ⟨rfl, rfl⟩,
    h7.2.1 (.int 64) (by decide),
    h7.2.2.1 ⟨.int 32, 1⟩,
    (h0.2.2.2.1 .CPUI_INT_ADD [⟨.register, 0, 4⟩, ⟨.register, 4, 4⟩]
      (stateOf (dump sampleEnv addIntoConst (.new zeroBlock)) (.new zeroBlock))
      rfl rfl).1⟩

/-! ## Direct branches (`BRANCH`, `CALL`) -/

theorem toupper_PC : toupper "PC" = "PC" := by decide

theorem LiftNormalRegister_PC (E : Env) (hpc : E.ArchHasRegByName "PC" = true) :
    LiftNormalRegister E "PC" = some (.RegisterValue (E.LoadRegAddress "PC")) := by
  simp [LiftNormalRegister, toupper_PC, hpc]

/-- C9: for `BRANCH` and `CALL` with an input varnode of offset `t` in any address
space and no active claim on `t`, on an architecture with a `PC` register, the op
returns Success; the one instruction it appends is the store of the constant `t` of
`8·size` bits into `PC` (no load of the cell the varnode designates, no scratch
allocation, no change to the claim context), after which `PC` read at `8·size` bits
is `t`. -/
theorem C9_direct_branch_writes_literal (E : Env) (opc : OpCode) (outvar : Option VarnodeData)
    (i : VarnodeData) (s : PcodeToLLVMEmitIntoBlock)
    (hopc : opc = .CPUI_BRANCH ∨ opc = .CPUI_CALL)
    (hpc : E.ArchHasRegByName "PC" = true) (h : NoClaim i.offset s) :
    ∃ t, LiftUnOp E opc outvar i s = .ok (.kLiftedInstruction, t) ∧
      t.target_block.emitted = s.target_block.emitted ++
        [.store ⟨.int (8 * i.size), i.offset % 2 ^ (8 * i.size)⟩ (E.LoadRegAddress "PC")] ∧
      t.target_block.cells (E.LoadRegAddress "PC") % 2 ^ (8 * i.size) =
        i.offset % 2 ^ (8 * i.size) ∧
      (∀ q, q ≠ E.LoadRegAddress "PC" → t.target_block.cells q = s.target_block.cells q) ∧
      t.target_block.next_alloca = s.target_block.next_alloca ∧
      t.uniques = s.uniques ∧ t.unknown_regs = s.unknown_regs ∧
      t.replacement_cont = s.replacement_cont ∧ t.status = s.status := by
  have hm : i.size * 8 = 8 * i.size := Nat.mul_comm _ _
  have hw := writeCell_mod (s.target_block.cells (E.LoadRegAddress "PC"))
    ⟨.int (8 * i.size), i.offset % 2 ^ (8 * i.size)⟩
  simp only [Ty.bits, Nat.mod_mod] at hw
  rcases hopc with rfl | rfl
  · simp [LiftUnOp, bind_eq, pure_eq, LiftOffsetOrReplace_literal E i _ s h,
      LiftNormalRegister_PC E hpc, Parameter.StoreIntoParam, CreateStore, ConstantInt_get,
      Ty.bits, hm, hw]
    intro q hq
    simp [hq]
  · simp [LiftUnOp, bind_eq, pure_eq, LiftOffsetOrReplace_literal E i _ s h,
      LiftNormalRegister_PC E hpc, Parameter.StoreIntoParam, CreateStore, ConstantInt_get,
      Ty.bits, hm, hw]
    intro q hq
    simp [hq]

/-- C9 at the concrete op `BRANCH in=const(0x1000, size 8)` on a zero state: Success,
one store into `PC`, and `PC = 0x1000`. -/
theorem C9_direct_branch_writes_literal_witness :
    valueOf (LiftUnOp sampleEnv .CPUI_BRANCH none ⟨.const, 0x1000, 8⟩ (.new zeroBlock)) =
      some .kLiftedInstruction ∧
    (stateOf (LiftUnOp sampleEnv .CPUI_BRANCH none ⟨.const, 0x1000, 8⟩ (.new zeroBlock))
      (.new zeroBlock)).target_block.cells (.named "PC") = 0x1000 ∧
    (stateOf (LiftUnOp sampleEnv .CPUI_BRANCH none ⟨.const, 0x1000, 8⟩ (.new zeroBlock))
      (.new zeroBlock)).target_block.emitted = [.store ⟨.int 64, 0x1000⟩ (.named "PC")] := by
  obtain ⟨t, ht, hemit, _⟩ := C9_direct_branch_writes_literal sampleEnv .CPUI_BRANCH none
    ⟨.const, 0x1000, 8⟩ (.new zeroBlock) (Or.inl rfl) rfl rfl
  refine ⟨by rw [ht]; rfl, by decide, ?_⟩
  rw [ht]
  exact hemit

/-! ## Reads and `COPY` -/

theorem ReadOnly_frame : ReadFrame ReadOnly where
  refl := fun _ => ⟨rfl, rfl, rfl, rfl⟩
  trans := fun _ _ _ h1 h2 =>
    ⟨h2.1.trans h1.1, h2.2.1.trans h1.2.1, h2.2.2.1.trans h1.2.2.1, h2.2.2.2.trans h1.2.2.2⟩
  emit := fun _ _ _ => ⟨rfl, rfl, rfl, rfl⟩
  uniq := fun s off size => by
    unfold UniqueRegSpace.GetUniquePtr
    split <;> exact ⟨rfl, rfl, rfl, rfl⟩
  unk := fun s off size => by
    unfold UniqueRegSpace.GetUniquePtr
    split <;> exact ⟨rfl, rfl, rfl, rfl⟩
  used := fun _ _ => ⟨rfl, rfl, rfl, rfl⟩

theorem LiftAsInParam_ty (E : Env) (p : Parameter) (ty : Ty) (s t : PcodeToLLVMEmitIntoBlock)
    (x : Value) (h : p.LiftAsInParam E ty s = .ok (some x, t)) : x.ty = ty := by
  cases p with
  | RegisterValue q =>
    simp [Parameter.LiftAsInParam, bind_eq, pure_eq, CreateLoad] at h
    rw [← h.1]
  | Memory q i =>
    simp only [Parameter.LiftAsInParam, bind_eq, CreateLoad, remill.LoadFromMemory] at h
    cases hm : E.read_memory ty (s.target_block.cells q % 2 ^ Ty.ptr.bits) i with
    | none =>
      simp [hm, pure_eq] at h
    | some b =>
      simp [hm, pure_eq] at h
      rw [← h.1]
  | ConstantValue c =>
    simp only [Parameter.LiftAsInParam] at h
    by_cases hne : ty = c.ty
    · simp [hne, pure_eq] at h
      rw [← h.1, hne]
    · simp [hne, pure_eq] at h

theorem LiftInParam_ty (E : Env) (v : VarnodeData) (ty : Ty) (s t : PcodeToLLVMEmitIntoBlock)
    (x : Value) (h : LiftInParam E v ty s = .ok (some x, t)) : x.ty = ty := by
  simp only [LiftInParam, bind_eq] at h
  split at h
  · exact LiftAsInParam_ty E _ ty _ t x h
  · cases h

theorem LiftUnOp_copy_run (E : Env) (opc : OpCode) (i o : VarnodeData)
    (s s1 : PcodeToLLVMEmitIntoBlock) (x : Value)
    (hopc : opc = .CPUI_COPY ∨ opc = .CPUI_CAST)
    (hread : LiftInParam E i (.int (i.size * 8)) s = .ok (some x, s1)) :
    LiftUnOp E opc (some o) i s =
      (LiftParamPtr E o >>= fun ptr => ptr.StoreIntoParam E x) s1 := by
  rcases hopc with rfl | rfl <;>
    simp [LiftUnOp, bind_eq, hread, LiftStoreIntoOutParam, LiftRequireOutParam]

/-- C8: `COPY` and `CAST` are the identity.  When the input varnode reads as `x` at
its own width and the outvar has the same size, the op stores `x` unchanged into the
Parameter of the outvar, and `x` is an integer of `8·outvar.size` bits.  When that
Parameter is a register or scratch cell, the op returns Success, its last
instruction is the store of `x`, and afterwards the low `8·outvar.size` bits of the
cell are the bits of `x`.  When it is a memory cell and the store intrinsic accepts,
the op returns Success and `x` is the value handed to the store intrinsic. -/
theorem C8_copy_is_identity (E : Env) (opc : OpCode) (i o : VarnodeData)
    (s s1 : PcodeToLLVMEmitIntoBlock) (x : Value)
    (hopc : opc = .CPUI_COPY ∨ opc = .CPUI_CAST) (hsz : i.size = o.size)
    (hread : LiftInParam E i (.int (i.size * 8)) s = .ok (some x, s1)) :
    LiftUnOp E opc (some o) i s =
      (LiftParamPtr E o >>= fun ptr => ptr.StoreIntoParam E x) s1 ∧
    x.ty = .int (8 * o.size) ∧
    (∀ p s2, LiftParamPtr E o s1 = .ok (.RegisterValue p, s2) →
      ∃ t, LiftUnOp E opc (some o) i s = .ok (.kLiftedInstruction, t) ∧
        t.target_block.cells p % 2 ^ (8 * o.size) = x.bits % 2 ^ (8 * o.size) ∧
        t.target_block.emitted = s2.target_block.emitted ++ [.store x p]) ∧
    (∀ m idx s2 h, LiftParamPtr E o s1 = .ok (.Memory m idx, s2) →
      E.write_memory x (s2.target_block.cells m % 2 ^ 64) idx = some h →
      ∃ t, LiftUnOp E opc (some o) i s = .ok (.kLiftedInstruction, t) ∧
        t.target_block.emitted = s2.target_block.emitted ++
          [.load .ptr m, .write_memory x ⟨.ptr, s2.target_block.cells m % 2 ^ 64⟩ idx,
            .store ⟨.ptr, h % 2 ^ 64⟩ m]) := by
  have hty : x.ty = .int (8 * o.size) := by
    rw [LiftInParam_ty E i _ s s1 x hread, hsz, Nat.mul_comm]
  have hrun := LiftUnOp_copy_run E opc i o s s1 x hopc hread
  refine ⟨hrun, hty, ?_, ?_⟩
  · intro p s2 hout
    have hw := writeCell_mod (s2.target_block.cells p) x
    rw [hty] at hw
    simp only [Ty.bits] at hw
    rw [hrun]
    simp [bind_eq, pure_eq, hout, Parameter.StoreIntoParam, CreateStore, hw]
  · intro m idx s2 h hout hacc
    rw [hrun]
    norm_num at hacc
    simp [bind_eq, pure_eq, hout, Parameter.StoreIntoParam, CreateStore, CreateLoad,
      remill.StoreToMemory, Ty.bits, hacc]

/-- C8 at the concrete op `COPY out=EAX in=const(7, size 4)` on a zero state: the op
returns Success and leaves `EAX = 7`. -/
theorem C8_copy_is_identity_witness :
    valueOf (LiftUnOp sampleEnv .CPUI_COPY (some ⟨.register, 0, 4⟩) ⟨.const, 7, 4⟩
      (.new zeroBlock)) = some .kLiftedInstruction ∧
    (stateOf (LiftUnOp sampleEnv .CPUI_COPY (some ⟨.register, 0, 4⟩) ⟨.const, 7, 4⟩
      (.new zeroBlock)) (.new zeroBlock)).target_block.cells (.named "EAX") = 7 := by
  obtain ⟨t, ht, _, _⟩ := (C8_copy_is_identity sampleEnv .CPUI_COPY ⟨.const, 7, 4⟩
    ⟨.register, 0, 4⟩ (.new zeroBlock) (.new zeroBlock) ⟨.int 32, 7⟩
    (Or.inl rfl) rfl rfl).2.2.1 (.named "EAX") (.new zeroBlock) rfl
  exact ⟨by rw [ht]; rfl, by decide⟩

/-! ## Conditional branch (`CBRANCH`) -/

theorem LiftOffsetOrReplace_ty (E : Env) (v : VarnodeData) (ty : Ty)
    (s t : PcodeToLLVMEmitIntoBlock) (x : Value)
    (h : LiftOffsetOrReplace E v ty s = .ok (x, t)) : x.ty = ty := by
  unfold LiftOffsetOrReplace at h
  cases hl : s.replacement_cont.current_replacements.lookup v.offset with
  | none =>
    simp only [hl] at h
    cases h
    rfl
  | some p =>
    simp only [hl] at h
    split at h
    · cases h
    · cases hr : p.LiftAsInParam E ty s with
      | error err => simp only [hr] at h; cases h
      | ok r =>
        obtain ⟨o, u⟩ := r
        cases o with
        | none => simp only [hr] at h; cases h
        | some val =>
          simp only [hr] at h
          cases h
          exact LiftAsInParam_ty E p ty s u x hr

/-- C10: for `CBRANCH` whose jump-target operand (operand 0) has the word width and
whose 1-byte condition (operand 1) reads as `c`, with `j` the claim-resolved literal
of the jump target (the literal offset `t` itself when no claim is active on `t`),
on an architecture with a `PC` register the op returns Success and afterwards `PC`,
read at the word width, is `j` when the least-significant bit of `c` is 1 and is its
value before the op otherwise. -/
theorem C10_cbranch_selects_pc (E : Env) (outvar : Option VarnodeData) (lhs rhs : VarnodeData)
    (s s1 s2 : PcodeToLLVMEmitIntoBlock) (c j : Value)
    (hpc : E.ArchHasRegByName "PC" = true)
    (hw : lhs.size * 8 = E.word_bits) (hsz : rhs.size = 1)
    (hread : LiftInParam E rhs (.int (rhs.size * 8)) s = .ok (some c, s1))
    (htgt : LiftOffsetOrReplace E lhs (.int (lhs.size * 8)) s1 = .ok (j, s2)) :
    (NoClaim lhs.offset s → j = ⟨.int E.word_bits, lhs.offset % 2 ^ E.word_bits⟩) ∧
    ∃ t, LiftBinOp E .CPUI_CBRANCH outvar lhs rhs s = .ok (.kLiftedInstruction, t) ∧
      t.target_block.cells (E.LoadRegAddress "PC") % 2 ^ E.word_bits =
        (if c.bits % 2 = 1 then j.bits % 2 ^ E.word_bits
          else s.target_block.cells (E.LoadRegAddress "PC") % 2 ^ E.word_bits) := by
  have hro := Respects_LiftInParam ReadOnly_frame E rhs _ s _ s1 hread
  have hro2 := Respects_LiftOffsetOrReplace ReadOnly_frame E lhs _ s1 _ s2 htgt
  have hcells : s2.target_block.cells = s.target_block.cells := hro2.1.trans hro.1
  have hjty : j.ty = .int E.word_bits := by
    rw [LiftOffsetOrReplace_ty E lhs _ s1 s2 j htgt, hw]
  have hty : c.ty = .int 8 := by
    rw [LiftInParam_ty E rhs _ s s1 c hread, hsz]
  obtain ⟨cty, cbits⟩ := c
  obtain ⟨jty, jbits⟩ := j
  simp only at hty hjty
  subst hty
  subst hjty
  have hread8 : LiftInParam E rhs (.int 8) s = .ok (some ⟨.int 8, cbits⟩, s1) := by
    rw [hsz] at hread
    exact hread
  refine ⟨?_, ?_⟩
  · intro hcl
    have hcl1 : s1.replacement_cont.current_replacements.lookup lhs.offset = none := by
      rw [hro.2.1]
      exact hcl
    rw [LiftOffsetOrReplace_literal E lhs _ s1 hcl1] at htgt
    simp only [ConstantInt_get, hw, Ty.bits, Except.ok.injEq, Prod.mk.injEq] at htgt
    exact htgt.1.symm
  simp only [LiftBinOp, LiftIntegerBinOp, bind_eq, hread8, if_true, htgt, hsz, liftE,
    CreateTrunc, LiftNormalRegister_PC E hpc, Parameter.LiftAsInParam, CreateLoad, pure_eq]
  by_cases hcat : E.category = .kCategoryConditionalBranch
  · by_cases hb : cbits % 2 = 1
    · simp [hcat, hb, CreateStore, CreateSelect, Ty.bits, bind_eq, pure_eq,
        Parameter.StoreIntoParam, writeCell, Nat.add_mul_mod_self_right, Nat.add_comm, liftE_ok]
    · simp [hcat, hb, CreateStore, CreateSelect, Ty.bits, bind_eq, pure_eq,
        Parameter.StoreIntoParam, writeCell, Nat.add_mul_mod_self_right, Nat.add_comm, liftE_ok,
        hcells]
  · by_cases hb : cbits % 2 = 1
    · simp [hcat, hb, CreateStore, CreateSelect, Ty.bits, bind_eq, pure_eq,
        Parameter.StoreIntoParam, writeCell, Nat.add_mul_mod_self_right, Nat.add_comm, liftE_ok]
    · simp [hcat, hb, CreateStore, CreateSelect, Ty.bits, bind_eq, pure_eq,
        Parameter.StoreIntoParam, writeCell, Nat.add_mul_mod_self_right, Nat.add_comm, liftE_ok,
        hcells]

/-- C10 at the concrete ops `CBRANCH in0=const(0x80, size 8) in1=const(1, size 1)` and
`CBRANCH in0=const(0x80, size 8) in1=const(0, size 1)` on a state with `PC = 0x20`:
the first leaves `PC = 0x80`, the second leaves `PC = 0x20`, both with Success. -/
theorem C10_cbranch_selects_pc_witness :
    (∃ t, LiftBinOp sampleEnv .CPUI_CBRANCH none ⟨.const, 0x80, 8⟩ ⟨.const, 1, 1⟩
        (.new sampleBlock) = .ok (.kLiftedInstruction, t) ∧
      t.target_block.cells (.named "PC") % 2 ^ 64 = 0x80) ∧
    (∃ t, LiftBinOp sampleEnv .CPUI_CBRANCH none ⟨.const, 0x80, 8⟩ ⟨.const, 0, 1⟩
        (.new sampleBlock) = .ok (.kLiftedInstruction, t) ∧
      t.target_block.cells (.named "PC") % 2 ^ 64 = 0x20) ∧
    (stateOf (LiftBinOp sampleEnv .CPUI_CBRANCH none ⟨.const, 0x80, 8⟩ ⟨.const, 1, 1⟩
        (.new sampleBlock)) (.new sampleBlock)).target_block.cells (.named "PC") = 0x80 ∧
    (stateOf (LiftBinOp sampleEnv .CPUI_CBRANCH none ⟨.const, 0x80, 8⟩ ⟨.const, 0, 1⟩
        (.new sampleBlock)) (.new sampleBlock)).target_block.cells (.named "PC") = 0x20 :=
  ⟨(C10_cbranch_selects_pc sampleEnv none ⟨.const, 0x80, 8⟩ ⟨.const, 1, 1⟩
      (.new sampleBlock) (.new sampleBlock) (.new sampleBlock) ⟨.int 8, 1⟩ ⟨.int 64, 0x80⟩
      rfl rfl rfl rfl rfl).2,
    (C10_cbranch_selects_pc sampleEnv none ⟨.const, 0x80, 8⟩ ⟨.const, 0, 1⟩
      (.new sampleBlock) (.new sampleBlock) (.new sampleBlock) ⟨.int 8, 0⟩ ⟨.int 64, 0x80⟩
      rfl rfl rfl rfl rfl).2,
    by decide, by decide⟩

/-! ## Equality claims (`ConstantReplacementContext`) -/

/-- A register or `unique` varnode lifts to a cell; the lift changes neither cells,
claim context nor status, and the same cell is returned again from any state with
the scratch pools it leaves. -/
theorem LiftParamPtr_cell (E : Env) (v : VarnodeData) (s : PcodeToLLVMEmitIntoBlock)
    (hv : v.space = .register ∨ v.space = .unique) :
    ∃ p u, LiftParamPtr E v s = .ok (.RegisterValue p, u) ∧
      u.target_block.cells = s.target_block.cells ∧
      u.replacement_cont = s.replacement_cont ∧
      u.status = s.status ∧ u.reported = s.reported ∧
      ∀ w : PcodeToLLVMEmitIntoBlock, w.uniques = u.uniques → w.unknown_regs = u.unknown_regs →
        ∀ b : Block, LiftParamPtr E v { w with target_block := b } =
          .ok (.RegisterValue p, { w with target_block := b }) := by
  obtain ⟨sp, off, size⟩ := v
  simp only at hv
  rcases hv with rfl | rfl
  · cases hn : E.ArchHasRegByName (toupper (E.getRegisterName .register off size)) with
    | true =>
      refine ⟨E.LoadRegAddress (toupper (E.getRegisterName .register off size)), s, ?_,
        rfl, rfl, rfl, rfl, ?_⟩
      · simp [LiftParamPtr, LiftNormalRegister, hn, pure_eq]
      · intro w _ _ b
        simp [LiftParamPtr, LiftNormalRegister, hn, pure_eq]
    | false =>
      cases hl : s.unknown_regs.cached_unique_ptrs.lookup off with
      | some q =>
        refine ⟨q, s, ?_, rfl, rfl, rfl, rfl, ?_⟩
        · simp [LiftParamPtr, LiftNormalRegister, hn, UniqueRegSpace.GetUniquePtr, hl]
        · intro w _ hw b
          simp [LiftParamPtr, LiftNormalRegister, hn, UniqueRegSpace.GetUniquePtr, hw, hl]
      | none =>
        refine ⟨.alloca s.target_block.next_alloca,
          { s with
            unknown_regs := ⟨(off, .alloca s.target_block.next_alloca) ::
              s.unknown_regs.cached_unique_ptrs⟩
            target_block := (s.target_block.CreateAlloca (.int (8 * size))).2 },
          ?_, ?_, ?_, ?_, ?_, ?_⟩
        · simp [LiftParamPtr, LiftNormalRegister, hn, UniqueRegSpace.GetUniquePtr, hl,
            Block.CreateAlloca]
        · rfl
        · rfl
        · rfl
        · rfl
        · intro w _ hw b
          simp [LiftParamPtr, LiftNormalRegister, hn, UniqueRegSpace.GetUniquePtr, hw,
            List.lookup_cons]
  · cases hl : s.uniques.cached_unique_ptrs.lookup off with
    | some q =>
      refine ⟨q, s, ?_, rfl, rfl, rfl, rfl, ?_⟩
      · simp [LiftParamPtr, UniqueRegSpace.GetUniquePtr, hl]
      · intro w hw _ b
        simp [LiftParamPtr, UniqueRegSpace.GetUniquePtr, hw, hl]
    | none =>
      refine ⟨.alloca s.target_block.next_alloca,
        { s with
          uniques := ⟨(off, .alloca s.target_block.next_alloca) ::
            s.uniques.cached_unique_ptrs⟩
          target_block := (s.target_block.CreateAlloca (.int (8 * size))).2 },
        ?_, ?_, ?_, ?_, ?_, ?_⟩
      · simp [LiftParamPtr, UniqueRegSpace.GetUniquePtr, hl, Block.CreateAlloca]
      · rfl
      · rfl
      · rfl
      · rfl
      · intro w hw _ b
        simp [LiftParamPtr, UniqueRegSpace.GetUniquePtr, hw, List.lookup_cons]

theorem LiftInParam_claimed_register (E : Env) (c s : Nat) (pr : Ptr)
    (st : PcodeToLLVMEmitIntoBlock)
    (h : st.replacement_cont = ⟨[(c, .RegisterValue pr)], []⟩) :
    ∃ st2, LiftInParam E ⟨.const, c, s⟩ (.int (s * 8)) st =
        .ok (some ⟨.int (s * 8), st.target_block.cells pr % 2 ^ (s * 8)⟩, st2) ∧
      st2.target_block.cells = st.target_block.cells ∧
      st2.replacement_cont = ⟨[(c, .RegisterValue pr)], [c]⟩ ∧
      st2.status = st.status ∧ st2.reported = st.reported ∧
      st2.target_block.emitted = st.target_block.emitted ++ [.load (.int (s * 8)) pr] := by
  refine ⟨{ st with
      target_block := { st.target_block with
        emitted := st.target_block.emitted ++ [.load (.int (s * 8)) pr] }
      replacement_cont := ⟨[(c, .RegisterValue pr)], [c]⟩ }, ?_, rfl, rfl, rfl, rfl, rfl⟩
  simp [LiftInParam, LiftParamPtr, LiftOffsetOrReplace, bind_eq, pure_eq, h,
    Parameter.LiftAsInParam, CreateLoad, Ty.bits]

/-- C4: from a fresh lifter (empty claim context, status Success), after a
three-operand `CALLOTHER` whose operand 0 indexes the user-op name `claim_eq`, with
operand 1 the constant `c` and operand 2 a register varnode `r`, the op
`COPY out=o in=const(c, size s)` into a register or scratch varnode `o` loads the
cell of `r` at `8·s` bits and stores that value (not the literal `c`) into the cell
of `o`; both ops return, the status stays Success, and the claim is marked used. -/
theorem C4_claim_eq_substitution (E : Env) (b : Block) (v0 r o : VarnodeData) (c sz s : Nat)
    (hname : E.user_op_names.get? v0.offset = some "claim_eq")
    (hr : r.space = .register) (ho : o.space = .register ∨ o.space = .unique) :
    ∃ t pr po u,
      LiftParamPtr E r (.new b) = .ok (.RegisterValue pr, u) ∧
      valueOf (LiftInParam E ⟨.const, c, s⟩ (.int (s * 8))
        (stateOf (dump E ⟨.CPUI_CALLOTHER, none, [v0, ⟨.const, c, sz⟩, r]⟩ (.new b)) (.new b))) =
        some (some ⟨.int (s * 8), b.cells pr % 2 ^ (s * 8)⟩) ∧
      oneInstruction E (claimThenCopy v0 r o c sz s) (.new b) = .ok ((), t) ∧
      GetStatus t = .kLiftedInstruction ∧
      LiftParamPtr E o t = .ok (.RegisterValue po, t) ∧
      t.target_block.emitted.getLast? =
        some (.store ⟨.int (8 * s), b.cells pr % 2 ^ (8 * s)⟩ po) ∧
      t.target_block.cells po % 2 ^ (8 * s) = b.cells pr % 2 ^ (8 * s) ∧
      t.replacement_cont.used_values = [c] := by
  have hm : s * 8 = 8 * s := Nat.mul_comm _ _
  obtain ⟨pr, u, hu, hucells, hurc, hust, hurep, _⟩ :=
    LiftParamPtr_cell E r (.new b) (Or.inl hr)
  have hlt : v0.offset < E.user_op_names.length := by
    rcases List.get?_eq_some.mp hname with ⟨h, _⟩
    exact h
  have hget : E.user_op_names[v0.offset] = "claim_eq" := by
    rcases List.get?_eq_some.mp hname with ⟨_, h⟩
    simpa using h
  have hurc2 : u.replacement_cont = ⟨[], []⟩ := hurc
  obtain ⟨st1, hst1⟩ : ∃ st1 : PcodeToLLVMEmitIntoBlock,
      st1 = { u with replacement_cont := ⟨[(c, .RegisterValue pr)], []⟩ } := ⟨_, rfl⟩
  have hd1 : dump E ⟨.CPUI_CALLOTHER, none, [v0, ⟨.const, c, sz⟩, r]⟩ (.new b) =
      .ok ((), st1) := by
    rw [hst1]
    simp [dump, user_op_names_at_eq E _ _ hname, hlt, ApplyEqualityClaim, bind_eq, hu, hurc2]
  have h1rc : st1.replacement_cont = ⟨[(c, .RegisterValue pr)], []⟩ := by rw [hst1]
  have h1cells : st1.target_block.cells = b.cells := by rw [hst1]; exact hucells
  have h1st : st1.status = .kLiftedInstruction := by rw [hst1]; exact hust
  obtain ⟨st2, hread, h2cells, h2rc, h2st, _, _⟩ :=
    LiftInParam_claimed_register E c s pr st1 h1rc
  obtain ⟨po, u2, ho2, ho2cells, ho2rc, ho2st, _, hstab⟩ := LiftParamPtr_cell E o st2 ho
  have hcopy : LiftUnOp E .CPUI_COPY (some o) ⟨.const, c, s⟩ st1 =
      (CreateStore ⟨.int (s * 8), st1.target_block.cells pr % 2 ^ (s * 8)⟩ po >>= fun _ =>
        pure .kLiftedInstruction) u2 := by
    rw [LiftUnOp_copy_run E .CPUI_COPY ⟨.const, c, s⟩ o st1 st2 _ (Or.inl rfl) hread, bind_eq,
      ho2]
    rfl
  obtain ⟨t, ht⟩ : ∃ t : PcodeToLLVMEmitIntoBlock, t =
      { u2 with
        target_block := { u2.target_block with
          cells := fun q => if q = po then
              writeCell (u2.target_block.cells po) ⟨.int (8 * s), b.cells pr % 2 ^ (8 * s)⟩
            else u2.target_block.cells q
          emitted := u2.target_block.emitted ++
            [.store ⟨.int (8 * s), b.cells pr % 2 ^ (8 * s)⟩ po] }
        reported := u2.reported ++ [.kLiftedInstruction] } := ⟨_, rfl⟩
  have hd2 : dump E ⟨.CPUI_COPY, some o, [⟨.const, c, s⟩]⟩ st1 = .ok ((), t) := by
    rw [ht]
    simp [dump, bind_eq, hcopy, CreateStore, UpdateStatus, pure_eq, h1cells, hm]
  refine ⟨t, pr, po, u, hu, ?_, ?_, ?_, ?_, ?_, ?_, ?_⟩
  · rw [hd1]
    simp only [stateOf, hread, valueOf, h1cells]
  · simp only [claimThenCopy, oneInstruction, bind_eq, hd1, hd2]
    rfl
  · rw [ht]
    simp [GetStatus, ho2st, h2st, h1st]
  · exact hstab t (by rw [ht]) (by rw [ht]) t.target_block
  · rw [ht]
    simp
  · rw [ht]
    have hw := writeCell_mod (u2.target_block.cells po)
      ⟨.int (8 * s), b.cells pr % 2 ^ (8 * s)⟩
    simpa [Ty.bits] using hw
  · rw [ht]
    simp [ho2rc, h2rc]

/-- C4 at the concrete scenario `claim_eq(const 42, EBX)` then
`COPY EAX <- const(42, size 4)` on a state with `EBX = 0x12345678`: both ops return,
the status is Success and `EAX = 0x12345678`, the value of `EBX`, not 42. -/
theorem C4_claim_eq_substitution_witness :
    (∃ t pr po u,
      LiftParamPtr sampleEnv ⟨.register, 12, 4⟩ (.new sampleBlock) =
        .ok (.RegisterValue pr, u) ∧
      valueOf (LiftInParam sampleEnv ⟨.const, 42, 4⟩ (.int (4 * 8))
        (stateOf (dump sampleEnv ⟨.CPUI_CALLOTHER, none,
          [⟨.const, 0, 4⟩, ⟨.const, 42, 4⟩, ⟨.register, 12, 4⟩]⟩ (.new sampleBlock))
          (.new sampleBlock))) =
        some (some ⟨.int (4 * 8), sampleBlock.cells pr % 2 ^ (4 * 8)⟩) ∧
      oneInstruction sampleEnv claimEBXThenCopyToEAX (.new sampleBlock) = .ok ((), t) ∧
      GetStatus t = .kLiftedInstruction ∧
      LiftParamPtr sampleEnv ⟨.register, 0, 4⟩ t = .ok (.RegisterValue po, t) ∧
      t.target_block.emitted.getLast? =
        some (.store ⟨.int (8 * 4), sampleBlock.cells pr % 2 ^ (8 * 4)⟩ po) ∧
      t.target_block.cells po % 2 ^ (8 * 4) = sampleBlock.cells pr % 2 ^ (8 * 4) ∧
      t.replacement_cont.used_values = [42]) ∧
    abortOf (oneInstruction sampleEnv claimEBXThenCopyToEAX (.new sampleBlock)) = none ∧
    GetStatus (stateOf (oneInstruction sampleEnv claimEBXThenCopyToEAX (.new sampleBlock))
      (.new sampleBlock)) = .kLiftedInstruction ∧
    (stateOf (oneInstruction sampleEnv claimEBXThenCopyToEAX (.new sampleBlock))
      (.new sampleBlock)).target_block.cells (.named "EAX") = 0x12345678 ∧
    sampleBlock.cells (.named "EBX") = 0x12345678 :=
  ⟨C4_claim_eq_substitution sampleEnv sampleBlock ⟨.const, 0, 4⟩ ⟨.register, 12, 4⟩
      ⟨.register, 0, 4⟩ 42 4 4 rfl rfl (Or.inl rfl),
    by decide, by decide, by decide, by decide⟩

/-! ## A claim is consumed at most once -/

section dumpframe
variable {R : PcodeToLLVMEmitIntoBlock → PcodeToLLVMEmitIntoBlock → Prop}

theorem Respects_dump (h : DumpFrame R) (E : Env) (op : PcodeOp) : Respects R (dump E op) := by
  have hW : WriteFrame R := h.toWriteFrame
  unfold remill.dump
  simp only [user_op_names_guard]
  repeat' with_reducible (first
    | exact h.status _ _
    | exact Respects_LiftVariadicOp hW _ _ _ _
    | exact Respects_LiftUnOp hW _ _ _ _
    | exact Respects_LiftBinOp hW _ _ _ _ _
    | exact Respects_LiftTernOp hW _ _ _ _ _ _
    | exact Respects_ApplyEqualityClaim h.toClaimFrame _ _ _
    | apply Respects_bind hW.1
    | intro _
    | split)

theorem Respects_oneInstruction (h : DumpFrame R) (E : Env) (ops : List PcodeOp) :
    Respects R (oneInstruction E ops) := by
  induction ops with
  | nil => exact Respects_pure h.1.1.1 _
  | cons op rest ih =>
    unfold remill.oneInstruction
    exact Respects_bind h.1.1.1 (Respects_dump h E op) (fun _ => ih)

end dumpframe

theorem ClaimsGrow_frame : DumpFrame ClaimsGrow where
  refl := fun _ => ⟨fun _ _ h => h, fun _ h => h⟩
  trans := fun _ _ _ h1 h2 =>
    ⟨fun c p h => h2.1 c p (h1.1 c p h), fun c h => h2.2 c (h1.2 c h)⟩
  emit := fun _ _ _ => ⟨fun _ _ h => h, fun _ h => h⟩
  uniq := fun _ _ _ => ⟨fun _ _ h => h, fun _ h => h⟩
  unk := fun _ _ _ => ⟨fun _ _ h => h, fun _ h => h⟩
  used := fun _ _ => ⟨fun _ _ h => h, fun _ h => List.mem_cons_of_mem _ h⟩
  store := fun _ _ s a t e => by cases e; exact ⟨fun _ _ h => h, fun _ h => h⟩
  claim := fun s c p hnone => by
    refine ⟨fun d q h => ?_, fun _ h => h⟩
    by_cases hdc : d = c
    · subst hdc
      rw [hnone] at h
      cases h
    · have hb : (d == c) = false := beq_false_of_ne hdc
      simp [List.lookup_cons, hb, h]
  status := fun st opc s a t e => by
    unfold UpdateStatus at e
    split at e <;> cases e <;> exact ⟨fun _ _ h => h, fun _ h => h⟩

/-- C5, counterexample: after `claim_eq(const 42, const(5, size 4))` the claim on 42
is active and unused, and the first materialization of 42, by
`COPY out=unique[0x100]:8 in=const(42, size 8)`, does not succeed: the claimed
constant of 32 bits cannot be read at 64 bits and the run aborts with the
replacement-failure diagnostic. -/
theorem C5_first_materialization_can_abort :
    (stateOf (oneInstruction sampleEnv (claimConstThenWideCopy.take 1) (.new zeroBlock))
        (.new zeroBlock)).replacement_cont =
      ⟨[(42, .ConstantValue ⟨.int 32, 5⟩)], []⟩ ∧
    abortOf (LiftOffsetOrReplace sampleEnv ⟨.const, 42, 8⟩ (.int 64)
      (stateOf (oneInstruction sampleEnv (claimConstThenWideCopy.take 1) (.new zeroBlock))
        (.new zeroBlock))) = some (.replacementFailure 42) ∧
    abortOf (oneInstruction sampleEnv claimConstThenWideCopy (.new zeroBlock)) =
      some (.replacementFailure 42) := by
  decide

/-- C5, amended: for every offset `c` with an active claim not yet used, the first
materialization of `c` through `LiftOffsetOrReplace` reads the claimed Parameter at
the requested type; when that read gives a value (as it always does for a register
or scratch cell) the materialization returns that value and marks `c` used, and when
it gives none the materialization aborts with the replacement-failure diagnostic.
After a successful first materialization the claim stays recorded and marked used
through everything the lifter does in the same instruction (the rest of the handler,
later `dump` calls), and from every such later state any second materialization of
`c` aborts with the ambiguity diagnostic instead of returning a value. -/
theorem C5_claim_consumed_at_most_once (E : Env) (s : PcodeToLLVMEmitIntoBlock)
    (target : VarnodeData) (target_type : Ty) (p : Parameter)
    (hc : s.replacement_cont.current_replacements.lookup target.offset = some p)
    (hu : target.offset ∉ s.replacement_cont.used_values) :
    (∀ v t, p.LiftAsInParam E target_type s = .ok (some v, t) →
      ∃ t2, LiftOffsetOrReplace E target target_type s = .ok (v, t2) ∧
        target.offset ∈ t2.replacement_cont.used_values) ∧
    (∀ q, p = .RegisterValue q →
      ∃ t2, LiftOffsetOrReplace E target target_type s =
          .ok (⟨target_type, s.target_block.cells q % 2 ^ target_type.bits⟩, t2) ∧
        target.offset ∈ t2.replacement_cont.used_values) ∧
    (∀ t, p.LiftAsInParam E target_type s = .ok (none, t) →
      LiftOffsetOrReplace E target target_type s =
        .error (.replacementFailure target.offset)) ∧
    (∀ v t, LiftOffsetOrReplace E target target_type s = .ok (v, t) →
      ∀ u, ClaimsGrow t u →
        ∀ (second : VarnodeData) (ty2 : Ty), second.offset = target.offset →
          LiftOffsetOrReplace E second ty2 u =
            .error (.ambiguousSubstitution target.offset)) ∧
    (∀ x outvar, Respects ClaimsGrow (LiftStoreIntoOutParam E x outvar)) ∧
    (∀ op, Respects ClaimsGrow (dump E op)) ∧
    (∀ ops, Respects ClaimsGrow (oneInstruction E ops)) := by
  have first : ∀ v t, p.LiftAsInParam E target_type s = .ok (some v, t) →
      LiftOffsetOrReplace E target target_type s = .ok (v,
        { t with replacement_cont :=
          { t.replacement_cont with
            used_values := target.offset :: t.replacement_cont.used_values } }) := by
    intro v t hr
    simp [LiftOffsetOrReplace, hc, hu, hr]
  refine ⟨?_, ?_, ?_, ?_, ?_, ?_, ?_⟩
  · intro v t hr
    exact ⟨_, first v t hr, List.mem_cons_self _ _⟩
  · intro q hq
    subst hq
    exact ⟨_, first _ _ rfl, List.mem_cons_self _ _⟩
  · intro t hr
    simp [LiftOffsetOrReplace, hc, hu, hr]
  · intro v t h1 u hg2 second ty2 hoff
    have hg1 := Respects_LiftOffsetOrReplace ClaimsGrow_frame.1.1.1 E target target_type s v t h1
    have hused : target.offset ∈ t.replacement_cont.used_values := by
      unfold LiftOffsetOrReplace at h1
      rw [hc] at h1
      simp only [hu, if_false] at h1
      split at h1
      · cases h1
        exact List.mem_cons_self _ _
      · cases h1
      · cases h1
    have hcu := hg2.1 _ _ (hg1.1 _ _ hc)
    have huu := hg2.2 _ hused
    simp [LiftOffsetOrReplace, hoff, hcu, huu]
  · intro x outvar
    exact Respects_LiftStoreIntoOutParam ClaimsGrow_frame.1.1 E x outvar
  · intro op
    exact Respects_dump ClaimsGrow_frame E op
  · intro ops
    exact Respects_oneInstruction ClaimsGrow_frame E ops

/-- C5, amended, at the concrete scenario: after `claim_eq(const 42, EBX)` the first
`COPY EAX <- const(42, size 4)` succeeds with the value of `EBX`, and a second
`COPY ECX <- const(42, size 4)` in the same instruction aborts with the ambiguity
diagnostic. -/
theorem C5_claim_consumed_at_most_once_witness :
    (∃ t2, LiftOffsetOrReplace sampleEnv ⟨.const, 42, 4⟩ (.int 32)
        (stateOf (oneInstruction sampleEnv (claimEBXThenCopyToEAX.take 1) (.new sampleBlock))
          (.new sampleBlock)) = .ok (⟨.int 32, 0x12345678⟩, t2) ∧
      42 ∈ t2.replacement_cont.used_values) ∧
    abortOf (oneInstruction sampleEnv claimEBXThenCopyToEAX (.new sampleBlock)) = none ∧
    abortOf (oneInstruction sampleEnv claimThenTwoCopies (.new sampleBlock)) =
      some (.ambiguousSubstitution 42) :=
  ⟨(C5_claim_consumed_at_most_once sampleEnv
      (stateOf (oneInstruction sampleEnv (claimEBXThenCopyToEAX.take 1) (.new sampleBlock))
        (.new sampleBlock)) ⟨.const, 42, 4⟩ (.int 32) (.RegisterValue (.named "EBX"))
      rfl (by decide)).2.1 (.named "EBX") rfl,
    by decide, by decide⟩

/-! ## Width of the value stored into the output varnode -/

theorem CreateZExt_ty (v : Value) (d : Ty) (x : Value) (h : CreateZExt v d = .ok x) :
    x.ty = d := by
  unfold CreateZExt at h
  split at h
  · cases h; assumption
  · split at h
    · split at h
      · cases h; rfl
      · cases h
    · cases h

theorem ctpop_ty (v x : Value) (h : ctpop v = .ok x) : x.ty = v.ty := by
  unfold ctpop at h
  split at h
  · rename_i w hw
    cases h
    exact hw.symm
  · cases h

theorem intBinary_ty (f : Nat → Nat → Nat → Except Abort Nat) (l r x : Value)
    (h : intBinary f l r = .ok x) : x.ty = l.ty := by
  unfold intBinary at h
  split at h
  · rename_i w hw
    split at h
    · split at h
      · cases h
        exact hw.symm
      · cases h
    · cases h
  · cases h

theorem zextCompare_ty (cmp : Value → Value → Except Abort Value) (l r x : Value)
    (h : zextCompare cmp l r = .ok x) : x.ty = .int 8 := by
  unfold zextCompare at h
  split at h
  · exact CreateZExt_ty _ _ x h
  · cases h

theorem floatBinary_ty (f : Nat → Nat → Nat) (l r x : Value) (h : floatBinary f l r = .ok x) :
    x.ty = .float := by
  unfold floatBinary at h
  split at h
  · cases h; rfl
  · cases h

theorem floatCompare_ty (f : Nat → Nat → Bool) (l r x : Value)
    (h : floatCompare f l r = .ok x) : x.ty = .int 1 := by
  unfold floatCompare at h
  split at h
  · cases h; rfl
  · cases h

/-- Types of the entries of `floatOpFunc`: the comparisons give `i8`, the arithmetic
ones `float`. -/
theorem floatOpFunc_ty (E : Env) (opc : OpCode) (f : Value → Value → Except Abort Value)
    (l r x : Value) (hf : floatOpFunc E opc = some f) (h : f l r = .ok x) :
    x.ty = .int 8 ∨ x.ty = .float := by
  cases opc <;> simp only [floatOpFunc, reduceCtorEq, Option.some.injEq] at hf <;>
    subst hf
  all_goals first
    | exact Or.inl (zextCompare_ty _ l r x h)
    | exact Or.inr (floatBinary_ty _ l r x h)

theorem StoresTy_abort {o : VarnodeData} (W : Ty) (e : Abort) : StoresTy o W (abort e) := by
  intro s a t h _
  cases h

/-- C11: for `CBRANCH` with a word-wide jump target `j` (claim-resolved) and a 1-byte
condition that reads as `c`, on an architecture whose branch-taken slot is not the
`PC` cell, the op returns Success and appends exactly: the load of the old `PC`, then
the store of `c` at its full width into the branch-taken slot when the instruction's
category is conditional branch and nothing otherwise, then the store of the selected
value (`j` when the low bit of `c` is 1, the old `PC` otherwise) into `PC`.  So the
slot receives the full-width condition in a conditional-branch instruction and keeps
its contents under every other category, and the `PC` select is performed in both. -/
theorem C11_cbranch_branch_taken_channel (E : Env) (outvar : Option VarnodeData)
    (lhs rhs : VarnodeData) (s s1 s2 : PcodeToLLVMEmitIntoBlock) (c j : Value)
    (hpc : E.ArchHasRegByName "PC" = true)
    (hw : lhs.size * 8 = E.word_bits) (hsz : rhs.size = 1)
    (hread : LiftInParam E rhs (.int (rhs.size * 8)) s = .ok (some c, s1))
    (htgt : LiftOffsetOrReplace E lhs (.int (lhs.size * 8)) s1 = .ok (j, s2))
    (hdist : E.branch_taken_ref ≠ E.LoadRegAddress "PC") :
    ∃ t, LiftBinOp E .CPUI_CBRANCH outvar lhs rhs s = .ok (.kLiftedInstruction, t) ∧
      c.ty = .int (8 * rhs.size) ∧
      t.target_block.emitted = s2.target_block.emitted ++
        ([.load (.int E.word_bits) (E.LoadRegAddress "PC")] ++
          (if E.category = .kCategoryConditionalBranch then [.store c E.branch_taken_ref]
            else []) ++
          [.store
            (if c.bits % 2 = 1 then j
              else ⟨.int E.word_bits,
                s.target_block.cells (E.LoadRegAddress "PC") % 2 ^ E.word_bits⟩)
            (E.LoadRegAddress "PC")]) ∧
      t.target_block.cells E.branch_taken_ref =
        (if E.category = .kCategoryConditionalBranch then
          writeCell (s.target_block.cells E.branch_taken_ref) c
        else s.target_block.cells E.branch_taken_ref) ∧
      (E.category = .kCategoryConditionalBranch →
        t.target_block.cells E.branch_taken_ref % 2 ^ (8 * rhs.size) =
          c.bits % 2 ^ (8 * rhs.size)) := by
  have hro := Respects_LiftInParam ReadOnly_frame E rhs _ s _ s1 hread
  have hro2 := Respects_LiftOffsetOrReplace ReadOnly_frame E lhs _ s1 _ s2 htgt
  have hcells : s2.target_block.cells = s.target_block.cells := hro2.1.trans hro.1
  have hjty : j.ty = .int E.word_bits := by
    rw [LiftOffsetOrReplace_ty E lhs _ s1 s2 j htgt, hw]
  have hty : c.ty = .int 8 := by
    rw [LiftInParam_ty E rhs _ s s1 c hread, hsz]
  obtain ⟨cty, cbits⟩ := c
  obtain ⟨jty, jbits⟩ := j
  simp only at hty hjty
  subst hty
  subst hjty
  have hread8 : LiftInParam E rhs (.int 8) s = .ok (some ⟨.int 8, cbits⟩, s1) := by
    rw [hsz] at hread
    exact hread
  have hwc := writeCell_mod (s.target_block.cells E.branch_taken_ref) ⟨.int 8, cbits⟩
  simp only [Ty.bits] at hwc
  norm_num at hwc
  simp only [LiftBinOp, LiftIntegerBinOp, bind_eq, hread8, if_true, htgt, hsz, liftE,
    CreateTrunc, LiftNormalRegister_PC E hpc, Parameter.LiftAsInParam, CreateLoad, pure_eq]
  by_cases hcat : E.category = .kCategoryConditionalBranch
  · by_cases hb : cbits % 2 = 1
    · simp [hcat, hb, CreateStore, CreateSelect, Ty.bits, bind_eq, pure_eq,
        Parameter.StoreIntoParam, liftE_ok, hcells, hdist, hwc]
    · simp [hcat, hb, CreateStore, CreateSelect, Ty.bits, bind_eq, pure_eq,
        Parameter.StoreIntoParam, liftE_ok, hcells, hdist, hwc]
  · by_cases hb : cbits % 2 = 1
    · simp [hcat, hb, CreateStore, CreateSelect, Ty.bits, bind_eq, pure_eq,
        Parameter.StoreIntoParam, liftE_ok, hcells, hdist]
    · simp [hcat, hb, CreateStore, CreateSelect, Ty.bits, bind_eq, pure_eq,
        Parameter.StoreIntoParam, liftE_ok, hcells, hdist]

/-- C11 at the concrete op `CBRANCH in0=const(0x80, size 8) in1=const(1, size 1)` on a
state with `PC = 0x20` and the branch-taken slot holding 5: in a conditional-branch
instruction the slot ends as 1, in an instruction of another category it still
holds 5, and `PC = 0x80` in both. -/
theorem C11_cbranch_branch_taken_channel_witness :
    (∃ t, LiftBinOp sampleEnv .CPUI_CBRANCH none ⟨.const, 0x80, 8⟩ ⟨.const, 1, 1⟩
        (.new takenBlock) = .ok (.kLiftedInstruction, t) ∧
      t.target_block.cells (.named "BRANCH_TAKEN") = 1 ∧
      t.target_block.emitted = [.load (.int 64) (.named "PC"),
        .store ⟨.int 8, 1⟩ (.named "BRANCH_TAKEN"), .store ⟨.int 64, 0x80⟩ (.named "PC")]) ∧
    (∃ t, LiftBinOp normalEnv .CPUI_CBRANCH none ⟨.const, 0x80, 8⟩ ⟨.const, 1, 1⟩
        (.new takenBlock) = .ok (.kLiftedInstruction, t) ∧
      t.target_block.cells (.named "BRANCH_TAKEN") = 5 ∧
      t.target_block.emitted = [.load (.int 64) (.named "PC"),
        .store ⟨.int 64, 0x80⟩ (.named "PC")]) ∧
    (stateOf (LiftBinOp normalEnv .CPUI_CBRANCH none ⟨.const, 0x80, 8⟩ ⟨.const, 1, 1⟩
      (.new takenBlock)) (.new takenBlock)).target_block.cells (.named "PC") = 0x80 := by
  obtain ⟨t, ht, _, hem, hcell, _⟩ := C11_cbranch_branch_taken_channel sampleEnv none
    ⟨.const, 0x80, 8⟩ ⟨.const, 1, 1⟩ (.new takenBlock) (.new takenBlock) (.new takenBlock)
    ⟨.int 8, 1⟩ ⟨.int 64, 0x80⟩ rfl rfl rfl rfl rfl (by decide)
  obtain ⟨u, hu, _, hem2, hcell2, _⟩ := C11_cbranch_branch_taken_channel normalEnv none
    ⟨.const, 0x80, 8⟩ ⟨.const, 1, 1⟩ (.new takenBlock) (.new takenBlock) (.new takenBlock)
    ⟨.int 8, 1⟩ ⟨.int 64, 0x80⟩ rfl rfl rfl rfl rfl (by decide)
  exact ⟨⟨t, ht, hcell.trans (by decide), hem.trans (by decide)⟩,
    ⟨u, hu, hcell2.trans (by decide), hem2.trans (by decide)⟩, by decide⟩

/-! ## `PIECE` -/

/-- The three builder calls of the `PIECE` block on operands of `8·ls` and `8·rs`
bits with `rs + ls = os`: no choice of sizes makes all three well-typed. -/
theorem piece_calls_ill_typed (l r : Value) (ls rs os : Nat)
    (hl : l.ty = .int (ls * 8)) (hr : r.ty = .int (rs * 8)) (hsum : rs + ls = os)
    (ms sh x : Value)
    (h1 : CreateZExt l (.int os) = .ok ms)
    (h2 : CreateShl ms (ConstantInt_get (.int 8) rs) = .ok sh)
    (h3 : CreateOr sh r = .ok x) : False := by
  obtain ⟨lty, lb⟩ := l
  obtain ⟨rty, rb⟩ := r
  simp only at hl hr
  subst hl
  subst hr
  have hms : ms.ty = .int os := CreateZExt_ty _ _ _ h1
  have hsh : sh.ty = ms.ty := intBinary_ty _ _ _ _ h2
  -- the shift needs `os = 8`
  have hos : os = 8 := by
    unfold CreateShl intBinary at h2
    rw [hms] at h2
    simp only [ConstantInt_get] at h2
    by_cases h8 : Ty.int 8 = Ty.int os
    · injection h8 with h8
      exact h8.symm
    · simp [h8] at h2
  -- the `or` needs `rs * 8 = os`
  have hrs : rs * 8 = os := by
    unfold CreateOr intBinary at h3
    rw [hsh, hms] at h3
    by_cases h8 : Ty.int (rs * 8) = Ty.int os
    · injection h8
    · simp [h8] at h3
  -- the `zext` needs `ls * 8 ≤ os`
  have hls : ls * 8 ≤ os := by
    unfold CreateZExt at h1
    by_cases he : Ty.int (ls * 8) = Ty.int os
    · injection he with he
      omega
    · simp only [he, if_false] at h1
      by_cases hlt : ls * 8 < os
      · omega
      · simp [hlt] at h1
  omega

theorem composite_piece_declines (E : Env) (outvar : Option VarnodeData)
    (lhs rhs : VarnodeData) (s t : PcodeToLLVMEmitIntoBlock) (a : LiftStatus)
    (h : LiftBinOp.composite E .CPUI_PIECE outvar lhs rhs s = .ok (a, t)) :
    a = .kLiftedUnsupportedInstruction := by
  cases outvar with
  | none =>
    simp only [LiftBinOp.composite, pure_eq] at h
    cases h
    rfl
  | some o =>
    simp only [LiftBinOp.composite] at h
    by_cases hsum : rhs.size + lhs.size = o.size
    · simp only [hsum, if_true, bind_eq] at h
      cases h1 : LiftInParam E lhs (.int (lhs.size * 8)) s with
      | error e => simp only [h1] at h; cases h
      | ok r1 =>
        obtain ⟨ol, s1⟩ := r1
        simp only [h1] at h
        cases h2 : LiftInParam E rhs (.int (rhs.size * 8)) s1 with
        | error e => simp only [h2] at h; cases h
        | ok r2 =>
          obtain ⟨orr, s2⟩ := r2
          simp only [h2] at h
          cases ol with
          | none => simp only [pure_eq] at h; cases h; rfl
          | some l =>
            cases orr with
            | none => simp only [pure_eq] at h; cases h; rfl
            | some r =>
              exfalso
              have hl := LiftInParam_ty E lhs _ s s1 l h1
              have hr := LiftInParam_ty E rhs _ s1 s2 r h2
              simp only [bind_eq] at h
              cases c1 : CreateZExt l (.int o.size) with
              | error e => simp [c1, liftE] at h
              | ok ms =>
                cases c2 : CreateShl ms (ConstantInt_get (.int 8) rhs.size) with
                | error e => simp [c1, c2, liftE] at h
                | ok sh =>
                  cases c3 : CreateOr sh r with
                  | error e => simp [c1, c2, c3, liftE] at h
                  | ok x =>
                    exact piece_calls_ill_typed l r lhs.size rhs.size o.size hl hr hsum
                      ms sh x c1 c2 c3
    · simp only [hsum, if_false] at h
      cases h

theorem LiftBinOp_piece_declines (E : Env) (outvar : Option VarnodeData)
    (lhs rhs : VarnodeData) (s t : PcodeToLLVMEmitIntoBlock) (a : LiftStatus)
    (h : LiftBinOp E .CPUI_PIECE outvar lhs rhs s = .ok (a, t)) :
    a = .kLiftedUnsupportedInstruction := by
  have h1 : LiftIntegerBinOp E .CPUI_PIECE outvar lhs rhs =
      pure .kLiftedUnsupportedInstruction := by
    simp [LiftIntegerBinOp, LiftIntegerBinOp.viaTable, INTEGER_BINARY_OPS]
  have h2 : LiftBoolBinOp E .CPUI_PIECE outvar lhs rhs =
      pure .kLiftedUnsupportedInstruction := by
    simp [LiftBoolBinOp, boolOpFunc]
  have h3 : LiftFloatBinOp E .CPUI_PIECE outvar lhs rhs =
      pure .kLiftedUnsupportedInstruction := by
    simp [LiftFloatBinOp, floatOpFunc]
  simp only [LiftBinOp, h1, h2, h3, bind_eq, pure_eq, reduceCtorEq, if_false] at h
  exact composite_piece_declines E outvar lhs rhs s t a h

/-- C12, the code at `PIECE out=EAX(size 4) in0=const(0xAA, size 2)
in1=const(0xBB, size 2)`: the run stops at an ill-typed builder call (`zext` of the
16-bit operand to a type of `outvar.size = 4` bits) before anything is stored, where
the concatenation `0x00AA00BB` was to be stored with Success.  For all operands and
sizes the three builder calls of the `PIECE` block (`zext` to `outvar.size` bits,
`shl` by an 8-bit constant, `or` with the unextended right operand) are never all
well-typed, so no run of `PIECE` returns Success. -/
theorem C12_piece_never_concatenates :
    abortOf (dump sampleEnv pieceAABB (.new zeroBlock)) = some .invalidIR ∧
    CreateZExt ⟨.int 16, 0xAA⟩ (.int 4) = .error .invalidIR ∧
    (∀ (E : Env) (outvar : Option VarnodeData) (lhs rhs : VarnodeData)
      (s t : PcodeToLLVMEmitIntoBlock),
      LiftBinOp E .CPUI_PIECE outvar lhs rhs s ≠ .ok (.kLiftedInstruction, t)) := by
  refine ⟨by decide, rfl, ?_⟩
  intro E outvar lhs rhs s t h
  have := LiftBinOp_piece_declines E outvar lhs rhs s t _ h
  cases this

/-- C13, the code at the round trip `PIECE EAX <- (const(0xAA, size 2),
const(0xBB, size 2))`, `SUBPIECE ECX(size 2) <- (EAX, const 0)`: the run stops inside
`PIECE` at an ill-typed builder call, so `ECX` is never written.  `SUBPIECE` alone, on
a state where `EAX` already holds `0x00AA00BB`, returns Success and leaves
`ECX = 0xBB`.  For all operands, an instruction that starts with a `PIECE` either
stops or has Unsupported reported for the `PIECE` and does not end with status
Success. -/
theorem C13_piece_round_trip_stops :
    abortOf (oneInstruction sampleEnv pieceThenSubpiece (.new zeroBlock)) =
      some .invalidIR ∧
    valueOf (LiftBinOp sampleEnv .CPUI_SUBPIECE (some ⟨.register, 4, 2⟩) ⟨.register, 0, 4⟩
      ⟨.const, 0, 4⟩ (.new piecedBlock)) = some .kLiftedInstruction ∧
    (stateOf (dump sampleEnv subpieceLow (.new piecedBlock))
      (.new piecedBlock)).target_block.cells (.named "ECX") = 0xBB ∧
    (∀ (E : Env) (outvar : Option VarnodeData) (hi lo : VarnodeData) (rest : List PcodeOp)
      (s t : PcodeToLLVMEmitIntoBlock),
      oneInstruction E (⟨.CPUI_PIECE, outvar, [hi, lo]⟩ :: rest) s = .ok ((), t) →
      (∃ l, t.reported = s.reported ++ .kLiftedUnsupportedInstruction :: l) ∧
        GetStatus t ≠ .kLiftedInstruction) := by
  refine ⟨by decide, by decide, by decide, ?_⟩
  intro E outvar hi lo rest s t h
  simp only [oneInstruction, dump, reduceCtorEq, or_self, if_false, bind_eq] at h
  cases hp : LiftBinOp E .CPUI_PIECE outvar hi lo s with
  | error e => simp only [hp] at h; cases h
  | ok r =>
    obtain ⟨a, u⟩ := r
    have ha := LiftBinOp_piece_declines E outvar hi lo s u a hp
    subst ha
    simp only [hp, UpdateStatus, reduceCtorEq, ne_eq, not_false_eq_true, if_true] at h
    obtain ⟨l, hl, hst⟩ := oneInstruction_status E rest _ t h
    have hsame : SameStatus s u :=
      Respects_LiftBinOp SameStatus_frame.toWriteFrame E _ outvar hi lo s _ u hp
    refine ⟨⟨l, ?_⟩, ?_⟩
    · rw [hl]
      simp [hsame.2]
    · unfold GetStatus
      rw [hst]
      exact foldl_degrade_ne l _ (by simp)

/-! ## `SUBPIECE` -/

/-- The size `lhs.size - rhs.offset` computed by the `SUBPIECE` block, when the
offset is below the size. -/
theorem subpiece_new_size (n k : Nat) (hk : k < n) (hn : n < 2 ^ 32) :
    (n + (2 ^ 64 - k % 2 ^ 64)) % 2 ^ 64 = n - k := by
  omega

/-- The two builder calls of the `SUBPIECE` block on a value `l` of `8·n` bits, with
`m ≤ n` the number of bytes kept and `os` the size of the outvar. -/
theorem subpiece_calls (l : Value) (n m os : Nat) (hl : l.ty = .int (n * 8))
    (hb : l.bits < 2 ^ (n * 8)) (hm : m ≤ n) :
    ∃ v1, CreateTrunc l (.int (m * 8)) = .ok v1 ∧
      (if m < os then CreateZExt v1 (.int (8 * os))
        else if m > os then CreateTrunc v1 (.int (8 * os))
        else .ok v1) = .ok ⟨.int (8 * os), l.bits % 2 ^ (8 * m) % 2 ^ (8 * os)⟩ := by
  obtain ⟨lty, lb⟩ := l
  simp only at hl hb
  subst hl
  have h1 : CreateTrunc ⟨.int (n * 8), lb⟩ (.int (m * 8)) = .ok ⟨.int (m * 8), lb % 2 ^ (m * 8)⟩ := by
    unfold CreateTrunc
    by_cases he : m = n
    · subst he
      simp [Nat.mod_eq_of_lt hb]
    · have hlt : m * 8 < n * 8 := by omega
      have hne : ¬ (n * 8 = m * 8) := by omega
      simp [hne, hlt]
  refine ⟨_, h1, ?_⟩
  have hlt1 : lb % 2 ^ (m * 8) < 2 ^ (m * 8) := Nat.mod_lt _ (by positivity)
  have hm8 : m * 8 = 8 * m := Nat.mul_comm _ _
  rcases Nat.lt_trichotomy m os with hlt | heq | hgt
  · have hne : ¬ (m * 8 = 8 * os) := by omega
    have hlt8 : m * 8 < 8 * os := by omega
    have hle : 2 ^ (m * 8) ≤ 2 ^ (8 * os) := Nat.pow_le_pow_right (by decide) (by omega)
    simp [hlt, CreateZExt, hne, hlt8, ← hm8, Nat.mod_eq_of_lt (lt_of_lt_of_le hlt1 hle)]
  · subst heq
    simp [← hm8]
  · have hnlt : ¬ m < os := by omega
    have hne : ¬ (m * 8 = 8 * os) := by omega
    have hlt8 : 8 * os < m * 8 := by omega
    simp [hnlt, hgt, CreateTrunc, hne, hlt8, ← hm8]

theorem LiftBinOp_subpiece_run (E : Env) (lhs rhs o : VarnodeData)
    (s s1 : PcodeToLLVMEmitIntoBlock) (l : Value)
    (hk : rhs.offset < lhs.size) (hn : lhs.size < 2 ^ 32)
    (hread : LiftInParam E lhs (.int (lhs.size * 8)) s = .ok (some l, s1))
    (hb : l.bits < 2 ^ (8 * lhs.size)) :
    LiftBinOp E .CPUI_SUBPIECE (some o) lhs rhs s =
      (LiftParamPtr E o >>= fun ptr => ptr.StoreIntoParam E
        ⟨.int (8 * o.size),
          l.bits % 2 ^ (8 * (lhs.size - rhs.offset)) % 2 ^ (8 * o.size)⟩) s1 := by
  have h1 : LiftIntegerBinOp E .CPUI_SUBPIECE (some o) lhs rhs =
      pure .kLiftedUnsupportedInstruction := by
    simp [LiftIntegerBinOp, LiftIntegerBinOp.viaTable, INTEGER_BINARY_OPS]
  have h2 : LiftBoolBinOp E .CPUI_SUBPIECE (some o) lhs rhs =
      pure .kLiftedUnsupportedInstruction := by
    simp [LiftBoolBinOp, boolOpFunc]
  have h3 : LiftFloatBinOp E .CPUI_SUBPIECE (some o) lhs rhs =
      pure .kLiftedUnsupportedInstruction := by
    simp [LiftFloatBinOp, floatOpFunc]
  have hty := LiftInParam_ty E lhs _ s s1 l hread
  have hb2 : l.bits < 2 ^ (lhs.size * 8) := by rwa [Nat.mul_comm]
  obtain ⟨v1, hc1, hc2⟩ := subpiece_calls l lhs.size (lhs.size - rhs.offset) o.size hty hb2
    (Nat.sub_le _ _)
  have hns := subpiece_new_size lhs.size rhs.offset hk hn
  simp only [LiftBinOp, h1, h2, h3, bind_eq, pure_eq, reduceCtorEq, if_false,
    LiftBinOp.composite, hread, hns, hc1, hc2, liftE_ok, LiftStoreIntoOutParam,
    LiftRequireOutParam]

/-- C14: for `SUBPIECE` with `rhs.offset = k` below `lhs.size = n` (a 32-bit size) and
an lhs that reads as the `8·n`-bit value `l`, the value handed to the store into the
outvar is the `8·outvar.size`-bit integer `(l mod 2^(8·(n−k))) mod 2^(8·outvar.size)`:
`l` truncated to its low `n − k` bytes, then zero-extended or truncated to the outvar
width.  When the outvar is a register or scratch cell the op returns Success, its
last instruction is that store, and the cell then holds the value in its low
`8·outvar.size` bits.  For `k = 0` and `outvar.size ≤ n` the value is
`l mod 2^(8·outvar.size)`. -/
theorem C14_subpiece_truncates (E : Env) (lhs rhs o : VarnodeData)
    (s s1 : PcodeToLLVMEmitIntoBlock) (l : Value)
    (hk : rhs.offset < lhs.size) (hn : lhs.size < 2 ^ 32)
    (hread : LiftInParam E lhs (.int (lhs.size * 8)) s = .ok (some l, s1))
    (hb : l.bits < 2 ^ (8 * lhs.size)) :
    LiftBinOp E .CPUI_SUBPIECE (some o) lhs rhs s =
      (LiftParamPtr E o >>= fun ptr => ptr.StoreIntoParam E
        ⟨.int (8 * o.size),
          l.bits % 2 ^ (8 * (lhs.size - rhs.offset)) % 2 ^ (8 * o.size)⟩) s1 ∧
    (∀ p s2, LiftParamPtr E o s1 = .ok (.RegisterValue p, s2) →
      ∃ t, LiftBinOp E .CPUI_SUBPIECE (some o) lhs rhs s = .ok (.kLiftedInstruction, t) ∧
        t.target_block.cells p % 2 ^ (8 * o.size) =
          l.bits % 2 ^ (8 * (lhs.size - rhs.offset)) % 2 ^ (8 * o.size) ∧
        t.target_block.emitted = s2.target_block.emitted ++
          [.store ⟨.int (8 * o.size),
            l.bits % 2 ^ (8 * (lhs.size - rhs.offset)) % 2 ^ (8 * o.size)⟩ p]) ∧
    (rhs.offset = 0 → o.size ≤ lhs.size →
      l.bits % 2 ^ (8 * (lhs.size - rhs.offset)) % 2 ^ (8 * o.size) =
        l.bits % 2 ^ (8 * o.size)) := by
  have hrun := LiftBinOp_subpiece_run E lhs rhs o s s1 l hk hn hread hb
  refine ⟨hrun, ?_, ?_⟩
  · intro p s2 hout
    have hw := writeCell_mod (s2.target_block.cells p)
      ⟨.int (8 * o.size), l.bits % 2 ^ (8 * (lhs.size - rhs.offset)) % 2 ^ (8 * o.size)⟩
    simp only [Ty.bits, Nat.mod_mod] at hw
    rw [hrun]
    simp [bind_eq, pure_eq, hout, Parameter.StoreIntoParam, CreateStore, hw]
  · intro h0 hle
    rw [h0, Nat.sub_zero]
    exact Nat.mod_mod_of_dvd _ (Nat.pow_dvd_pow 2 (by omega))

/-- C14 at concrete ops on a state with `EAX = 0xDEADBEEF`:
`SUBPIECE out=ECX(size 2) in0=EAX(size 4) in1=const(0)` leaves `ECX = 0xBEEF`, and
`SUBPIECE out=unique[0x100](size 4) in0=EAX(size 4) in1=const(3)` stores the 32-bit
value `0xEF`. -/
theorem C14_subpiece_truncates_witness :
    (∃ t, LiftBinOp sampleEnv .CPUI_SUBPIECE (some ⟨.register, 4, 2⟩) ⟨.register, 0, 4⟩
        ⟨.const, 0, 4⟩ (.new sampleBlock) = .ok (.kLiftedInstruction, t) ∧
      t.target_block.cells (.named "ECX") % 2 ^ 16 = 0xBEEF) ∧
    (stateOf (LiftBinOp sampleEnv .CPUI_SUBPIECE (some ⟨.unique, 0x100, 4⟩)
        ⟨.register, 0, 4⟩ ⟨.const, 3, 4⟩ (.new sampleBlock))
      (.new sampleBlock)).target_block.emitted.getLast? =
        some (.store ⟨.int 32, 0xEF⟩ (.alloca 0)) := by
  obtain ⟨t, ht, hc, _⟩ := (C14_subpiece_truncates sampleEnv ⟨.register, 0, 4⟩ ⟨.const, 0, 4⟩
    ⟨.register, 4, 2⟩ (.new sampleBlock)
    (stateOf (LiftInParam sampleEnv ⟨.register, 0, 4⟩ (.int 32) (.new sampleBlock))
      (.new sampleBlock))
    ⟨.int 32, 0xDEADBEEF⟩ (by decide) (by decide) rfl (by decide)).2.1 (.named "ECX")
    (stateOf (LiftInParam sampleEnv ⟨.register, 0, 4⟩ (.int 32) (.new sampleBlock))
      (.new sampleBlock)) rfl
  exact ⟨⟨t, ht, hc.trans (by decide)⟩, by decide⟩

/-! ## `INT_ZEXT` and `INT_SEXT` -/

/-- Bit pattern of the sign extension of a `w`-bit pattern to `W ≥ w` bits: the
pattern itself when its top bit is 0, the pattern with all added high bits set when
its top bit is 1. -/
theorem ofSigned_toSigned_widen (w W x : Nat) (hx : x < 2 ^ w) (hle : w ≤ W) :
    ofSigned W (toSigned w x) = if 2 * x < 2 ^ w then x else x + (2 ^ W - 2 ^ w) := by
  have hAB : 2 ^ w ≤ 2 ^ W := Nat.pow_le_pow_right (by decide) hle
  have hA : 0 < 2 ^ w := by positivity
  unfold ofSigned toSigned
  by_cases h : 2 * x < 2 ^ w
  · simp only [h, if_true]
    have hlt : (x : Int) < ((2 ^ W : Nat) : Int) := by exact_mod_cast lt_of_lt_of_le hx hAB
    rw [Int.emod_eq_of_lt (by exact_mod_cast Nat.zero_le x) hlt]
    simp
  · simp only [h, if_false]
    have h1 : ((x : Int) - ((2 ^ w : Nat) : Int)) % ((2 ^ W : Nat) : Int) =
        (x : Int) - ((2 ^ w : Nat) : Int) + ((2 ^ W : Nat) : Int) := by
      rw [← Int.add_emod_self]
      apply Int.emod_eq_of_lt
      · have : ((2 ^ w : Nat) : Int) ≤ ((2 ^ W : Nat) : Int) := by exact_mod_cast hAB
        have : (0 : Int) ≤ (x : Int) := by exact_mod_cast Nat.zero_le x
        omega
      · have : (x : Int) < ((2 ^ w : Nat) : Int) := by exact_mod_cast hx
        omega
    rw [h1]
    have hcast : (x : Int) - ((2 ^ w : Nat) : Int) + ((2 ^ W : Nat) : Int) =
        ((x + (2 ^ W - 2 ^ w) : Nat) : Int) := by
      rw [Nat.cast_add, Nat.cast_sub hAB]
      ring
    rw [hcast, Int.toNat_ofNat]

/-- The sign extension has the signed reading of the pattern it extends. -/
theorem toSigned_ofSigned_widen (w W x : Nat) (hx : x < 2 ^ w) (hle : w ≤ W) :
    toSigned W (ofSigned W (toSigned w x)) = toSigned w x := by
  rw [ofSigned_toSigned_widen w W x hx hle]
  have hAB : 2 ^ w ≤ 2 ^ W := Nat.pow_le_pow_right (by decide) hle
  by_cases h : 2 * x < 2 ^ w
  · simp only [h, if_true]
    unfold toSigned
    have : 2 * x < 2 ^ W := lt_of_lt_of_le h hAB
    simp [h, this]
  · simp only [h, if_false]
    rcases Nat.eq_or_lt_of_le hle with heq | hlt
    · subst heq
      simp
    · have h2 : 2 * 2 ^ w ≤ 2 ^ W := by
        have := Nat.pow_le_pow_right (by decide : 0 < 2) (Nat.succ_le_of_lt hlt)
        rw [Nat.pow_succ] at this
        omega
      unfold toSigned
      have hn : ¬ 2 * (x + (2 ^ W - 2 ^ w)) < 2 ^ W := by omega
      simp only [hn, h, if_false]
      rw [Nat.cast_add, Nat.cast_sub hAB]
      ring

theorem CreateZExt_widen (x : Value) (w W : Nat) (hx : x.ty = .int w) (hle : w ≤ W) :
    CreateZExt x (.int W) = .ok ⟨.int W, x.bits⟩ := by
  obtain ⟨xty, xb⟩ := x
  simp only at hx
  subst hx
  unfold CreateZExt
  rcases Nat.eq_or_lt_of_le hle with heq | hlt
  · subst heq
    simp
  · have hne : ¬ (w = W) := by omega
    simp [hne, hlt]

theorem CreateSExt_widen (x : Value) (w W : Nat) (hx : x.ty = .int w) (hb : x.bits < 2 ^ w)
    (hle : w ≤ W) :
    CreateSExt x (.int W) = .ok ⟨.int W, ofSigned W (toSigned w x.bits)⟩ := by
  obtain ⟨xty, xb⟩ := x
  simp only at hx hb
  subst hx
  unfold CreateSExt
  rcases Nat.eq_or_lt_of_le hle with heq | hlt
  · subst heq
    have := ofSigned_toSigned_widen w w xb hb (le_refl _)
    simp only [Nat.sub_self, Nat.add_zero, ite_self] at this
    simp [this]
  · have hne : ¬ (w = W) := by omega
    simp [hne, hlt]

theorem LiftUnOp_ext_run (E : Env) (opc : OpCode) (i o : VarnodeData)
    (s s1 : PcodeToLLVMEmitIntoBlock) (x : Value)
    (hopc : opc = .CPUI_INT_ZEXT ∨ opc = .CPUI_INT_SEXT) (hsz : i.size ≤ o.size)
    (hread : LiftInParam E i (.int (i.size * 8)) s = .ok (some x, s1))
    (hb : x.bits < 2 ^ (8 * i.size)) :
    LiftUnOp E opc (some o) i s =
      (LiftParamPtr E o >>= fun ptr => ptr.StoreIntoParam E
        ⟨.int (8 * o.size),
          if opc = .CPUI_INT_ZEXT then x.bits
          else ofSigned (8 * o.size) (toSigned (8 * i.size) x.bits)⟩) s1 := by
  have hty := LiftInParam_ty E i _ s s1 x hread
  have hb2 : x.bits < 2 ^ (i.size * 8) := by rwa [Nat.mul_comm]
  have hle : i.size * 8 ≤ o.size * 8 := by omega
  have hz := CreateZExt_widen x _ _ hty hle
  have hs := CreateSExt_widen x _ _ hty hb2 hle
  have ho : o.size * 8 = 8 * o.size := Nat.mul_comm _ _
  have hi : i.size * 8 = 8 * i.size := Nat.mul_comm _ _
  rw [ho] at hz hs
  rw [hi] at hs hread
  rcases hopc with rfl | rfl
  · simp [LiftUnOp, LiftIntegerInParam, bind_eq, hread, hz, liftE_ok, LiftStoreIntoOutParam,
      LiftRequireOutParam, ho, hi]
  · simp [LiftUnOp, LiftIntegerInParam, bind_eq, hread, hs, liftE_ok, LiftStoreIntoOutParam,
      LiftRequireOutParam, ho, hi]

/-- C15: for `INT_ZEXT` and `INT_SEXT` with `input.size ≤ outvar.size` and an input
that reads as the `8·input.size`-bit value `x`: `INT_ZEXT` hands to the store into
the outvar the `8·outvar.size`-bit integer with the bits (the unsigned value) of `x`,
`INT_SEXT` the `8·outvar.size`-bit integer whose signed reading is the signed reading
of `x`.  The two are equal when the top bit of `x` is 0; when it is 1 the `INT_SEXT`
result is `x` with all added high bits set.  When the outvar is a register or scratch
cell, either op returns Success and the cell then holds its result in the low
`8·outvar.size` bits. -/
theorem C15_zext_sext_extend (E : Env) (i o : VarnodeData)
    (s s1 : PcodeToLLVMEmitIntoBlock) (x : Value) (hsz : i.size ≤ o.size)
    (hread : LiftInParam E i (.int (i.size * 8)) s = .ok (some x, s1))
    (hb : x.bits < 2 ^ (8 * i.size)) :
    LiftUnOp E .CPUI_INT_ZEXT (some o) i s =
      (LiftParamPtr E o >>= fun ptr => ptr.StoreIntoParam E
        ⟨.int (8 * o.size), x.bits⟩) s1 ∧
    x.bits < 2 ^ (8 * o.size) ∧
    LiftUnOp E .CPUI_INT_SEXT (some o) i s =
      (LiftParamPtr E o >>= fun ptr => ptr.StoreIntoParam E
        ⟨.int (8 * o.size), ofSigned (8 * o.size) (toSigned (8 * i.size) x.bits)⟩) s1 ∧
    ofSigned (8 * o.size) (toSigned (8 * i.size) x.bits) < 2 ^ (8 * o.size) ∧
    toSigned (8 * o.size) (ofSigned (8 * o.size) (toSigned (8 * i.size) x.bits)) =
      toSigned (8 * i.size) x.bits ∧
    (2 * x.bits < 2 ^ (8 * i.size) →
      ofSigned (8 * o.size) (toSigned (8 * i.size) x.bits) = x.bits) ∧
    (2 ^ (8 * i.size) ≤ 2 * x.bits →
      ofSigned (8 * o.size) (toSigned (8 * i.size) x.bits) =
        x.bits + (2 ^ (8 * o.size) - 2 ^ (8 * i.size))) ∧
    (∀ opc p s2, opc = .CPUI_INT_ZEXT ∨ opc = .CPUI_INT_SEXT →
      LiftParamPtr E o s1 = .ok (.RegisterValue p, s2) →
      ∃ t, LiftUnOp E opc (some o) i s = .ok (.kLiftedInstruction, t) ∧
        t.target_block.cells p % 2 ^ (8 * o.size) =
          (if opc = .CPUI_INT_ZEXT then x.bits
            else ofSigned (8 * o.size) (toSigned (8 * i.size) x.bits))) := by
  have hle : 8 * i.size ≤ 8 * o.size := by omega
  have hAB : 2 ^ (8 * i.size) ≤ 2 ^ (8 * o.size) := Nat.pow_le_pow_right (by decide) hle
  have hw := ofSigned_toSigned_widen (8 * i.size) (8 * o.size) x.bits hb hle
  have hzlt : x.bits < 2 ^ (8 * o.size) := lt_of_lt_of_le hb hAB
  have hslt : ofSigned (8 * o.size) (toSigned (8 * i.size) x.bits) < 2 ^ (8 * o.size) := by
    rw [hw]
    split <;> omega
  have hz := LiftUnOp_ext_run E .CPUI_INT_ZEXT i o s s1 x (Or.inl rfl) hsz hread hb
  have hs := LiftUnOp_ext_run E .CPUI_INT_SEXT i o s s1 x (Or.inr rfl) hsz hread hb
  simp only [if_true] at hz
  simp only [reduceCtorEq, if_false] at hs
  refine ⟨hz, hzlt, hs, hslt, toSigned_ofSigned_widen _ _ _ hb hle, ?_, ?_, ?_⟩
  · intro h0
    rw [hw, if_pos h0]
  · intro h1
    rw [hw, if_neg (by omega)]
  · intro opc p s2 hopc hout
    rcases hopc with rfl | rfl
    · have hwc := writeCell_mod (s2.target_block.cells p) ⟨.int (8 * o.size), x.bits⟩
      simp only [Ty.bits] at hwc
      rw [hz]
      simp [bind_eq, pure_eq, hout, Parameter.StoreIntoParam, CreateStore, hwc,
        Nat.mod_eq_of_lt hzlt]
    · have hwc := writeCell_mod (s2.target_block.cells p)
        ⟨.int (8 * o.size), ofSigned (8 * o.size) (toSigned (8 * i.size) x.bits)⟩
      simp only [Ty.bits] at hwc
      rw [hs]
      simp [bind_eq, pure_eq, hout, Parameter.StoreIntoParam, CreateStore, hwc,
        Nat.mod_eq_of_lt hslt]

/-- C15 at concrete ops on a state with `EAX = 0xDEADBEEF` (top bit 1) and
`EBX = 0x12345678` (top bit 0), extending 4 bytes to the 8-byte scratch cell
`unique[0x100]`: `INT_ZEXT` of `EAX` gives `0x00000000DEADBEEF`, `INT_SEXT` of `EAX`
gives `0xFFFFFFFFDEADBEEF`, and both give `0x12345678` on `EBX`. -/
theorem C15_zext_sext_extend_witness :
    (∃ t, LiftUnOp sampleEnv .CPUI_INT_SEXT (some ⟨.unique, 0x100, 8⟩) ⟨.register, 0, 4⟩
        (.new sampleBlock) = .ok (.kLiftedInstruction, t) ∧
      t.target_block.cells (.alloca 0) % 2 ^ 64 = 0xFFFFFFFFDEADBEEF) ∧
    (stateOf (LiftUnOp sampleEnv .CPUI_INT_ZEXT (some ⟨.unique, 0x100, 8⟩) ⟨.register, 0, 4⟩
      (.new sampleBlock)) (.new sampleBlock)).target_block.cells (.alloca 0) =
        0xDEADBEEF ∧
    (stateOf (LiftUnOp sampleEnv .CPUI_INT_SEXT (some ⟨.unique, 0x100, 8⟩) ⟨.register, 12, 4⟩
      (.new sampleBlock)) (.new sampleBlock)).target_block.cells (.alloca 0) =
        0x12345678 ∧
    (stateOf (LiftUnOp sampleEnv .CPUI_INT_ZEXT (some ⟨.unique, 0x100, 8⟩) ⟨.register, 12, 4⟩
      (.new sampleBlock)) (.new sampleBlock)).target_block.cells (.alloca 0) =
        0x12345678 := by
  obtain ⟨t, ht, hc⟩ := (C15_zext_sext_extend sampleEnv ⟨.register, 0, 4⟩ ⟨.unique, 0x100, 8⟩
    (.new sampleBlock)
    (stateOf (LiftInParam sampleEnv ⟨.register, 0, 4⟩ (.int 32) (.new sampleBlock))
      (.new sampleBlock))
    ⟨.int 32, 0xDEADBEEF⟩ (by decide) rfl (by decide)).2.2.2.2.2.2.2 .CPUI_INT_SEXT
    (.alloca 0)
    (stateOf (LiftParamPtr sampleEnv ⟨.unique, 0x100, 8⟩
      (stateOf (LiftInParam sampleEnv ⟨.register, 0, 4⟩ (.int 32) (.new sampleBlock))
        (.new sampleBlock))) (.new sampleBlock)) (Or.inr rfl) rfl
  exact ⟨⟨t, ht, hc.trans (by decide)⟩, by decide, by decide, by decide⟩

/-! ## Shifts (`INT_LEFT`, `INT_RIGHT`, `INT_SRIGHT`) -/

/-- The coercion of a shift amount of another width: the amount modulo
`2 ^ width of the shifted operand`, at the type of the shifted operand. -/
theorem CreateZExtOrTrunc_amount (r : Value) (wl wr : Nat) (hr : r.ty = .int wr)
    (hb : r.bits < 2 ^ wr) (hne : wl ≠ wr) :
    CreateZExtOrTrunc r (.int wl) = .ok ⟨.int wl, r.bits % 2 ^ wl⟩ := by
  obtain ⟨rty, rb⟩ := r
  simp only at hr hb
  subst hr
  unfold CreateZExtOrTrunc
  rcases Nat.lt_or_gt_of_ne hne with hlt | hgt
  · have h1 : ¬ wr < wl := by omega
    have h2 : ¬ (wr = wl) := by omega
    simp [h1, hlt, CreateTrunc, h2]
  · have h2 : ¬ (wr = wl) := by omega
    have hle : 2 ^ wr ≤ 2 ^ wl := Nat.pow_le_pow_right (by decide) (by omega)
    simp [hgt, CreateZExt, h2, Nat.mod_eq_of_lt (lt_of_lt_of_le hb hle)]

theorem coercedShift_amount (sh : Value → Value → Except Abort Value) (l r : Value)
    (wl wr : Nat) (hl : l.ty = .int wl) (hr : r.ty = .int wr) (hb : r.bits < 2 ^ wr)
    (hne : wl ≠ wr) :
    coercedShift sh l r = sh l ⟨.int wl, r.bits % 2 ^ wl⟩ := by
  unfold coercedShift
  have hty : l.ty ≠ r.ty := by
    rw [hl, hr]
    intro h
    injection h with h
    exact hne h
  rw [if_pos hty, hl, CreateZExtOrTrunc_amount r wl wr hr hb hne]

theorem CreateAShr_mismatch (l r : Value) (wl wr : Nat) (hl : l.ty = .int wl)
    (hr : r.ty = .int wr) (hne : wl ≠ wr) : CreateAShr l r = .error .invalidIR := by
  unfold CreateAShr intBinary
  rw [hl, hr]
  have h : ¬ (wr = wl) := fun h => hne h.symm
  simp [h]

theorem LiftIntegerBinOp_sright_declines (E : Env) (outvar : Option VarnodeData)
    (lhs rhs : VarnodeData) (s t : PcodeToLLVMEmitIntoBlock) (a : LiftStatus)
    (hne : lhs.size ≠ rhs.size)
    (h : LiftIntegerBinOp E .CPUI_INT_SRIGHT outvar lhs rhs s = .ok (a, t)) :
    a = .kLiftedUnsupportedInstruction := by
  simp only [LiftIntegerBinOp, reduceCtorEq, if_false, LiftIntegerBinOp.viaTable,
    INTEGER_BINARY_OPS, LiftIntegerInParam, bind_eq] at h
  cases h1 : LiftInParam E lhs (.int (lhs.size * 8)) s with
  | error e => simp only [h1] at h; cases h
  | ok r1 =>
    obtain ⟨ol, s1⟩ := r1
    simp only [h1] at h
    cases h2 : LiftInParam E rhs (.int (rhs.size * 8)) s1 with
    | error e => simp only [h2] at h; cases h
    | ok r2 =>
      obtain ⟨orr, s2⟩ := r2
      simp only [h2] at h
      cases ol with
      | none => simp only [pure_eq] at h; cases h; rfl
      | some l =>
        cases orr with
        | none => simp only [pure_eq] at h; cases h; rfl
        | some r =>
          exfalso
          have hl := LiftInParam_ty E lhs _ s s1 l h1
          have hr := LiftInParam_ty E rhs _ s1 s2 r h2
          have hbad := CreateAShr_mismatch l r _ _ hl hr (by omega)
          simp [bind_eq, hbad, liftE] at h

theorem LiftBinOp_sright_declines (E : Env) (outvar : Option VarnodeData)
    (lhs rhs : VarnodeData) (s t : PcodeToLLVMEmitIntoBlock) (a : LiftStatus)
    (hne : lhs.size ≠ rhs.size)
    (h : LiftBinOp E .CPUI_INT_SRIGHT outvar lhs rhs s = .ok (a, t)) :
    a = .kLiftedUnsupportedInstruction := by
  have h2 : LiftBoolBinOp E .CPUI_INT_SRIGHT outvar lhs rhs =
      pure .kLiftedUnsupportedInstruction := by
    simp [LiftBoolBinOp, boolOpFunc]
  have h3 : LiftFloatBinOp E .CPUI_INT_SRIGHT outvar lhs rhs =
      pure .kLiftedUnsupportedInstruction := by
    simp [LiftFloatBinOp, floatOpFunc]
  have h4 : LiftBinOp.composite E .CPUI_INT_SRIGHT outvar lhs rhs =
      pure .kLiftedUnsupportedInstruction := by
    cases outvar <;> simp [LiftBinOp.composite]
  simp only [LiftBinOp, bind_eq] at h
  cases hi : LiftIntegerBinOp E .CPUI_INT_SRIGHT outvar lhs rhs s with
  | error e => simp only [hi] at h; cases h
  | ok r =>
    obtain ⟨b, u⟩ := r
    have hb := LiftIntegerBinOp_sright_declines E outvar lhs rhs s u b hne hi
    subst hb
    simp only [hi, reduceCtorEq, if_false, h2, h3, h4, bind_eq, pure_eq] at h
    cases h
    rfl

/-- C16, the code at `INT_SRIGHT out=EAX(size 4) in0=EAX(size 4) in1=const(1, size 1)`
on a state with `EAX = 0xDEADBEEF`: the table entry of `INT_SRIGHT` hands the 32-bit
operand and the 8-bit amount to `CreateAShr` as they are, the call is ill-typed and
the run stops, where `EAX = 0xEF56DF77` was to result.  The sibling entries do coerce: `INT_RIGHT`
with the same operands leaves `EAX = 0x6F56DF77`, and `INT_LEFT` by the 8-byte amount
`2^32 + 4` shifts by 4 and leaves `EAX = 0xEADBEEF0`.  In general the entries of
`INT_LEFT` and `INT_RIGHT` shift by the amount modulo `2 ^ width` at the type of the
shifted operand when the widths differ, the entry of `INT_SRIGHT` is ill-typed then,
and no run of `INT_SRIGHT` on operands of different sizes returns Success. -/
theorem C16_sright_amount_not_coerced :
    abortOf (dump sampleEnv sarEAXByByte (.new sampleBlock)) = some .invalidIR ∧
    CreateAShr ⟨.int 32, 0xDEADBEEF⟩ ⟨.int 32, 1⟩ = .ok ⟨.int 32, 0xEF56DF77⟩ ∧
    GetStatus (stateOf (dump sampleEnv shrEAXByByte (.new sampleBlock))
      (.new zeroBlock)) = .kLiftedInstruction ∧
    (stateOf (dump sampleEnv shrEAXByByte (.new sampleBlock))
      (.new zeroBlock)).target_block.cells (.named "EAX") = 0x6F56DF77 ∧
    GetStatus (stateOf (dump sampleEnv shlEAXByWide (.new sampleBlock))
      (.new zeroBlock)) = .kLiftedInstruction ∧
    (stateOf (dump sampleEnv shlEAXByWide (.new sampleBlock))
      (.new zeroBlock)).target_block.cells (.named "EAX") = 0xEADBEEF0 ∧
    (∀ (l r : Value) (wl wr : Nat), l.ty = .int wl → r.ty = .int wr → r.bits < 2 ^ wr →
      wl ≠ wr →
      INTEGER_BINARY_OPS .CPUI_INT_LEFT = some (coercedShift CreateShl) ∧
      coercedShift CreateShl l r = CreateShl l ⟨.int wl, r.bits % 2 ^ wl⟩ ∧
      INTEGER_BINARY_OPS .CPUI_INT_RIGHT = some (coercedShift CreateLShr) ∧
      coercedShift CreateLShr l r = CreateLShr l ⟨.int wl, r.bits % 2 ^ wl⟩ ∧
      INTEGER_BINARY_OPS .CPUI_INT_SRIGHT = some CreateAShr ∧
      CreateAShr l r = .error .invalidIR) ∧
    (∀ (E : Env) (outvar : Option VarnodeData) (lhs rhs : VarnodeData)
      (s t : PcodeToLLVMEmitIntoBlock), lhs.size ≠ rhs.size →
      LiftBinOp E .CPUI_INT_SRIGHT outvar lhs rhs s ≠ .ok (.kLiftedInstruction, t)) := by
  refine ⟨by decide, rfl, by decide, by decide, by decide, by decide, ?_, ?_⟩
  · intro l r wl wr hl hr hb hne
    exact ⟨rfl, coercedShift_amount _ l r wl wr hl hr hb hne, rfl,
      coercedShift_amount _ l r wl wr hl hr hb hne, rfl, CreateAShr_mismatch l r wl wr hl hr hne⟩
  · intro E outvar lhs rhs s t hne h
    have := LiftBinOp_sright_declines E outvar lhs rhs s t _ hne h
    cases this

/-! ## Integer binary ops through the table -/

/-- A run of `LiftIntegerBinOp` through the table for an opcode of `INTEGER_COMP_OPS`:
both operands read, the table entry applied, its result brought to 8 bits and
stored. -/
theorem LiftIntegerBinOp_comp_run (E : Env) (opc : OpCode) (outvar : Option VarnodeData)
    (lhs rhs : VarnodeData) (s s1 s2 : PcodeToLLVMEmitIntoBlock) (l r x0 v : Value)
    (f : Value → Value → Except Abort Value) (w0 : Nat)
    (hf : INTEGER_BINARY_OPS opc = some f) (hc : INTEGER_COMP_OPS opc = true)
    (hl : LiftInParam E lhs (.int (lhs.size * 8)) s = .ok (some l, s1))
    (hr : LiftInParam E rhs (.int (rhs.size * 8)) s1 = .ok (some r, s2))
    (h0 : f l r = .ok x0) (hx : x0.ty = .int w0)
    (hfix : (if w0 ≠ 8 then CreateZExt x0 (.int 8) else .ok x0) = .ok v) :
    LiftIntegerBinOp E opc outvar lhs rhs s = LiftStoreIntoOutParam E v outvar s2 := by
  have hnc : opc ≠ .CPUI_CBRANCH := by
    rintro rfl
    simp [INTEGER_BINARY_OPS] at hf
  simp only [LiftIntegerBinOp, hnc, if_false, LiftIntegerBinOp.viaTable, hf,
    LiftIntegerInParam, bind_eq, hl, hr, h0, liftE_ok, hc, if_true, hx, hfix]

/-- A run of `LiftIntegerBinOp` through the table for an opcode outside
`INTEGER_COMP_OPS`: both operands read, the table entry applied, its result stored. -/
theorem LiftIntegerBinOp_arith_run (E : Env) (opc : OpCode) (outvar : Option VarnodeData)
    (lhs rhs : VarnodeData) (s s1 s2 : PcodeToLLVMEmitIntoBlock) (l r x0 : Value)
    (f : Value → Value → Except Abort Value)
    (hf : INTEGER_BINARY_OPS opc = some f) (hc : INTEGER_COMP_OPS opc = false)
    (hl : LiftInParam E lhs (.int (lhs.size * 8)) s = .ok (some l, s1))
    (hr : LiftInParam E rhs (.int (rhs.size * 8)) s1 = .ok (some r, s2))
    (h0 : f l r = .ok x0) :
    LiftIntegerBinOp E opc outvar lhs rhs s = LiftStoreIntoOutParam E x0 outvar s2 := by
  have hnc : opc ≠ .CPUI_CBRANCH := by
    rintro rfl
    simp [INTEGER_BINARY_OPS] at hf
  simp [LiftIntegerBinOp, hnc, LiftIntegerBinOp.viaTable, hf,
    LiftIntegerInParam, bind_eq, hl, hr, h0, liftE_ok, hc]

/-- `LiftBinOp` returns what `LiftIntegerBinOp` returns when that is Success. -/
theorem LiftBinOp_of_integer (E : Env) (opc : OpCode) (outvar : Option VarnodeData)
    (lhs rhs : VarnodeData) (s t : PcodeToLLVMEmitIntoBlock)
    (h : LiftIntegerBinOp E opc outvar lhs rhs s = .ok (.kLiftedInstruction, t)) :
    LiftBinOp E opc outvar lhs rhs s = .ok (.kLiftedInstruction, t) := by
  simp [LiftBinOp, bind_eq, h, pure_eq]

/-- A store into a register or scratch cell. -/
theorem LiftStoreIntoOutParam_cell (E : Env) (v : Value) (o : VarnodeData)
    (s s2 : PcodeToLLVMEmitIntoBlock) (p : Ptr)
    (hout : LiftParamPtr E o s = .ok (.RegisterValue p, s2)) :
    ∃ t, LiftStoreIntoOutParam E v (some o) s = .ok (.kLiftedInstruction, t) ∧
      t.target_block.cells p % 2 ^ v.ty.bits = v.bits % 2 ^ v.ty.bits ∧
      t.target_block.emitted = s2.target_block.emitted ++ [.store v p] := by
  have hw := writeCell_mod (s2.target_block.cells p) v
  simp [LiftStoreIntoOutParam, LiftRequireOutParam, bind_eq, pure_eq, hout,
    Parameter.StoreIntoParam, CreateStore, hw]

theorem intCompare_ok (f : Nat → Nat → Nat → Bool) (l r : Value) (w : Nat)
    (hl : l.ty = .int w) (hr : r.ty = .int w) :
    intCompare f l r = .ok ⟨.int 1, if f w l.bits r.bits then 1 else 0⟩ := by
  unfold intCompare
  rw [hl]
  simp [hr]

theorem zextCompare_ok (f : Nat → Nat → Nat → Bool) (l r : Value) (w : Nat)
    (hl : l.ty = .int w) (hr : r.ty = .int w) :
    zextCompare (intCompare f) l r = .ok ⟨.int 8, if f w l.bits r.bits then 1 else 0⟩ := by
  unfold zextCompare
  rw [intCompare_ok f l r w hl hr]
  simp [CreateZExt]

/-- Value of a table entry of `INTEGER_COMP_OPS` on operands of one width, after the
fit to 8 bits: an 8-bit 0 or 1. -/
theorem comp_entry_value (opc : OpCode) (hc : INTEGER_COMP_OPS opc = true) (l r : Value)
    (w : Nat) (hl : l.ty = .int w) (hr : r.ty = .int w) :
    ∃ f x0 w0 b, INTEGER_BINARY_OPS opc = some f ∧ f l r = .ok x0 ∧ x0.ty = .int w0 ∧
      (if w0 ≠ 8 then CreateZExt x0 (.int 8) else .ok x0) = .ok ⟨.int 8, b⟩ ∧
      (b = 0 ∨ b = 1) := by
  have hb : ∀ c : Bool, (if c = true then 1 else 0 : Nat) = 0 ∨
      (if c = true then 1 else 0 : Nat) = 1 := by
    intro c
    cases c <;> simp
  have hz : ∀ b : Nat, (if (1 : Nat) ≠ 8 then CreateZExt ⟨.int 1, b⟩ (.int 8)
      else .ok ⟨.int 1, b⟩) = .ok ⟨.int 8, b⟩ := by
    intro b
    simp [CreateZExt]
  have h8 : ∀ x : Value, (if (8 : Nat) ≠ 8 then CreateZExt x (.int 8) else .ok x) = .ok x := by
    intro x
    simp
  cases opc <;> simp only [INTEGER_COMP_OPS, reduceCtorEq] at hc
  case CPUI_INT_EQUAL =>
    exact ⟨_, _, 8, _, rfl, zextCompare_ok _ l r w hl hr, rfl, h8 _, hb _⟩
  case CPUI_INT_NOTEQUAL =>
    exact ⟨_, _, 8, _, rfl, zextCompare_ok _ l r w hl hr, rfl, h8 _, hb _⟩
  case CPUI_INT_LESS =>
    exact ⟨_, _, 8, _, rfl, zextCompare_ok _ l r w hl hr, rfl, h8 _, hb _⟩
  case CPUI_INT_SLESS =>
    exact ⟨_, _, 8, _, rfl, zextCompare_ok _ l r w hl hr, rfl, h8 _, hb _⟩
  case CPUI_INT_LESSEQUAL =>
    exact ⟨_, _, 8, _, rfl, zextCompare_ok _ l r w hl hr, rfl, h8 _, hb _⟩
  case CPUI_INT_SLESSEQUAL =>
    exact ⟨_, _, 8, _, rfl, zextCompare_ok _ l r w hl hr, rfl, h8 _, hb _⟩
  case CPUI_INT_CARRY =>
    exact ⟨_, _, 1, _, rfl, intCompare_ok _ l r w hl hr, rfl, hz _, hb _⟩
  case CPUI_INT_SCARRY =>
    exact ⟨_, _, 1, _, rfl, intCompare_ok _ l r w hl hr, rfl, hz _, hb _⟩
  case CPUI_INT_SBORROW =>
    exact ⟨_, _, 1, _, rfl, intCompare_ok _ l r w hl hr, rfl, hz _, hb _⟩

/-- C17: for every integer comparison or overflow opcode (the members of
`INTEGER_COMP_OPS`) with operands of equal size that read as `l` and `r`, whatever
that size, the value `LiftIntegerBinOp` hands to the store into the outvar is an
8-bit integer equal to 0 or 1.  When the outvar is a register or scratch cell the op
returns Success, its last instruction is the store of that value, and the cell then
holds it in its low 8 bits. -/
theorem C17_comparisons_store_bytes (E : Env) (opc : OpCode) (lhs rhs o : VarnodeData)
    (s s1 s2 : PcodeToLLVMEmitIntoBlock) (l r : Value)
    (hc : INTEGER_COMP_OPS opc = true) (hsz : lhs.size = rhs.size)
    (hl : LiftInParam E lhs (.int (lhs.size * 8)) s = .ok (some l, s1))
    (hr : LiftInParam E rhs (.int (rhs.size * 8)) s1 = .ok (some r, s2)) :
    ∃ b, (b = 0 ∨ b = 1) ∧
      LiftIntegerBinOp E opc (some o) lhs rhs s =
        LiftStoreIntoOutParam E ⟨.int 8, b⟩ (some o) s2 ∧
      (∀ p s3, LiftParamPtr E o s2 = .ok (.RegisterValue p, s3) →
        ∃ t, LiftBinOp E opc (some o) lhs rhs s = .ok (.kLiftedInstruction, t) ∧
          t.target_block.emitted = s3.target_block.emitted ++ [.store ⟨.int 8, b⟩ p] ∧
          t.target_block.cells p % 2 ^ 8 = b) := by
  have hlt := LiftInParam_ty E lhs _ s s1 l hl
  have hrt := LiftInParam_ty E rhs _ s1 s2 r hr
  rw [← hsz] at hrt
  obtain ⟨f, x0, w0, b, hf, h0, hx, hfix, hb⟩ := comp_entry_value opc hc l r _ hlt hrt
  have hrun := LiftIntegerBinOp_comp_run E opc (some o) lhs rhs s s1 s2 l r x0 _ f w0 hf hc
    hl hr h0 hx hfix
  refine ⟨b, hb, hrun, ?_⟩
  intro p s3 hout
  obtain ⟨t, ht, hcell, hem⟩ := LiftStoreIntoOutParam_cell E ⟨.int 8, b⟩ o s2 s3 p hout
  refine ⟨t, LiftBinOp_of_integer E opc (some o) lhs rhs s t (hrun.trans ht), hem, ?_⟩
  simp only [Ty.bits] at hcell
  rw [hcell]
  rcases hb with rfl | rfl <;> rfl

/-- C17 at concrete ops on a state with `EAX = 0xDEADBEEF` and `EBX = 0x12345678`,
with the 1-byte scratch cell `unique[0x100]` as outvar: `INT_NOTEQUAL` of `EAX` and
`EBX` stores the 8-bit value 1, `INT_LESS` stores the 8-bit value 0, and `INT_CARRY`
of `EAX` and `EAX` stores the 8-bit value 1. -/
theorem C17_comparisons_store_bytes_witness :
    (∃ t b, (b = 0 ∨ b = 1) ∧
      LiftBinOp sampleEnv .CPUI_INT_NOTEQUAL (some ⟨.unique, 0x100, 1⟩)
        ⟨.register, 0, 4⟩ ⟨.register, 12, 4⟩ (.new sampleBlock) =
          .ok (.kLiftedInstruction, t) ∧
      t.target_block.cells (.alloca 0) % 2 ^ 8 = b) ∧
    (stateOf (LiftBinOp sampleEnv .CPUI_INT_NOTEQUAL (some ⟨.unique, 0x100, 1⟩)
      ⟨.register, 0, 4⟩ ⟨.register, 12, 4⟩ (.new sampleBlock))
      (.new sampleBlock)).target_block.emitted.getLast? =
        some (.store ⟨.int 8, 1⟩ (.alloca 0)) ∧
    (stateOf (LiftBinOp sampleEnv .CPUI_INT_LESS (some ⟨.unique, 0x100, 1⟩)
      ⟨.register, 0, 4⟩ ⟨.register, 12, 4⟩ (.new sampleBlock))
      (.new sampleBlock)).target_block.emitted.getLast? =
        some (.store ⟨.int 8, 0⟩ (.alloca 0)) ∧
    (stateOf (LiftBinOp sampleEnv .CPUI_INT_CARRY (some ⟨.unique, 0x100, 1⟩)
      ⟨.register, 0, 4⟩ ⟨.register, 0, 4⟩ (.new sampleBlock))
      (.new sampleBlock)).target_block.emitted.getLast? =
        some (.store ⟨.int 8, 1⟩ (.alloca 0)) := by
  obtain ⟨b, hb, _, hcell⟩ := C17_comparisons_store_bytes sampleEnv .CPUI_INT_NOTEQUAL
    ⟨.register, 0, 4⟩ ⟨.register, 12, 4⟩ ⟨.unique, 0x100, 1⟩ (.new sampleBlock)
    (stateOf (LiftInParam sampleEnv ⟨.register, 0, 4⟩ (.int 32) (.new sampleBlock))
      (.new sampleBlock))
    (stateOf (LiftInParam sampleEnv ⟨.register, 12, 4⟩ (.int 32)
      (stateOf (LiftInParam sampleEnv ⟨.register, 0, 4⟩ (.int 32) (.new sampleBlock))
        (.new sampleBlock))) (.new sampleBlock))
    ⟨.int 32, 0xDEADBEEF⟩ ⟨.int 32, 0x12345678⟩ rfl rfl rfl rfl
  obtain ⟨t, ht, _, hc⟩ := hcell (.alloca 0)
    (stateOf (LiftParamPtr sampleEnv ⟨.unique, 0x100, 1⟩
      (stateOf (LiftInParam sampleEnv ⟨.register, 12, 4⟩ (.int 32)
        (stateOf (LiftInParam sampleEnv ⟨.register, 0, 4⟩ (.int 32) (.new sampleBlock))
          (.new sampleBlock))) (.new sampleBlock))) (.new sampleBlock)) rfl
  exact ⟨⟨t, b, hb, ht, hc⟩, by decide, by decide, by decide⟩

/-! ## Carry and overflow bits (`INT_CARRY`, `INT_SCARRY`, `INT_SBORROW`) -/

/-- A run of one of the three overflow opcodes on operands of equal size: the `i1`
overflow bit `c` of the intrinsic, zero-extended to 8 bits, is stored. -/
theorem LiftIntegerBinOp_overflow_run (E : Env) (opc : OpCode) (lhs rhs o : VarnodeData)
    (s s1 s2 : PcodeToLLVMEmitIntoBlock) (l r : Value) (g : Nat → Nat → Nat → Bool)
    (hf : INTEGER_BINARY_OPS opc = some (intCompare g)) (hc : INTEGER_COMP_OPS opc = true)
    (hsz : lhs.size = rhs.size)
    (hl : LiftInParam E lhs (.int (lhs.size * 8)) s = .ok (some l, s1))
    (hr : LiftInParam E rhs (.int (rhs.size * 8)) s1 = .ok (some r, s2)) :
    LiftIntegerBinOp E opc (some o) lhs rhs s =
      LiftStoreIntoOutParam E ⟨.int 8, if g (8 * lhs.size) l.bits r.bits then 1 else 0⟩
        (some o) s2 := by
  have hlt := LiftInParam_ty E lhs _ s s1 l hl
  have hrt := LiftInParam_ty E rhs _ s1 s2 r hr
  rw [← hsz] at hrt
  have h0 := intCompare_ok g l r _ hlt hrt
  rw [Nat.mul_comm] at h0
  exact LiftIntegerBinOp_comp_run E opc (some o) lhs rhs s s1 s2 l r _ _ _ 1 hf hc hl hr h0 rfl
    (by simp [CreateZExt])

/-- C18: for `INT_CARRY` on operands of equal size that read as `a` and `b`, with
`w = 8·size`, the value handed to the store into the outvar is the 8-bit integer 1
when `a + b ≥ 2^w` as natural numbers and the 8-bit integer 0 otherwise.  When the
outvar is a register or scratch cell the op returns Success and the low 8 bits of the
cell are then that value. -/
theorem C18_carry_is_unsigned_carry_out (E : Env) (lhs rhs o : VarnodeData)
    (s s1 s2 : PcodeToLLVMEmitIntoBlock) (a b : Value) (hsz : lhs.size = rhs.size)
    (hl : LiftInParam E lhs (.int (lhs.size * 8)) s = .ok (some a, s1))
    (hr : LiftInParam E rhs (.int (rhs.size * 8)) s1 = .ok (some b, s2)) :
    LiftIntegerBinOp E .CPUI_INT_CARRY (some o) lhs rhs s =
      LiftStoreIntoOutParam E
        ⟨.int 8, if 2 ^ (8 * lhs.size) ≤ a.bits + b.bits then 1 else 0⟩ (some o) s2 ∧
    (∀ p s3, LiftParamPtr E o s2 = .ok (.RegisterValue p, s3) →
      ∃ t, LiftBinOp E .CPUI_INT_CARRY (some o) lhs rhs s = .ok (.kLiftedInstruction, t) ∧
        t.target_block.cells p % 2 ^ 8 =
          (if 2 ^ (8 * lhs.size) ≤ a.bits + b.bits then 1 else 0)) := by
  have hrun := LiftIntegerBinOp_overflow_run E .CPUI_INT_CARRY lhs rhs o s s1 s2 a b _
    rfl rfl hsz hl hr
  simp only [decide_eq_true_eq] at hrun
  refine ⟨hrun, ?_⟩
  intro p s3 hout
  obtain ⟨t, ht, hcell, _⟩ := LiftStoreIntoOutParam_cell E
    ⟨.int 8, if 2 ^ (8 * lhs.size) ≤ a.bits + b.bits then 1 else 0⟩ o s2 s3 p hout
  refine ⟨t, LiftBinOp_of_integer E _ (some o) lhs rhs s t (hrun.trans ht), ?_⟩
  simp only [Ty.bits] at hcell
  rw [hcell]
  split <;> rfl

/-- C18 at concrete ops on a state with `EAX = 0xDEADBEEF` and `EBX = 0x12345678`:
`INT_CARRY` of `EAX` and `EAX` (sum `0x1BD5B7DDE ≥ 2^32`) stores 1, `INT_CARRY` of
`EAX` and `EBX` (sum `0xF0E21567 < 2^32`) stores 0. -/
theorem C18_carry_is_unsigned_carry_out_witness :
    (∃ t, LiftBinOp sampleEnv .CPUI_INT_CARRY (some ⟨.unique, 0x100, 1⟩)
        ⟨.register, 0, 4⟩ ⟨.register, 0, 4⟩ (.new sampleBlock) =
          .ok (.kLiftedInstruction, t) ∧
      t.target_block.cells (.alloca 0) % 2 ^ 8 = 1) ∧
    (stateOf (LiftBinOp sampleEnv .CPUI_INT_CARRY (some ⟨.unique, 0x100, 1⟩)
      ⟨.register, 0, 4⟩ ⟨.register, 12, 4⟩ (.new sampleBlock))
      (.new sampleBlock)).target_block.emitted.getLast? =
        some (.store ⟨.int 8, 0⟩ (.alloca 0)) := by
  obtain ⟨t, ht, hc⟩ := (C18_carry_is_unsigned_carry_out sampleEnv
    ⟨.register, 0, 4⟩ ⟨.register, 0, 4⟩ ⟨.unique, 0x100, 1⟩ (.new sampleBlock)
    (stateOf (LiftInParam sampleEnv ⟨.register, 0, 4⟩ (.int 32) (.new sampleBlock))
      (.new sampleBlock))
    (stateOf (LiftInParam sampleEnv ⟨.register, 0, 4⟩ (.int 32)
      (stateOf (LiftInParam sampleEnv ⟨.register, 0, 4⟩ (.int 32) (.new sampleBlock))
        (.new sampleBlock))) (.new sampleBlock))
    ⟨.int 32, 0xDEADBEEF⟩ ⟨.int 32, 0xDEADBEEF⟩ rfl rfl rfl).2 (.alloca 0)
    (stateOf (LiftParamPtr sampleEnv ⟨.unique, 0x100, 1⟩
      (stateOf (LiftInParam sampleEnv ⟨.register, 0, 4⟩ (.int 32)
        (stateOf (LiftInParam sampleEnv ⟨.register, 0, 4⟩ (.int 32) (.new sampleBlock))
          (.new sampleBlock))) (.new sampleBlock))) (.new sampleBlock)) rfl
  exact ⟨⟨t, ht, hc.trans (by decide)⟩, by decide⟩

/-! ## Signed overflow (`INT_SCARRY`, `INT_SBORROW`) -/

theorem two_pow_pred (w : Nat) (hw : 0 < w) : 2 ^ w = 2 * 2 ^ (w - 1) := by
  obtain ⟨k, rfl⟩ : ∃ k, w = k + 1 := ⟨w - 1, by omega⟩
  rw [Nat.add_sub_cancel, Nat.pow_succ, Nat.mul_comm]

theorem ofSigned_lt (w : Nat) (z : Int) : ofSigned w z < 2 ^ w := by
  unfold ofSigned
  have hpos : (0 : Int) < ((2 ^ w : Nat) : Int) := by exact_mod_cast (Nat.two_pow_pos w)
  have h1 := Int.emod_lt_of_pos z hpos
  have h2 := Int.emod_nonneg z (ne_of_gt hpos)
  omega

/-- The signed reading of a `w`-bit pattern lies in `[-2^(w-1), 2^(w-1) - 1]`. -/
theorem toSigned_range (w : Nat) (hw : 0 < w) (n : Nat) (hn : n < 2 ^ w) :
    -((2 ^ (w - 1) : Nat) : Int) ≤ toSigned w n ∧
      toSigned w n ≤ ((2 ^ (w - 1) : Nat) : Int) - 1 := by
  have h2 := two_pow_pred w hw
  unfold toSigned
  split <;> omega

/-- An integer in `[-2^(w-1), 2^(w-1) - 1]` is the signed reading of its `w`-bit
pattern. -/
theorem toSigned_ofSigned_of_range (w : Nat) (hw : 0 < w) (z : Int)
    (hlo : -((2 ^ (w - 1) : Nat) : Int) ≤ z) (hhi : z ≤ ((2 ^ (w - 1) : Nat) : Int) - 1) :
    toSigned w (ofSigned w z) = z := by
  have h2 := two_pow_pred w hw
  have hB : ((2 ^ w : Nat) : Int) = 2 * ((2 ^ (w - 1) : Nat) : Int) := by
    rw [h2]
    push_cast
    ring
  unfold ofSigned toSigned
  by_cases hz : 0 ≤ z
  · have hm : z % ((2 ^ w : Nat) : Int) = z := Int.emod_eq_of_lt hz (by omega)
    rw [hm]
    have hc : ((z.toNat : Nat) : Int) = z := Int.toNat_of_nonneg hz
    have hlt : 2 * z.toNat < 2 ^ w := by omega
    simp [hlt, hc]
  · have hm : z % ((2 ^ w : Nat) : Int) = z + ((2 ^ w : Nat) : Int) := by
      rw [← Int.add_emod_self]
      exact Int.emod_eq_of_lt (by omega) (by omega)
    rw [hm]
    have hc : (((z + ((2 ^ w : Nat) : Int)).toNat : Nat) : Int) = z + ((2 ^ w : Nat) : Int) :=
      Int.toNat_of_nonneg (by omega)
    have hnlt : ¬ 2 * (z + ((2 ^ w : Nat) : Int)).toNat < 2 ^ w := by omega
    simp only [hnlt, if_false, hc]
    omega

/-- The overflow test of the signed intrinsics: the wrapped result differs from the
exact one exactly when the exact one is outside `[-2^(w-1), 2^(w-1) - 1]`. -/
theorem signed_overflow_iff (w : Nat) (hw : 0 < w) (z : Int) :
    toSigned w (ofSigned w z) ≠ z ↔
      ¬ (-((2 ^ (w - 1) : Nat) : Int) ≤ z ∧ z ≤ ((2 ^ (w - 1) : Nat) : Int) - 1) := by
  constructor
  · intro h hr
    exact h (toSigned_ofSigned_of_range w hw z hr.1 hr.2)
  · intro h he
    apply h
    rw [← he]
    exact toSigned_range w hw _ (ofSigned_lt w z)

/-- C19: for `INT_SCARRY` and `INT_SBORROW` on operands of equal size `≥ 1` that read
as `a` and `b`, with `w = 8·size` and the operands read as two's-complement integers,
the value handed to the store into the outvar is the 8-bit integer 0 when the exact
sum `a + b` (for `INT_SCARRY`) or the exact difference `a − b` (for `INT_SBORROW`)
lies in `[-2^(w-1), 2^(w-1) - 1]`, and the 8-bit integer 1 otherwise.  When the outvar
is a register or scratch cell either op returns Success and the low 8 bits of the cell
are then that value. -/
theorem C19_signed_overflow_indicators (E : Env) (lhs rhs o : VarnodeData)
    (s s1 s2 : PcodeToLLVMEmitIntoBlock) (a b : Value) (hsz : lhs.size = rhs.size)
    (hpos : 0 < lhs.size)
    (hl : LiftInParam E lhs (.int (lhs.size * 8)) s = .ok (some a, s1))
    (hr : LiftInParam E rhs (.int (rhs.size * 8)) s1 = .ok (some b, s2)) :
    LiftIntegerBinOp E .CPUI_INT_SCARRY (some o) lhs rhs s =
      LiftStoreIntoOutParam E
        ⟨.int 8,
          if -((2 ^ (8 * lhs.size - 1) : Nat) : Int) ≤
              toSigned (8 * lhs.size) a.bits + toSigned (8 * lhs.size) b.bits ∧
            toSigned (8 * lhs.size) a.bits + toSigned (8 * lhs.size) b.bits ≤
              ((2 ^ (8 * lhs.size - 1) : Nat) : Int) - 1
          then 0 else 1⟩ (some o) s2 ∧
    LiftIntegerBinOp E .CPUI_INT_SBORROW (some o) lhs rhs s =
      LiftStoreIntoOutParam E
        ⟨.int 8,
          if -((2 ^ (8 * lhs.size - 1) : Nat) : Int) ≤
              toSigned (8 * lhs.size) a.bits - toSigned (8 * lhs.size) b.bits ∧
            toSigned (8 * lhs.size) a.bits - toSigned (8 * lhs.size) b.bits ≤
              ((2 ^ (8 * lhs.size - 1) : Nat) : Int) - 1
          then 0 else 1⟩ (some o) s2 ∧
    (∀ p s3, LiftParamPtr E o s2 = .ok (.RegisterValue p, s3) →
      (∃ t, LiftBinOp E .CPUI_INT_SCARRY (some o) lhs rhs s = .ok (.kLiftedInstruction, t) ∧
        t.target_block.cells p % 2 ^ 8 =
          if -((2 ^ (8 * lhs.size - 1) : Nat) : Int) ≤
              toSigned (8 * lhs.size) a.bits + toSigned (8 * lhs.size) b.bits ∧
            toSigned (8 * lhs.size) a.bits + toSigned (8 * lhs.size) b.bits ≤
              ((2 ^ (8 * lhs.size - 1) : Nat) : Int) - 1
          then 0 else 1) ∧
      (∃ t, LiftBinOp E .CPUI_INT_SBORROW (some o) lhs rhs s = .ok (.kLiftedInstruction, t) ∧
        t.target_block.cells p % 2 ^ 8 =
          if -((2 ^ (8 * lhs.size - 1) : Nat) : Int) ≤
              toSigned (8 * lhs.size) a.bits - toSigned (8 * lhs.size) b.bits ∧
            toSigned (8 * lhs.size) a.bits - toSigned (8 * lhs.size) b.bits ≤
              ((2 ^ (8 * lhs.size - 1) : Nat) : Int) - 1
          then 0 else 1)) := by
  have hw : 0 < 8 * lhs.size := by omega
  have hflip : ∀ (P : Prop) [Decidable P], (if ¬ P then (1 : Nat) else 0) = if P then 0 else 1 := by
    intro P _
    by_cases hP : P <;> simp [hP]
  have hsc := LiftIntegerBinOp_overflow_run E .CPUI_INT_SCARRY lhs rhs o s s1 s2 a b _
    rfl rfl hsz hl hr
  have hsb := LiftIntegerBinOp_overflow_run E .CPUI_INT_SBORROW lhs rhs o s s1 s2 a b _
    rfl rfl hsz hl hr
  simp only [decide_eq_true_eq, signed_overflow_iff _ hw, hflip] at hsc hsb
  refine ⟨hsc, hsb, ?_⟩
  intro p s3 hout
  have key : ∀ (opc : OpCode) (P : Prop) [Decidable P],
      LiftIntegerBinOp E opc (some o) lhs rhs s =
        LiftStoreIntoOutParam E ⟨.int 8, if P then 0 else 1⟩ (some o) s2 →
      ∃ t, LiftBinOp E opc (some o) lhs rhs s = .ok (.kLiftedInstruction, t) ∧
        t.target_block.cells p % 2 ^ 8 = if P then 0 else 1 := by
    intro opc P _ hrun
    obtain ⟨t, ht, hcell, _⟩ := LiftStoreIntoOutParam_cell E ⟨.int 8, if P then 0 else 1⟩
      o s2 s3 p hout
    simp only [Ty.bits] at hcell
    refine ⟨t, LiftBinOp_of_integer E _ (some o) lhs rhs s t (hrun.trans ht), ?_⟩
    rw [hcell]
    split <;> rfl
  exact ⟨key _ _ hsc, key _ _ hsb⟩

/-- C19 at concrete ops on 4-byte registers: with `EAX = EBX = 0x7FFFFFFF` (the largest
positive value) `INT_SCARRY` stores 1 and `INT_SBORROW` stores 0; with
`EAX = 0x80000000` (the least value) and `EBX = 1`, `INT_SBORROW` stores 1 and
`INT_SCARRY` stores 0. -/
theorem C19_signed_overflow_indicators_witness :
    (∃ t, LiftBinOp sampleEnv .CPUI_INT_SCARRY (some ⟨.unique, 0x100, 1⟩)
        ⟨.register, 0, 4⟩ ⟨.register, 12, 4⟩ (.new (signedBlock 0x7FFFFFFF 0x7FFFFFFF)) =
          .ok (.kLiftedInstruction, t) ∧
      t.target_block.cells (.alloca 0) % 2 ^ 8 = 1) ∧
    (stateOf (LiftBinOp sampleEnv .CPUI_INT_SBORROW (some ⟨.unique, 0x100, 1⟩)
      ⟨.register, 0, 4⟩ ⟨.register, 12, 4⟩ (.new (signedBlock 0x7FFFFFFF 0x7FFFFFFF)))
      (.new zeroBlock)).target_block.emitted.getLast? =
        some (.store ⟨.int 8, 0⟩ (.alloca 0)) ∧
    (stateOf (LiftBinOp sampleEnv .CPUI_INT_SBORROW (some ⟨.unique, 0x100, 1⟩)
      ⟨.register, 0, 4⟩ ⟨.register, 12, 4⟩ (.new (signedBlock 0x80000000 1)))
      (.new zeroBlock)).target_block.emitted.getLast? =
        some (.store ⟨.int 8, 1⟩ (.alloca 0)) ∧
    (stateOf (LiftBinOp sampleEnv .CPUI_INT_SCARRY (some ⟨.unique, 0x100, 1⟩)
      ⟨.register, 0, 4⟩ ⟨.register, 12, 4⟩ (.new (signedBlock 0x80000000 1)))
      (.new zeroBlock)).target_block.emitted.getLast? =
        some (.store ⟨.int 8, 0⟩ (.alloca 0)) := by
  obtain ⟨t, ht, hc⟩ := ((C19_signed_overflow_indicators sampleEnv
    ⟨.register, 0, 4⟩ ⟨.register, 12, 4⟩ ⟨.unique, 0x100, 1⟩
    (.new (signedBlock 0x7FFFFFFF 0x7FFFFFFF))
    (stateOf (LiftInParam sampleEnv ⟨.register, 0, 4⟩ (.int 32)
      (.new (signedBlock 0x7FFFFFFF 0x7FFFFFFF))) (.new zeroBlock))
    (stateOf (LiftInParam sampleEnv ⟨.register, 12, 4⟩ (.int 32)
      (stateOf (LiftInParam sampleEnv ⟨.register, 0, 4⟩ (.int 32)
        (.new (signedBlock 0x7FFFFFFF 0x7FFFFFFF))) (.new zeroBlock))) (.new zeroBlock))
    ⟨.int 32, 0x7FFFFFFF⟩ ⟨.int 32, 0x7FFFFFFF⟩ rfl (by decide) rfl rfl).2.2 (.alloca 0)
    (stateOf (LiftParamPtr sampleEnv ⟨.unique, 0x100, 1⟩
      (stateOf (LiftInParam sampleEnv ⟨.register, 12, 4⟩ (.int 32)
        (stateOf (LiftInParam sampleEnv ⟨.register, 0, 4⟩ (.int 32)
          (.new (signedBlock 0x7FFFFFFF 0x7FFFFFFF))) (.new zeroBlock))) (.new zeroBlock)))
      (.new zeroBlock)) rfl).1
  exact ⟨⟨t, ht, hc.trans (by decide)⟩, by decide, by decide, by decide⟩

/-! ## Float binary ops -/

theorem LiftBinOp_float_ignores_rhs (E : Env) (opc : OpCode) (outvar : Option VarnodeData)
    (lhs rhs rhs2 : VarnodeData) (h : (floatOpFunc E opc).isSome = true) :
    LiftBinOp E opc outvar lhs rhs = LiftBinOp E opc outvar lhs rhs2 := by
  have hi : ∀ r, LiftIntegerBinOp E opc outvar lhs r = pure .kLiftedUnsupportedInstruction := by
    intro r
    cases opc <;> simp [floatOpFunc] at h <;>
      simp [LiftIntegerBinOp, LiftIntegerBinOp.viaTable, INTEGER_BINARY_OPS]
  have hb : ∀ r, LiftBoolBinOp E opc outvar lhs r = pure .kLiftedUnsupportedInstruction := by
    intro r
    cases opc <;> simp [floatOpFunc] at h <;> simp [LiftBoolBinOp, boolOpFunc]
  have hc : ∀ r, LiftBinOp.composite E opc outvar lhs r =
      pure .kLiftedUnsupportedInstruction := by
    intro r
    cases opc <;> simp [floatOpFunc] at h <;> cases outvar <;> simp [LiftBinOp.composite]
  simp only [LiftBinOp, hi, hb, hc]
  rfl

/-- C20, the code at `FLOAT_ADD out=unique[0x100]:4 in0=EAX in1=EBX` on a state with
`EAX = 0xDEADBEEF` and `EBX = 0x12345678`, in an environment whose `fadd` returns its
right argument: the block loads `EAX` twice and never loads `EBX`, and the value
stored is `0xDEADBEEF`, the contents of `EAX`, not `0x12345678`; the right argument
of the emitted operation is the value read from lhs.  For every float binary opcode
(every opcode `LiftFloatBinOp` has an operation for), every environment and all
operands, the lift does not depend on the rhs varnode at all. -/
theorem C20_float_binop_reads_lhs_twice :
    (stateOf (dump rightArgEnv faddEAXEBX (.new sampleBlock))
      (.new zeroBlock)).target_block.emitted =
        [.load .float (.named "EAX"), .load .float (.named "EAX"),
          .alloca (.int 32) (.alloca 0), .store ⟨.float, 0xDEADBEEF⟩ (.alloca 0)] ∧
    abortOf (dump rightArgEnv faddEAXEBX (.new sampleBlock)) = none ∧
    GetStatus (stateOf (dump rightArgEnv faddEAXEBX (.new sampleBlock))
      (.new zeroBlock)) = .kLiftedInstruction ∧
    (stateOf (dump rightArgEnv faddEAXEBX (.new sampleBlock))
      (.new zeroBlock)).target_block.cells (.alloca 0) ≠ 0x12345678 ∧
    (∀ (E : Env) (opc : OpCode) (outvar : Option VarnodeData) (lhs rhs rhs2 : VarnodeData),
      (floatOpFunc E opc).isSome = true →
      LiftFloatBinOp E opc outvar lhs rhs = LiftFloatBinOp E opc outvar lhs rhs2 ∧
      LiftBinOp E opc outvar lhs rhs = LiftBinOp E opc outvar lhs rhs2 ∧
      dump E ⟨opc, outvar, [lhs, rhs]⟩ = dump E ⟨opc, outvar, [lhs, rhs2]⟩) ∧
    (∀ (E : Env) (opc : OpCode), (floatOpFunc E opc).isSome = true ↔
      opc = .CPUI_FLOAT_EQUAL ∨ opc = .CPUI_FLOAT_NOTEQUAL ∨ opc = .CPUI_FLOAT_LESS ∨
      opc = .CPUI_FLOAT_LESSEQUAL ∨ opc = .CPUI_FLOAT_ADD ∨ opc = .CPUI_FLOAT_SUB ∨
      opc = .CPUI_FLOAT_MULT ∨ opc = .CPUI_FLOAT_DIV) := by
  refine ⟨by decide, by decide, by decide, by decide, ?_, ?_⟩
  · intro E opc outvar lhs rhs rhs2 h
    have hb := LiftBinOp_float_ignores_rhs E opc outvar lhs rhs rhs2 h
    refine ⟨rfl, hb, ?_⟩
    have hm : ¬ (opc = .CPUI_MULTIEQUAL ∨ opc = .CPUI_CPOOLREF) := by
      rintro (rfl | rfl) <;> simp [floatOpFunc] at h
    have hco : opc ≠ .CPUI_CALLOTHER := by
      rintro rfl
      simp [floatOpFunc] at h
    simp only [dump, hm, hco, if_false, hb]
  · intro E opc
    cases opc <;> simp [floatOpFunc]

/-! ## `BOOL_NEGATE` -/

theorem LiftUnOp_bool_negate_run (E : Env) (i o : VarnodeData)
    (s s1 : PcodeToLLVMEmitIntoBlock) (x : Value)
    (hread : LiftInParam E i (.int 1) s = .ok (some x, s1)) :
    LiftUnOp E .CPUI_BOOL_NEGATE (some o) i s =
      LiftStoreIntoOutParam E ⟨.int 8, 1 - x.bits % 2⟩ (some o) s1 := by
  have hty := LiftInParam_ty E i _ s s1 x hread
  obtain ⟨xty, xb⟩ := x
  simp only at hty
  subst hty
  simp [LiftUnOp, bind_eq, hread, CreateNot, CreateZExt, liftE_ok]

/-- A read of a register or scratch varnode at a type: the low bits of its cell. -/
theorem LiftInParam_cell (E : Env) (v : VarnodeData) (ty : Ty) (s u : PcodeToLLVMEmitIntoBlock)
    (p : Ptr) (h : LiftParamPtr E v s = .ok (.RegisterValue p, u)) :
    LiftInParam E v ty s = .ok (some ⟨ty, u.target_block.cells p % 2 ^ ty.bits⟩,
      { u with target_block :=
        { u.target_block with emitted := u.target_block.emitted ++ [.load ty p] } }) := by
  simp [LiftInParam, bind_eq, h, Parameter.LiftAsInParam, CreateLoad, pure_eq]

/-- The end state of a store into a register or scratch cell. -/
theorem LiftStoreIntoOutParam_cell_state (E : Env) (v : Value) (o : VarnodeData)
    (s s2 : PcodeToLLVMEmitIntoBlock) (p : Ptr)
    (hout : LiftParamPtr E o s = .ok (.RegisterValue p, s2)) :
    LiftStoreIntoOutParam E v (some o) s = .ok (.kLiftedInstruction,
      { s2 with target_block :=
        { s2.target_block with
          cells := fun q => if q = p then writeCell (s2.target_block.cells p) v
            else s2.target_block.cells q
          emitted := s2.target_block.emitted ++ [.store v p] } }) := by
  simp [LiftStoreIntoOutParam, LiftRequireOutParam, bind_eq, pure_eq, hout,
    Parameter.StoreIntoParam, CreateStore]

theorem writeCell_low_bit (old b : Nat) : writeCell old ⟨.int 8, b⟩ % 2 = b % 2 := by
  unfold writeCell
  simp only [Ty.bits]
  omega

/-- One `BOOL_NEGATE` from a cell into a cell: end state and status. -/
theorem LiftUnOp_bool_negate_cells (E : Env) (i o : VarnodeData)
    (s s0 s2 : PcodeToLLVMEmitIntoBlock) (pi p : Ptr)
    (hpi : LiftParamPtr E i s = .ok (.RegisterValue pi, s0))
    (hp : LiftParamPtr E o { s0 with target_block :=
        { s0.target_block with
          emitted := s0.target_block.emitted ++ [.load (.int 1) pi] } } =
      .ok (.RegisterValue p, s2)) :
    LiftUnOp E .CPUI_BOOL_NEGATE (some o) i s = .ok (.kLiftedInstruction,
      { s2 with target_block :=
        { s2.target_block with
          cells := fun q =>
            if q = p then
              writeCell (s2.target_block.cells p) ⟨.int 8, 1 - s0.target_block.cells pi % 2⟩
            else s2.target_block.cells q
          emitted := s2.target_block.emitted ++
            [.store ⟨.int 8, 1 - s0.target_block.cells pi % 2⟩ p] } }) := by
  have hr1 := LiftInParam_cell E i (.int 1) s s0 pi hpi
  have hrun1 := LiftUnOp_bool_negate_run E i o s _ _ hr1
  simp only [Ty.bits, pow_one, Nat.mod_mod] at hrun1
  rw [hrun1]
  exact LiftStoreIntoOutParam_cell_state E _ o _ s2 p hp

/-- C21: for `BOOL_NEGATE` on a register or scratch input whose cell is `pi`, the
input is read at 1 bit (the least-significant bit `b` of the cell), and the value
stored into a register or scratch outvar is the 8-bit integer `1 − b`: 1 when the bit
is 0, 0 when it is 1; the op returns Success and the outvar cell then holds that
value in its low 8 bits.  Two `BOOL_NEGATE` ops in a row, the second reading the
outvar of the first, both return Success and leave `b` in the low 8 bits of the
second outvar. -/
theorem C21_bool_negate (E : Env) (i o o2 : VarnodeData) (s : PcodeToLLVMEmitIntoBlock)
    (hi : IsCell i) (ho : IsCell o) (ho2 : IsCell o2) :
    ∃ pi s0 p s2 t, LiftParamPtr E i s = .ok (.RegisterValue pi, s0) ∧
      LiftParamPtr E o { s0 with target_block :=
            { s0.target_block with
              emitted := s0.target_block.emitted ++ [.load (.int 1) pi] } } =
        .ok (.RegisterValue p, s2) ∧
      LiftUnOp E .CPUI_BOOL_NEGATE (some o) i s = .ok (.kLiftedInstruction, t) ∧
      t.target_block.emitted = s2.target_block.emitted ++
        [.store ⟨.int 8, 1 - s.target_block.cells pi % 2⟩ p] ∧
      t.target_block.cells p % 2 ^ 8 = 1 - s.target_block.cells pi % 2 ∧
      ∃ p2 u, LiftUnOp E .CPUI_BOOL_NEGATE (some o2) o t = .ok (.kLiftedInstruction, u) ∧
        LiftParamPtr E o2 u = .ok (.RegisterValue p2, u) ∧
        u.target_block.cells p2 % 2 ^ 8 = s.target_block.cells pi % 2 := by
  obtain ⟨pi, s0, hpi, hc0, _, _, _, _⟩ := LiftParamPtr_cell E i s hi
  have hx : s0.target_block.cells pi = s.target_block.cells pi := congrFun hc0 pi
  obtain ⟨p, s2, hp, _, _, _, _, hstab⟩ := LiftParamPtr_cell E o
    { s0 with target_block :=
      { s0.target_block with emitted := s0.target_block.emitted ++ [.load (.int 1) pi] } } ho
  have h1 := LiftUnOp_bool_negate_cells E i o s s0 s2 pi p hpi hp
  rw [hx] at h1
  have hb : s.target_block.cells pi % 2 < 2 := Nat.mod_lt _ (by decide)
  have hw1 := writeCell_mod (s2.target_block.cells p)
    ⟨.int 8, 1 - s.target_block.cells pi % 2⟩
  simp only [Ty.bits] at hw1
  refine ⟨pi, s0, p, s2, _, hpi, hp, h1, rfl, ?_, ?_⟩
  · simp only [if_true, hw1]
    omega
  · obtain ⟨t, ht⟩ : ∃ t : PcodeToLLVMEmitIntoBlock, t =
        { s2 with target_block :=
          { s2.target_block with
            cells := fun q =>
              if q = p then
                writeCell (s2.target_block.cells p)
                  ⟨.int 8, 1 - s.target_block.cells pi % 2⟩
              else s2.target_block.cells q
            emitted := s2.target_block.emitted ++
              [.store ⟨.int 8, 1 - s.target_block.cells pi % 2⟩ p] } } := ⟨_, rfl⟩
    rw [← ht]
    have hpt : LiftParamPtr E o t = .ok (.RegisterValue p, t) := by
      rw [ht]
      exact hstab s2 rfl rfl _
    have htp : t.target_block.cells p % 2 = 1 - s.target_block.cells pi % 2 := by
      rw [ht]
      simp only [if_true, writeCell_low_bit]
      omega
    obtain ⟨p2, s3, hp2, _, _, _, _, hstab2⟩ := LiftParamPtr_cell E o2
      { t with target_block :=
        { t.target_block with emitted := t.target_block.emitted ++ [.load (.int 1) p] } } ho2
    have h2 := LiftUnOp_bool_negate_cells E o o2 t t s3 p p2 hpt hp2
    rw [htp] at h2
    have hw2 := writeCell_mod (s3.target_block.cells p2)
      ⟨.int 8, 1 - (1 - s.target_block.cells pi % 2)⟩
    simp only [Ty.bits] at hw2
    refine ⟨p2, _, h2, hstab2 s3 rfl rfl _, ?_⟩
    simp only [if_true, hw2]
    omega

/-- C21 at concrete ops on a state with `EAX = 0xDEADBEEF` (low bit 1) and
`EBX = 0x12345678` (low bit 0): `BOOL_NEGATE` of `EAX` into the scratch cell
`unique[0x100]` stores the 8-bit value 0, `BOOL_NEGATE` of `EBX` stores the 8-bit
value 1, and negating `EAX` into `unique[0x100]` and that into `unique[0x200]` leaves
the low bit of `EAX` there. -/
theorem C21_bool_negate_witness :
    (∃ pi s0 p s2 t,
      LiftParamPtr sampleEnv ⟨.register, 0, 1⟩ (.new sampleBlock) =
        .ok (.RegisterValue pi, s0) ∧
      LiftParamPtr sampleEnv ⟨.unique, 0x100, 1⟩ { s0 with target_block :=
            { s0.target_block with
              emitted := s0.target_block.emitted ++ [.load (.int 1) pi] } } =
        .ok (.RegisterValue p, s2) ∧
      LiftUnOp sampleEnv .CPUI_BOOL_NEGATE (some ⟨.unique, 0x100, 1⟩) ⟨.register, 0, 1⟩
        (.new sampleBlock) = .ok (.kLiftedInstruction, t) ∧
      t.target_block.emitted = s2.target_block.emitted ++
        [.store ⟨.int 8, 1 - (PcodeToLLVMEmitIntoBlock.new sampleBlock).target_block.cells pi % 2⟩
          p] ∧
      t.target_block.cells p % 2 ^ 8 =
        1 - (PcodeToLLVMEmitIntoBlock.new sampleBlock).target_block.cells pi % 2 ∧
      ∃ p2 u, LiftUnOp sampleEnv .CPUI_BOOL_NEGATE (some ⟨.unique, 0x200, 1⟩)
          ⟨.unique, 0x100, 1⟩ t = .ok (.kLiftedInstruction, u) ∧
        LiftParamPtr sampleEnv ⟨.unique, 0x200, 1⟩ u = .ok (.RegisterValue p2, u) ∧
        u.target_block.cells p2 % 2 ^ 8 =
          (PcodeToLLVMEmitIntoBlock.new sampleBlock).target_block.cells pi % 2) ∧
    (stateOf (LiftUnOp sampleEnv .CPUI_BOOL_NEGATE (some ⟨.unique, 0x100, 1⟩)
      ⟨.register, 0, 1⟩ (.new sampleBlock)) (.new zeroBlock)).target_block.emitted =
        [.load (.int 1) (.named "EAX"), .alloca (.int 8) (.alloca 0),
          .store ⟨.int 8, 0⟩ (.alloca 0)] ∧
    (stateOf (LiftUnOp sampleEnv .CPUI_BOOL_NEGATE (some ⟨.unique, 0x100, 1⟩)
      ⟨.register, 12, 1⟩ (.new sampleBlock)) (.new zeroBlock)).target_block.emitted =
        [.load (.int 1) (.named "EBX"), .alloca (.int 8) (.alloca 0),
          .store ⟨.int 8, 1⟩ (.alloca 0)] :=
  ⟨C21_bool_negate sampleEnv ⟨.register, 0, 1⟩ ⟨.unique, 0x100, 1⟩ ⟨.unique, 0x200, 1⟩
      (.new sampleBlock) (Or.inl rfl) (Or.inr rfl) (Or.inr rfl),
    by decide, by decide⟩

/-! ## The dispatcher's default -/

theorem LiftUnOp_unhandled (E : Env) (opc : OpCode) (outvar : Option VarnodeData)
    (v : VarnodeData) (h : unaryHandled opc = false) :
    LiftUnOp E opc outvar v = pure .kLiftedUnsupportedInstruction := by
  cases opc <;> simp only [unaryHandled, reduceCtorEq] at h <;> rfl

theorem LiftTernOp_unhandled (E : Env) (opc : OpCode) (outvar : Option VarnodeData)
    (v0 v1 v2 : VarnodeData) (h : ternaryHandled opc = false) :
    LiftTernOp E opc outvar v0 v1 v2 = pure .kLiftedUnsupportedInstruction := by
  cases opc <;> simp only [ternaryHandled, reduceCtorEq] at h <;> rfl

theorem LiftBinOp_unhandled (E : Env) (opc : OpCode) (outvar : Option VarnodeData)
    (v0 v1 : VarnodeData) (h : binaryHandled E opc = false) :
    LiftBinOp E opc outvar v0 v1 = pure .kLiftedUnsupportedInstruction := by
  simp only [binaryHandled, Bool.or_eq_false_iff, decide_eq_false_iff_not] at h
  obtain ⟨⟨⟨⟨⟨⟨hcb, hint⟩, hbool⟩, hfl⟩, hld⟩, hpc⟩, hsp⟩ := h
  have none_of : ∀ {α : Type} (x : Option α), x.isSome = false → x = none := by
    intro α x hx
    cases x with
    | none => rfl
    | some a => cases hx
  replace hint := none_of _ hint
  replace hbool := none_of _ hbool
  replace hfl := none_of _ hfl
  have h1 : LiftIntegerBinOp E opc outvar v0 v1 = pure .kLiftedUnsupportedInstruction := by
    simp [LiftIntegerBinOp, hcb, LiftIntegerBinOp.viaTable, hint]
  have h2 : LiftBoolBinOp E opc outvar v0 v1 = pure .kLiftedUnsupportedInstruction := by
    simp [LiftBoolBinOp, hbool]
  have h3 : LiftFloatBinOp E opc outvar v0 v1 = pure .kLiftedUnsupportedInstruction := by
    simp [LiftFloatBinOp, hfl]
  have h4 : LiftBinOp.composite E opc outvar v0 v1 = pure .kLiftedUnsupportedInstruction := by
    unfold LiftBinOp.composite
    split <;> first | rfl | (exfalso; simp_all)
  simp only [LiftBinOp, h1, h2, h3, h4]
  rfl

theorem dump_unmodelled (E : Env) (op : PcodeOp) (s : PcodeToLLVMEmitIntoBlock)
    (h : unmodelled E op = true) : dump E op s = .ok ((), markedUnsupported s) := by
  obtain ⟨opc, outvar, vars⟩ := op
  have hu : ∀ t : PcodeToLLVMEmitIntoBlock,
      UpdateStatus .kLiftedUnsupportedInstruction opc t = .ok ((), markedUnsupported t) := by
    intro t
    simp [UpdateStatus, markedUnsupported]
  unfold unmodelled at h
  simp only at h
  by_cases hcp : opc = .CPUI_CPOOLREF
  · subst hcp
    simp [dump, LiftVariadicOp, bind_eq, pure_eq, hu]
  · simp only [hcp, if_false] at h
    by_cases hmc : opc = .CPUI_MULTIEQUAL ∨ opc = .CPUI_CALLOTHER
    · simp [hmc] at h
    · simp only [hmc, if_false] at h
      have hm : ¬ (opc = .CPUI_MULTIEQUAL ∨ opc = .CPUI_CPOOLREF) := by
        rintro (h1 | h1)
        · exact hmc (Or.inl h1)
        · exact hcp h1
      have hco : ¬ opc = .CPUI_CALLOTHER := fun h1 => hmc (Or.inr h1)
      simp only [dump, hm, hco, if_false]
      match vars, h with
      | [], _ => exact hu s
      | [v0], h =>
        simp only [Bool.not_eq_true'] at h
        simp [LiftUnOp_unhandled E opc outvar v0 h, bind_eq, pure_eq, hu]
      | [v0, v1], h =>
        simp only [Bool.not_eq_true'] at h
        simp [LiftBinOp_unhandled E opc outvar v0 v1 h, bind_eq, pure_eq, hu]
      | [v0, v1, v2], h =>
        simp only [Bool.not_eq_true'] at h
        simp [LiftTernOp_unhandled E opc outvar v0 v1 v2 h, bind_eq, pure_eq, hu]
      | _ :: _ :: _ :: _ :: _, _ => exact hu s

/-- C22: for every p-code op that no handler models (`CPOOLREF` with any operands; an
opcode other than `MULTIEQUAL` and `CALLOTHER` with an operand count outside
`{1, 2, 3}` or outside the handler set of its operand count, which covers `INDIRECT`
and `NEW` at every operand count), `dump` returns; it changes nothing but the running
status, which becomes Unsupported, and the record of reports, which gains
Unsupported; no IR is appended; and the ops after it are dispatched from that
state. -/
theorem C22_dispatcher_defaults_to_unsupported (E : Env) (op : PcodeOp)
    (s : PcodeToLLVMEmitIntoBlock) (h : unmodelled E op = true) :
    dump E op s = .ok ((), markedUnsupported s) ∧
    GetStatus (markedUnsupported s) = .kLiftedUnsupportedInstruction ∧
    (markedUnsupported s).target_block = s.target_block ∧
    (markedUnsupported s).replacement_cont = s.replacement_cont ∧
    (∀ rest, oneInstruction E (op :: rest) s = oneInstruction E rest (markedUnsupported s)) ∧
    (∀ outvar vars, unmodelled E ⟨.CPUI_INDIRECT, outvar, vars⟩ = true ∧
      unmodelled E ⟨.CPUI_NEW, outvar, vars⟩ = true ∧
      unmodelled E ⟨.CPUI_CPOOLREF, outvar, vars⟩ = true) ∧
    (∀ opc outvar v0 v1 v2 v3 rest, opc ≠ .CPUI_MULTIEQUAL → opc ≠ .CPUI_CALLOTHER →
      unmodelled E ⟨opc, outvar, []⟩ = true ∧
      unmodelled E ⟨opc, outvar, v0 :: v1 :: v2 :: v3 :: rest⟩ = true) := by
  have hd := dump_unmodelled E op s h
  refine ⟨hd, rfl, rfl, rfl, ?_, ?_, ?_⟩
  · intro rest
    simp only [oneInstruction, bind_eq, hd]
  · intro outvar vars
    refine ⟨?_, ?_, rfl⟩
    · match vars with
      | [] | [_] | [_, _] | [_, _, _] | _ :: _ :: _ :: _ :: _ =>
        simp [unmodelled, unaryHandled, binaryHandled, ternaryHandled, INTEGER_BINARY_OPS,
          boolOpFunc, floatOpFunc]
    · match vars with
      | [] | [_] | [_, _] | [_, _, _] | _ :: _ :: _ :: _ :: _ =>
        simp [unmodelled, unaryHandled, binaryHandled, ternaryHandled, INTEGER_BINARY_OPS,
          boolOpFunc, floatOpFunc]
  · intro opc outvar v0 v1 v2 v3 rest hm hc
    by_cases hcp : opc = .CPUI_CPOOLREF
    · subst hcp
      exact ⟨rfl, rfl⟩
    · simp [unmodelled, hcp, hm, hc]

/-- C22 at concrete ops: `INDIRECT` with two operands, `COPY` without operands and
`INT_ADD` with one operand are ops no handler models; an instruction made of the
three, followed by `COPY out=EAX in=const(7, size 4)`, does not stop, ends with
status Unsupported, has four statuses reported, and the `COPY` was still lifted. -/
theorem C22_dispatcher_defaults_to_unsupported_witness :
    dump sampleEnv ⟨.CPUI_INDIRECT, some ⟨.register, 0, 4⟩,
        [⟨.register, 0, 4⟩, ⟨.const, 1, 4⟩]⟩ (.new zeroBlock) =
      .ok ((), markedUnsupported (.new zeroBlock)) ∧
    abortOf (oneInstruction sampleEnv
      [⟨.CPUI_INDIRECT, some ⟨.register, 0, 4⟩, [⟨.register, 0, 4⟩, ⟨.const, 1, 4⟩]⟩,
        ⟨.CPUI_COPY, some ⟨.register, 0, 4⟩, []⟩,
        ⟨.CPUI_INT_ADD, some ⟨.register, 0, 4⟩, [⟨.register, 0, 4⟩]⟩,
        copy7ToEAX] (.new zeroBlock)) = none ∧
    (stateOf (oneInstruction sampleEnv
      [⟨.CPUI_INDIRECT, some ⟨.register, 0, 4⟩, [⟨.register, 0, 4⟩, ⟨.const, 1, 4⟩]⟩,
        ⟨.CPUI_COPY, some ⟨.register, 0, 4⟩, []⟩,
        ⟨.CPUI_INT_ADD, some ⟨.register, 0, 4⟩, [⟨.register, 0, 4⟩]⟩,
        copy7ToEAX] (.new zeroBlock)) (.new zeroBlock)).reported =
      [.kLiftedUnsupportedInstruction, .kLiftedUnsupportedInstruction,
        .kLiftedUnsupportedInstruction, .kLiftedInstruction] ∧
    (stateOf (oneInstruction sampleEnv
      [⟨.CPUI_INDIRECT, some ⟨.register, 0, 4⟩, [⟨.register, 0, 4⟩, ⟨.const, 1, 4⟩]⟩,
        ⟨.CPUI_COPY, some ⟨.register, 0, 4⟩, []⟩,
        ⟨.CPUI_INT_ADD, some ⟨.register, 0, 4⟩, [⟨.register, 0, 4⟩]⟩,
        copy7ToEAX] (.new zeroBlock)) (.new zeroBlock)).target_block.emitted =
      [.store ⟨.int 32, 7⟩ (.named "EAX")] ∧
    GetStatus (stateOf (oneInstruction sampleEnv
      [⟨.CPUI_INDIRECT, some ⟨.register, 0, 4⟩, [⟨.register, 0, 4⟩, ⟨.const, 1, 4⟩]⟩,
        ⟨.CPUI_COPY, some ⟨.register, 0, 4⟩, []⟩,
        ⟨.CPUI_INT_ADD, some ⟨.register, 0, 4⟩, [⟨.register, 0, 4⟩]⟩,
        copy7ToEAX] (.new zeroBlock)) (.new zeroBlock)) = .kLiftedUnsupportedInstruction :=
  ⟨(C22_dispatcher_defaults_to_unsupported sampleEnv
      ⟨.CPUI_INDIRECT, some ⟨.register, 0, 4⟩, [⟨.register, 0, 4⟩, ⟨.const, 1, 4⟩]⟩
      (.new zeroBlock) rfl).1,
    by decide, by decide, by decide, by decide⟩


/-! ## Opcodes that store into the output varnode -/

theorem ApplyEqualityClaim_fresh (E : Env) (v1 v2 : VarnodeData)
    (s s1 : PcodeToLLVMEmitIntoBlock) (p : Parameter) (hc : v1.space = .const)
    (hp : LiftParamPtr E v2 s = .ok (p, s1)) (hn : NoClaim v1.offset s1) :
    ApplyEqualityClaim E v1 v2 s = .ok ((),
      { s1 with replacement_cont :=
          { s1.replacement_cont with
            current_replacements :=
              (v1.offset, p) :: s1.replacement_cont.current_replacements } }) := by
  unfold NoClaim at hn
  simp [ApplyEqualityClaim, hc, bind_eq, hp, hn]

theorem ApplyEqualityClaim_present (E : Env) (v1 v2 : VarnodeData)
    (s s1 : PcodeToLLVMEmitIntoBlock) (p q : Parameter) (hc : v1.space = .const)
    (hp : LiftParamPtr E v2 s = .ok (p, s1))
    (hq : s1.replacement_cont.current_replacements.lookup v1.offset = some q) :
    ApplyEqualityClaim E v1 v2 s = .ok ((), s1) := by
  simp [ApplyEqualityClaim, hc, bind_eq, hp, hq]

theorem dump_callother_claim (E : Env) (outvar : Option VarnodeData) (v0 v1 v2 : VarnodeData)
    (h0 : v0.offset < E.user_op_names.length)
    (hn : E.user_op_names.get? v0.offset = some "claim_eq") :
    dump E ⟨.CPUI_CALLOTHER, outvar, [v0, v1, v2]⟩ = ApplyEqualityClaim E v1 v2 := by
  simp only [dump, user_op_names_at_bind E _ _ hn, reduceCtorEq, or_self, if_false, if_true, h0]

theorem dump_callother_other (E : Env) (outvar : Option VarnodeData) (vars : List VarnodeData)
    (s : PcodeToLLVMEmitIntoBlock)
    (h : ¬ ∃ v0 v1 v2, vars = [v0, v1, v2] ∧ v0.offset < E.user_op_names.length ∧
      E.user_op_names.get? v0.offset = some "claim_eq") :
    dump E ⟨.CPUI_CALLOTHER, outvar, vars⟩ s = .ok ((), markedUnsupported s) := by
  have hu : UpdateStatus .kLiftedUnsupportedInstruction .CPUI_CALLOTHER s =
      .ok ((), markedUnsupported s) := by
    simp [UpdateStatus, markedUnsupported]
  match vars, h with
  | [], _ => simpa [dump] using hu
  | [_], _ => simpa [dump] using hu
  | [_, _], _ => simpa [dump] using hu
  | _ :: _ :: _ :: _ :: _, _ => simpa [dump] using hu
  | [v0, v1, v2], h =>
    have hc : ¬ (v0.offset < E.user_op_names.length ∧
        E.user_op_names.get? v0.offset = some "claim_eq") :=
      fun hh => h ⟨v0, v1, v2, rfl, hh.1, hh.2⟩
    simp only [dump, user_op_names_guard, reduceCtorEq, or_self, if_false, if_true, hc]
    exact hu

theorem LiftAsInParam_returns (E : Env) (p : Parameter) (ty : Ty) (s : PcodeToLLVMEmitIntoBlock) :
    ∃ r, p.LiftAsInParam E ty s = .ok r := by
  cases p with
  | RegisterValue q => exact ⟨_, rfl⟩
  | Memory m i =>
    simp only [Parameter.LiftAsInParam, bind_eq, CreateLoad, LoadFromMemory]
    cases E.read_memory ty (s.target_block.cells m % 2 ^ Ty.ptr.bits) i <;> exact ⟨_, rfl⟩
  | ConstantValue c =>
    simp only [Parameter.LiftAsInParam]
    split <;> exact ⟨_, rfl⟩

theorem LiftOffsetOrReplace_in_bounds (E : Env) (v : VarnodeData) (ty : Ty)
    (s : PcodeToLLVMEmitIntoBlock) : LiftOffsetOrReplace E v ty s ≠ .error .outOfBounds := by
  unfold LiftOffsetOrReplace
  split
  · rename_i p hp
    split
    · intro h; cases h
    · obtain ⟨r, hr⟩ := LiftAsInParam_returns E p ty s
      rw [hr]
      obtain ⟨o, t⟩ := r
      cases o <;> (intro h; cases h)
  · intro h; cases h

theorem bind_in_bounds {α β : Type} (x : M α) (f : α → M β) (s : PcodeToLLVMEmitIntoBlock)
    (hx : x s ≠ .error .outOfBounds) (hf : ∀ a t, f a t ≠ .error .outOfBounds) :
    (x >>= f) s ≠ .error .outOfBounds := by
  rw [bind_eq]
  cases hxs : x s with
  | ok r => exact hf r.1 r.2
  | error e =>
    intro h
    rw [hxs] at hx
    exact hx (by simpa using h)

theorem LiftParamPtr_in_bounds (E : Env) (v : VarnodeData) (s : PcodeToLLVMEmitIntoBlock) :
    LiftParamPtr E v s ≠ .error .outOfBounds := by
  unfold LiftParamPtr
  cases v.space with
  | ram =>
    exact bind_in_bounds _ _ s (LiftOffsetOrReplace_in_bounds E v _ s)
      (fun a t h => by cases h)
  | register =>
    cases LiftNormalRegister E (E.getRegisterName AddrSpace.register v.offset v.size) <;>
      (intro h; cases h)
  | const =>
    exact bind_in_bounds _ _ s (LiftOffsetOrReplace_in_bounds E v _ s)
      (fun a t h => by cases h)
  | unique => intro h; cases h
  | other n => intro h; cases h

theorem ApplyEqualityClaim_in_bounds (E : Env) (l r : VarnodeData)
    (s : PcodeToLLVMEmitIntoBlock) : ApplyEqualityClaim E l r s ≠ .error .outOfBounds := by
  unfold ApplyEqualityClaim
  split
  · refine bind_in_bounds _ _ s (LiftParamPtr_in_bounds E r s) (fun p t => ?_)
    dsimp only
    split <;> (intro h; cases h)
  · intro h; cases h

/-- The table access at an index at or beyond the size of the table is the
out-of-bounds read. -/
theorem user_op_names_at_beyond (E : Env) (i : Nat) (h : E.user_op_names.length ≤ i)
    (s : PcodeToLLVMEmitIntoBlock) : user_op_names_at E i s = .error .outOfBounds := by
  unfold user_op_names_at
  rw [List.get?_eq_none.mpr h]
  rfl

theorem dump_callother_in_bounds (E : Env) (outvar : Option VarnodeData)
    (vars : List VarnodeData) (s : PcodeToLLVMEmitIntoBlock) :
    dump E ⟨.CPUI_CALLOTHER, outvar, vars⟩ s ≠ .error .outOfBounds := by
  by_cases h : ∃ v0 v1 v2, vars = [v0, v1, v2] ∧ v0.offset < E.user_op_names.length ∧
      E.user_op_names.get? v0.offset = some "claim_eq"
  · obtain ⟨v0, v1, v2, hv, h0, hn⟩ := h
    subst hv
    rw [dump_callother_claim E outvar v0 v1 v2 h0 hn]
    exact ApplyEqualityClaim_in_bounds E v1 v2 s
  · rw [dump_callother_other E outvar vars s h]
    intro h; cases h

/-- C23: for every `CALLOTHER` op.  With exactly three operands and operand 0's offset
an index below the length of the user-op table at which the table holds `claim_eq`,
`dump` is the call `ApplyEqualityClaim(operand 1, operand 2)`: when operand 1 is a
constant and operand 2 lifts to a Parameter `p`, no instruction is appended beyond
what lifting operand 2 appends, running status and reports stay as they were, and the
claim context gains the entry `operand1.offset ↦ p` (when the offset has an entry
already, the context is left as it is).  In every other case (another operand count,
another name, an offset at or beyond the table's length) `dump` returns, it changes
only the running status, which becomes Unsupported, and the record of reports; block
and claim context are untouched.  No run of `dump` on a `CALLOTHER` op ends in the
out-of-bounds read of the table, which is what the access `user_op_names[i]` is at
every index at or beyond the table's length: with three operands and such an index
in operand 0 the run returns with status Unsupported. -/
theorem C23_callother_claim_or_unsupported (E : Env) (outvar : Option VarnodeData)
    (vars : List VarnodeData) (s : PcodeToLLVMEmitIntoBlock) :
    (∀ v0 v1 v2 p s1, vars = [v0, v1, v2] → v0.offset < E.user_op_names.length →
      E.user_op_names.get? v0.offset = some "claim_eq" → v1.space = .const →
      LiftParamPtr E v2 s = .ok (p, s1) →
      ∃ t, dump E ⟨.CPUI_CALLOTHER, outvar, vars⟩ s = .ok ((), t) ∧
        t.status = s.status ∧ t.reported = s.reported ∧
        t.target_block = s1.target_block ∧
        t.replacement_cont.used_values = s1.replacement_cont.used_values ∧
        (NoClaim v1.offset s1 →
          t.replacement_cont.current_replacements =
            (v1.offset, p) :: s1.replacement_cont.current_replacements ∧
          t.replacement_cont.current_replacements.lookup v1.offset = some p) ∧
        (¬ NoClaim v1.offset s1 → t.replacement_cont = s1.replacement_cont)) ∧
    ((¬ ∃ v0 v1 v2, vars = [v0, v1, v2] ∧ v0.offset < E.user_op_names.length ∧
        E.user_op_names.get? v0.offset = some "claim_eq") →
      dump E ⟨.CPUI_CALLOTHER, outvar, vars⟩ s = .ok ((), markedUnsupported s) ∧
      GetStatus (markedUnsupported s) = .kLiftedUnsupportedInstruction ∧
      (markedUnsupported s).replacement_cont = s.replacement_cont ∧
      (markedUnsupported s).target_block = s.target_block) ∧
    dump E ⟨.CPUI_CALLOTHER, outvar, vars⟩ s ≠ .error .outOfBounds ∧
    (∀ i : Nat, E.user_op_names.length ≤ i → user_op_names_at E i s = .error .outOfBounds) ∧
    (∀ v0 v1 v2, vars = [v0, v1, v2] → E.user_op_names.length ≤ v0.offset →
      dump E ⟨.CPUI_CALLOTHER, outvar, vars⟩ s = .ok ((), markedUnsupported s)) := by
  refine ⟨?_, ?_, dump_callother_in_bounds E outvar vars s,
    fun i hi => user_op_names_at_beyond E i hi s, ?_⟩
  · intro v0 v1 v2 p s1 hv h0 hn hc hp
    subst hv
    have hss : SameStatus s s1 :=
      Respects_LiftParamPtr SameStatus_frame.toReadFrame E v2 s p s1 hp
    rw [dump_callother_claim E outvar v0 v1 v2 h0 hn]
    by_cases hcl : NoClaim v1.offset s1
    · rw [ApplyEqualityClaim_fresh E v1 v2 s s1 p hc hp hcl]
      refine ⟨_, rfl, hss.1, hss.2, rfl, rfl, fun _ => ⟨rfl, ?_⟩, fun h => absurd hcl h⟩
      simp [List.lookup_cons]
    · obtain ⟨q, hq⟩ : ∃ q, s1.replacement_cont.current_replacements.lookup v1.offset =
          some q := by
        unfold NoClaim at hcl
        cases hl : s1.replacement_cont.current_replacements.lookup v1.offset with
        | none => exact absurd hl hcl
        | some q => exact ⟨q, rfl⟩
      rw [ApplyEqualityClaim_present E v1 v2 s s1 p q hc hp hq]
      exact ⟨_, rfl, hss.1, hss.2, rfl, rfl, fun h => absurd h hcl, fun _ => rfl⟩
  · intro h
    exact ⟨dump_callother_other E outvar vars s h, rfl, rfl, rfl⟩
  · intro v0 v1 v2 hv hge
    refine dump_callother_other E outvar vars s ?_
    rintro ⟨w0, w1, w2, hw, hlt, _⟩
    rw [hv] at hw
    cases hw
    omega

/-- C23 at concrete ops in an environment with user ops `segment` (index 0) and
`claim_eq` (index 1): `CALLOTHER 1, const(42, size 4), EBX` records the claim
`42 ↦ EBX` with status Success and no IR; `CALLOTHER 0, ...` (another name),
`CALLOTHER 2, ...` (index beyond the table) and `CALLOTHER 1, const 42` (two operands)
leave the claim context empty and set the status to Unsupported. -/
theorem C23_callother_claim_or_unsupported_witness :
    (stateOf (dump twoUserOpsEnv ⟨.CPUI_CALLOTHER, none,
        [⟨.const, 1, 4⟩, ⟨.const, 42, 4⟩, ⟨.register, 12, 4⟩]⟩ (.new zeroBlock))
      (.new sampleBlock)).replacement_cont =
        ⟨[(42, .RegisterValue (.named "EBX"))], []⟩ ∧
    GetStatus (stateOf (dump twoUserOpsEnv ⟨.CPUI_CALLOTHER, none,
        [⟨.const, 1, 4⟩, ⟨.const, 42, 4⟩, ⟨.register, 12, 4⟩]⟩ (.new zeroBlock))
      (markedUnsupported (.new zeroBlock))) = .kLiftedInstruction ∧
    dump twoUserOpsEnv ⟨.CPUI_CALLOTHER, none,
        [⟨.const, 0, 4⟩, ⟨.const, 42, 4⟩, ⟨.register, 12, 4⟩]⟩ (.new zeroBlock) =
      .ok ((), markedUnsupported (.new zeroBlock)) ∧
    dump twoUserOpsEnv ⟨.CPUI_CALLOTHER, none,
        [⟨.const, 2, 4⟩, ⟨.const, 42, 4⟩, ⟨.register, 12, 4⟩]⟩ (.new zeroBlock) =
      .ok ((), markedUnsupported (.new zeroBlock)) ∧
    dump twoUserOpsEnv ⟨.CPUI_CALLOTHER, none,
        [⟨.const, 1, 4⟩, ⟨.const, 42, 4⟩]⟩ (.new zeroBlock) =
      .ok ((), markedUnsupported (.new zeroBlock)) :=
  ⟨by decide, by decide,
    ((C23_callother_claim_or_unsupported twoUserOpsEnv none
      [⟨.const, 0, 4⟩, ⟨.const, 42, 4⟩, ⟨.register, 12, 4⟩] (.new zeroBlock)).2.1
      (by
        rintro ⟨v0, v1, v2, hv, _, hn⟩
        cases hv
        exact absurd hn (by decide))).1,
    rfl, rfl⟩

/-! ## `STORE` -/

/-- C24: for `STORE` with operand 1 read at the word type as the address `a` and
operand 2 read at `8·size` bits as the value `v`.  The op loads the memory handle from
the `MEMORY` slot and calls the store intrinsic on `(v, handle, a)`.  When the
intrinsic accepts and returns the handle `h`, the op appends the intrinsic call and
the store of `h` into the `MEMORY` slot and returns Success.  When the intrinsic
refuses, the op returns Invalid and no cell changes.  When operand 1, or operand 1
being readable operand 2, is unreadable, the op returns Unsupported from the state
the reads left.  Operand 0 and the outvar have no influence. -/
theorem C24_store_through_memory (E : Env) (outvar : Option VarnodeData)
    (p0 p1 p2 : VarnodeData) (s : PcodeToLLVMEmitIntoBlock) :
    (∀ a v s1 s2, LiftInParam E p1 (.int E.word_bits) s = .ok (some a, s1) →
      LiftInParam E p2 (.int (p2.size * 8)) s1 = .ok (some v, s2) →
      (∀ h, E.write_memory v
          (s2.target_block.cells (E.LoadRegAddress kMemoryVariableName) % 2 ^ 64) a = some h →
        LiftTernOp E .CPUI_STORE outvar p0 p1 p2 s = .ok (.kLiftedInstruction,
          { s2 with target_block :=
            { s2.target_block with
              cells := fun q =>
                if q = E.LoadRegAddress kMemoryVariableName then
                  writeCell (s2.target_block.cells (E.LoadRegAddress kMemoryVariableName))
                    ⟨.ptr, h % 2 ^ 64⟩
                else s2.target_block.cells q
              emitted := s2.target_block.emitted ++
                [.load .ptr (E.LoadRegAddress kMemoryVariableName),
                  .write_memory v
                    ⟨.ptr, s2.target_block.cells (E.LoadRegAddress kMemoryVariableName) % 2 ^ 64⟩
                    a,
                  .store ⟨.ptr, h % 2 ^ 64⟩ (E.LoadRegAddress kMemoryVariableName)] } }) ∧
          writeCell (s2.target_block.cells (E.LoadRegAddress kMemoryVariableName))
            ⟨.ptr, h % 2 ^ 64⟩ % 2 ^ 64 = h % 2 ^ 64) ∧
      (E.write_memory v
          (s2.target_block.cells (E.LoadRegAddress kMemoryVariableName) % 2 ^ 64) a = none →
        LiftTernOp E .CPUI_STORE outvar p0 p1 p2 s = .ok (.kLiftedInvalidInstruction,
          { s2 with target_block :=
            { s2.target_block with
              emitted := s2.target_block.emitted ++
                [.load .ptr (E.LoadRegAddress kMemoryVariableName)] } }))) ∧
    (∀ s1, LiftInParam E p1 (.int E.word_bits) s = .ok (none, s1) →
      LiftTernOp E .CPUI_STORE outvar p0 p1 p2 s =
        .ok (.kLiftedUnsupportedInstruction, s1) ∧
      s1.target_block.cells = s.target_block.cells) ∧
    (∀ a s1 s2, LiftInParam E p1 (.int E.word_bits) s = .ok (some a, s1) →
      LiftInParam E p2 (.int (p2.size * 8)) s1 = .ok (none, s2) →
      LiftTernOp E .CPUI_STORE outvar p0 p1 p2 s =
        .ok (.kLiftedUnsupportedInstruction, s2) ∧
      s2.target_block.cells = s.target_block.cells) ∧
    (∀ q0 outvar2, LiftTernOp E .CPUI_STORE outvar p0 p1 p2 =
      LiftTernOp E .CPUI_STORE outvar2 q0 p1 p2) := by
  refine ⟨?_, ?_, ?_, ?_⟩
  · intro a v s1 s2 h1 h2
    refine ⟨fun h hacc => ⟨?_, ?_⟩, fun href => ?_⟩
    · norm_num at hacc
      simp [LiftTernOp, bind_eq, h1, h2, CreateMemoryAddress, Parameter.StoreIntoParam,
        CreateLoad, remill.StoreToMemory, Ty.bits, hacc, CreateStore, pure_eq]
    · have := writeCell_mod (s2.target_block.cells (E.LoadRegAddress kMemoryVariableName))
        ⟨.ptr, h % 2 ^ 64⟩
      simpa [Ty.bits] using this
    · norm_num at href
      simp [LiftTernOp, bind_eq, h1, h2, CreateMemoryAddress, Parameter.StoreIntoParam,
        CreateLoad, remill.StoreToMemory, Ty.bits, href, pure_eq]
  · intro s1 h1
    have hro := Respects_LiftInParam ReadOnly_frame E p1 _ s _ s1 h1
    exact ⟨by simp [LiftTernOp, bind_eq, h1, pure_eq], hro.1⟩
  · intro a s1 s2 h1 h2
    have hro := Respects_LiftInParam ReadOnly_frame E p1 _ s _ s1 h1
    have hro2 := Respects_LiftInParam ReadOnly_frame E p2 _ s1 _ s2 h2
    exact ⟨by simp [LiftTernOp, bind_eq, h1, h2, pure_eq], hro2.1.trans hro.1⟩
  · intro q0 outvar2
    rfl

/-- C24 at the concrete op `STORE in0=const(0) in1=const(0x1000, size 8)
in2=const(7, size 4)` on a zero state: with a store intrinsic that accepts, the op
returns Success, calls the intrinsic on the value 7 and the address `0x1000`, and
stores the returned handle into `MEMORY`; with one that refuses, the op returns
Invalid and stores nothing. -/
theorem C24_store_through_memory_witness :
    LiftTernOp sampleEnv .CPUI_STORE none ⟨.const, 0, 4⟩ ⟨.const, 0x1000, 8⟩ ⟨.const, 7, 4⟩
        (.new zeroBlock) =
      .ok (.kLiftedInstruction,
        { PcodeToLLVMEmitIntoBlock.new zeroBlock with target_block :=
          { zeroBlock with
            cells := fun q =>
              if q = sampleEnv.LoadRegAddress kMemoryVariableName then
                writeCell (zeroBlock.cells (sampleEnv.LoadRegAddress kMemoryVariableName))
                  ⟨.ptr, 1 % 2 ^ 64⟩
              else zeroBlock.cells q
            emitted := zeroBlock.emitted ++
              [.load .ptr (sampleEnv.LoadRegAddress kMemoryVariableName),
                .write_memory ⟨.int 32, 7⟩
                  ⟨.ptr, zeroBlock.cells (sampleEnv.LoadRegAddress kMemoryVariableName) % 2 ^ 64⟩
                  ⟨.int 64, 0x1000⟩,
                .store ⟨.ptr, 1 % 2 ^ 64⟩ (sampleEnv.LoadRegAddress kMemoryVariableName)] } }) ∧
    valueOf (LiftTernOp refusingEnv .CPUI_STORE none ⟨.const, 0, 4⟩ ⟨.const, 0x1000, 8⟩
      ⟨.const, 7, 4⟩ (.new zeroBlock)) = some .kLiftedInvalidInstruction ∧
    (stateOf (LiftTernOp refusingEnv .CPUI_STORE none ⟨.const, 0, 4⟩ ⟨.const, 0x1000, 8⟩
      ⟨.const, 7, 4⟩ (.new zeroBlock)) (.new sampleBlock)).target_block.emitted =
        [.load .ptr (.named "MEMORY")] :=
  ⟨(((C24_store_through_memory sampleEnv none ⟨.const, 0, 4⟩ ⟨.const, 0x1000, 8⟩
      ⟨.const, 7, 4⟩ (.new zeroBlock)).1 ⟨.int 64, 0x1000⟩ ⟨.int 32, 7⟩ (.new zeroBlock)
      (.new zeroBlock) rfl rfl).1 1 rfl).1,
    by decide, by decide⟩

/-! ## `LOAD` -/

theorem LiftBinOp_load_composite (E : Env) (outvar : Option VarnodeData)
    (lhs rhs : VarnodeData) :
    LiftBinOp E .CPUI_LOAD outvar lhs rhs = LiftBinOp.composite E .CPUI_LOAD outvar lhs rhs := by
  have h1 : LiftIntegerBinOp E .CPUI_LOAD outvar lhs rhs =
      pure .kLiftedUnsupportedInstruction := by
    simp [LiftIntegerBinOp, LiftIntegerBinOp.viaTable, INTEGER_BINARY_OPS]
  have h2 : LiftBoolBinOp E .CPUI_LOAD outvar lhs rhs =
      pure .kLiftedUnsupportedInstruction := by
    simp [LiftBoolBinOp, boolOpFunc]
  have h3 : LiftFloatBinOp E .CPUI_LOAD outvar lhs rhs =
      pure .kLiftedUnsupportedInstruction := by
    simp [LiftFloatBinOp, floatOpFunc]
  simp only [LiftBinOp, h1, h2, h3]
  rfl

/-- C25: for `LOAD` with operand 1 read at the word type as the address `a`.  With
an outvar `o`, the op loads the memory handle from the `MEMORY` slot and calls the
load intrinsic for `8·o.size` bits at `a`; when the intrinsic gives `b`, the op hands
exactly that `8·o.size`-bit value to the store into the Parameter of `o` and returns
the status of that store.  When that Parameter is a register or scratch cell other
than the `MEMORY` slot, the op returns Success, the cell holds the value in its low
`8·o.size` bits and the `MEMORY` slot is as before.  When the address is unreadable
or the intrinsic gives nothing, the op returns Unsupported.  Without an outvar the op
returns Unsupported and does nothing.  Operand 0 has no influence. -/
theorem C25_load_through_memory (E : Env) (lhs rhs : VarnodeData)
    (s : PcodeToLLVMEmitIntoBlock) :
    (∀ o a s1 b, LiftInParam E rhs (.int E.word_bits) s = .ok (some a, s1) →
      E.read_memory (.int (o.size * 8))
        (s1.target_block.cells (E.LoadRegAddress kMemoryVariableName) % 2 ^ 64) a = some b →
      LiftBinOp E .CPUI_LOAD (some o) lhs rhs s =
        (LiftParamPtr E o >>= fun ptr =>
          ptr.StoreIntoParam E ⟨.int (o.size * 8), b % 2 ^ (o.size * 8)⟩)
          { s1 with target_block :=
            { s1.target_block with
              emitted := s1.target_block.emitted ++
                [.load .ptr (E.LoadRegAddress kMemoryVariableName),
                  .read_memory (.int (o.size * 8))
                    ⟨.ptr, s1.target_block.cells (E.LoadRegAddress kMemoryVariableName) % 2 ^ 64⟩
                    a] } } ∧
      (∀ p s2, LiftParamPtr E o
          { s1 with target_block :=
            { s1.target_block with
              emitted := s1.target_block.emitted ++
                [.load .ptr (E.LoadRegAddress kMemoryVariableName),
                  .read_memory (.int (o.size * 8))
                    ⟨.ptr, s1.target_block.cells (E.LoadRegAddress kMemoryVariableName) % 2 ^ 64⟩
                    a] } } = .ok (.RegisterValue p, s2) →
        ∃ t, LiftBinOp E .CPUI_LOAD (some o) lhs rhs s = .ok (.kLiftedInstruction, t) ∧
          t.target_block.cells p % 2 ^ (o.size * 8) = b % 2 ^ (o.size * 8) ∧
          t.target_block.emitted = s2.target_block.emitted ++
            [.store ⟨.int (o.size * 8), b % 2 ^ (o.size * 8)⟩ p] ∧
          (p ≠ E.LoadRegAddress kMemoryVariableName →
            t.target_block.cells (E.LoadRegAddress kMemoryVariableName) =
              s2.target_block.cells (E.LoadRegAddress kMemoryVariableName)))) ∧
    (∀ o a s1, LiftInParam E rhs (.int E.word_bits) s = .ok (some a, s1) →
      E.read_memory (.int (o.size * 8))
        (s1.target_block.cells (E.LoadRegAddress kMemoryVariableName) % 2 ^ 64) a = none →
      LiftBinOp E .CPUI_LOAD (some o) lhs rhs s = .ok (.kLiftedUnsupportedInstruction,
        { s1 with target_block :=
          { s1.target_block with
            emitted := s1.target_block.emitted ++
              [.load .ptr (E.LoadRegAddress kMemoryVariableName)] } })) ∧
    (∀ o s1, LiftInParam E rhs (.int E.word_bits) s = .ok (none, s1) →
      LiftBinOp E .CPUI_LOAD (some o) lhs rhs s = .ok (.kLiftedUnsupportedInstruction, s1)) ∧
    LiftBinOp E .CPUI_LOAD none lhs rhs s = .ok (.kLiftedUnsupportedInstruction, s) ∧
    (∀ outvar lhs2, LiftBinOp E .CPUI_LOAD outvar lhs rhs =
      LiftBinOp E .CPUI_LOAD outvar lhs2 rhs) := by
  refine ⟨?_, ?_, ?_, ?_, ?_⟩
  · intro o a s1 b h1 hb
    norm_num at hb
    have hrun : LiftBinOp E .CPUI_LOAD (some o) lhs rhs s =
        (LiftParamPtr E o >>= fun ptr =>
          ptr.StoreIntoParam E ⟨.int (o.size * 8), b % 2 ^ (o.size * 8)⟩)
          { s1 with target_block :=
            { s1.target_block with
              emitted := s1.target_block.emitted ++
                [.load .ptr (E.LoadRegAddress kMemoryVariableName),
                  .read_memory (.int (o.size * 8))
                    ⟨.ptr, s1.target_block.cells (E.LoadRegAddress kMemoryVariableName) % 2 ^ 64⟩
                    a] } } := by
      rw [LiftBinOp_load_composite]
      simp [LiftBinOp.composite, bind_eq, h1, CreateMemoryAddress, Parameter.LiftAsInParam,
        CreateLoad, remill.LoadFromMemory, Ty.bits, hb, pure_eq]
    refine ⟨hrun, ?_⟩
    intro p s2 hout
    have hw := writeCell_mod (s2.target_block.cells p)
      ⟨.int (o.size * 8), b % 2 ^ (o.size * 8)⟩
    simp only [Ty.bits, Nat.mod_mod] at hw
    have hst := LiftStoreIntoOutParam_cell_state E
      ⟨.int (o.size * 8), b % 2 ^ (o.size * 8)⟩ o _ s2 p hout
    refine ⟨_, hrun.trans hst, ?_, rfl, ?_⟩
    · simp only [if_true, hw]
    · intro hne
      simp only [Ne.symm hne, if_false]
  · intro o a s1 h1 hb
    norm_num at hb
    rw [LiftBinOp_load_composite]
    simp [LiftBinOp.composite, bind_eq, h1, CreateMemoryAddress, Parameter.LiftAsInParam,
      CreateLoad, remill.LoadFromMemory, Ty.bits, hb, pure_eq]
  · intro o s1 h1
    rw [LiftBinOp_load_composite]
    simp [LiftBinOp.composite, bind_eq, h1, pure_eq]
  · rw [LiftBinOp_load_composite]
    simp [LiftBinOp.composite, pure_eq]
  · intro outvar lhs2
    rw [LiftBinOp_load_composite, LiftBinOp_load_composite]
    cases outvar <;> rfl

/-- C25 at the concrete op `LOAD out=EAX(size 4) in0=const(0) in1=const(0x1000, size 8)`
on a zero state, with a load intrinsic that returns the address plus one: the op
returns Success and leaves `EAX = 0x1001`; without an outvar it returns Unsupported
and appends nothing. -/
theorem C25_load_through_memory_witness :
    (∃ t, LiftBinOp loadingEnv .CPUI_LOAD (some ⟨.register, 0, 4⟩) ⟨.const, 0, 4⟩
        ⟨.const, 0x1000, 8⟩ (.new zeroBlock) = .ok (.kLiftedInstruction, t) ∧
      t.target_block.cells (.named "EAX") % 2 ^ (4 * 8) = 0x1001 % 2 ^ (4 * 8)) ∧
    (stateOf (LiftBinOp loadingEnv .CPUI_LOAD (some ⟨.register, 0, 4⟩) ⟨.const, 0, 4⟩
      ⟨.const, 0x1000, 8⟩ (.new zeroBlock)) (.new sampleBlock)).target_block.emitted =
        [.load .ptr (.named "MEMORY"),
          .read_memory (.int 32) ⟨.ptr, 0⟩ ⟨.int 64, 0x1000⟩,
          .store ⟨.int 32, 0x1001⟩ (.named "EAX")] ∧
    LiftBinOp loadingEnv .CPUI_LOAD none ⟨.const, 0, 4⟩ ⟨.const, 0x1000, 8⟩ (.new zeroBlock) =
      .ok (.kLiftedUnsupportedInstruction, .new zeroBlock) := by
  have h := C25_load_through_memory loadingEnv ⟨.const, 0, 4⟩ ⟨.const, 0x1000, 8⟩
    (.new zeroBlock)
  obtain ⟨t, ht, hc, _⟩ := (h.1 ⟨.register, 0, 4⟩ ⟨.int 64, 0x1000⟩ (.new zeroBlock) 0x1001
    rfl rfl).2 (.named "EAX") _ rfl
  exact ⟨⟨t, ht, hc⟩, by decide, h.2.2.2.1⟩

/-! ## Pointer arithmetic (`PTRADD`, `PTRSUB`) -/

theorem add_mul_mod_literal (a i e m : Nat) :
    (a + i * (e % m) % m) % m = (a + i * e) % m := by
  have h1 : i * (e % m) % m = i * e % m := by
    rw [Nat.mul_mod, Nat.mod_mod, ← Nat.mul_mod]
  rw [Nat.add_mod, Nat.mod_mod, h1, ← Nat.add_mod]

theorem LiftTernOp_ptradd_run (E : Env) (outvar : Option VarnodeData)
    (p0 p1 p2 : VarnodeData) (s s1 s2 : PcodeToLLVMEmitIntoBlock) (a i : Value)
    (hw1 : p1.size * 8 = E.word_bits) (hw2 : p2.size * 8 = E.word_bits)
    (h0 : LiftInParam E p0 (.int E.word_bits) s = .ok (some a, s1))
    (h1 : LiftInParam E p1 (.int (p1.size * 8)) s1 = .ok (some i, s2)) :
    LiftTernOp E .CPUI_PTRADD outvar p0 p1 p2 s =
      LiftStoreIntoOutParam E
        ⟨.int E.word_bits, (a.bits + i.bits * p2.offset) % 2 ^ E.word_bits⟩ outvar s2 := by
  have hta := LiftInParam_ty E p0 _ s s1 a h0
  have hti := LiftInParam_ty E p1 _ s1 s2 i h1
  rw [hw1] at hti
  obtain ⟨aty, ab⟩ := a
  obtain ⟨ity, ib⟩ := i
  simp only at hta hti
  subst hta
  subst hti
  simp only [LiftTernOp, LiftIntegerInParam, bind_eq, h0, h1, hw2, CreateMul, CreateAdd,
    intBinary, ConstantInt_get, Ty.bits, if_true, liftE_ok, add_mul_mod_literal]

theorem LiftTernOp_ptrsub_run (E : Env) (outvar : Option VarnodeData)
    (p0 p1 p2 : VarnodeData) (s s1 s2 : PcodeToLLVMEmitIntoBlock) (a o : Value)
    (hw1 : p1.size * 8 = E.word_bits)
    (h0 : LiftInParam E p0 (.int E.word_bits) s = .ok (some a, s1))
    (h1 : LiftInParam E p1 (.int (p1.size * 8)) s1 = .ok (some o, s2)) :
    LiftTernOp E .CPUI_PTRSUB outvar p0 p1 p2 s =
      LiftStoreIntoOutParam E
        ⟨.int E.word_bits, (a.bits + o.bits) % 2 ^ E.word_bits⟩ outvar s2 := by
  have hta := LiftInParam_ty E p0 _ s s1 a h0
  have hti := LiftInParam_ty E p1 _ s1 s2 o h1
  rw [hw1] at hti
  obtain ⟨aty, ab⟩ := a
  obtain ⟨oty, ob⟩ := o
  simp only at hta hti
  subst hta
  subst hti
  simp only [LiftTernOp, LiftIntegerInParam, bind_eq, h0, h1, CreateAdd,
    intBinary, if_true, liftE_ok]

/-- C26: for `PTRADD` with operand 0 read at the word type as `base`, operand 1 read
at its own width as `index`, and operands 1 and 2 of the word width `w`, the value
handed to the store into the outvar is the `w`-bit integer
`(base + index × e) mod 2^w`, where `e` is the offset field of operand 2.  Nothing is
read for operand 2: the lift is the same for every varnode with that offset and size,
whatever its address space.  When the outvar is a register or scratch cell the op
returns Success and the cell then holds the value in its low `w` bits. -/
theorem C26_ptradd_scales_by_literal (E : Env) (outvar : Option VarnodeData)
    (p0 p1 p2 : VarnodeData) (s s1 s2 : PcodeToLLVMEmitIntoBlock) (base index : Value)
    (hw1 : p1.size * 8 = E.word_bits) (hw2 : p2.size * 8 = E.word_bits)
    (h0 : LiftInParam E p0 (.int E.word_bits) s = .ok (some base, s1))
    (h1 : LiftInParam E p1 (.int (p1.size * 8)) s1 = .ok (some index, s2)) :
    LiftTernOp E .CPUI_PTRADD outvar p0 p1 p2 s =
      LiftStoreIntoOutParam E
        ⟨.int E.word_bits, (base.bits + index.bits * p2.offset) % 2 ^ E.word_bits⟩
        outvar s2 ∧
    (∀ o p s3, outvar = some o → LiftParamPtr E o s2 = .ok (.RegisterValue p, s3) →
      ∃ t, LiftTernOp E .CPUI_PTRADD outvar p0 p1 p2 s = .ok (.kLiftedInstruction, t) ∧
        t.target_block.cells p % 2 ^ E.word_bits =
          (base.bits + index.bits * p2.offset) % 2 ^ E.word_bits ∧
        t.target_block.emitted = s3.target_block.emitted ++
          [.store ⟨.int E.word_bits,
            (base.bits + index.bits * p2.offset) % 2 ^ E.word_bits⟩ p]) ∧
    (∀ q2 : VarnodeData, q2.offset = p2.offset → q2.size = p2.size →
      LiftTernOp E .CPUI_PTRADD outvar p0 p1 q2 = LiftTernOp E .CPUI_PTRADD outvar p0 p1 p2) := by
  have hrun := LiftTernOp_ptradd_run E outvar p0 p1 p2 s s1 s2 base index hw1 hw2 h0 h1
  refine ⟨hrun, ?_, ?_⟩
  · intro o p s3 ho hout
    subst ho
    obtain ⟨t, ht, hc, hem⟩ := LiftStoreIntoOutParam_cell E
      ⟨.int E.word_bits, (base.bits + index.bits * p2.offset) % 2 ^ E.word_bits⟩ o s2 s3 p hout
    simp only [Ty.bits, Nat.mod_mod] at hc
    exact ⟨t, hrun.trans ht, hc, hem⟩
  · intro q2 hoff hsz
    simp only [LiftTernOp, hoff, hsz]

/-- C26 at the concrete op `PTRADD out=unique[0x100]:8 in0=const(0x1000, size 8)
in1=const(3, size 8) in2=register(offset 4, size 8)` on a state with registers set:
the 64-bit value stored is `0x1000 + 3 × 4 = 0x100C`; the register at offset 4 is
never read. -/
theorem C26_ptradd_scales_by_literal_witness :
    LiftTernOp sampleEnv .CPUI_PTRADD (some ⟨.unique, 0x100, 8⟩) ⟨.const, 0x1000, 8⟩
        ⟨.const, 3, 8⟩ ⟨.register, 4, 8⟩ (.new sampleBlock) =
      LiftStoreIntoOutParam sampleEnv
        ⟨.int sampleEnv.word_bits, (0x1000 + 3 * 4) % 2 ^ sampleEnv.word_bits⟩
        (some ⟨.unique, 0x100, 8⟩) (.new sampleBlock) ∧
    (stateOf (LiftTernOp sampleEnv .CPUI_PTRADD (some ⟨.unique, 0x100, 8⟩)
      ⟨.const, 0x1000, 8⟩ ⟨.const, 3, 8⟩ ⟨.register, 4, 8⟩ (.new sampleBlock))
      (.new zeroBlock)).target_block.emitted =
        [.alloca (.int 64) (.alloca 0), .store ⟨.int 64, 0x100C⟩ (.alloca 0)] :=
  ⟨(C26_ptradd_scales_by_literal sampleEnv (some ⟨.unique, 0x100, 8⟩) ⟨.const, 0x1000, 8⟩
      ⟨.const, 3, 8⟩ ⟨.register, 4, 8⟩ (.new sampleBlock) (.new sampleBlock)
      (.new sampleBlock) ⟨.int 64, 0x1000⟩ ⟨.int 64, 3⟩ rfl rfl rfl rfl).1,
    by decide⟩

/-- C27: for `PTRSUB` with operand 0 read at the word type as `base` and operand 1,
of the word width `w`, read as `offset`, the value handed to the store into the
outvar is the `w`-bit integer `(base + offset) mod 2^w`: a sum.  Operand 2 has no
influence.  When the outvar is a register or scratch cell the op returns Success and
the cell then holds the value in its low `w` bits. -/
theorem C27_ptrsub_adds (E : Env) (outvar : Option VarnodeData)
    (p0 p1 p2 : VarnodeData) (s s1 s2 : PcodeToLLVMEmitIntoBlock) (base offset : Value)
    (hw1 : p1.size * 8 = E.word_bits)
    (h0 : LiftInParam E p0 (.int E.word_bits) s = .ok (some base, s1))
    (h1 : LiftInParam E p1 (.int (p1.size * 8)) s1 = .ok (some offset, s2)) :
    LiftTernOp E .CPUI_PTRSUB outvar p0 p1 p2 s =
      LiftStoreIntoOutParam E
        ⟨.int E.word_bits, (base.bits + offset.bits) % 2 ^ E.word_bits⟩ outvar s2 ∧
    (∀ o p s3, outvar = some o → LiftParamPtr E o s2 = .ok (.RegisterValue p, s3) →
      ∃ t, LiftTernOp E .CPUI_PTRSUB outvar p0 p1 p2 s = .ok (.kLiftedInstruction, t) ∧
        t.target_block.cells p % 2 ^ E.word_bits =
          (base.bits + offset.bits) % 2 ^ E.word_bits ∧
        t.target_block.emitted = s3.target_block.emitted ++
          [.store ⟨.int E.word_bits, (base.bits + offset.bits) % 2 ^ E.word_bits⟩ p]) ∧
    (∀ q2 : VarnodeData,
      LiftTernOp E .CPUI_PTRSUB outvar p0 p1 q2 = LiftTernOp E .CPUI_PTRSUB outvar p0 p1 p2) := by
  have hrun := LiftTernOp_ptrsub_run E outvar p0 p1 p2 s s1 s2 base offset hw1 h0 h1
  refine ⟨hrun, ?_, fun _ => rfl⟩
  intro o p s3 ho hout
  subst ho
  obtain ⟨t, ht, hc, hem⟩ := LiftStoreIntoOutParam_cell E
    ⟨.int E.word_bits, (base.bits + offset.bits) % 2 ^ E.word_bits⟩ o s2 s3 p hout
  simp only [Ty.bits, Nat.mod_mod] at hc
  exact ⟨t, hrun.trans ht, hc, hem⟩

/-- C27 at the concrete op `PTRSUB out=unique[0x100]:8 in0=const(10, size 8)
in1=const(3, size 8) in2=const(0, size 8)`: the 64-bit value stored is `10 + 3 = 13`,
not 7. -/
theorem C27_ptrsub_adds_witness :
    LiftTernOp sampleEnv .CPUI_PTRSUB (some ⟨.unique, 0x100, 8⟩) ⟨.const, 10, 8⟩
        ⟨.const, 3, 8⟩ ⟨.const, 0, 8⟩ (.new zeroBlock) =
      LiftStoreIntoOutParam sampleEnv
        ⟨.int sampleEnv.word_bits, (10 + 3) % 2 ^ sampleEnv.word_bits⟩
        (some ⟨.unique, 0x100, 8⟩) (.new zeroBlock) ∧
    (stateOf (LiftTernOp sampleEnv .CPUI_PTRSUB (some ⟨.unique, 0x100, 8⟩)
      ⟨.const, 10, 8⟩ ⟨.const, 3, 8⟩ ⟨.const, 0, 8⟩ (.new zeroBlock))
      (.new sampleBlock)).target_block.emitted =
        [.alloca (.int 64) (.alloca 0), .store ⟨.int 64, 13⟩ (.alloca 0)] :=
  ⟨(C27_ptrsub_adds sampleEnv (some ⟨.unique, 0x100, 8⟩) ⟨.const, 10, 8⟩
      ⟨.const, 3, 8⟩ ⟨.const, 0, 8⟩ (.new zeroBlock) (.new zeroBlock)
      (.new zeroBlock) ⟨.int 64, 10⟩ ⟨.int 64, 3⟩ rfl rfl rfl).1,
    by decide⟩

/-! ## `LiftIntoInternalBlock`: `NEXT_PC` and `PC` at the end of the function -/

theorem replay_append (a b : List Event) (c : Ptr → Nat) :
    replay (a ++ b) c = replay b (replay a c) := by
  induction a generalizing c with
  | nil => rfl
  | cons ev rest ih =>
    cases ev <;> exact ih _

theorem lastStoreTo_cons_some (p : Ptr) (ev : Event) (evs : List Event) (v : Value)
    (h : lastStoreTo p evs = some v) : lastStoreTo p (ev :: evs) = some v := by
  simp only [lastStoreTo, h, Option.some_orElse]

theorem lastStoreTo_cons_none (p : Ptr) (ev : Event) (evs : List Event)
    (h : lastStoreTo p evs = none) : lastStoreTo p (ev :: evs) = storedTo p ev := by
  simp only [lastStoreTo, h]
  rfl

theorem storedTo_none_iff (p : Ptr) (ev : Event) :
    storedTo p ev = none ↔ ∀ v, ev ≠ Event.store v p := by
  cases ev with
  | store w q =>
    by_cases hq : q = p
    · subst hq
      simp only [storedTo, if_true, reduceCtorEq, false_iff, not_forall, not_not]
      exact ⟨w, rfl⟩
    · simp only [storedTo, hq, if_false, true_iff]
      intro v h
      cases h
      exact hq rfl
  | load _ _ | alloca _ _ | read_memory _ _ _ | write_memory _ _ _ =>
    simp only [storedTo, true_iff]
    intro v h
    cases h

theorem lastStoreTo_none_iff (p : Ptr) (evs : List Event) :
    lastStoreTo p evs = none ↔ ∀ v, Event.store v p ∉ evs := by
  induction evs with
  | nil => simp [lastStoreTo]
  | cons ev rest ih =>
    cases hl : lastStoreTo p rest with
    | some v =>
      rw [lastStoreTo_cons_some p ev rest v hl]
      simp only [reduceCtorEq, false_iff, not_forall, not_not]
      have : ¬ ∀ v, Event.store v p ∉ rest := fun h => by
        rw [ih.mpr h] at hl
        cases hl
      simp only [not_forall, not_not] at this
      obtain ⟨w, hw⟩ := this
      exact ⟨w, List.mem_cons_of_mem _ hw⟩
    | none =>
      rw [lastStoreTo_cons_none p ev rest hl, storedTo_none_iff]
      have hr := ih.mp hl
      constructor
      · intro h w hw
        rcases List.mem_cons.mp hw with h1 | h1
        · exact h w h1.symm
        · exact hr w h1
      · intro h w hw
        exact h w (hw ▸ List.mem_cons_self _ _)

theorem replay_lastStoreTo_none (p : Ptr) (evs : List Event) (c : Ptr → Nat)
    (h : lastStoreTo p evs = none) : replay evs c p = c p := by
  induction evs generalizing c with
  | nil => rfl
  | cons ev rest ih =>
    cases hl : lastStoreTo p rest with
    | some v => rw [lastStoreTo_cons_some p ev rest v hl] at h; cases h
    | none =>
      rw [lastStoreTo_cons_none p ev rest hl] at h
      cases ev with
      | store v q =>
        by_cases hq : q = p
        · simp [storedTo, hq] at h
        · have hpq : ¬ p = q := fun e => hq e.symm
          simp only [replay]
          rw [ih _ hl]
          simp only [hpq, if_false]
      | load _ _ | alloca _ _ | read_memory _ _ _ | write_memory _ _ _ =>
        simp only [replay]
        exact ih _ hl

theorem replay_lastStoreTo_some (p : Ptr) (evs : List Event) (c : Ptr → Nat) (v : Value)
    (h : lastStoreTo p evs = some v) : ∃ old, replay evs c p = writeCell old v := by
  induction evs generalizing c with
  | nil => cases h
  | cons ev rest ih =>
    cases hl : lastStoreTo p rest with
    | some w =>
      rw [lastStoreTo_cons_some p ev rest w hl] at h
      cases h
      cases ev <;> simp only [replay] <;> exact ih _ hl
    | none =>
      rw [lastStoreTo_cons_none p ev rest hl] at h
      cases ev with
      | store w q =>
        by_cases hq : q = p
        · subst hq
          simp only [storedTo, if_true, Option.some.injEq] at h
          subst h
          simp only [replay]
          rw [replay_lastStoreTo_none _ _ _ hl]
          exact ⟨c q, by simp⟩
        · simp [storedTo, hq] at h
      | load _ _ | alloca _ _ | read_memory _ _ _ | write_memory _ _ _ => cases h

theorem Traced_frame : DumpFrame Traced where
  refl := fun _ => ⟨[], by simp, rfl⟩
  trans := fun _ _ _ h1 h2 => by
    obtain ⟨e1, he1, hc1⟩ := h1
    obtain ⟨e2, he2, hc2⟩ := h2
    exact ⟨e1 ++ e2, by rw [he2, he1, List.append_assoc], by rw [hc2, hc1, replay_append]⟩
  emit := fun s ev hns => by
    refine ⟨[ev], rfl, ?_⟩
    cases ev with
    | store v p => exact absurd rfl (hns v p)
    | load _ _ | alloca _ _ | read_memory _ _ _ | write_memory _ _ _ => rfl
  uniq := fun s off size => by
    unfold UniqueRegSpace.GetUniquePtr
    split
    · exact ⟨[], by simp, rfl⟩
    · exact ⟨[_], rfl, rfl⟩
  unk := fun s off size => by
    unfold UniqueRegSpace.GetUniquePtr
    split
    · exact ⟨[], by simp, rfl⟩
    · exact ⟨[_], rfl, rfl⟩
  used := fun _ _ => ⟨[], by simp, rfl⟩
  store := fun v p s a t e => by
    cases e
    exact ⟨[.store v p], rfl, rfl⟩
  claim := fun _ _ _ _ => ⟨[], by simp, rfl⟩
  status := fun st opc s a t e => by
    unfold UpdateStatus at e
    split at e <;> cases e <;> exact ⟨[], by simp, rfl⟩

/-- `LiftIntoInternalBlock` is the ops run on the lifter after the prologue, then the
epilogue. -/
theorem LiftIntoInternalBlock_run (E : Env) (n : Nat) (ops : List PcodeOp) (b : Block) :
    LiftIntoInternalBlock E n ops b =
      match oneInstruction E ops (afterPrologue E n b) with
      | .ok (_, t) =>
        .ok (GetStatus t,
          { t.target_block with
            cells := replay (epilogue E t.target_block) t.target_block.cells
            emitted := t.target_block.emitted ++ epilogue E t.target_block })
      | .error e => .error e := by
  have hpro : ∀ (x : M Unit) (f : M LiftStatus),
      (do CreateLoad (.int E.word_bits) (E.LoadRegAddress kNextPCVariableName) >>= fun next_pc =>
        liftE (CreateAdd next_pc (ConstantInt_get (.int E.word_bits) n)) >>= fun curr_eip =>
        CreateStore curr_eip (E.LoadRegAddress kNextPCVariableName) >>= fun _ =>
        CreateStore curr_eip (E.LoadRegAddress "PC") >>= fun _ => x >>= fun _ => f)
        (.new b) = (x >>= fun _ => f) (afterPrologue E n b) := by
    intro x f
    simp only [bind_eq, CreateLoad, CreateAdd, intBinary, ConstantInt_get, Ty.bits, if_true,
      liftE_ok, CreateStore, afterPrologue, prologue, replay, currEip,
      PcodeToLLVMEmitIntoBlock.new, List.append_assoc, List.singleton_append, List.cons_append,
      List.nil_append]
  unfold LiftIntoInternalBlock
  simp only []
  rw [hpro]
  rw [bind_eq]
  cases oneInstruction E ops (afterPrologue E n b) with
  | error e => rfl
  | ok r =>
    obtain ⟨u, t⟩ := r
    simp only [bind_eq, CreateLoad, CreateStore, epilogue, replay, Ty.bits, List.append_assoc,
      List.singleton_append, List.cons_append, List.nil_append]
    rfl

theorem writeCell_word (old x w : Nat) : writeCell old ⟨.int w, x⟩ % 2 ^ w = x % 2 ^ w :=
  writeCell_mod old ⟨.int w, x⟩

/-- After the prologue `PC` holds `NEXT_PC + len` at word width. -/
theorem afterPrologue_pc (E : Env) (n : Nat) (b : Block) :
    (afterPrologue E n b).target_block.cells (E.LoadRegAddress "PC") % 2 ^ E.word_bits =
      (b.cells (E.LoadRegAddress kNextPCVariableName) % 2 ^ E.word_bits + n) % 2 ^ E.word_bits := by
  simp only [afterPrologue, PcodeToLLVMEmitIntoBlock.new, prologue, replay, currEip, if_true]
  rw [writeCell_word, Nat.mod_mod]
  conv_rhs => rw [Nat.add_mod, Nat.mod_mod]

/-- The epilogue makes `NEXT_PC` agree with `PC` at word width and keeps `PC` at
word width. -/
theorem epilogue_cells (E : Env) (c : Ptr → Nat) (b : Block) (hb : b.cells = c) :
    replay (epilogue E b) c (E.LoadRegAddress kNextPCVariableName) % 2 ^ E.word_bits =
        c (E.LoadRegAddress "PC") % 2 ^ E.word_bits ∧
      replay (epilogue E b) c (E.LoadRegAddress "PC") % 2 ^ E.word_bits =
        c (E.LoadRegAddress "PC") % 2 ^ E.word_bits := by
  subst hb
  simp only [epilogue, replay, if_true]
  refine ⟨by rw [writeCell_word, Nat.mod_mod], ?_⟩
  by_cases h : E.LoadRegAddress "PC" = E.LoadRegAddress kNextPCVariableName
  · rw [if_pos h, writeCell_word, Nat.mod_mod]
  · rw [if_neg h]

theorem ok_of_abortOf_none (r : Except Abort (Unit × PcodeToLLVMEmitIntoBlock))
    (d : PcodeToLLVMEmitIntoBlock) (h : abortOf r = none) : r = .ok ((), stateOf r d) := by
  cases r with
  | error e => cases h
  | ok a => rfl

theorem lastStoreTo_split (p : Ptr) (evs : List Event) (v : Value)
    (h : lastStoreTo p evs = some v) :
    ∃ pre post, evs = pre ++ Event.store v p :: post ∧ lastStoreTo p post = none := by
  induction evs with
  | nil => cases h
  | cons ev rest ih =>
    cases hl : lastStoreTo p rest with
    | some w =>
      rw [lastStoreTo_cons_some p ev rest w hl] at h
      cases h
      obtain ⟨pre, post, hsplit, hpost⟩ := ih hl
      exact ⟨ev :: pre, post, by rw [hsplit]; rfl, hpost⟩
    | none =>
      rw [lastStoreTo_cons_none p ev rest hl] at h
      cases ev with
      | store w q =>
        by_cases hq : q = p
        · subst hq
          simp only [storedTo, if_true, Option.some.injEq] at h
          subst h
          exact ⟨[], rest, rfl, hl⟩
        · simp [storedTo, hq] at h
      | load _ _ | alloca _ _ | read_memory _ _ _ | write_memory _ _ _ => cases h

/-- Cell `p` after an instruction list whose last store to `p` is singled out. -/
theorem replay_split (p : Ptr) (pre post : List Event) (v : Value) (c : Ptr → Nat)
    (hpost : lastStoreTo p post = none) :
    replay (pre ++ Event.store v p :: post) c p = writeCell (replay pre c p) v := by
  rw [replay_append]
  show replay post _ p = _
  rw [replay_lastStoreTo_none p post _ hpost]
  simp

theorem writeCell_low (old w b : Nat) (W : Nat) (hw : w ≤ W) :
    writeCell old ⟨.int w, b⟩ % 2 ^ W % 2 ^ w = b % 2 ^ w := by
  rw [Nat.mod_mod_of_dvd _ (Nat.pow_dvd_pow 2 hw)]
  exact writeCell_mod old ⟨.int w, b⟩

theorem writeCell_high (old w b : Nat) (W : Nat) (hw : w ≤ W) :
    writeCell old ⟨.int w, b⟩ % 2 ^ W / 2 ^ w = old % 2 ^ W / 2 ^ w := by
  obtain ⟨k, rfl⟩ : ∃ k, W = w + k := ⟨W - w, by omega⟩
  rw [Nat.pow_add, Nat.mod_mul_right_div_self, Nat.mod_mul_right_div_self]
  congr 1
  unfold writeCell
  simp only [Ty.bits]
  have hpos : 0 < 2 ^ w := Nat.two_pow_pos w
  rw [Nat.add_comm, Nat.add_mul_div_right _ _ hpos, Nat.div_eq_of_lt (Nat.mod_lt _ hpos),
    Nat.zero_add]

/-- What `LiftIntoInternalBlock` leaves in `NEXT_PC` and `PC`. -/
theorem LiftIntoInternalBlock_cells (E : Env) (inst_bytes_size : Nat) (ops : List PcodeOp)
    (b : Block) :
    (∀ e, oneInstruction E ops (afterPrologue E inst_bytes_size b) = .error e →
      LiftIntoInternalBlock E inst_bytes_size ops b = .error e) ∧
    (∀ t, oneInstruction E ops (afterPrologue E inst_bytes_size b) = .ok ((), t) →
      ∃ evs final,
        LiftIntoInternalBlock E inst_bytes_size ops b = .ok (GetStatus t, final) ∧
        t.target_block.emitted = b.emitted ++ prologue E inst_bytes_size b ++ evs ∧
        t.target_block.cells = replay (prologue E inst_bytes_size b ++ evs) b.cells ∧
        final.emitted =
          b.emitted ++ prologue E inst_bytes_size b ++ evs ++ epilogue E t.target_block ∧
        final.cells =
          replay (prologue E inst_bytes_size b ++ evs ++ epilogue E t.target_block) b.cells ∧
        final.cells (E.LoadRegAddress kNextPCVariableName) % 2 ^ E.word_bits =
          final.cells (E.LoadRegAddress "PC") % 2 ^ E.word_bits ∧
        final.cells (E.LoadRegAddress "PC") % 2 ^ E.word_bits =
          t.target_block.cells (E.LoadRegAddress "PC") % 2 ^ E.word_bits ∧
        ((∀ v, Event.store v (E.LoadRegAddress "PC") ∉ evs) →
          final.cells (E.LoadRegAddress "PC") % 2 ^ E.word_bits =
            (b.cells (E.LoadRegAddress kNextPCVariableName) % 2 ^ E.word_bits +
              inst_bytes_size) % 2 ^ E.word_bits) ∧
        (∀ v, lastStoreTo (E.LoadRegAddress "PC") evs = some v → v.ty = .int E.word_bits →
          final.cells (E.LoadRegAddress "PC") % 2 ^ E.word_bits =
            v.bits % 2 ^ E.word_bits) ∧
        (∀ v, lastStoreTo (E.LoadRegAddress "PC") evs = some v →
          ∃ pre post, evs = pre ++ Event.store v (E.LoadRegAddress "PC") :: post ∧
            (∀ u, Event.store u (E.LoadRegAddress "PC") ∉ post)) ∧
        (∀ pre v post, evs = pre ++ Event.store v (E.LoadRegAddress "PC") :: post →
          (∀ u, Event.store u (E.LoadRegAddress "PC") ∉ post) →
          final.cells (E.LoadRegAddress "PC") % 2 ^ E.word_bits =
            writeCell (replay (prologue E inst_bytes_size b ++ pre) b.cells
              (E.LoadRegAddress "PC")) v % 2 ^ E.word_bits ∧
          ∀ w, v.ty = .int w → w ≤ E.word_bits →
            final.cells (E.LoadRegAddress "PC") % 2 ^ E.word_bits % 2 ^ w =
              v.bits % 2 ^ w ∧
            final.cells (E.LoadRegAddress "PC") % 2 ^ E.word_bits / 2 ^ w =
              replay (prologue E inst_bytes_size b ++ pre) b.cells
                (E.LoadRegAddress "PC") % 2 ^ E.word_bits / 2 ^ w)) := by
  refine ⟨fun e he => ?_, fun t ht => ?_⟩
  · rw [LiftIntoInternalBlock_run, he]
  · obtain ⟨evs, hem, hcells⟩ :=
      Respects_oneInstruction Traced_frame E ops (afterPrologue E inst_bytes_size b) () t ht
    have hem0 : (afterPrologue E inst_bytes_size b).target_block.emitted =
        b.emitted ++ prologue E inst_bytes_size b := rfl
    have hc0 : (afterPrologue E inst_bytes_size b).target_block.cells =
        replay (prologue E inst_bytes_size b) b.cells := rfl
    have hep := epilogue_cells E t.target_block.cells t.target_block rfl
    refine ⟨evs, _, by rw [LiftIntoInternalBlock_run, ht], by rw [hem, hem0],
      by rw [hcells, hc0, replay_append], ?_, ?_, hep.1.trans hep.2.symm, hep.2, ?_, ?_, ?_,
      ?_⟩
    · show t.target_block.emitted ++ epilogue E t.target_block = _
      rw [hem, hem0]
    · show replay (epilogue E t.target_block) t.target_block.cells = _
      rw [hcells, hc0, replay_append, replay_append]
    · intro hno
      refine hep.2.trans ?_
      rw [hcells, replay_lastStoreTo_none _ _ _ ((lastStoreTo_none_iff _ _).mpr hno)]
      exact afterPrologue_pc E inst_bytes_size b
    · intro v hv hty
      refine hep.2.trans ?_
      obtain ⟨old, hold⟩ := replay_lastStoreTo_some _ evs
        (afterPrologue E inst_bytes_size b).target_block.cells v hv
      rw [hcells, hold]
      have := writeCell_mod old v
      rw [hty] at this
      exact this
    · intro v hv
      obtain ⟨pre, post, hsplit, hpost⟩ := lastStoreTo_split _ evs v hv
      exact ⟨pre, post, hsplit, (lastStoreTo_none_iff _ _).mp hpost⟩
    · intro pre v post hsplit hpost
      have hpc : t.target_block.cells (E.LoadRegAddress "PC") =
          writeCell (replay (prologue E inst_bytes_size b ++ pre) b.cells
            (E.LoadRegAddress "PC")) v := by
        rw [hcells, hc0, hsplit,
          replay_split _ pre post v _ ((lastStoreTo_none_iff _ _).mpr hpost), replay_append]
      refine ⟨by rw [hep.2, hpc], fun w hty hw => ?_⟩
      obtain ⟨vt, vb⟩ := v
      simp only at hty
      subst hty
      rw [hep.2, hpc]
      exact ⟨writeCell_low _ w vb _ hw, writeCell_high _ w vb _ hw⟩

/-- C28, counterexample: on a 64-bit architecture, an instruction of 2 bytes whose
p-code is `BRANCH in0=const(0x80, size 4)`, lifted on an entry block with
`NEXT_PC = 0x100000000`.  The prologue sets `PC` to 0x100000002; the op stores the
32-bit constant 0x80 into `PC`, which replaces its low 32 bits only; the epilogue
reads `PC` at 64 bits.  The function returns Success, the last value written to `PC`
is 0x80, and `NEXT_PC` and `PC` end as 0x100000080. -/
theorem C28_narrow_pc_write_keeps_upper_bits :
    ∃ final, LiftIntoInternalBlock sampleEnv 2 [branchNarrowTo0x80] highEntryBlock =
        .ok (.kLiftedInstruction, final) ∧
      lastStoreTo (.named "PC") final.emitted = some ⟨.int 32, 0x80⟩ ∧
      final.cells (.named "PC") % 2 ^ 64 = 0x100000080 ∧
      final.cells (.named "NEXT_PC") % 2 ^ 64 = 0x100000080 ∧
      0x100000080 ≠ 0x80 % 2 ^ 64 := by
  obtain ⟨evs, final, hrun, hem, _, hfem, _, heq, _, _, _, _, hlast⟩ :=
    (LiftIntoInternalBlock_cells sampleEnv 2 [branchNarrowTo0x80] highEntryBlock).2 _
      (ok_of_abortOf_none _ (.new highEntryBlock) (by decide))
  have hd : (stateOf (oneInstruction sampleEnv [branchNarrowTo0x80]
      (afterPrologue sampleEnv 2 highEntryBlock)) (.new highEntryBlock)).target_block.emitted =
      highEntryBlock.emitted ++ prologue sampleEnv 2 highEntryBlock ++
        [.store ⟨.int 32, 0x80⟩ (.named "PC")] := by decide
  have hevs : evs = [.store ⟨.int 32, 0x80⟩ (.named "PC")] :=
    (List.append_cancel_left (hd.symm.trans hem)).symm
  obtain ⟨_, hnarrow⟩ := hlast [] ⟨.int 32, 0x80⟩ [] (by rw [hevs]; rfl)
    (fun u hu => by cases hu)
  obtain ⟨hlow, hhigh⟩ := hnarrow 32 rfl (by decide)
  have hpro := afterPrologue_pc sampleEnv 2 highEntryBlock
  have hpro2 : replay (prologue sampleEnv 2 highEntryBlock ++ []) highEntryBlock.cells
      (sampleEnv.LoadRegAddress "PC") % 2 ^ sampleEnv.word_bits = 0x100000002 := by
    rw [List.append_nil]
    exact hpro.trans (by decide)
  rw [hpro2] at hhigh
  have hpc : final.cells (.named "PC") % 2 ^ 64 = 0x100000080 := by
    have h1 : final.cells (Ptr.named "PC") % 2 ^ 64 % 2 ^ 32 = 0x80 := hlow
    have h2 : final.cells (Ptr.named "PC") % 2 ^ 64 / 2 ^ 32 = 1 := hhigh
    omega
  refine ⟨final, hrun, ?_, hpc, heq.trans hpc, by decide⟩
  rw [hfem, hevs]
  simp [lastStoreTo, storedTo, epilogue, prologue, highEntryBlock, sampleEnv,
    kNextPCVariableName]

/-- C28, amended: `LiftIntoInternalBlock` on the entry block `b`, an instruction of
`inst_bytes_size` bytes and the p-code `ops`.  The lifter starts on the block after
the prologue, where `NEXT_PC` and `PC` hold `n + inst_bytes_size` at word width, `n`
being `NEXT_PC` at entry read at word width.  If the lift of `ops` aborts, so does the
function.  If it returns, the function returns the lifter's status and a block made of
the prologue, the instructions `evs` of the ops and the epilogue, whose cells are
those instructions replayed; at its end `NEXT_PC` equals `PC` at word width; when no
instruction of the ops stores to `PC` both equal `(n + inst_bytes_size) mod 2^word`;
when some do, both equal what the last such store left in `PC`: the value `v` it
wrote when `v` is word-wide and, when `v` is `w` bits wide with `w` below the word
width, `v` in the low `w` bits under the bits `PC` held before that store. -/
theorem C28_next_pc_ends_equal_to_pc (E : Env) (inst_bytes_size : Nat) (ops : List PcodeOp)
    (b : Block) :
    (∀ e, oneInstruction E ops (afterPrologue E inst_bytes_size b) = .error e →
      LiftIntoInternalBlock E inst_bytes_size ops b = .error e) ∧
    (∀ t, oneInstruction E ops (afterPrologue E inst_bytes_size b) = .ok ((), t) →
      ∃ evs final,
        LiftIntoInternalBlock E inst_bytes_size ops b = .ok (GetStatus t, final) ∧
        t.target_block.emitted = b.emitted ++ prologue E inst_bytes_size b ++ evs ∧
        t.target_block.cells = replay (prologue E inst_bytes_size b ++ evs) b.cells ∧
        final.emitted =
          b.emitted ++ prologue E inst_bytes_size b ++ evs ++ epilogue E t.target_block ∧
        final.cells =
          replay (prologue E inst_bytes_size b ++ evs ++ epilogue E t.target_block) b.cells ∧
        final.cells (E.LoadRegAddress kNextPCVariableName) % 2 ^ E.word_bits =
          final.cells (E.LoadRegAddress "PC") % 2 ^ E.word_bits ∧
        final.cells (E.LoadRegAddress "PC") % 2 ^ E.word_bits =
          t.target_block.cells (E.LoadRegAddress "PC") % 2 ^ E.word_bits ∧
        ((∀ v, Event.store v (E.LoadRegAddress "PC") ∉ evs) →
          final.cells (E.LoadRegAddress "PC") % 2 ^ E.word_bits =
            (b.cells (E.LoadRegAddress kNextPCVariableName) % 2 ^ E.word_bits +
              inst_bytes_size) % 2 ^ E.word_bits) ∧
        (∀ v, lastStoreTo (E.LoadRegAddress "PC") evs = some v → v.ty = .int E.word_bits →
          final.cells (E.LoadRegAddress "PC") % 2 ^ E.word_bits =
            v.bits % 2 ^ E.word_bits) ∧
        (∀ v, lastStoreTo (E.LoadRegAddress "PC") evs = some v →
          ∃ pre post, evs = pre ++ Event.store v (E.LoadRegAddress "PC") :: post ∧
            (∀ u, Event.store u (E.LoadRegAddress "PC") ∉ post)) ∧
        (∀ pre v post, evs = pre ++ Event.store v (E.LoadRegAddress "PC") :: post →
          (∀ u, Event.store u (E.LoadRegAddress "PC") ∉ post) →
          final.cells (E.LoadRegAddress "PC") % 2 ^ E.word_bits =
            writeCell (replay (prologue E inst_bytes_size b ++ pre) b.cells
              (E.LoadRegAddress "PC")) v % 2 ^ E.word_bits ∧
          ∀ w, v.ty = .int w → w ≤ E.word_bits →
            final.cells (E.LoadRegAddress "PC") % 2 ^ E.word_bits % 2 ^ w =
              v.bits % 2 ^ w ∧
            final.cells (E.LoadRegAddress "PC") % 2 ^ E.word_bits / 2 ^ w =
              replay (prologue E inst_bytes_size b ++ pre) b.cells
                (E.LoadRegAddress "PC") % 2 ^ E.word_bits / 2 ^ w)) :=
  LiftIntoInternalBlock_cells E inst_bytes_size ops b

/-- C28 at three instructions of a 64-bit architecture.  On an entry block with
`NEXT_PC = 0x1000`: one of 3 bytes whose p-code is `COPY out=EAX in=const(7, size 4)`
ends with `NEXT_PC` and `PC` both 0x1003; one of 2 bytes whose p-code is
`BRANCH in0=const(0x80, size 8)` ends with both 0x80.  On an entry block with
`NEXT_PC = 0x100000000`: one of 2 bytes whose p-code is
`BRANCH in0=const(0x80, size 4)` ends with 0x80 in the low 32 bits of both and 1 in
the bits above. -/
theorem C28_next_pc_ends_equal_to_pc_witness :
    (∃ final, LiftIntoInternalBlock sampleEnv 3 [copySevenToEAX] entryBlock =
        .ok (.kLiftedInstruction, final) ∧
      final.cells (.named "NEXT_PC") % 2 ^ 64 = 0x1003 ∧
      final.cells (.named "PC") % 2 ^ 64 = 0x1003) ∧
    (∃ final, LiftIntoInternalBlock sampleEnv 2 [branchTo0x80] entryBlock =
        .ok (.kLiftedInstruction, final) ∧
      final.cells (.named "NEXT_PC") % 2 ^ 64 = 0x80 ∧
      final.cells (.named "PC") % 2 ^ 64 = 0x80) ∧
    (∃ final, LiftIntoInternalBlock sampleEnv 2 [branchNarrowTo0x80] highEntryBlock =
        .ok (.kLiftedInstruction, final) ∧
      final.cells (.named "NEXT_PC") % 2 ^ 64 = final.cells (.named "PC") % 2 ^ 64 ∧
      final.cells (.named "PC") % 2 ^ 64 % 2 ^ 32 = 0x80 ∧
      final.cells (.named "PC") % 2 ^ 64 / 2 ^ 32 = 1) := by
  refine ⟨?_, ?_, ?_⟩
  · obtain ⟨evs, final, hrun, hem, _, _, _, heq, _, hno, _⟩ :=
      (C28_next_pc_ends_equal_to_pc sampleEnv 3 [copySevenToEAX] entryBlock).2 _
        (ok_of_abortOf_none _ (.new entryBlock) (by decide))
    have hd : (stateOf (oneInstruction sampleEnv [copySevenToEAX]
        (afterPrologue sampleEnv 3 entryBlock)) (.new entryBlock)).target_block.emitted =
        entryBlock.emitted ++ prologue sampleEnv 3 entryBlock ++
          [.store ⟨.int 32, 7⟩ (.named "EAX")] := by decide
    have hevs : evs = [.store ⟨.int 32, 7⟩ (.named "EAX")] :=
      (List.append_cancel_left (hd.symm.trans hem)).symm
    have hpc := hno (fun v hv => by
      rw [hevs] at hv
      injection List.mem_singleton.mp hv with _ hp
      exact absurd hp (by decide))
    exact ⟨final, hrun, heq.trans hpc, hpc⟩
  · obtain ⟨evs, final, hrun, hem, _, _, _, heq, _, _, hlast, _⟩ :=
      (C28_next_pc_ends_equal_to_pc sampleEnv 2 [branchTo0x80] entryBlock).2 _
        (ok_of_abortOf_none _ (.new entryBlock) (by decide))
    have hd : (stateOf (oneInstruction sampleEnv [branchTo0x80]
        (afterPrologue sampleEnv 2 entryBlock)) (.new entryBlock)).target_block.emitted =
        entryBlock.emitted ++ prologue sampleEnv 2 entryBlock ++
          [.store ⟨.int 64, 0x80⟩ (.named "PC")] := by decide
    have hevs : evs = [.store ⟨.int 64, 0x80⟩ (.named "PC")] :=
      (List.append_cancel_left (hd.symm.trans hem)).symm
    have hpc := hlast ⟨.int 64, 0x80⟩ (by rw [hevs]; decide) rfl
    exact ⟨final, hrun, heq.trans hpc, hpc⟩
  · obtain ⟨evs, final, hrun, hem, _, _, _, heq, _, _, _, _, hlast⟩ :=
      (C28_next_pc_ends_equal_to_pc sampleEnv 2 [branchNarrowTo0x80] highEntryBlock).2 _
        (ok_of_abortOf_none _ (.new highEntryBlock) (by decide))
    have hd : (stateOf (oneInstruction sampleEnv [branchNarrowTo0x80]
        (afterPrologue sampleEnv 2 highEntryBlock))
        (.new highEntryBlock)).target_block.emitted =
        highEntryBlock.emitted ++ prologue sampleEnv 2 highEntryBlock ++
          [.store ⟨.int 32, 0x80⟩ (.named "PC")] := by decide
    have hevs : evs = [.store ⟨.int 32, 0x80⟩ (.named "PC")] :=
      (List.append_cancel_left (hd.symm.trans hem)).symm
    obtain ⟨_, hnarrow⟩ := hlast [] ⟨.int 32, 0x80⟩ [] (by rw [hevs]; rfl)
      (fun u hu => by cases hu)
    obtain ⟨hlow, hhigh⟩ := hnarrow 32 rfl (by decide)
    have hpro2 : replay (prologue sampleEnv 2 highEntryBlock ++ []) highEntryBlock.cells
        (sampleEnv.LoadRegAddress "PC") % 2 ^ sampleEnv.word_bits = 0x100000002 := by
      rw [List.append_nil]
      exact (afterPrologue_pc sampleEnv 2 highEntryBlock).trans (by decide)
    rw [hpro2] at hhigh
    exact ⟨final, hrun, heq, hlow, hhigh⟩
/-! ## `CBRANCH` on a condition wider than one byte -/

theorem CreateTrunc_cond (sb : Value) (n : Nat) (h : sb.ty = .int (n * 8)) :
    ∃ c, CreateTrunc sb (.int (n * 1)) = .ok c ∧ c.ty = .int n := by
  obtain ⟨ty, b⟩ := sb
  simp only at h
  subst h
  unfold CreateTrunc
  by_cases h0 : n = 0
  · subst h0
    exact ⟨⟨.int 0, b⟩, by simp, rfl⟩
  · have hne : ¬ (n * 8 = n) := by omega
    have hlt : n < n * 8 := by omega
    refine ⟨⟨.int n, b % 2 ^ n⟩, by simp [hne, hlt], by simp⟩

theorem LiftBinOp_cbranch_wide (E : Env) (outvar : Option VarnodeData) (lhs rhs : VarnodeData)
    (s s1 s2 : PcodeToLLVMEmitIntoBlock) (c j : Value)
    (hpc : E.ArchHasRegByName "PC" = true) (hsz : rhs.size ≠ 1)
    (hread : LiftInParam E rhs (.int (rhs.size * 8)) s = .ok (some c, s1))
    (htgt : LiftOffsetOrReplace E lhs (.int (lhs.size * 8)) s1 = .ok (j, s2)) :
    LiftBinOp E .CPUI_CBRANCH outvar lhs rhs s = .error .invalidIR := by
  have hty := LiftInParam_ty E rhs _ s s1 c hread
  obtain ⟨tc, htc, htcty⟩ := CreateTrunc_cond c rhs.size hty
  have hsel : ∀ t f, CreateSelect tc t f = .error .invalidIR := by
    intro t f
    unfold CreateSelect
    have : ¬ (tc.ty = .int 1) := by
      rw [htcty]
      intro h
      injection h with h
      exact hsz h
    simp [this]
  simp only [LiftBinOp, LiftIntegerBinOp, bind_eq, hread, if_true, htgt, htc, liftE_ok,
    LiftNormalRegister_PC E hpc, Parameter.LiftAsInParam, CreateLoad, pure_eq]
  by_cases hcat : E.category = .kCategoryConditionalBranch
  · simp [hcat, CreateStore, hsel, liftE, bind_eq]
  · simp [hcat, hsel, liftE, bind_eq]

/-- C30 (the code departs from the claim): `LiftIntegerBinOp` truncates the `CBRANCH`
condition to `rhs.size * 1` bits, not to one bit.  At the op
`CBRANCH in0=const(0x80, size 8) in1=const(1, size 4)` on a block with `PC = 0x20` the
condition is read at 32 bits, truncated to 4 bits, and the select on a 4-bit condition
is ill-typed: the run aborts, where the claim has `PC` become 0x80.  The same op with
a condition of size 1 returns Success.  In general, whenever the condition is readable,
its declared size is not 1 and the target resolves, the op aborts on the ill-typed
select. -/
theorem C30_cbranch_truncates_to_size_bits :
    abortOf (dump sampleEnv cbranchWideCond (.new sampleBlock)) = some .invalidIR ∧
    LiftInParam sampleEnv ⟨.const, 1, 4⟩ (.int (4 * 8)) (.new sampleBlock) =
      .ok (some ⟨.int 32, 1⟩, .new sampleBlock) ∧
    CreateTrunc ⟨.int 32, 1⟩ (.int (4 * 1)) = .ok ⟨.int 4, 1⟩ ∧
    CreateSelect ⟨.int 4, 1⟩ ⟨.int 64, 0x80⟩ ⟨.int 64, 0x20⟩ = .error .invalidIR ∧
    CreateSelect ⟨.int 1, 1⟩ ⟨.int 64, 0x80⟩ ⟨.int 64, 0x20⟩ = .ok ⟨.int 64, 0x80⟩ ∧
    valueOf (LiftBinOp sampleEnv .CPUI_CBRANCH none ⟨.const, 0x80, 8⟩ ⟨.const, 1, 1⟩
      (.new sampleBlock)) = some .kLiftedInstruction ∧
    (∀ (E : Env) (outvar : Option VarnodeData) (lhs rhs : VarnodeData)
      (s s1 s2 : PcodeToLLVMEmitIntoBlock) (c j : Value),
      E.ArchHasRegByName "PC" = true → rhs.size ≠ 1 →
      LiftInParam E rhs (.int (rhs.size * 8)) s = .ok (some c, s1) →
      LiftOffsetOrReplace E lhs (.int (lhs.size * 8)) s1 = .ok (j, s2) →
      LiftBinOp E .CPUI_CBRANCH outvar lhs rhs s = .error .invalidIR) :=
  ⟨rfl, rfl, rfl, rfl, rfl, rfl,
    fun E outvar lhs rhs s s1 s2 c j hpc hsz hread htgt =>
      LiftBinOp_cbranch_wide E outvar lhs rhs s s1 s2 c j hpc hsz hread htgt⟩

/-! ## A second claim on the same offset -/

theorem lookup_none_filter {β : Type} (c : Nat) (l : List (Nat × β))
    (h : l.lookup c = none) : l.filter (fun e => e.1 = c) = [] := by
  induction l with
  | nil => rfl
  | cons e rest ih =>
    obtain ⟨k, v⟩ := e
    by_cases hk : c = k
    · subst hk
      simp [List.lookup_cons] at h
    · have hb : (c == k) = false := beq_false_of_ne hk
      simp only [List.lookup_cons, hb] at h
      have hk2 : ¬ k = c := fun e => hk e.symm
      simp [List.filter_cons, hk2, ih h]

/-- What `LiftOffsetOrReplace` does at an offset with a recorded, unused claim. -/
theorem LiftOffsetOrReplace_claimed (E : Env) (target : VarnodeData) (ty : Ty)
    (s t : PcodeToLLVMEmitIntoBlock) (p : Parameter) (v : Value)
    (hl : s.replacement_cont.current_replacements.lookup target.offset = some p)
    (hu : target.offset ∉ s.replacement_cont.used_values)
    (hr : p.LiftAsInParam E ty s = .ok (some v, t)) :
    LiftOffsetOrReplace E target ty s = .ok (v, markUsed target.offset t) := by
  simp [LiftOffsetOrReplace, hl, hu, hr, markUsed]

/-- C31: two equality claims on the same constant offset `c`, from a state where `c`
has no entry once the first right-hand side `r1` is lifted to `p1`.  The first claim
records `c ↦ p1`.  The second claim lifts its right-hand side `r2` (to `p2`, reaching
the state `s2`) and returns exactly that state: the recorded claims are those after the
first claim, with one entry for `c`, which is `p1`; and the next materialization of
`c`, at any type and through any varnode of offset `c`, reads `p1`. -/
theorem C31_second_claim_keeps_first (E : Env) (c1 c2 r1 r2 : VarnodeData)
    (s s1 s2 : PcodeToLLVMEmitIntoBlock) (p1 p2 : Parameter)
    (hc1 : c1.space = .const) (hc2 : c2.space = .const) (hoff : c2.offset = c1.offset)
    (hp1 : LiftParamPtr E r1 s = .ok (p1, s1)) (hn : NoClaim c1.offset s1)
    (hp2 : LiftParamPtr E r2 (recordClaim c1.offset p1 s1) = .ok (p2, s2)) :
    ApplyEqualityClaim E c1 r1 s = .ok ((), recordClaim c1.offset p1 s1) ∧
    ApplyEqualityClaim E c2 r2 (recordClaim c1.offset p1 s1) = .ok ((), s2) ∧
    s2.replacement_cont.current_replacements =
      (c1.offset, p1) :: s1.replacement_cont.current_replacements ∧
    claimCount c1.offset s2 = 1 ∧
    s2.replacement_cont.current_replacements.lookup c1.offset = some p1 ∧
    (∀ (target : VarnodeData) (ty : Ty) (v : Value) (t : PcodeToLLVMEmitIntoBlock),
      target.offset = c1.offset → c1.offset ∉ s2.replacement_cont.used_values →
      p1.LiftAsInParam E ty s2 = .ok (some v, t) →
      LiftOffsetOrReplace E target ty s2 = .ok (v, markUsed c1.offset t)) := by
  have hsame : s2.replacement_cont.current_replacements =
      (c1.offset, p1) :: s1.replacement_cont.current_replacements :=
    Respects_LiftParamPtr SameClaims_frame.toReadFrame E r2 _ p2 s2 hp2
  have hl : s2.replacement_cont.current_replacements.lookup c1.offset = some p1 := by
    rw [hsame]
    simp [List.lookup_cons]
  refine ⟨ApplyEqualityClaim_fresh E c1 r1 s s1 p1 hc1 hp1 hn, ?_, hsame, ?_, hl, ?_⟩
  · exact ApplyEqualityClaim_present E c2 r2 _ s2 p2 p1 hc2 hp2 (by rw [hoff]; exact hl)
  · unfold claimCount
    rw [hsame]
    simp [List.filter_cons, lookup_none_filter c1.offset _ hn]
  · intro target ty v t ht hu hr
    have := LiftOffsetOrReplace_claimed E target ty s2 t p1 v (by rw [ht]; exact hl)
      (by rw [ht]; exact hu) hr
    rw [ht] at this
    exact this

/-- C31 at `claim_eq(const 42, EBX)` then `claim_eq(const 42, unique[0x100]:4)` on a
fresh lifter: the second claim allocates the scratch cell of its right-hand side and
the context still maps 42 to `EBX` alone; materializing 42 at 32 bits then loads
`EBX`, which holds 0x12345678. -/
theorem C31_second_claim_keeps_first_witness :
    ApplyEqualityClaim sampleEnv ⟨.const, 42, 4⟩ ⟨.register, 12, 4⟩ (.new sampleBlock) =
      .ok ((), recordClaim 42 (.RegisterValue (.named "EBX")) (.new sampleBlock)) ∧
    (∃ s2, ApplyEqualityClaim sampleEnv ⟨.const, 42, 4⟩ ⟨.unique, 0x100, 4⟩
        (recordClaim 42 (.RegisterValue (.named "EBX")) (.new sampleBlock)) = .ok ((), s2) ∧
      s2.target_block.emitted = [.alloca (.int 32) (.alloca 0)] ∧
      s2.replacement_cont = ⟨[(42, .RegisterValue (.named "EBX"))], []⟩ ∧
      claimCount 42 s2 = 1 ∧
      valueOf (LiftOffsetOrReplace sampleEnv ⟨.const, 42, 4⟩ (.int 32) s2) =
        some ⟨.int 32, 0x12345678⟩) := by
  have h := C31_second_claim_keeps_first sampleEnv ⟨.const, 42, 4⟩ ⟨.const, 42, 4⟩
    ⟨.register, 12, 4⟩ ⟨.unique, 0x100, 4⟩ (.new sampleBlock) (.new sampleBlock)
    (stateOf (LiftParamPtr sampleEnv ⟨.unique, 0x100, 4⟩
      (recordClaim 42 (.RegisterValue (.named "EBX")) (.new sampleBlock))) (.new sampleBlock))
    (.RegisterValue (.named "EBX")) (.RegisterValue (.alloca 0)) rfl rfl rfl rfl rfl rfl
  exact ⟨h.1, _, h.2.1, by decide, by decide, h.2.2.2.1, by decide⟩

/-! ## `INT_LESSEQUAL` and `INT_SLESSEQUAL` -/

/-- The table entry of `INT_LESSEQUAL` is the signed comparison. -/
theorem lessequal_entry (w a b : Nat) :
    ∃ f, INTEGER_BINARY_OPS .CPUI_INT_LESSEQUAL = some f ∧
      f ⟨.int w, a⟩ ⟨.int w, b⟩ =
        .ok ⟨.int 8, if toSigned w a ≤ toSigned w b then 1 else 0⟩ := by
  refine ⟨_, rfl, ?_⟩
  have h := zextCompare_ok (fun w a b => decide (toSigned w a ≤ toSigned w b))
    ⟨.int w, a⟩ ⟨.int w, b⟩ w rfl rfl
  simpa using h

/-- The table entry of `INT_SLESSEQUAL` is the unsigned comparison. -/
theorem slessequal_entry (w a b : Nat) :
    ∃ f, INTEGER_BINARY_OPS .CPUI_INT_SLESSEQUAL = some f ∧
      f ⟨.int w, a⟩ ⟨.int w, b⟩ = .ok ⟨.int 8, if a ≤ b then 1 else 0⟩ := by
  refine ⟨_, rfl, ?_⟩
  have h := zextCompare_ok (fun _ a b => decide (a ≤ b)) ⟨.int w, a⟩ ⟨.int w, b⟩ w rfl rfl
  simpa using h

/-- C32 (the code departs from the claim): the table entry of `INT_LESSEQUAL` calls
`CreateICmpSLE`, the signed comparison.  At
`INT_LESSEQUAL out=unique[0x100]:1 in0=EAX in1=EBX` with `EAX = 0xDEADBEEF` and
`EBX = 0x12345678` the op returns Success and stores 1, although `EAX > EBX` as
unsigned integers; `INT_LESS` and `INT_EQUAL` on the same operands both store 0.  For
all operands of one width the entry gives 1 exactly when the left operand is at most
the right one as two's-complement signed integers. -/
theorem C32_lessequal_compares_signed :
    valueOf (LiftBinOp sampleEnv .CPUI_INT_LESSEQUAL (some ⟨.unique, 0x100, 1⟩)
      ⟨.register, 0, 4⟩ ⟨.register, 12, 4⟩ (.new sampleBlock)) = some .kLiftedInstruction ∧
    (stateOf (LiftBinOp sampleEnv .CPUI_INT_LESSEQUAL (some ⟨.unique, 0x100, 1⟩)
      ⟨.register, 0, 4⟩ ⟨.register, 12, 4⟩ (.new sampleBlock))
      (.new sampleBlock)).target_block.emitted.getLast? =
        some (.store ⟨.int 8, 1⟩ (.alloca 0)) ∧
    (stateOf (LiftBinOp sampleEnv .CPUI_INT_LESS (some ⟨.unique, 0x100, 1⟩)
      ⟨.register, 0, 4⟩ ⟨.register, 12, 4⟩ (.new sampleBlock))
      (.new sampleBlock)).target_block.emitted.getLast? =
        some (.store ⟨.int 8, 0⟩ (.alloca 0)) ∧
    (stateOf (LiftBinOp sampleEnv .CPUI_INT_EQUAL (some ⟨.unique, 0x100, 1⟩)
      ⟨.register, 0, 4⟩ ⟨.register, 12, 4⟩ (.new sampleBlock))
      (.new sampleBlock)).target_block.emitted.getLast? =
        some (.store ⟨.int 8, 0⟩ (.alloca 0)) ∧
    ¬ (0xDEADBEEF ≤ 0x12345678) ∧
    (∀ w a b : Nat, ∃ f, INTEGER_BINARY_OPS .CPUI_INT_LESSEQUAL = some f ∧
      f ⟨.int w, a⟩ ⟨.int w, b⟩ =
        .ok ⟨.int 8, if toSigned w a ≤ toSigned w b then 1 else 0⟩) :=
  ⟨by decide, by decide, by decide, by decide, by decide, lessequal_entry⟩

/-- C33 (the code departs from the claim): the table entry of `INT_SLESSEQUAL` calls
`CreateICmpULE`, the unsigned comparison.  At
`INT_SLESSEQUAL out=unique[0x100]:1 in0=EAX in1=EBX` with `EAX = 0xDEADBEEF` (negative
as a signed 32-bit integer) and `EBX = 0x12345678` the op returns Success and stores
0, although `EAX < EBX` as signed integers: `INT_SLESS` on the same operands stores 1.
For all operands of one width the entry gives 1 exactly when the left operand is at
most the right one as unsigned integers. -/
theorem C33_slessequal_compares_unsigned :
    valueOf (LiftBinOp sampleEnv .CPUI_INT_SLESSEQUAL (some ⟨.unique, 0x100, 1⟩)
      ⟨.register, 0, 4⟩ ⟨.register, 12, 4⟩ (.new sampleBlock)) = some .kLiftedInstruction ∧
    (stateOf (LiftBinOp sampleEnv .CPUI_INT_SLESSEQUAL (some ⟨.unique, 0x100, 1⟩)
      ⟨.register, 0, 4⟩ ⟨.register, 12, 4⟩ (.new sampleBlock))
      (.new sampleBlock)).target_block.emitted.getLast? =
        some (.store ⟨.int 8, 0⟩ (.alloca 0)) ∧
    (stateOf (LiftBinOp sampleEnv .CPUI_INT_SLESS (some ⟨.unique, 0x100, 1⟩)
      ⟨.register, 0, 4⟩ ⟨.register, 12, 4⟩ (.new sampleBlock))
      (.new sampleBlock)).target_block.emitted.getLast? =
        some (.store ⟨.int 8, 1⟩ (.alloca 0)) ∧
    toSigned 32 0xDEADBEEF ≤ toSigned 32 0x12345678 ∧
    (∀ w a b : Nat, ∃ f, INTEGER_BINARY_OPS .CPUI_INT_SLESSEQUAL = some f ∧
      f ⟨.int w, a⟩ ⟨.int w, b⟩ = .ok ⟨.int 8, if a ≤ b then 1 else 0⟩) :=
  ⟨by decide, by decide, by decide, by decide, slessequal_entry⟩

/-! ## Unary ops without an output varnode -/

/-- The unary opcodes that read `outvar->size` before the store: with a readable
input and no outvar the run stops at that read. -/
theorem LiftUnOp_null_outvar (E : Env) (opc : OpCode) (input_var : VarnodeData)
    (s s1 : PcodeToLLVMEmitIntoBlock) (v : Value)
    (h : ((opc = .CPUI_INT_ZEXT ∨ opc = .CPUI_INT_SEXT ∨ opc = .CPUI_POPCOUNT) ∧
        LiftInParam E input_var (.int (input_var.size * 8)) s = .ok (some v, s1)) ∨
      ((opc = .CPUI_FLOAT_NAN ∨ opc = .CPUI_FLOAT_TRUNC) ∧
        LiftInParam E input_var .float s = .ok (some v, s1))) :
    LiftUnOp E opc none input_var s = .error .nullDeref := by
  rcases h with ⟨ho, hr⟩ | ⟨ho, hr⟩
  · rcases ho with rfl | rfl | rfl <;>
      simp [LiftUnOp, LiftIntegerInParam, bind_eq, hr, abort]
  · rcases ho with rfl | rfl <;> simp [LiftUnOp, bind_eq, hr, abort]

/-- C34 (the code departs from the claim): `INT_ZEXT`, `INT_SEXT`, `POPCOUNT`,
`FLOAT_NAN` and `FLOAT_TRUNC` read `outvar->size` as soon as the input is read, before
`LiftStoreIntoOutParam` gets to test the outvar.  At `INT_ZEXT out=null in0=EAX` on a
fresh lifter the run stops at the dereference of the null outvar, and so it does for
the four other opcodes, whatever the readable input.  `COPY`, `INT_NEGATE` and
`BOOL_NEGATE` on the same input return Unsupported, as the claim says. -/
theorem C34_null_outvar_dereferenced :
    abortOf (LiftUnOp sampleEnv .CPUI_INT_ZEXT none ⟨.register, 0, 4⟩ (.new sampleBlock)) =
      some .nullDeref ∧
    abortOf (dump sampleEnv ⟨.CPUI_INT_ZEXT, none, [⟨.register, 0, 4⟩]⟩ (.new sampleBlock)) =
      some .nullDeref ∧
    valueOf (LiftInParam sampleEnv ⟨.register, 0, 4⟩ (.int 32) (.new sampleBlock)) =
      some (some ⟨.int 32, 0xDEADBEEF⟩) ∧
    (∀ (E : Env) (opc : OpCode) (input_var : VarnodeData)
      (s s1 : PcodeToLLVMEmitIntoBlock) (v : Value),
      ((opc = .CPUI_INT_ZEXT ∨ opc = .CPUI_INT_SEXT ∨ opc = .CPUI_POPCOUNT) ∧
          LiftInParam E input_var (.int (input_var.size * 8)) s = .ok (some v, s1)) ∨
        ((opc = .CPUI_FLOAT_NAN ∨ opc = .CPUI_FLOAT_TRUNC) ∧
          LiftInParam E input_var .float s = .ok (some v, s1)) →
      LiftUnOp E opc none input_var s = .error .nullDeref) ∧
    valueOf (LiftUnOp sampleEnv .CPUI_COPY none ⟨.register, 0, 4⟩ (.new sampleBlock)) =
      some .kLiftedUnsupportedInstruction ∧
    valueOf (LiftUnOp sampleEnv .CPUI_INT_NEGATE none ⟨.register, 0, 4⟩ (.new sampleBlock)) =
      some .kLiftedUnsupportedInstruction ∧
    valueOf (LiftUnOp sampleEnv .CPUI_BOOL_NEGATE none ⟨.register, 0, 4⟩ (.new sampleBlock)) =
      some .kLiftedUnsupportedInstruction :=
  ⟨by decide, by decide, by decide, LiftUnOp_null_outvar, by decide, by decide, by decide⟩

/-! ## Register names -/

theorem RegName_architectural (rclass : RegClass) (number : Nat) (h : number ≤ 31) :
    RegName rclass number = .ok (architecturalName rclass number) := by
  cases rclass <;> interval_cases number <;> rfl

theorem architecturalName_injective (c1 c2 : RegClass) (n1 n2 : Nat) (h1 : n1 < 32)
    (h2 : n2 < 32) (h : architecturalName c1 n1 = architecturalName c2 n2) :
    c1 = c2 ∧ n1 = n2 := by
  have key : ∀ c1 c2 : RegClass, ∀ n1, n1 < 32 → ∀ n2, n2 < 32 →
      architecturalName c1 n1 = architecturalName c2 n2 → c1 = c2 ∧ n1 = n2 := by
    intro c1 c2
    cases c1 <;> cases c2 <;> decide
  exact key c1 c2 n1 h1 n2 h2 h


theorem Reg_read (rclass : RegClass) (n : Nat) (h : n ≤ 31) :
    Reg .kActionRead rclass n = .ok ⟨architecturalName rclass n, ReadRegSize rclass⟩ := by
  simp only [Reg, reduceCtorEq, if_false, if_true, RegName_architectural rclass n h]
  rfl

theorem Reg_write (rclass : RegClass) (n : Nat) (h : n ≤ 31) :
    Reg .kActionWrite rclass n = .ok ⟨architecturalName rclass n, 64⟩ := by
  simp only [Reg, if_true, RegName_architectural rclass n h]
  cases rclass <;> rfl

theorem AddRegOperand_write (A : ArchEnv) (inst : Instruction) (rclass : RegClass) (n : Nat)
    (h : n ≤ 31) :
    AddRegOperand A inst .kActionWrite rclass n =
      .ok (inst.push_back { A.Operand_new with
        type := .kTypeRegister
        reg := ⟨architecturalName rclass n, 64⟩
        size := 64
        action := .kActionWrite }) := by
  simp only [AddRegOperand, reduceCtorEq, or_false, false_or, if_true, if_false,
    Reg_write rclass n h]
  rfl

theorem AddBasePlusOffsetMemOp_read (A : ArchEnv) (inst : Instruction)
    (access_size n disp : Nat) (h : n ≤ 31) :
    AddBasePlusOffsetMemOp A inst .kActionRead access_size n disp =
      .ok (inst.push_back { A.Operand_new with
        type := .kTypeAddress
        size := access_size
        action := .kActionRead
        addr := { A.Operand_new.addr with
          address_size := 64
          base_reg := ⟨architecturalName .kRegX n, 64⟩
          displacement := disp
          kind := .kMemoryRead } }) := by
  simp only [AddBasePlusOffsetMemOp, reduceCtorEq, or_false, false_or, if_true, if_false,
    Reg_read .kRegX n h]
  rfl

theorem AddBasePlusOffsetMemOp_write (A : ArchEnv) (inst : Instruction)
    (access_size n disp : Nat) (h : n ≤ 31) :
    AddBasePlusOffsetMemOp A inst .kActionWrite access_size n disp =
      .ok (inst.push_back { A.Operand_new with
        type := .kTypeAddress
        size := access_size
        action := .kActionWrite
        addr := { A.Operand_new.addr with
          address_size := 64
          base_reg := ⟨architecturalName .kRegX n, 64⟩
          displacement := disp
          kind := .kMemoryWrite } }) := by
  simp only [AddBasePlusOffsetMemOp, reduceCtorEq, or_false, false_or, if_true, if_false,
    Reg_read .kRegX n h]
  rfl


/-! ## Pre-index memory operands -/

theorem Except_ok_bind {ε α β : Type} (a : α) (f : α → Except ε β) :
    (Except.ok a >>= f) = f a := rfl

theorem Except_pure {ε α : Type} (a : α) : (pure a : Except ε α) = .ok a := rfl

theorem getLast_push (l : List Operand) (x : Operand) : (l ++ [x]).getLast? = some x := by
  simp

theorem toSigned_double (d : Nat) (hd : d < 2 ^ 64)
    (hr : -(2 : Int) ^ 62 ≤ toSigned 64 d ∧ toSigned 64 d < (2 : Int) ^ 62) :
    toSigned 64 (d * 2 % 2 ^ 64) = 2 * toSigned 64 d := by
  unfold toSigned at hr ⊢
  norm_num at hd hr ⊢
  split_ifs at hr ⊢ <;> omega

/-- C36: `AddPreIndexMemOp` with a simple read or write action, access size `a`, base
register number `n` and displacement `d` returns and appends exactly three operands:
`m`, an address operand of size `a` (a memory read for a read action, a memory write
for a write action) with 64-bit base register `Xn` and displacement `d`; `r`, a
64-bit register-write operand for `Xn`; and `c`, a copy of `m` turned into an address
calculation with base `Xn` and displacement `2·d` at 64 bits, which is twice `d` as a
signed displacement when that fits. -/
theorem C36_pre_index_appends_three (A : ArchEnv) (inst : Instruction) (action : Action)
    (a n d : Nat) (hact : action = .kActionRead ∨ action = .kActionWrite) (hn : n ≤ 31) :
    ∃ m r c, AddPreIndexMemOp A inst action a n d =
        .ok { inst with operands := inst.operands ++ [m, r, c] } ∧
      m.type = .kTypeAddress ∧ m.size = a ∧
      m.addr.base_reg = ⟨architecturalName .kRegX n, 64⟩ ∧
      m.addr.displacement = d ∧ m.addr.address_size = 64 ∧
      (action = .kActionRead → m.action = .kActionRead ∧ m.addr.kind = .kMemoryRead) ∧
      (action = .kActionWrite → m.action = .kActionWrite ∧ m.addr.kind = .kMemoryWrite) ∧
      r.type = .kTypeRegister ∧ r.action = .kActionWrite ∧ r.size = 64 ∧
      r.reg = ⟨architecturalName .kRegX n, 64⟩ ∧
      c = { m with addr := { m.addr with
        kind := .kAddressCalculation, displacement := d * 2 % 2 ^ 64 } } ∧
      c.addr.kind = .kAddressCalculation ∧
      c.addr.base_reg = ⟨architecturalName .kRegX n, 64⟩ ∧
      c.addr.displacement = d * 2 % 2 ^ 64 ∧
      (d * 2 < 2 ^ 64 → c.addr.displacement = 2 * d) ∧
      (d < 2 ^ 64 → -(2 : Int) ^ 62 ≤ toSigned 64 d → toSigned 64 d < (2 : Int) ^ 62 →
        toSigned 64 c.addr.displacement = 2 * toSigned 64 d) := by
  rcases hact with rfl | rfl
  · simp only [AddPreIndexMemOp, AddBasePlusOffsetMemOp_read A inst a n d hn,
      Instruction.push_back, getLast_push, Reg_read .kRegX n hn, Reg_write .kRegX n hn,
      Except_ok_bind, Except_pure,
      List.append_assoc, List.singleton_append, List.cons_append, List.nil_append]
    refine ⟨_, _, _, rfl, rfl, rfl, rfl, rfl, rfl, (fun _ => ⟨rfl, rfl⟩), (fun h => by cases h),
      rfl, rfl, rfl, rfl, rfl, rfl, rfl, rfl, ?_, ?_⟩
    · intro h
      show d * 2 % 2 ^ 64 = 2 * d
      rw [Nat.mod_eq_of_lt h, Nat.mul_comm]
    · intro hd h1 h2
      exact toSigned_double d hd ⟨h1, h2⟩
  · simp only [AddPreIndexMemOp, AddBasePlusOffsetMemOp_write A inst a n d hn,
      Instruction.push_back, getLast_push, Reg_read .kRegX n hn, Reg_write .kRegX n hn,
      Except_ok_bind, Except_pure,
      List.append_assoc, List.singleton_append, List.cons_append, List.nil_append]
    refine ⟨_, _, _, rfl, rfl, rfl, rfl, rfl, rfl, (fun h => by cases h), (fun _ => ⟨rfl, rfl⟩),
      rfl, rfl, rfl, rfl, rfl, rfl, rfl, rfl, ?_, ?_⟩
    · intro h
      show d * 2 % 2 ^ 64 = 2 * d
      rw [Nat.mod_eq_of_lt h, Nat.mul_comm]
    · intro hd h1 h2
      exact toSigned_double d hd ⟨h1, h2⟩

/-- C36 at the write-back store `[SP, #-16]!` of 128 bits: the operands appended are
the memory write at `SP - 16`, the write of `SP`, and the address `SP - 32`. -/
theorem C36_pre_index_appends_three_witness :
    ∃ m r c, AddPreIndexMemOp sampleArch blankInstruction .kActionWrite 128 31 (2 ^ 64 - 16) =
        .ok { blankInstruction with operands := [m, r, c] } ∧
      m.size = 128 ∧ m.addr.kind = .kMemoryWrite ∧ m.addr.base_reg = ⟨"SP", 64⟩ ∧
      toSigned 64 m.addr.displacement = -16 ∧
      r.action = .kActionWrite ∧ r.reg = ⟨"SP", 64⟩ ∧
      c.addr.kind = .kAddressCalculation ∧ c.addr.base_reg = ⟨"SP", 64⟩ ∧
      toSigned 64 c.addr.displacement = -32 := by
  obtain ⟨m, r, c, hrun, _, hsz, hb, hd, _, _, hw, _, hra, _, hrr, _, hck, hcb, _, _, hs⟩ :=
    C36_pre_index_appends_three sampleArch blankInstruction .kActionWrite 128 31 (2 ^ 64 - 16)
      (Or.inr rfl) (by decide)
  have hcd : toSigned 64 c.addr.displacement = -32 :=
    (hs (by norm_num) (by norm_num [toSigned]) (by norm_num [toSigned])).trans
      (by norm_num [toSigned])
  have hmd : toSigned 64 m.addr.displacement = -16 := by
    rw [hd]
    norm_num [toSigned]
  exact ⟨m, r, c, hrun, hsz, (hw rfl).2, hb, hmd, hra, hrr,
    hck, hcb, hcd⟩

/-! ## `DecodeInstruction` -/

/-- C35: `DecodeInstruction` at `address` on `inst_bytes`.  When the byte string is
not 4 bytes long it returns false leaving the record it was given with `arch_name`,
`pc = address`, `next_pc = address + 4` (64-bit addition) and the function name
`INVALID_SIZE`; otherwise, when `address` is not a multiple of 4, the same with
`INVALID_UNALIGNED`; otherwise, when the extractor refuses the bytes, the same with
`INVALID_ENCODING`.  The operands and the category are those the record came with in
the three cases.  In every run that returns, `pc` and `next_pc` have these values as
long as the decoder `TryDecode` hands the record over to leaves the two fields
alone. -/
theorem C35_decode_sets_pc_and_rejects (A : ArchEnv) (address : Nat) (inst_bytes : List Nat)
    (inst : Instruction) :
    (inst_bytes.length ≠ 4 →
      DecodeInstruction A address inst_bytes inst =
        .ok (false, { inst with
          arch_name := A.arch_name, pc := address, next_pc := (address + 4) % 2 ^ 64
          function := "INVALID_SIZE" })) ∧
    (inst_bytes.length = 4 → address % 4 ≠ 0 →
      DecodeInstruction A address inst_bytes inst =
        .ok (false, { inst with
          arch_name := A.arch_name, pc := address, next_pc := (address + 4) % 2 ^ 64
          function := "INVALID_UNALIGNED" })) ∧
    (inst_bytes.length = 4 → address % 4 = 0 → A.TryExtract inst_bytes = none →
      DecodeInstruction A address inst_bytes inst =
        .ok (false, { inst with
          arch_name := A.arch_name, pc := address, next_pc := (address + 4) % 2 ^ 64
          function := "INVALID_ENCODING" })) ∧
    (∀ r i, DecodeInstruction A address inst_bytes inst = .ok (r, i) →
      (∀ d j r2 j2, A.TryDecode d j = .ok (r2, j2) → j2.pc = j.pc ∧ j2.next_pc = j.next_pc) →
      i.pc = address ∧ i.next_pc = (address + 4) % 2 ^ 64) ∧
    (address + 4 < 2 ^ 64 → (address + 4) % 2 ^ 64 = address + 4) := by
  refine ⟨fun h => ?_, fun h1 h2 => ?_, fun h1 h2 h3 => ?_, fun r i hrun hkeep => ?_,
    fun h => Nat.mod_eq_of_lt h⟩
  · have h' : ¬ (4 = inst_bytes.length) := fun e => h e.symm
    simp [DecodeInstruction, kInstructionSize, h']
  · have h2' : ¬ (0 = address % 4) := fun e => h2 e.symm
    simp [DecodeInstruction, kInstructionSize, h1, h2']
  · simp [DecodeInstruction, kInstructionSize, h1, h2, h3]
  · unfold DecodeInstruction at hrun
    simp only [kInstructionSize] at hrun
    split at hrun
    · cases hrun
      exact ⟨rfl, rfl⟩
    · split at hrun
      · cases hrun
        exact ⟨rfl, rfl⟩
      · split at hrun
        · cases hrun
          exact ⟨rfl, rfl⟩
        · split at hrun
          · cases hrun
          · rename_i j hj
            cases hrun
            exact hkeep _ _ _ _ hj
          · rename_i j hj
            cases hrun
            exact hkeep _ _ _ _ hj

/-- C35 at concrete requests: three bytes at 0x1000 and four bytes at 0x1002 are
rejected with no operand appended; four bytes at 0x1000, with an extractor that
accepts and the load-literal decoder, are decoded, and `pc`, `next_pc` are 0x1000 and
0x1004. -/
theorem C35_decode_sets_pc_and_rejects_witness :
    DecodeInstruction sampleArch 0x1000 [1, 2, 3] blankInstruction =
      .ok (false, ⟨.kArchAArch64LittleEndian, 0x1000, 0x1004, "INVALID_SIZE",
        .kCategoryInvalid, []⟩) ∧
    DecodeInstruction sampleArch 0x1002 [1, 2, 3, 4] blankInstruction =
      .ok (false, ⟨.kArchAArch64LittleEndian, 0x1002, 0x1006, "INVALID_UNALIGNED",
        .kCategoryInvalid, []⟩) ∧
    (∃ i, DecodeInstruction loadlitArch 0x1000 [1, 2, 3, 4] blankInstruction = .ok (true, i) ∧
      i.pc = 0x1000 ∧ i.next_pc = 0x1004 ∧ i.operands.length = 2) :=
  ⟨(C35_decode_sets_pc_and_rejects sampleArch 0x1000 [1, 2, 3] blankInstruction).1 (by decide),
    (C35_decode_sets_pc_and_rejects sampleArch 0x1002 [1, 2, 3, 4] blankInstruction).2.1 rfl
      (by decide),
    ⟨_, rfl, rfl, rfl, rfl⟩⟩

/-! ## Register-offset loads and stores: the extend kind -/

/-- C37 (the code departs from the claim): both groups of cases of
`ShiftRegExtendType` return `kExtendUnsigned`, so no extend kind maps to the signed
operator.  With the extend option `SXTW` (0b110) the register-offset `LDR` and `STR`
decoders return true and their shift-register operand, the last one appended,
extracts 32 bits and is marked `kExtendUnsigned`. -/
theorem C37_signed_extend_marked_unsigned :
    ShiftRegExtendType .kExtendSXTB = .kExtendUnsigned ∧
    ShiftRegExtendType .kExtendSXTH = .kExtendUnsigned ∧
    ShiftRegExtendType .kExtendSXTW = .kExtendUnsigned ∧
    ShiftRegExtendType .kExtendSXTX = .kExtendUnsigned ∧
    (∀ e, ShiftRegExtendType e ≠ .kExtendSigned) ∧
    (∀ e, e = .kExtendUXTB ∨ e = .kExtendUXTH ∨ e = .kExtendUXTW ∨ e = .kExtendUXTX →
      ShiftRegExtendType e = .kExtendUnsigned) ∧
    Extend.cast sampleData.option = some .kExtendSXTW ∧
    (TryDecodeLDR_64_LDST_REGOFF sampleArch sampleData blankInstruction).toOption.map
        (fun r => (r.1, r.2.operands.getLast?.map
          (fun op => (op.type, op.shift_reg.extract_size, op.shift_reg.extend_op)))) =
      some (true, some (.kTypeShiftRegister, 32, .kExtendUnsigned)) ∧
    (TryDecodeSTR_n_LDST_REGOFF sampleArch sampleData blankInstruction .kRegX).toOption.map
        (fun r => (r.1, r.2.operands.getLast?.map
          (fun op => (op.type, op.shift_reg.extract_size, op.shift_reg.extend_op)))) =
      some (true, some (.kTypeShiftRegister, 32, .kExtendUnsigned)) :=
  ⟨rfl, rfl, rfl, rfl, fun e => by cases e <;> decide,
    fun e h => by rcases h with rfl | rfl | rfl | rfl <;> rfl, rfl, by decide, by decide⟩

/-! ## Load literal -/

theorem AddPCRegMemOp_read (A : ArchEnv) (inst : Instruction) (disp : Nat) :
    AddPCRegMemOp A inst .kActionRead disp =
      .ok (inst.push_back { A.Operand_new with
        type := .kTypeAddress
        size := 64
        action := .kActionRead
        addr := { A.Operand_new.addr with
          address_size := 64, base_reg := ⟨"PC", 64⟩, displacement := disp
          kind := .kMemoryRead } }) := rfl

/-- What the two load-literal decoders do for a register number in range. -/
theorem LOADLIT_runs (A : ArchEnv) (data : InstData) (inst : Instruction)
    (h : data.Rt % 256 ≤ 31) :
    ∃ w x m, TryDecodeLDR_32_LOADLIT A data inst =
        .ok (false, { inst with operands := inst.operands ++ [w, m] }) ∧
      TryDecodeLDR_64_LOADLIT A data inst =
        .ok (true, { inst with operands := inst.operands ++ [x, m] }) ∧
      w.type = .kTypeRegister ∧ w.action = .kActionWrite ∧
      w.reg = ⟨architecturalName .kRegW (data.Rt % 256), 64⟩ ∧
      x.type = .kTypeRegister ∧ x.action = .kActionWrite ∧
      x.reg = ⟨architecturalName .kRegX (data.Rt % 256), 64⟩ ∧
      m.type = .kTypeAddress ∧ m.action = .kActionRead ∧ m.addr.kind = .kMemoryRead ∧
      m.addr.base_reg = ⟨"PC", 64⟩ ∧
      m.addr.displacement = shlSigned data.imm19.simm19 2 := by
  simp only [TryDecodeLDR_32_LOADLIT, TryDecodeLDR_64_LOADLIT, AddRegOperand_write A inst _ _ h,
    AddPCRegMemOp_read, Instruction.push_back, Except_ok_bind, Except_pure,
    List.append_assoc, List.singleton_append, List.cons_append, List.nil_append]
  exact ⟨_, _, _, rfl, rfl, rfl, rfl, rfl, rfl, rfl, rfl, rfl, rfl, rfl, rfl, rfl⟩

theorem shlSigned_two (i : Int) (h1 : -(2 : Int) ^ 18 ≤ i) (h2 : i < (2 : Int) ^ 18) :
    toSigned 64 (shlSigned i 2) = i * 4 := by
  unfold shlSigned ofSigned toSigned
  norm_num at h1 h2 ⊢
  have hm : i % 18446744073709551616 = if 0 ≤ i then i else i + 18446744073709551616 := by
    split_ifs with h
    · exact Int.emod_eq_of_lt h (by omega)
    · rw [← Int.add_emod_self]
      exact Int.emod_eq_of_lt (by omega) (by omega)
  rw [hm]
  split_ifs <;> omega

/-- C38 (the code departs from the claim): `TryDecodeLDR_32_LOADLIT` ends in
`return false`, where `TryDecodeLDR_64_LOADLIT` ends in `return true`.  For every
extracted encoding whose `Rt` is a register number, both append a register-write
operand for `Rt` (named in class W, respectively X) and the same PC-relative
memory-read operand with displacement `simm19 << 2`, and the 32-bit decoder then
returns false; so it does at `Rt = 5`, `simm19 = -3`. -/
theorem C38_loadlit_32_returns_false :
    (TryDecodeLDR_32_LOADLIT sampleArch sampleData blankInstruction).toOption.map
        (fun r => (r.1, r.2.operands.map (fun op => (op.type, op.reg.name, op.addr.base_reg.name,
          toSigned 64 op.addr.displacement)))) =
      some (false, [(.kTypeRegister, "W5", "", 0), (.kTypeAddress, "", "PC", -12)]) ∧
    (TryDecodeLDR_64_LOADLIT sampleArch sampleData blankInstruction).toOption.map
        (fun r => (r.1, r.2.operands.map (fun op => (op.type, op.reg.name, op.addr.base_reg.name,
          toSigned 64 op.addr.displacement)))) =
      some (true, [(.kTypeRegister, "X5", "", 0), (.kTypeAddress, "", "PC", -12)]) ∧
    (∀ (A : ArchEnv) (data : InstData) (inst : Instruction), data.Rt % 256 ≤ 31 →
      ∃ w x m, TryDecodeLDR_32_LOADLIT A data inst =
          .ok (false, { inst with operands := inst.operands ++ [w, m] }) ∧
        TryDecodeLDR_64_LOADLIT A data inst =
          .ok (true, { inst with operands := inst.operands ++ [x, m] }) ∧
        w.type = .kTypeRegister ∧ w.action = .kActionWrite ∧
        w.reg = ⟨architecturalName .kRegW (data.Rt % 256), 64⟩ ∧
        x.type = .kTypeRegister ∧ x.action = .kActionWrite ∧
        x.reg = ⟨architecturalName .kRegX (data.Rt % 256), 64⟩ ∧
        m.type = .kTypeAddress ∧ m.action = .kActionRead ∧ m.addr.kind = .kMemoryRead ∧
        m.addr.base_reg = ⟨"PC", 64⟩ ∧
        m.addr.displacement = shlSigned data.imm19.simm19 2) ∧
    (∀ i : Int, -(2 : Int) ^ 18 ≤ i → i < (2 : Int) ^ 18 →
      toSigned 64 (shlSigned i 2) = i * 4) :=
  ⟨by decide, by decide, LOADLIT_runs, shlSigned_two⟩

/-! ## `RegName` out of range -/

theorem RegNumberName_above (n : Nat) (h : 31 < n) : RegNumberName n = .error .checkFailed := by
  have h' : ¬ n ≤ 31 := by omega
  simp [RegNumberName, h']

theorem RegName_W_above (n : Nat) (h : 31 < n) : RegName .kRegW n = .error .checkFailed := by
  simp only [RegName, RegPrefix, reduceCtorEq, if_false, Except_ok_bind, RegNumberName_above n h]
  rfl

theorem kPrefixX_length : kPrefixX.length = 65 := by decide

theorem RegName_X_above (n : Nat) (h : 33 ≤ n) : RegName .kRegX n = .error .outOfBounds := by
  have h' : ¬ n * 2 < 65 := by omega
  simp only [RegName, RegPrefix, if_true, cstringAt, kPrefixX_length, h', if_false]
  rfl

/-- C39: `RegName` gives numbers 0 to 29 of class X the names `X0`..`X29`, number 30
`LP` and number 31 `SP`, and the numbers of class W the same number names after `W`
(`W0`..`W29`, `WLP`, `WSP`); on numbers up to 31 the map from class and number to name
is injective.  For a number above 31 `RegNumberName`, the one reader of the name table
`kNumberName`, fails its `CHECK_LE` and does not index the table, so `RegName` returns
no name for such a number: it stops at that check for class W and for number 32 of
class X (for higher numbers of class X, which no register field holds, it has already
stopped in `RegPrefix`). -/
theorem C39_register_names :
    (∀ n, n ≤ 29 → RegName .kRegX n = .ok ("X" ++ toString n)) ∧
    RegName .kRegX 30 = .ok "LP" ∧ RegName .kRegX 31 = .ok "SP" ∧
    (∀ n, n ≤ 29 → RegName .kRegW n = .ok ("W" ++ toString n)) ∧
    RegName .kRegW 30 = .ok "WLP" ∧ RegName .kRegW 31 = .ok "WSP" ∧
    (∀ c n, n ≤ 31 → RegName c n = .ok (architecturalName c n)) ∧
    (∀ c1 c2 n1 n2, n1 ≤ 31 → n2 ≤ 31 → RegName c1 n1 = RegName c2 n2 →
      c1 = c2 ∧ n1 = n2) ∧
    (∀ n, 31 < n → RegNumberName n = .error .checkFailed) ∧
    (∀ n, n ≤ 31 → ∃ name, RegNumberName n = .ok name ∧ kNumberName.get? n = some name) ∧
    (∀ c n name, 31 < n → RegName c n ≠ .ok name) ∧
    (∀ n, 31 < n → RegName .kRegW n = .error .checkFailed) ∧
    RegName .kRegX 32 = .error .checkFailed := by
  refine ⟨fun n h => ?_, rfl, rfl, fun n h => ?_, rfl, rfl, RegName_architectural, ?_,
    RegNumberName_above, fun n h => ?_, fun c n name h => ?_, RegName_W_above, rfl⟩
  · rw [RegName_architectural .kRegX n (by omega)]
    simp [architecturalName, h]
  · rw [RegName_architectural .kRegW n (by omega)]
    simp [architecturalName, h]
  · intro c1 c2 n1 n2 h1 h2 h
    rw [RegName_architectural c1 n1 h1, RegName_architectural c2 n2 h2] at h
    exact architecturalName_injective c1 c2 n1 n2 (by omega) (by omega) (Except.ok.inj h)
  · interval_cases n <;> exact ⟨_, rfl, rfl⟩
  · cases c with
    | kRegW =>
      rw [RegName_W_above n h]
      exact fun e => by cases e
    | kRegX =>
      by_cases h32 : n = 32
      · subst h32
        exact fun e => by cases e
      · rw [RegName_X_above n (by omega)]
        exact fun e => by cases e

end remill
